import Mathlib

/-!
ClockMatrix disciplining servo: codec, actuators and state machine.

A shallow embedding of `Software/clockmatrix/dpll` (the archived servo
`Archive/cm_discipline.c`, the shared helpers `cm_dpll_utils.c` and the register
tables `renesas_cm8a34001_tables.c`).

Modelling conventions.

* C `double` values are rationals (`ℚ`).  Where nothing else is said an arithmetic
  operation is the exact one.  Where the rounding of binary64 decides the result
  (the cycle count of `do_s1_step`, and the hand-off command against the first
  command of Slew) each operation is rounded by `f64`.  NaN and infinities are not
  represented.
* `int64_t` / `int32_t` values are integers (`Int`); conversions between signed
  and unsigned machine words are written out with explicit `% 2 ^ w`.
  `llround` is the mathematical rounding function (ties away from zero); its
  result is taken to be representable, as C leaves the other case unspecified.
* `uint8_t` buffers are lists of naturals, reduced `% 256` where they are filled.
* The device behind `cm_bus_t` is a byte-addressed register file together with
  the return code each burst read or write gives at its start address.
* Functions that return a status code and fill output pointers return
  `Except Int _` when the outputs are only meaningful on success, and a record
  holding the code and the outputs otherwise.
-/

namespace Switchberry

/-! ## Machine words -/

/-- The conversion `(uint64_t)x` of a signed 64-bit value. -/
def u64_of_s64 (x : Int) : Nat := (x % 2 ^ 64).toNat

/-- The conversion `(int64_t)u` of an unsigned 64-bit value (twos complement). -/
def s64_of_u64 (u : Nat) : Int :=
  if u % 2 ^ 64 < 2 ^ 63 then ((u % 2 ^ 64 : Nat) : Int) else ((u % 2 ^ 64 : Nat) : Int) - 2 ^ 64

/-- The conversion `(uint32_t)x` of a signed 32-bit value. -/
def u32_of_s32 (x : Int) : Nat := (x % 2 ^ 32).toNat

/-- The conversion `(int32_t)u` of an unsigned 32-bit value (twos complement). -/
def s32_of_u32 (u : Nat) : Int :=
  if u % 2 ^ 32 < 2 ^ 31 then ((u % 2 ^ 32 : Nat) : Int) else ((u % 2 ^ 32 : Nat) : Int) - 2 ^ 32

/-- The constant `INT32_MAX`. -/
def INT32_MAX : Int := 2 ^ 31 - 1

/-- The constant `INT32_MIN`. -/
def INT32_MIN : Int := -(2 ^ 31)

/-- The byte `buf[i]` of a `uint8_t` buffer. -/
def byte_at (buf : List Nat) (i : Nat) : Nat := buf.getD i 0 % 256

/-! ## Constants and utilities of `cm_discipline.c` -/

/-- Default input TDC clock, `CM_ITDC_HZ`. -/
def CM_ITDC_HZ : ℚ := 625000000

/-- The unit of the phase measurement, `CM_ITDC_UI_SEC = 1.0 / (32.0 * CM_ITDC_HZ)`. -/
def CM_ITDC_UI_SEC : ℚ := 1 / (32 * CM_ITDC_HZ)

/-- Number of fractional bits of `DPLL_WR_FREQ`, `CM_WR_FREQ_FRAC_BITS`. -/
def CM_WR_FREQ_FRAC_BITS : Int := 53

/-- The fixed servo sign, `CM_DEFAULT_POLARITY`. -/
def CM_DEFAULT_POLARITY : ℚ := 1

/-- The C library `llround`: nearest integer, halfway cases away from zero. -/
def llround (x : ℚ) : Int := if 0 ≤ x then ⌊x + 1 / 2⌋ else -⌊-x + 1 / 2⌋

/-- Rounding of a rational to a nearest integer, halfway cases to the even one. -/
def round_half_even (y : ℚ) : Int :=
  let n := ⌊y⌋
  let r := y - (n : ℚ)
  if r < 1 / 2 then n else if r > 1 / 2 then n + 1 else if n % 2 = 0 then n else n + 1

/-- The value a C `double` operation stores when its exact result is `x`: IEEE 754
binary64, rounding to nearest with ties to even, 53 significant bits, gradual underflow
below `2^-1022`.  The exponent is not bounded above: a result of magnitude `2^1024` or
more, which binary64 replaces by an infinity, stays finite here.  A value read from the
command line by `atof` is the `f64` of its decimal. -/
def f64 (x : ℚ) : ℚ :=
  if x = 0 then 0
  else
    let e := max (Int.log 2 |x|) (-1022)
    (round_half_even (x / (2 : ℚ) ^ (e - 52)) : ℚ) * (2 : ℚ) ^ (e - 52)

/-- The C library `ldexp(x, e) = x * 2^e`. -/
def ldexp (x : ℚ) (e : Int) : ℚ := x * (2 : ℚ) ^ e

/-- Utility `clamp_d(x, lo, hi)`. -/
def clamp_d (x lo hi : ℚ) : ℚ := if x < lo then lo else if x > hi then hi else x

/-- Utility `clamp_s42(x)`: saturate to the signed 42-bit range. -/
def clamp_s42 (x : Int) : Int :=
  let lo : Int := -(2 ^ 41)
  let hi : Int := 2 ^ 41 - 1
  if x < lo then lo else if x > hi then hi else x

/-- First loop of `wrap_phase_sec`: `while (x >= 0.5) x -= 1.0;`. -/
def wrap_phase_sec_down (x : ℚ) : ℚ :=
  if x ≥ 1 / 2 then wrap_phase_sec_down (x - 1) else x
termination_by (⌊x + 1 / 2⌋).toNat
decreasing_by
  rename_i h
  have h1 : (1 : ℤ) ≤ ⌊x + 1 / 2⌋ := by
    rw [Int.le_floor]; push_cast; linarith
  have h2 : ⌊x - 1 + 1 / 2⌋ = ⌊x + 1 / 2⌋ - 1 := by
    rw [show x - 1 + 1 / 2 = (x + 1 / 2) - 1 by ring, Int.floor_sub_one]
  rw [h2]; omega

/-- Second loop of `wrap_phase_sec`: `while (x < -0.5) x += 1.0;`. -/
def wrap_phase_sec_up (x : ℚ) : ℚ :=
  if x < -(1 / 2) then wrap_phase_sec_up (x + 1) else x
termination_by (⌊-x + 1 / 2⌋).toNat
decreasing_by
  rename_i h
  have h1 : (1 : ℤ) ≤ ⌊-x + 1 / 2⌋ := by
    rw [Int.le_floor]; push_cast; linarith
  have h2 : ⌊-(x + 1) + 1 / 2⌋ = ⌊-x + 1 / 2⌋ - 1 := by
    rw [show -(x + 1) + 1 / 2 = (-x + 1 / 2) - 1 by ring, Int.floor_sub_one]
  rw [h2]; omega

/-- Utility `wrap_phase_sec(x)`: the two loops in sequence. -/
def wrap_phase_sec (x : ℚ) : ℚ := wrap_phase_sec_up (wrap_phase_sec_down x)

/-- Conversion `phase_s36_to_seconds` (and `cm_phase_s36_to_seconds`, the same body). -/
def phase_s36_to_seconds (phase_s36 : Int) : ℚ := (phase_s36 : ℚ) * CM_ITDC_UI_SEC

/-- The decode of `read_phase_status_s36` / `cm_read_phase_status_s36` once the
five bytes are in `buf`: little-endian assembly, 36-bit mask, sign extension. -/
def phase_status_decode (buf : List Nat) : Int :=
  let v : Nat := (byte_at buf 0 <<< 0) ||| (byte_at buf 1 <<< 8) ||| (byte_at buf 2 <<< 16)
    ||| (byte_at buf 3 <<< 24) ||| (byte_at buf 4 <<< 32)
  let v : Nat := v &&& ((1 <<< 36) - 1)
  let s : Int := s64_of_u64 v
  if v &&& (1 <<< 35) ≠ 0 then
    -- s |= ~((int64_t)((1ULL << 36) - 1ULL))
    s64_of_u64 (u64_of_s64 s ||| u64_of_s64 (-(s64_of_u64 ((1 <<< 36) - 1)) - 1))
  else s

/-- The six bytes that `write_dpll_wr_freq_s42` / `cm_write_dpll_wr_freq_s42`
hand to the bus for `word_s42`. -/
def wr_freq_pack (word_s42 : Int) : List Nat :=
  let u : Nat := u64_of_s64 word_s42 &&& ((1 <<< 42) - 1)
  [u &&& 0xFF, (u >>> 8) &&& 0xFF, (u >>> 16) &&& 0xFF, (u >>> 24) &&& 0xFF,
   (u >>> 32) &&& 0xFF, (u >>> 40) &&& 0xFF]

/-- The decode of `cm_read_dpll_wr_freq_s42` (also the read-back of the write
helpers) once the six bytes are in `rb`. -/
def wr_freq_unpack (rb : List Nat) : Int :=
  let ru : Nat := (List.range 6).foldl (fun acc i => acc ||| (byte_at rb i <<< (8 * i))) 0
  let ru : Nat := ru &&& ((1 <<< 42) - 1)
  let rs : Int := s64_of_u64 ru
  if ru &&& (1 <<< 41) ≠ 0 then
    s64_of_u64 (u64_of_s64 rs ||| u64_of_s64 (-(s64_of_u64 ((1 <<< 42) - 1)) - 1))
  else rs

/-- The word that both servo paths compute from a command fraction:
`clamp_s42((int64_t)llround(ldexp(cmd_frac, CM_WR_FREQ_FRAC_BITS)))`. -/
def wr_freq_word (cmd_frac : ℚ) : Int := clamp_s42 (llround (ldexp cmd_frac CM_WR_FREQ_FRAC_BITS))

/-- The trace value `ldexp((double)word, -CM_WR_FREQ_FRAC_BITS) * 1e9` (ppb). -/
def wr_freq_word_ppb (word_s42 : Int) : ℚ := ldexp (word_s42 : ℚ) (-CM_WR_FREQ_FRAC_BITS) * 10 ^ 9

/-- The four bytes that `write_output_phase_adj_s32` hands to the bus. -/
def phase_adj_pack (adj : Int) : List Nat :=
  [u32_of_s32 adj &&& 0xFF, (u32_of_s32 adj >>> 8) &&& 0xFF, (u32_of_s32 adj >>> 16) &&& 0xFF,
   (u32_of_s32 adj >>> 24) &&& 0xFF]

/-- Little-endian assembly of a four-byte buffer into a `uint32_t`. -/
def u32_of_le_bytes (b : List Nat) : Nat :=
  (byte_at b 0 <<< 0) ||| (byte_at b 1 <<< 8) ||| (byte_at b 2 <<< 16) ||| (byte_at b 3 <<< 24)

/-! ## Register tables (`renesas_cm8a34001_tables.c`)

Only the names and offsets of the register descriptors are kept; the bit-field
descriptors are not used by the byte-burst helpers. -/

/-- A register descriptor `cm_reg_desc_t` (name and offset). -/
structure cm_reg_desc_t where
  name : String
  offset : Nat

/-- A module descriptor `cm_module_desc_t`. -/
structure cm_module_desc_t where
  name : String
  bases : List Nat
  count : Nat
  regs : List cm_reg_desc_t
  nregs : Nat

def cm_Status_bases : List Nat :=
  [0xC03C]

def cm_Status_regs : List cm_reg_desc_t :=
  [⟨"I2CM_STATUS", 0x000⟩,
   ⟨"SER0_STATUS", 0x002⟩,
   ⟨"SER0_SPI_STATUS", 0x003⟩,
   ⟨"SER0_I2C_STATUS", 0x004⟩,
   ⟨"SER1_STATUS", 0x005⟩,
   ⟨"SER1_SPI_STATUS", 0x006⟩,
   ⟨"SER1_I2C_STATUS", 0x007⟩,
   ⟨"IN\x7bnum\x7d_MON_STATUS", 0x008⟩,
   ⟨"DPLL0_STATUS", 0x018⟩,
   ⟨"DPLL1_STATUS", 0x019⟩,
   ⟨"DPLL2_STATUS", 0x01A⟩,
   ⟨"DPLL3_STATUS", 0x01B⟩,
   ⟨"DPLL4_STATUS", 0x01C⟩,
   ⟨"DPLL5_STATUS", 0x01D⟩,
   ⟨"DPLL6_STATUS", 0x01E⟩,
   ⟨"DPLL7_STATUS", 0x01F⟩,
   ⟨"SYS_DPLL", 0x020⟩,
   ⟨"DPLL\x7bnum\x7d_REF_STATUS", 0x022⟩,
   ⟨"DPLL_SYS_REF_STATUS", 0x02A⟩,
   ⟨"DPLL0_FILTER_STATUS", 0x044⟩,
   ⟨"DPLL1_FILTER_STATUS", 0x04C⟩,
   ⟨"DPLL2_FILTER_STATUS", 0x054⟩,
   ⟨"DPLL3_FILTER_STATUS", 0x05C⟩,
   ⟨"DPLL4_FILTER_STATUS", 0x064⟩,
   ⟨"DPLL5_FILTER_STATUS", 0x06C⟩,
   ⟨"DPLL6_FILTER_STATUS", 0x074⟩,
   ⟨"DPLL7_FILTER_STATUS", 0x07C⟩,
   ⟨"DPLL_SYS_FILTER_STATUS", 0x084⟩,
   ⟨"USER_GPIO0_TO_7_STATUS", 0x08A⟩,
   ⟨"USER_GPIO8_TO_15_STATUS", 0x08B⟩,
   ⟨"IN\x7bnum\x7d_MON_FREQ_STATUS_0", 0x08C⟩,
   ⟨"IN\x7bnum\x7d_MON_FREQ_STATUS_1", 0x08D⟩,
   ⟨"DPLL0_PHASE_STATUS", 0x0DC⟩,
   ⟨"DPLL1_PHASE_STATUS", 0x0E4⟩,
   ⟨"DPLL2_PHASE_STATUS", 0x0EC⟩,
   ⟨"DPLL3_PHASE_STATUS", 0x0F4⟩,
   ⟨"DPLL4_PHASE_STATUS", 0x0FC⟩,
   ⟨"DPLL5_PHASE_STATUS", 0x104⟩,
   ⟨"DPLL6_PHASE_STATUS", 0x10C⟩,
   ⟨"DPLL7_PHASE_STATUS", 0x114⟩]

def cm_Status_module : cm_module_desc_t :=
  ⟨"Status", cm_Status_bases, 1, cm_Status_regs, cm_Status_regs.length⟩

def cm_PWMEncoder_bases : List Nat :=
  [0xCB00, 0xCB08, 0xCB10, 0xCB18, 0xCB20, 0xCB28, 0xCB30, 0xCB38]

def cm_PWMEncoder_regs : List cm_reg_desc_t :=
  [⟨"PWM_ENCODER_ID", 0x000⟩,
   ⟨"PWM_ENCODER_CNFG", 0x001⟩,
   ⟨"PWM_ENCODER_SIGNATURE_0", 0x002⟩,
   ⟨"PWM_ENCODER_SIGNATURE_1", 0x003⟩,
   ⟨"PWM_ENCODER_CMD", 0x004⟩]

def cm_PWMEncoder_module : cm_module_desc_t :=
  ⟨"PWMEncoder", cm_PWMEncoder_bases, 8, cm_PWMEncoder_regs, 5⟩

def cm_PWMDecoder_bases : List Nat :=
  [0xCB40, 0xCB48, 0xCB50, 0xCB58, 0xCB60, 0xCB68, 0xCB70, 0xCB80, 0xCB88, 0xCB90, 0xCB98, 0xCBA0, 0xCBA8, 0xCBB0, 0xCBB8, 0xCBC0]

def cm_PWMDecoder_regs : List cm_reg_desc_t :=
  [⟨"PWM_DECODER_CNFG", 0x000⟩,
   ⟨"PWM_DECODER_CNFG_1", 0x001⟩,
   ⟨"PWM_DECODER_ID", 0x002⟩,
   ⟨"PWM_DECODER_SIGNATURE_0", 0x003⟩,
   ⟨"PWM_DECODER_SIGNATURE_1", 0x004⟩,
   ⟨"PWM_DECODER_CMD", 0x005⟩]

def cm_PWMDecoder_module : cm_module_desc_t :=
  ⟨"PWMDecoder", cm_PWMDecoder_bases, 16, cm_PWMDecoder_regs, 6⟩

def cm_TOD_bases : List Nat :=
  [0xCBC8, 0xCBCC, 0xCBD0, 0xCBD2]

def cm_TOD_regs : List cm_reg_desc_t :=
  [⟨"TOD_CFG", 0x000⟩]

def cm_TOD_module : cm_module_desc_t :=
  ⟨"TOD", cm_TOD_bases, 4, cm_TOD_regs, 1⟩

def cm_TODWrite_bases : List Nat :=
  [0xCC00, 0xCC10, 0xCC20, 0xCC30]

def cm_TODWrite_regs : List cm_reg_desc_t :=
  [⟨"TOD_WRITE_SUBNS", 0x000⟩,
   ⟨"TOD_WRITE_NS_0_7", 0x001⟩,
   ⟨"TOD_WRITE_NS_8_15", 0x002⟩,
   ⟨"TOD_WRITE_NS_16_23", 0x003⟩,
   ⟨"TOD_WRITE_NS_24_31", 0x004⟩,
   ⟨"TOD_WRITE_SECONDS_0_7", 0x005⟩,
   ⟨"TOD_WRITE_SECONDS_8_15", 0x006⟩,
   ⟨"TOD_WRITE_SECONDS_16_23", 0x007⟩,
   ⟨"TOD_WRITE_SECONDS_24_31", 0x008⟩,
   ⟨"TOD_WRITE_SECONDS_32_39", 0x009⟩,
   ⟨"TOD_WRITE_SECONDS_40_47", 0x00A⟩,
   ⟨"TOD_WRITE_RESERVED_0", 0x00B⟩,
   ⟨"TOD_WRITE_COUNTER", 0x00C⟩,
   ⟨"TOD_WRITE_SELECT_CFG_0", 0x00D⟩,
   ⟨"TOD_WRITE_RESERVED_1", 0x00E⟩,
   ⟨"TOD_WRITE_CMD", 0x00F⟩]

def cm_TODWrite_module : cm_module_desc_t :=
  ⟨"TODWrite", cm_TODWrite_bases, 4, cm_TODWrite_regs, 16⟩

def cm_TODReadPrimary_bases : List Nat :=
  [0xCC40, 0xCC50, 0xCC60, 0xCC80]

def cm_TODReadPrimary_regs : List cm_reg_desc_t :=
  [⟨"TOD_READ_PRIMARY_SUBNS", 0x000⟩,
   ⟨"TOD_READ_PRIMARY_NS_0_7", 0x001⟩,
   ⟨"TOD_READ_PRIMARY_NS_8_15", 0x002⟩,
   ⟨"TOD_READ_PRIMARY_NS_16_23", 0x003⟩,
   ⟨"TOD_READ_PRIMARY_NS_24_31", 0x004⟩,
   ⟨"TOD_READ_PRIMARY_SECONDS_0_7", 0x005⟩,
   ⟨"TOD_READ_PRIMARY_SECONDS_8_15", 0x006⟩,
   ⟨"TOD_READ_PRIMARY_SECONDS_16_23", 0x007⟩,
   ⟨"TOD_READ_PRIMARY_SECONDS_24_31", 0x008⟩,
   ⟨"TOD_READ_PRIMARY_SECONDS_32_39", 0x009⟩,
   ⟨"TOD_READ_PRIMARY_SECONDS_40_47", 0x00A⟩,
   ⟨"TOD_READ_PRIMARY_COUNTER", 0x00B⟩,
   ⟨"TOD_READ_PRIMARY_SEL_CFG_0", 0x00C⟩,
   ⟨"TOD_READ_PRIMARY_SEL_CFG_1", 0x00D⟩,
   ⟨"TOD_READ_PRIMARY_CMD", 0x00E⟩]

def cm_TODReadPrimary_module : cm_module_desc_t :=
  ⟨"TODReadPrimary", cm_TODReadPrimary_bases, 4, cm_TODReadPrimary_regs, 15⟩

def cm_TODReadSecondary_bases : List Nat :=
  [0xCC90, 0xCCA0, 0xCCB0, 0xCCC0]

def cm_TODReadSecondary_regs : List cm_reg_desc_t :=
  [⟨"TOD_READ_SECONDARY_SUBNS", 0x000⟩,
   ⟨"TOD_READ_SECONDARY_NS_0_7", 0x001⟩,
   ⟨"TOD_READ_SECONDARY_NS_8_15", 0x002⟩,
   ⟨"TOD_READ_SECONDARY_NS_16_23", 0x003⟩,
   ⟨"TOD_READ_SECONDARY_NS_24_31", 0x004⟩,
   ⟨"TOD_READ_SECONDARY_SECONDS_0_7", 0x005⟩,
   ⟨"TOD_READ_SECONDARY_SECONDS_8_15", 0x006⟩,
   ⟨"TOD_READ_SECONDARY_SECONDS_16_23", 0x007⟩,
   ⟨"TOD_READ_SECONDARY_SECONDS_24_31", 0x008⟩,
   ⟨"TOD_READ_SECONDARY_SECONDS_32_39", 0x009⟩,
   ⟨"TOD_READ_SECONDARY_SECONDS_40_47", 0x00A⟩,
   ⟨"TOD_READ_SECONDARY_COUNTER", 0x00B⟩,
   ⟨"TOD_READ_SECONDARY_SEL_CFG_0", 0x00C⟩,
   ⟨"TOD_READ_SECONDARY_SEL_CFG_1", 0x00D⟩,
   ⟨"TOD_READ_SECONDARY_CMD", 0x00E⟩]

def cm_TODReadSecondary_module : cm_module_desc_t :=
  ⟨"TODReadSecondary", cm_TODReadSecondary_bases, 4, cm_TODReadSecondary_regs, 15⟩

def cm_Input_bases : List Nat :=
  [0xC1B0, 0xC1C0, 0xC1D0, 0xC200, 0xC210, 0xC220, 0xC230, 0xC240, 0xC250, 0xC260, 0xC280, 0xC290, 0xC2A0, 0xC2B0, 0xC2C0, 0xC2D0]

def cm_Input_regs : List cm_reg_desc_t :=
  [⟨"INPUT_IN_FREQ_M_0_7", 0x000⟩,
   ⟨"INPUT_IN_FREQ_M_8_15", 0x001⟩,
   ⟨"INPUT_IN_FREQ_M_16_23", 0x002⟩,
   ⟨"INPUT_IN_FREQ_M_24_31", 0x003⟩,
   ⟨"INPUT_IN_FREQ_M_32_39", 0x004⟩,
   ⟨"INPUT_IN_FREQ_M_40_47", 0x005⟩,
   ⟨"INPUT_IN_FREQ_N_0_7", 0x006⟩,
   ⟨"INPUT_IN_FREQ_N_8_15", 0x007⟩,
   ⟨"INPUT_IN_DIV_0_7", 0x008⟩,
   ⟨"INPUT_IN_DIV_8_15", 0x009⟩,
   ⟨"INPUT_IN_PHASE_0_7", 0x00A⟩,
   ⟨"INPUT_IN_PHASE_8_15", 0x00B⟩,
   ⟨"INPUT_IN_SYNC", 0x00C⟩,
   ⟨"INPUT_IN_MODE", 0x00D⟩]

def cm_Input_module : cm_module_desc_t :=
  ⟨"Input", cm_Input_bases, 16, cm_Input_regs, 14⟩

def cm_Output_bases : List Nat :=
  [0xCA14, 0xCA24, 0xCA34, 0xCA44, 0xCA54, 0xCA64, 0xCA80, 0xCA90, 0xCAA0, 0xCAB0, 0xCAC0, 0xCAD0]

def cm_Output_regs : List cm_reg_desc_t :=
  [⟨"OUT_DIV", 0x000⟩,
   ⟨"OUT_PHASE_ADJ_7_0", 0x00C⟩,
   ⟨"OUT_PHASE_ADJ_15_8", 0x00D⟩,
   ⟨"OUT_PHASE_ADJ_23_16", 0x00E⟩,
   ⟨"OUT_PHASE_ADJ_31_24", 0x00F⟩,
   ⟨"OUT_CTRL_1", 0x009⟩]

def cm_Output_module : cm_module_desc_t :=
  ⟨"Output", cm_Output_bases, 12, cm_Output_regs, 5⟩

def cm_REFMON_bases : List Nat :=
  [0xC2E0, 0xC2EC, 0xC300, 0xC30C, 0xC318, 0xC324, 0xC330, 0xC33C, 0xC348, 0xC354, 0xC360, 0xC36C, 0xC380, 0xC38C, 0xC398, 0xC3A4]

def cm_REFMON_regs : List cm_reg_desc_t :=
  [⟨"REF_MON_IN_MON_FREQ_CFG", 0x000⟩,
   ⟨"REF_MON_IN_MON_FREQ_VLD_INTV", 0x001⟩,
   ⟨"REF_MON_IN_MON_TRANS_THRESHOLD_0_7", 0x002⟩,
   ⟨"REF_MON_IN_MON_TRANS_THRESHOLD_8_15", 0x003⟩,
   ⟨"REF_MON_IN_MON_TRANS_PERIOD_0_7", 0x004⟩,
   ⟨"REF_MON_IN_MON_TRANS_PERIOD_8_15", 0x005⟩,
   ⟨"REF_MON_IN_MON_ACT_CFG", 0x006⟩,
   ⟨"REF_MON_IN_MON_LOS_TOLERANCE_0_7", 0x008⟩,
   ⟨"REF_MON_IN_MON_LOS_TOLERANCE_8_15", 0x009⟩,
   ⟨"REF_MON_IN_MON_LOS_CFG", 0x00A⟩,
   ⟨"REF_MON_IN_MON_CFG", 0x00B⟩]

def cm_REFMON_module : cm_module_desc_t :=
  ⟨"REFMON", cm_REFMON_bases, 16, cm_REFMON_regs, 11⟩

def cm_PWM_USER_DATA_bases : List Nat :=
  [0xCBC8]

def cm_PWM_USER_DATA_regs : List cm_reg_desc_t :=
  [⟨"PWM_USER_DATA_PWM_SRC_ENCODER_ID", 0x000⟩,
   ⟨"PWM_USER_DATA_PWM_DST_DECODER_ID", 0x001⟩,
   ⟨"PWM_USER_DATA_PWM_USER_DATA_SIZE", 0x002⟩,
   ⟨"PWM_USER_DATA_PWM_USER_DATA_CMD_STS", 0x003⟩]

def cm_PWM_USER_DATA_module : cm_module_desc_t :=
  ⟨"PWM_USER_DATA", cm_PWM_USER_DATA_bases, 1, cm_PWM_USER_DATA_regs, 4⟩

def cm_EEPROM_bases : List Nat :=
  [0xCF68]

def cm_EEPROM_regs : List cm_reg_desc_t :=
  [⟨"EEPROM_I2C_ADDR", 0x000⟩,
   ⟨"EEPROM_SIZE", 0x001⟩,
   ⟨"EEPROM_OFFSET_LOW", 0x002⟩,
   ⟨"EEPROM_OFFSET_HIGH", 0x003⟩,
   ⟨"EEPROM_CMD_LOW", 0x004⟩,
   ⟨"EEPROM_CMD_HIGH", 0x005⟩]

def cm_EEPROM_module : cm_module_desc_t :=
  ⟨"EEPROM", cm_EEPROM_bases, 1, cm_EEPROM_regs, 6⟩

def cm_EEPROM_DATA_bases : List Nat :=
  [0xCF80]

def cm_EEPROM_DATA_regs : List cm_reg_desc_t :=
  [⟨"BYTE_OTP_EEPROM_PWM_BUFF_{i}", 0x000⟩]

def cm_EEPROM_DATA_module : cm_module_desc_t :=
  ⟨"EEPROM_DATA", cm_EEPROM_DATA_bases, 1, cm_EEPROM_DATA_regs, 1⟩

def cm_OUTPUT_TDC_CFG_bases : List Nat :=
  [0xCCD0]

def cm_OUTPUT_TDC_CFG_regs : List cm_reg_desc_t :=
  [⟨"OUTPUT_TDC_CFG_GBL_0_0_7", 0x000⟩,
   ⟨"OUTPUT_TDC_CFG_GBL_0_8_15", 0x001⟩,
   ⟨"OUTPUT_TDC_CFG_GBL_1_0_7", 0x002⟩,
   ⟨"OUTPUT_TDC_CFG_GBL_1_8_15", 0x003⟩,
   ⟨"OUTPUT_TDC_CFG_GBL_2", 0x004⟩]

def cm_OUTPUT_TDC_CFG_module : cm_module_desc_t :=
  ⟨"OUTPUT_TDC_CFG", cm_OUTPUT_TDC_CFG_bases, 1, cm_OUTPUT_TDC_CFG_regs, 5⟩

def cm_OUTPUT_TDC_bases : List Nat :=
  [0xCD00, 0xCD08, 0xCD10, 0xCD18]

def cm_OUTPUT_TDC_regs : List cm_reg_desc_t :=
  [⟨"OUTPUT_TDC_CTRL_0_0_7", 0x000⟩,
   ⟨"OUTPUT_TDC_CTRL_0_8_15", 0x001⟩,
   ⟨"OUTPUT_TDC_CTRL_1_0_7", 0x002⟩,
   ⟨"OUTPUT_TDC_CTRL_1_8_15", 0x003⟩,
   ⟨"OUTPUT_TDC_CTRL_2", 0x004⟩,
   ⟨"OUTPUT_TDC_CTRL_3", 0x005⟩,
   ⟨"OUTPUT_TDC_CTRL_4", 0x006⟩]

def cm_OUTPUT_TDC_module : cm_module_desc_t :=
  ⟨"OUTPUT_TDC", cm_OUTPUT_TDC_bases, 4, cm_OUTPUT_TDC_regs, 7⟩

def cm_INPUT_TDC_bases : List Nat :=
  [0xCD20]

def cm_INPUT_TDC_regs : List cm_reg_desc_t :=
  [⟨"INPUT_TDC_SDM_FRAC_0_7", 0x000⟩,
   ⟨"INPUT_TDC_SDM_FRAC_8_15", 0x001⟩,
   ⟨"INPUT_TDC_SDM_MOD_0_7", 0x002⟩,
   ⟨"INPUT_TDC_SDM_MOD_8_15", 0x003⟩,
   ⟨"INPUT_TDC_FBD_CTRL", 0x004⟩,
   ⟨"INPUT_TDC_CTRL", 0x005⟩]

def cm_INPUT_TDC_module : cm_module_desc_t :=
  ⟨"INPUT_TDC", cm_INPUT_TDC_bases, 1, cm_INPUT_TDC_regs, 6⟩

def cm_PWM_SYNC_ENCODER_bases : List Nat :=
  [0xCD80, 0xCD84, 0xCD88, 0xCD8C, 0xCD90, 0xCD94, 0xCD98, 0xCD9C]

def cm_PWM_SYNC_ENCODER_regs : List cm_reg_desc_t :=
  [⟨"PWM_SYNC_ENCODER_PAYLOAD_CNFG", 0x000⟩,
   ⟨"PWM_SYNC_ENCODER_PAYLOAD_SQUELCH_CNFG", 0x001⟩,
   ⟨"PWM_SYNC_ENCODER_CMD", 0x002⟩]

def cm_PWM_SYNC_ENCODER_module : cm_module_desc_t :=
  ⟨"PWM_SYNC_ENCODER", cm_PWM_SYNC_ENCODER_bases, 8, cm_PWM_SYNC_ENCODER_regs, 3⟩

def cm_PWM_SYNC_DECODER_bases : List Nat :=
  [0xCE00, 0xCE06, 0xCE0C, 0xCE12, 0xCE18, 0xCE1E, 0xCE24, 0xCE2A, 0xCE30, 0xCE36, 0xCE3C, 0xCE42, 0xCE48, 0xCE4E, 0xCE54, 0xCE5A]

def cm_PWM_SYNC_DECODER_regs : List cm_reg_desc_t :=
  [⟨"PWM_SYNC_DECODER_PAYLOAD_CNFG_0", 0x000⟩,
   ⟨"PWM_SYNC_DECODER_PAYLOAD_CNFG_1", 0x001⟩,
   ⟨"PWM_SYNC_DECODER_PAYLOAD_CNFG_2", 0x002⟩,
   ⟨"PWM_SYNC_DECODER_PAYLOAD_CNFG_3", 0x003⟩,
   ⟨"PWM_SYNC_DECODER_CMD", 0x004⟩]

def cm_PWM_SYNC_DECODER_module : cm_module_desc_t :=
  ⟨"PWM_SYNC_DECODER", cm_PWM_SYNC_DECODER_bases, 16, cm_PWM_SYNC_DECODER_regs, 5⟩

def cm_PWM_Rx_Info_bases : List Nat :=
  [0xCE80]

def cm_PWM_Rx_Info_regs : List cm_reg_desc_t :=
  [⟨"PWM_TOD_SUBNS", 0x000⟩,
   ⟨"PWM_TOD_NS_7_0", 0x001⟩,
   ⟨"PWM_TOD_NS_15_8", 0x002⟩,
   ⟨"PWM_TOD_NS_23_16", 0x003⟩,
   ⟨"PWM_TOD_NS_31_24", 0x004⟩,
   ⟨"PWM_TOD_SEC_7_0", 0x005⟩,
   ⟨"PWM_TOD_SEC_15_8", 0x006⟩,
   ⟨"PWM_TOD_SEC_23_16", 0x007⟩,
   ⟨"PWM_TOD_SEC_31_24", 0x008⟩,
   ⟨"PWM_TOD_SEC_39_32", 0x009⟩,
   ⟨"PWM_TOD_SEC_47_40", 0x00A⟩]

def cm_PWM_Rx_Info_module : cm_module_desc_t :=
  ⟨"PWM_Rx_Info", cm_PWM_Rx_Info_bases, 1, cm_PWM_Rx_Info_regs, 11⟩

def cm_DPLL_Ctrl_bases : List Nat :=
  [0xC600, 0xC63C, 0xC680, 0xC6BC, 0xC700, 0xC73C, 0xC780, 0xC7BC]

def cm_DPLL_Ctrl_regs : List cm_reg_desc_t :=
  [⟨"DPLL_DECIMATOR_BW_MULT", 0x003⟩,
   ⟨"DPLL_BW_0", 0x004⟩,
   ⟨"DPLL_BW_1", 0x005⟩,
   ⟨"DPLL_PSL_7_0", 0x006⟩,
   ⟨"DPLL_PSL_15_8", 0x007⟩,
   ⟨"DPLL_PHASE_OFFSET_CFG_7_0", 0x014⟩,
   ⟨"DPLL_PHASE_OFFSET_CFG_15_8", 0x015⟩,
   ⟨"DPLL_PHASE_OFFSET_CFG_23_16", 0x016⟩,
   ⟨"DPLL_PHASE_OFFSET_CFG_31_24", 0x017⟩,
   ⟨"DPLL_PHASE_OFFSET_CFG_35_32", 0x018⟩,
   ⟨"DPLL_FINE_PHASE_ADV_CFG_7_0", 0x01A⟩,
   ⟨"DPLL_FINE_PHASE_ADV_CFG_12_8", 0x01B⟩,
   ⟨"FOD_FREQ_M_7_0", 0x01C⟩,
   ⟨"FOD_FREQ_M_15_8", 0x01D⟩,
   ⟨"FOD_FREQ_M_23_16", 0x01E⟩,
   ⟨"FOD_FREQ_M_31_24", 0x01F⟩,
   ⟨"FOD_FREQ_M_39_32", 0x020⟩,
   ⟨"FOD_FREQ_M_47_40", 0x021⟩,
   ⟨"FOD_FREQ_N_7_0", 0x022⟩,
   ⟨"FOD_FREQ_N_15_8", 0x023⟩,
   ⟨"DPLL_FRAME_PULSE_SYNC", 0x03B⟩]

def cm_DPLL_Ctrl_module : cm_module_desc_t :=
  ⟨"DPLL_Ctrl", cm_DPLL_Ctrl_bases, 8, cm_DPLL_Ctrl_regs, 21⟩

def cm_DPLL_Freq_Write_bases : List Nat :=
  [0xC838, 0xC840, 0xC848, 0xC850, 0xC858, 0xC860, 0xC868, 0xC870]

def cm_DPLL_Freq_Write_regs : List cm_reg_desc_t :=
  [⟨"DPLL_WR_FREQ_7_0", 0x000⟩,
   ⟨"DPLL_WR_FREQ_15_8", 0x001⟩,
   ⟨"DPLL_WR_FREQ_23_16", 0x002⟩,
   ⟨"DPLL_WR_FREQ_31_24", 0x003⟩,
   ⟨"DPLL_WR_FREQ_39_32", 0x004⟩,
   ⟨"DPLL_WR_FREQ_41_40", 0x005⟩]

def cm_DPLL_Freq_Write_module : cm_module_desc_t :=
  ⟨"DPLL_Freq_Write", cm_DPLL_Freq_Write_bases, 8, cm_DPLL_Freq_Write_regs, 6⟩

def cm_DPLL_Config_bases : List Nat :=
  [0xC3B0, 0xC400, 0xC438, 0xC480, 0xC4B8, 0xC500, 0xC538, 0xC580]

def cm_DPLL_Config_regs : List cm_reg_desc_t :=
  [⟨"DPLL_DCO_INC_DEC_SIZE_7_0", 0x000⟩,
   ⟨"DPLL_DCO_INC_DEC_SIZE_15_8", 0x001⟩,
   ⟨"DPLL_CTRL_0", 0x002⟩,
   ⟨"DPLL_CTRL_1", 0x003⟩,
   ⟨"DPLL_CTRL_2", 0x004⟩,
   ⟨"DPLL_UPDATE_RATE_CFG", 0x005⟩,
   ⟨"DPLL_FILTER_STATUS_UPDATE_CFG", 0x006⟩,
   ⟨"DPLL_HO_ADVCD_HISTORY", 0x007⟩,
   ⟨"DPLL_HO_ADVCD_BW_7_0", 0x008⟩,
   ⟨"DPLL_HO_ADVCD_BW_15_8", 0x009⟩,
   ⟨"DPLL_HO_CFG", 0x00A⟩,
   ⟨"DPLL_LOCK_0", 0x00B⟩,
   ⟨"DPLL_LOCK_1", 0x00C⟩,
   ⟨"DPLL_LOCK_2", 0x00D⟩,
   ⟨"DPLL_LOCK_3", 0x00E⟩,
   ⟨"DPLL_REF_PRIORITY_0", 0x00F⟩,
   ⟨"DPLL_REF_PRIORITY_1", 0x010⟩,
   ⟨"DPLL_REF_PRIORITY_2", 0x011⟩,
   ⟨"DPLL_REF_PRIORITY_3", 0x012⟩,
   ⟨"DPLL_TRANS_CTRL", 0x022⟩,
   ⟨"DPLL_FASTLOCK_CFG_0", 0x023⟩,
   ⟨"DPLL_FASTLOCK_CFG_1", 0x024⟩,
   ⟨"DPLL_MAX_FREQ_OFFSET", 0x025⟩,
   ⟨"DPLL_FASTLOCK_PSL", 0x026⟩,
   ⟨"DPLL_FASTLOCK_PSL_15_8", 0x027⟩,
   ⟨"DPLL_FASTLOCK_FSL", 0x028⟩,
   ⟨"DPLL_FASTLOCK_FSL_15_8", 0x029⟩,
   ⟨"DPLL_FASTLOCK_BW", 0x02A⟩,
   ⟨"DPLL_FASTLOCK_BW_15_8", 0x02B⟩,
   ⟨"DPLL_WRITE_FREQ_TIMER", 0x02C⟩,
   ⟨"DPLL_WRITE_FREQ_TIMER_15_8", 0x02D⟩,
   ⟨"DPLL_WRITE_PHASE_TIMER", 0x02E⟩,
   ⟨"DPLL_WRITE_PHASE_TIMER_15_8", 0x02F⟩,
   ⟨"DPLL_PRED_CFG", 0x030⟩,
   ⟨"DPLL_TOD_SYNC_CFG", 0x031⟩,
   ⟨"DPLL_COMBO_SLAVE_CFG_0", 0x032⟩,
   ⟨"DPLL_COMBO_SLAVE_CFG_1", 0x033⟩,
   ⟨"DPLL_SLAVE_REF_CFG", 0x034⟩,
   ⟨"DPLL_REF_MODE", 0x035⟩,
   ⟨"DPLL_PHASE_MEASUREMENT_CFG", 0x036⟩,
   ⟨"DPLL_MODE", 0x037⟩]

def cm_DPLL_Config_module : cm_module_desc_t :=
  ⟨"DPLL_Config", cm_DPLL_Config_bases, 8, cm_DPLL_Config_regs, 41⟩

def cm_DPLL_GeneralStatus_bases : List Nat :=
  [0xC014]

def cm_DPLL_GeneralStatus_regs : List cm_reg_desc_t :=
  [⟨"EEPROM_STATUS_7_0", 0x008⟩,
   ⟨"EEPROM_STATUS_8_15", 0x009⟩,
   ⟨"MAJOR RELEASE", 0x010⟩,
   ⟨"MINOR RELEASE", 0x011⟩,
   ⟨"HOTFIX RELEASE", 0x012⟩,
   ⟨"JTAG DEVICE ID", 0x01C⟩,
   ⟨"PRODUCT ID", 0x01E⟩]

def cm_DPLL_GeneralStatus_module : cm_module_desc_t :=
  ⟨"DPLL_GeneralStatus", cm_DPLL_GeneralStatus_bases, 1, cm_DPLL_GeneralStatus_regs, 7⟩

/-- The aggregate index `cm_all_modules[]`. -/
def cm_all_modules : List cm_module_desc_t :=
  [cm_Status_module, cm_PWMEncoder_module, cm_PWMDecoder_module, cm_TOD_module,
   cm_TODWrite_module, cm_TODReadPrimary_module, cm_TODReadSecondary_module,
   cm_Input_module, cm_Output_module, cm_REFMON_module, cm_PWM_USER_DATA_module,
   cm_EEPROM_module, cm_EEPROM_DATA_module, cm_OUTPUT_TDC_CFG_module,
   cm_OUTPUT_TDC_module, cm_INPUT_TDC_module, cm_PWM_SYNC_ENCODER_module,
   cm_PWM_SYNC_DECODER_module, cm_PWM_Rx_Info_module, cm_DPLL_Ctrl_module,
   cm_DPLL_Freq_Write_module, cm_DPLL_Config_module, cm_DPLL_GeneralStatus_module]

/-- The constant `cm_all_modules_count`. -/
def cm_all_modules_count : Nat := 23

/-- Lookup `cm_find_module`: first module whose name equals `name`, else `-2`. -/
def cm_find_module (name : String) : Except Int cm_module_desc_t :=
  match (cm_all_modules.take cm_all_modules_count).find? (fun m => m.name == name) with
  | some m => .ok m
  | none => .error (-2)

/-- Lookup `cm_find_reg`: first of the `nregs` registers of the module named `reg_name`,
else `-2`. -/
def cm_find_reg (mod : cm_module_desc_t) (reg_name : String) : Except Int cm_reg_desc_t :=
  match (mod.regs.take mod.nregs).find? (fun r => r.name == reg_name) with
  | some r => .ok r
  | none => .error (-2)

/-- Helper `cm_resolve_reg_addr`: the absolute 16-bit address of a named register of
instance `inst` of a named module, or the error code. -/
def cm_resolve_reg_addr (mod_name : String) (inst : Nat) (reg_name : String) :
    Except Int Nat :=
  match cm_find_module mod_name with
  | .error rc => .error rc
  | .ok mod =>
    if inst ≥ mod.count then .error (-3)
    else
      let base := mod.bases.getD inst 0
      match cm_find_reg mod reg_name with
      | .error rc => .error rc
      | .ok reg => .ok ((base + reg.offset) % 2 ^ 16)

/-! ## The bus -/

/-- The device behind `cm_bus_t`: a byte-addressed register file `mem`, and the
return code a burst read (`read_rc`) or burst write (`write_rc`) gives when it
starts at a given address (`0` is success). -/
structure cm_bus_t where
  mem : Nat → Nat
  read_rc : Nat → Int
  write_rc : Nat → Int

/-- The callback `bus->read(bus->user, addr, buf, len)`: on success the `len`
bytes stored from `addr` on. -/
def cm_bus_t.read (bus : cm_bus_t) (addr len : Nat) : Except Int (List Nat) :=
  if bus.read_rc addr ≠ 0 then .error (bus.read_rc addr)
  else .ok ((List.range len).map fun i => bus.mem (addr + i) % 256)

/-- The callback `bus->write(bus->user, addr, data, len)`: on success the bytes of
`data` are stored from `addr` on; on failure the register file is unchanged. -/
def cm_bus_t.write (bus : cm_bus_t) (addr : Nat) (data : List Nat) : Int × cm_bus_t :=
  if bus.write_rc addr ≠ 0 then (bus.write_rc addr, bus)
  else (0, { bus with
    mem := fun a => if addr ≤ a ∧ a < addr + data.length then byte_at data (a - addr)
                    else bus.mem a })

/-- Helper `cm_string_read_bytes` (`bus` and `data` are not null). -/
def cm_string_read_bytes (bus : cm_bus_t) (mod_name : String) (inst : Nat)
    (reg_name : String) (len : Nat) : Except Int (List Nat) :=
  if len = 0 then .error (-1)
  else
    match cm_resolve_reg_addr mod_name inst reg_name with
    | .error rc => .error rc
    | .ok addr => bus.read addr len

/-- Helper `cm_string_write_bytes` (`bus` and `data` are not null). -/
def cm_string_write_bytes (bus : cm_bus_t) (mod_name : String) (inst : Nat)
    (reg_name : String) (data : List Nat) : Int × cm_bus_t :=
  if data.length = 0 then (-1, bus)
  else
    match cm_resolve_reg_addr mod_name inst reg_name with
    | .error rc => (rc, bus)
    | .ok addr => bus.write addr data

/-! ## Register helpers -/

/-- The register name built by `snprintf(reg_name, 64, "DPLL%u_PHASE_STATUS", meas_dpll)`. -/
def phase_status_reg_name (meas_dpll : Nat) : String :=
  "DPLL" ++ toString meas_dpll ++ "_PHASE_STATUS"

/-- Static helper `read_phase_status_s36` of `cm_discipline.c`. -/
def read_phase_status_s36 (bus : cm_bus_t) (meas_dpll : Nat) : Except Int Int :=
  match cm_string_read_bytes bus "Status" 0 (phase_status_reg_name meas_dpll) 5 with
  | .error rc => .error rc
  | .ok buf => .ok (phase_status_decode buf)

/-- Helper `cm_read_phase_status_s36` of `cm_dpll_utils.c` (pointers not null). -/
def cm_read_phase_status_s36 (bus : cm_bus_t) (meas_dpll : Nat) : Except Int Int :=
  match cm_string_read_bytes bus "Status" 0 (phase_status_reg_name meas_dpll) 5 with
  | .error rc => .error rc
  | .ok buf => .ok (phase_status_decode buf)

/-- Static helper `read_dpll_fod_freq_hz`: on success `(hz, M, N)` with `N` the
denominator after `if (N == 0) N = 1`. -/
def read_dpll_fod_freq_hz (bus : cm_bus_t) (dpll_idx : Nat) : Except Int (ℚ × Nat × Nat) :=
  match cm_string_read_bytes bus "DPLL_Ctrl" dpll_idx "FOD_FREQ_M_7_0" 6 with
  | .error rc => .error rc
  | .ok bufM =>
    match cm_string_read_bytes bus "DPLL_Ctrl" dpll_idx "FOD_FREQ_N_7_0" 2 with
    | .error rc => .error rc
    | .ok bufN =>
      let M : Nat := (byte_at bufM 0 <<< 0) ||| (byte_at bufM 1 <<< 8)
        ||| (byte_at bufM 2 <<< 16) ||| (byte_at bufM 3 <<< 24)
        ||| (byte_at bufM 4 <<< 32) ||| (byte_at bufM 5 <<< 40)
      let N : Nat := (byte_at bufN 0 ||| (byte_at bufN 1 <<< 8)) % 2 ^ 16
      let N : Nat := if N = 0 then 1 else N
      .ok ((M : ℚ) / (N : ℚ), M, N)

/-- Static helper `read_output_div_u32`. -/
def read_output_div_u32 (bus : cm_bus_t) (out_idx : Nat) : Except Int Nat :=
  match cm_string_read_bytes bus "Output" out_idx "OUT_DIV" 4 with
  | .error rc => .error rc
  | .ok b => .ok (u32_of_le_bytes b)

/-- Static helper `read_output_phase_adj_s32`. -/
def read_output_phase_adj_s32 (bus : cm_bus_t) (out_idx : Nat) : Except Int Int :=
  match cm_string_read_bytes bus "Output" out_idx "OUT_PHASE_ADJ_7_0" 4 with
  | .error rc => .error rc
  | .ok b => .ok (s32_of_u32 (u32_of_le_bytes b))

/-- Static helper `write_output_phase_adj_s32`.  With `trace` set the C code also
prints and reads the register back; the read-back result is only printed and
reading does not change the register file. -/
def write_output_phase_adj_s32 (bus : cm_bus_t) (out_idx : Nat) (adj : Int)
    (_trace dry_run : Bool) : Int × cm_bus_t :=
  let b := phase_adj_pack adj
  if dry_run then (0, bus)
  else cm_string_write_bytes bus "Output" out_idx "OUT_PHASE_ADJ_7_0" b

/-- Static helper `write_dpll_wr_freq_s42` (same remark on `trace`). -/
def write_dpll_wr_freq_s42 (bus : cm_bus_t) (dpll_idx : Nat) (word_s42 : Int)
    (_trace dry_run : Bool) : Int × cm_bus_t :=
  let b := wr_freq_pack word_s42
  if dry_run then (0, bus)
  else cm_string_write_bytes bus "DPLL_Freq_Write" dpll_idx "DPLL_WR_FREQ_7_0" b

/-- Helper `cm_read_dpll_wr_freq_s42` of `cm_dpll_utils.c` (pointers not null). -/
def cm_read_dpll_wr_freq_s42 (bus : cm_bus_t) (dpll_idx : Nat) : Except Int Int :=
  match cm_string_read_bytes bus "DPLL_Freq_Write" dpll_idx "DPLL_WR_FREQ_7_0" 6 with
  | .error rc => .error rc
  | .ok rb => .ok (wr_freq_unpack rb)

/-! ## Discipline logic -/

/-- The servo states `discipline_state_t`. -/
inductive discipline_state_t where
  | ST_S0_MEASURE
  | ST_S1_STEP
  | ST_S2_SLEW
deriving DecidableEq

/-- The configuration `discipline_cfg_t`; the arrays with their element counts are
lists, the `int` flags are booleans. -/
structure discipline_cfg_t where
  meas_dpll : Nat
  wr_dplls : List Nat
  step_outs : List Nat
  interval_sec : ℚ
  s0_window_sec : ℚ
  s1_enter_abs_sec : ℚ
  s1_exit_abs_sec : ℚ
  s1_max_step_sec : ℚ
  s1_max_iters : Nat
  s1_verify_samples : Nat
  kp : ℚ
  ki : ℚ
  max_abs_ppb : ℚ
  s2_fallback_abs_sec : ℚ
  max_abs_phase_sec : ℚ
  invert : Bool
  print_each : Bool
  debug : Bool
  dry_run : Bool

/-- The configuration `main` holds before it parses its arguments. -/
def main_default_cfg : discipline_cfg_t :=
  { meas_dpll := 5
    wr_dplls := [2]
    step_outs := [9, 10, 11]
    interval_sec := 1
    s0_window_sec := 5
    s1_enter_abs_sec := 5 / 100
    s1_exit_abs_sec := 2 / 1000
    s1_max_step_sec := 5 / 100
    s1_max_iters := 0
    s1_verify_samples := 3
    kp := 0
    ki := 0
    max_abs_ppb := 1000
    s2_fallback_abs_sec := 25 / 100
    max_abs_phase_sec := 5 / 10
    invert := false
    print_each := true
    debug := false
    dry_run := false }

/-- Predicate `want_print`. -/
def want_print (cfg : discipline_cfg_t) : Bool := cfg.print_each || cfg.debug

/-- The board mapping `fod_dpll_for_output`. -/
def fod_dpll_for_output (out_num : Nat) : Nat :=
  match out_num with
  | 9 => 5
  | 10 => 6
  | 11 => 6
  | _ => 5

/-- The step request of `do_s1_step`: `step_sec = -phase_sec`, saturated to
`± s1_max_step_sec` when that is positive. -/
def s1_step_sec (cfg : discipline_cfg_t) (phase_sec : ℚ) : ℚ :=
  let step_sec := -phase_sec
  if cfg.s1_max_step_sec > 0 then clamp_d step_sec (-cfg.s1_max_step_sec) cfg.s1_max_step_sec
  else step_sec

/-- The cycle count of `do_s1_step` for one output: `llround(step_sec / t_fod)` with
`t_fod = 1.0 / fod_hz`, saturated to the `int32_t` range.  The two divisions are binary64
operations.  The argument `fod_hz` is the exact ratio `M / N` that the model of
`read_dpll_fod_freq_hz` returns; the C variable holds the rounded quotient
`(double)M / (double)N`, which is taken here.  The argument `step_sec` is the value of the
C variable. -/
def s1_step_cycles (step_sec fod_hz : ℚ) : Int :=
  let fod_hz := f64 fod_hz
  let t_fod := f64 (1 / fod_hz)
  let step_cycles_f := f64 (step_sec / t_fod)
  let step_cycles := llround step_cycles_f
  let step_cycles := if step_cycles > INT32_MAX then INT32_MAX else step_cycles
  if step_cycles < INT32_MIN then INT32_MIN else step_cycles

/-- The new register value of `do_s1_step`: `old_adj + step_cycles` saturated to the
`int32_t` range. -/
def s1_new_adj (old_adj step_cycles : Int) : Int :=
  let new_adj64 := old_adj + step_cycles
  let new_adj64 := if new_adj64 > INT32_MAX then INT32_MAX else new_adj64
  if new_adj64 < INT32_MIN then INT32_MIN else new_adj64

/-- One pass of the `for` loop of `do_s1_step`, for the output `out_idx`: the return
code (`0` to go on with the next output) and the bus afterwards. -/
def do_s1_step_output (bus : cm_bus_t) (cfg : discipline_cfg_t) (step_sec : ℚ)
    (out_idx : Nat) : Int × cm_bus_t :=
  let fod_dpll := fod_dpll_for_output out_idx
  match read_dpll_fod_freq_hz bus fod_dpll with
  | .error rc => (rc, bus)
  | .ok (fod_hz, _, _) =>
    if fod_hz ≤ 0 then (-1, bus)
    else
      let step_cycles := s1_step_cycles step_sec fod_hz
      match read_output_div_u32 bus out_idx, read_output_phase_adj_s32 bus out_idx with
      | .ok _, .ok old_adj =>
        let new_adj := s1_new_adj old_adj step_cycles
        write_output_phase_adj_s32 bus out_idx new_adj (want_print cfg) cfg.dry_run
      | _, _ => (-1, bus)

/-- The `for` loop of `do_s1_step` over the configured outputs, leaving at the
first non-zero code. -/
def do_s1_step_loop (cfg : discipline_cfg_t) (step_sec : ℚ) :
    cm_bus_t → List Nat → Int × cm_bus_t
  | bus, [] => (0, bus)
  | bus, out_idx :: rest =>
    let r := do_s1_step_output bus cfg step_sec out_idx
    if r.1 ≠ 0 then r else do_s1_step_loop cfg step_sec r.2 rest

/-- Actuator `do_s1_step`: the return code and the bus afterwards (the closing
`sleep_sec(0.2)` does not touch the bus). -/
def do_s1_step (bus : cm_bus_t) (cfg : discipline_cfg_t) (phase_sec : ℚ) : Int × cm_bus_t :=
  do_s1_step_loop cfg (s1_step_sec cfg phase_sec) bus cfg.step_outs

/-- What `do_s2_slew` returns and stores through its pointers. -/
structure slew_result_t where
  rc : Int
  bus : cm_bus_t
  integ : ℚ
  cmd_ppb : ℚ
  word : Int

/-- The write loop of `do_s2_slew` over the configured channels; it stops at the
first failing write and returns its code. -/
def do_s2_slew_loop (cfg : discipline_cfg_t) (word : Int) :
    cm_bus_t → List Nat → Int × cm_bus_t
  | bus, [] => (0, bus)
  | bus, dpll_idx :: rest =>
    let r := write_dpll_wr_freq_s42 bus dpll_idx word (want_print cfg) cfg.dry_run
    if r.1 ≠ 0 then r else do_s2_slew_loop cfg word r.2 rest

/-- Actuator `do_s2_slew`. -/
def do_s2_slew (bus : cm_bus_t) (cfg : discipline_cfg_t) (integ phase_sec dt_sec : ℚ) :
    slew_result_t :=
  let polarity := CM_DEFAULT_POLARITY
  let integ := integ + phase_sec * dt_sec
  let cmd_frac := polarity * (cfg.kp * phase_sec + cfg.ki * integ)
  let cmd_frac :=
    if cfg.max_abs_ppb > 0 then
      let max_frac := cfg.max_abs_ppb * (1 / 10 ^ 9)
      clamp_d cmd_frac (-max_frac) max_frac
    else cmd_frac
  let word := wr_freq_word cmd_frac
  let w := do_s2_slew_loop cfg word bus cfg.wr_dplls
  { rc := w.1, bus := w.2, integ := integ, cmd_ppb := cmd_frac * 10 ^ 9, word := word }

/-- The local variables of `discipline_run` that carry over between iterations. -/
structure discipline_vars_t where
  st : discipline_state_t
  integ : ℚ
  phase_prev : ℚ
  have_prev : Bool
  s1_iter : Nat

/-- The values of the locals of `discipline_run` before its loop. -/
def discipline_run_init : discipline_vars_t :=
  { st := .ST_S0_MEASURE, integ := 0, phase_prev := 0, have_prev := false, s1_iter := 0 }

/-- The `ST_S0_MEASURE` branch of the loop of `discipline_run`, given what
`do_s0_measure` returned (its code `rc` and the average it stored): either the
code `discipline_run` returns, or the locals at the `continue`. -/
def discipline_run_measure (cfg : discipline_cfg_t) (v : discipline_vars_t)
    (rc : Int) (avg_phase : ℚ) : Except Int discipline_vars_t :=
  if rc ≠ 0 then .error rc
  else if |avg_phase| > cfg.s1_enter_abs_sec then
    .ok { v with st := .ST_S1_STEP, s1_iter := 0 }
  else
    .ok { v with st := .ST_S2_SLEW, integ := 0, have_prev := false }

/-! ## Reference notions used to state the properties -/

/-- Saturation of `x` to the interval `[lo, hi]`. -/
def sat {α : Type} [LinearOrder α] (lo hi x : α) : α := max lo (min hi x)

/-- The natural number held, little-endian, by the first `n` bytes of `buf`. -/
def le_value (buf : List Nat) : Nat → Nat
  | 0 => 0
  | n + 1 => le_value buf n + byte_at buf n * 2 ^ (8 * n)

/-- The signed value of the `k`-bit twos-complement pattern `w`. -/
def signed_of_bits (k w : Nat) : Int :=
  if w < 2 ^ (k - 1) then (w : Int) else (w : Int) - 2 ^ k

/-- Assertion that every bus access succeeds. -/
def bus_ok (bus : cm_bus_t) : Prop := ∀ a, bus.read_rc a = 0 ∧ bus.write_rc a = 0

/-! ## The servo loop

The program observes the outside through the bus and the monotonic clock.  The
device changes its registers only while the program sleeps: `hw k` is what the
`k`-th sleep does to the bus.  A sleep of `sec > 0` seconds advances the clock by
`sec`; bus accesses take no time. -/

/-- What the device does to the bus during each sleep, by sleep number. -/
abbrev device_t := Nat → cm_bus_t → cm_bus_t

/-- The bus, the value of `CLOCK_MONOTONIC` in seconds, and the number of sleeps so
far. -/
structure world_t where
  bus : cm_bus_t
  clock : ℚ
  sleeps : Nat

/-- Utility `now_monotonic_sec`. -/
def now_monotonic_sec (w : world_t) : ℚ := w.clock

/-- Utility `sleep_sec`: it returns at once when `sec <= 0`. -/
def sleep_sec (hw : device_t) (w : world_t) (sec : ℚ) : world_t :=
  if sec ≤ 0 then w
  else { bus := hw w.sleeps w.bus, clock := w.clock + sec, sleeps := w.sleeps + 1 }

/-- Measurement `read_phase_sec`: on success the raw and the wrapped phase. -/
def read_phase_sec (bus : cm_bus_t) (cfg : discipline_cfg_t) : Except Int (ℚ × ℚ) :=
  match read_phase_status_s36 bus cfg.meas_dpll with
  | .error rc => .error rc
  | .ok s36 =>
    let p := phase_s36_to_seconds s36
    let p := if cfg.invert then -p else p
    .ok (p, wrap_phase_sec p)

/-- The `while` loop of `do_s0_measure`, run for at most `fuel` passes: `none` when
the window is still open after `fuel` passes, else the code of the failing read or
the sums `sum`, `sumw` with the world at the end of the window.  (The counter `n`
is only printed.) -/
def do_s0_measure_loop (hw : device_t) (cfg : discipline_cfg_t) (t_start : ℚ) :
    Nat → world_t → ℚ → ℚ → Option (Except Int (ℚ × ℚ × world_t))
  | 0, w, sum, sumw =>
    if now_monotonic_sec w - t_start < cfg.s0_window_sec then none
    else some (.ok (sum, sumw, w))
  | fuel + 1, w, sum, sumw =>
    if now_monotonic_sec w - t_start < cfg.s0_window_sec then
      match read_phase_sec w.bus cfg with
      | .error rc => some (.error rc)
      | .ok (_, p) =>
        if cfg.max_abs_phase_sec > 0 ∧ |p| > cfg.max_abs_phase_sec then
          do_s0_measure_loop hw cfg t_start fuel (sleep_sec hw w cfg.interval_sec) sum sumw
        else
          do_s0_measure_loop hw cfg t_start fuel (sleep_sec hw w cfg.interval_sec)
            (sum + p) (sumw + 1)
    else some (.ok (sum, sumw, w))

/-- State `do_s0_measure`, its loop run for at most `fuel` passes: on success the
average stored in `out_avg_phase` and the world afterwards. -/
def do_s0_measure (hw : device_t) (cfg : discipline_cfg_t) (fuel : Nat) (w : world_t) :
    Option (Except Int (ℚ × world_t)) :=
  match do_s0_measure_loop hw cfg (now_monotonic_sec w) fuel w 0 0 with
  | none => none
  | some (.error rc) => some (.error rc)
  | some (.ok (sum, sumw, w1)) => some (.ok (if sumw > 0 then sum / sumw else 0, w1))

/-- Actuator `do_s1_step` with its closing `sleep_sec(0.2)`, which is reached only
when every output was written. -/
def do_s1_step_sleep (hw : device_t) (cfg : discipline_cfg_t) (w : world_t) (phase_sec : ℚ) :
    Int × world_t :=
  let r := do_s1_step w.bus cfg phase_sec
  if r.1 ≠ 0 then (r.1, { w with bus := r.2 })
  else (0, sleep_sec hw { w with bus := r.2 } (2 / 10))

/-- The locals of the verification loop of `discipline_run`. -/
structure s1_verify_t where
  p_ver : ℚ
  prev_pw : ℚ
  have_prev_pw : Bool
  drift_sum_ppb : ℚ
  drift_n : Nat

/-- The values of the verification locals before the loop. -/
def s1_verify_init : s1_verify_t :=
  { p_ver := 0, prev_pw := 0, have_prev_pw := false, drift_sum_ppb := 0, drift_n := 0 }

/-- The body of the verification loop of `discipline_run` after a successful read of the
wrapped phase `pw`: the locals after the pass. -/
def s1_verify_update (cfg : discipline_cfg_t) (acc : s1_verify_t) (pw : ℚ) : s1_verify_t :=
  let dphi := wrap_phase_sec (pw - acc.prev_pw)
  let drift_ppb := if cfg.interval_sec > 0 then dphi / cfg.interval_sec * 10 ^ 9 else 0
  { p_ver := pw
    prev_pw := pw
    have_prev_pw := true
    drift_sum_ppb := if acc.have_prev_pw then acc.drift_sum_ppb + drift_ppb
                     else acc.drift_sum_ppb
    drift_n := if acc.have_prev_pw then acc.drift_n + 1 else acc.drift_n }

/-- The verification loop of `discipline_run` (`for (k = 0; k < s1_verify_samples; k++)`),
with `k` passes to go: the code of a failing read, or the locals and the world after
the last pass (each pass reads, updates the locals and sleeps for the interval). -/
def s1_verify_loop (hw : device_t) (cfg : discipline_cfg_t) :
    Nat → world_t → s1_verify_t → Except Int (s1_verify_t × world_t)
  | 0, w, acc => .ok (acc, w)
  | k + 1, w, acc =>
    match read_phase_sec w.bus cfg with
    | .error rcv => .error rcv
    | .ok (_, pw) =>
      s1_verify_loop hw cfg k (sleep_sec hw w cfg.interval_sec) (s1_verify_update cfg acc pw)

/-- The average drift `s1_avg_drift_ppb` of `discipline_run`. -/
def s1_avg_drift_ppb (acc : s1_verify_t) : ℚ :=
  if acc.drift_n > 0 then acc.drift_sum_ppb / (acc.drift_n : ℚ) else 0

/-- The one-shot initial command `cmd_ppb0` of the hand-off, before the sign check. -/
def s1_init_cmd_ppb (cfg : discipline_cfg_t) (avg_drift_ppb : ℚ) : ℚ :=
  let cmd_ppb0 := -avg_drift_ppb
  if cfg.max_abs_ppb > 0 then clamp_d cmd_ppb0 (-cfg.max_abs_ppb) cfg.max_abs_ppb
  else cmd_ppb0

/-- The optional sign check of the hand-off: the code of a failing access, or the
world afterwards with the value of `cmd_ppb0` it leaves. -/
def s1_polarity_check (hw : device_t) (cfg : discipline_cfg_t) (w : world_t)
    (avg_drift_ppb cmd_ppb0 : ℚ) (drift_n : Nat) : Except Int (world_t × ℚ) :=
  if cfg.dry_run = false ∧ cfg.debug = true ∧ cfg.interval_sec > 0 ∧ drift_n ≥ 2 then
    match read_phase_sec w.bus cfg with
    | .error rc_p0 => .error rc_p0
    | .ok (_, p0) =>
      let w1 := sleep_sec hw w cfg.interval_sec
      match read_phase_sec w1.bus cfg with
      | .error rc_p1 => .error rc_p1
      | .ok (_, p1) =>
        let dphi_chk := wrap_phase_sec (p1 - p0)
        let drift_chk_ppb := dphi_chk / cfg.interval_sec * 10 ^ 9
        if |drift_chk_ppb| > |avg_drift_ppb| * (120 / 100) then
          let cmd_ppb0 := -cmd_ppb0
          let cmd_frac0 := cmd_ppb0 * (1 / 10 ^ 9) / 1
          let word0 := wr_freq_word cmd_frac0
          let wr := do_s2_slew_loop cfg word0 w1.bus cfg.wr_dplls
          if wr.1 ≠ 0 then .error wr.1
          else .ok ({ w1 with bus := wr.2 }, cmd_ppb0)
        else .ok (w1, cmd_ppb0)
  else .ok (w, cmd_ppb0)

/-- What the hand-off leaves: the world, the command finally applied (ppb, fraction
and word) and the seeded integral. -/
structure s1_handoff_t where
  w : world_t
  cmd_ppb0 : ℚ
  cmd_frac0 : ℚ
  word0 : Int
  integ : ℚ

/-- The exit path of the `ST_S1_STEP` branch of `discipline_run`: final step, initial
frequency command written to every channel, optional sign check, integral seed.  The
two write loops have the body of the loop of `do_s2_slew`. -/
def s1_handoff (hw : device_t) (cfg : discipline_cfg_t) (w : world_t)
    (p_ver avg_drift_ppb : ℚ) (drift_n : Nat) : Except Int s1_handoff_t :=
  let rf := do_s1_step_sleep hw cfg w p_ver
  if rf.1 ≠ 0 then .error rf.1
  else
    let cmd_ppb0 := s1_init_cmd_ppb cfg avg_drift_ppb
    let cmd_frac0 := cmd_ppb0 * (1 / 10 ^ 9)
    let word0 := wr_freq_word cmd_frac0
    let wr := do_s2_slew_loop cfg word0 rf.2.bus cfg.wr_dplls
    if wr.1 ≠ 0 then .error wr.1
    else
      match s1_polarity_check hw cfg { rf.2 with bus := wr.2 } avg_drift_ppb cmd_ppb0
          drift_n with
      | .error rc => .error rc
      | .ok (w2, cmd_ppb1) =>
        let cmd_frac1 := cmd_ppb1 * (1 / 10 ^ 9)
        .ok { w := w2
              cmd_ppb0 := cmd_ppb1
              cmd_frac0 := cmd_frac1
              word0 := wr_freq_word cmd_frac1
              integ := if cfg.ki > 0 then cmd_frac1 / (CM_DEFAULT_POLARITY * cfg.ki) else 0 }

/-- The `ST_S1_STEP` branch of the loop of `discipline_run` for a sample `p` that passed
the outlier gate: the code returned, or the world and the locals at the `continue`. -/
def discipline_run_step (hw : device_t) (cfg : discipline_cfg_t) (w : world_t)
    (v : discipline_vars_t) (p : ℚ) : Except Int (world_t × discipline_vars_t) :=
  let r1 := do_s1_step_sleep hw cfg w p
  if r1.1 ≠ 0 then .error r1.1
  else
    match s1_verify_loop hw cfg cfg.s1_verify_samples r1.2 s1_verify_init with
    | .error rcv => .error rcv
    | .ok (acc, w2) =>
      let s1_iter := (v.s1_iter + 1) % 2 ^ 32
      if |acc.p_ver| ≤ cfg.s1_exit_abs_sec then
        match s1_handoff hw cfg w2 acc.p_ver (s1_avg_drift_ppb acc) acc.drift_n with
        | .error rc => .error rc
        | .ok h =>
          .ok (h.w, { v with st := .ST_S2_SLEW, integ := h.integ, have_prev := false,
                             s1_iter := s1_iter })
      else .ok (w2, { v with s1_iter := s1_iter })

/-- The `ST_S2_SLEW` part of the loop of `discipline_run` for a sample `p` that passed
the outlier gate. -/
def discipline_run_slew (hw : device_t) (cfg : discipline_cfg_t) (w : world_t)
    (v : discipline_vars_t) (p : ℚ) : Except Int (world_t × discipline_vars_t) :=
  if |p| > cfg.s2_fallback_abs_sec then
    .ok (w, { v with st := .ST_S1_STEP, s1_iter := 0 })
  else
    let r := do_s2_slew w.bus cfg v.integ p cfg.interval_sec
    if r.rc ≠ 0 then .error r.rc
    else
      .ok (sleep_sec hw { w with bus := r.bus } cfg.interval_sec,
           { v with integ := r.integ, phase_prev := p, have_prev := true })

/-- One pass of the `while (1)` loop of `discipline_run`: `none` when `do_s0_measure`
is still in its window after `fuel` passes, else the code returned or the world and
the locals at the start of the next pass. -/
def discipline_run_iter (hw : device_t) (cfg : discipline_cfg_t) (fuel : Nat) (w : world_t)
    (v : discipline_vars_t) : Option (Except Int (world_t × discipline_vars_t)) :=
  if v.st = .ST_S0_MEASURE then
    match do_s0_measure hw cfg fuel w with
    | none => none
    | some (.error rc) => some (.error rc)
    | some (.ok (avg_phase, w1)) =>
      match discipline_run_measure cfg v 0 avg_phase with
      | .error rc => some (.error rc)
      | .ok v1 => some (.ok (w1, v1))
  else
    match read_phase_sec w.bus cfg with
    | .error rc => some (.error rc)
    | .ok (_, p) =>
      if cfg.max_abs_phase_sec > 0 ∧ |p| > cfg.max_abs_phase_sec then
        some (.ok (sleep_sec hw w cfg.interval_sec, v))
      else if v.st = .ST_S1_STEP then some (discipline_run_step hw cfg w v p)
      else some (discipline_run_slew hw cfg w v p)

/-- How far `discipline_run` has got. -/
inductive run_t where
  | returned (rc : Int)
  | running (w : world_t) (v : discipline_vars_t)
  | measuring

/-- The first `n` passes of the loop of `discipline_run` from the world `w` and the
locals `v`: the code returned, or the world and locals reached, or `measuring` when
`do_s0_measure` needs more than `fuel` passes. -/
def discipline_run_loop (hw : device_t) (cfg : discipline_cfg_t) (fuel : Nat) :
    Nat → world_t → discipline_vars_t → run_t
  | 0, w, v => .running w v
  | n + 1, w, v =>
    match discipline_run_iter hw cfg fuel w v with
    | none => .measuring
    | some (.error rc) => .returned rc
    | some (.ok (w1, v1)) => discipline_run_loop hw cfg fuel n w1 v1

/-- Servo `discipline_run`, observed for `n` passes of its loop. -/
def discipline_run (hw : device_t) (cfg : discipline_cfg_t) (fuel n : Nat) (w : world_t) :
    run_t :=
  discipline_run_loop hw cfg fuel n w discipline_run_init

/-- The exit status `main` derives from the code of `discipline_run`:
`return (rc == 0) ? 0 : 1;`. -/
def main_exit_status (rc : Int) : Int := if rc = 0 then 0 else 1

/-- The read-back that `write_dpll_wr_freq_s42` makes when `trace` is set and the
write returned 0: `none` when there is none, else its outcome, which the helper only
prints. -/
def write_dpll_wr_freq_s42_readback (bus : cm_bus_t) (dpll_idx : Nat) (word_s42 : Int)
    (trace dry_run : Bool) : Option (Except Int Int) :=
  if dry_run then none
  else
    let r := cm_string_write_bytes bus "DPLL_Freq_Write" dpll_idx "DPLL_WR_FREQ_7_0"
      (wr_freq_pack word_s42)
    if trace = true ∧ r.1 = 0 then
      some (match cm_string_read_bytes r.2 "DPLL_Freq_Write" dpll_idx "DPLL_WR_FREQ_7_0" 6 with
            | .error rrc => .error rrc
            | .ok rb => .ok (wr_freq_unpack rb))
    else none

/-- Helper `cm_write_dpll_wr_freq_s42` of `cm_dpll_utils.c` (`bus` is not null); its
body is that of `write_dpll_wr_freq_s42`. -/
def cm_write_dpll_wr_freq_s42 (bus : cm_bus_t) (dpll_idx : Nat) (word_s42 : Int)
    (_trace dry_run : Bool) : Int × cm_bus_t :=
  let b := wr_freq_pack word_s42
  if dry_run then (0, bus)
  else cm_string_write_bytes bus "DPLL_Freq_Write" dpll_idx "DPLL_WR_FREQ_7_0" b

/-- Helper `cm_write_output_phase_adj_s32` of `cm_dpll_utils.c` (`bus` is not null); its
body is that of `write_output_phase_adj_s32`. -/
def cm_write_output_phase_adj_s32 (bus : cm_bus_t) (out_idx : Nat) (adj : Int)
    (_trace dry_run : Bool) : Int × cm_bus_t :=
  let b := phase_adj_pack adj
  if dry_run then (0, bus)
  else cm_string_write_bytes bus "Output" out_idx "OUT_PHASE_ADJ_7_0" b

/-- The word that the `--wr-freq-set-ppb` command of `dpll_utility.c` computes:
`llround((hl_wr_ppb / 1e9) * (double)(1ULL << CM_WR_FREQ_FRAC_BITS))`. -/
def wr_freq_set_ppb_word (hl_wr_ppb : ℚ) : Int :=
  let word_d := hl_wr_ppb / 10 ^ 9 * ((1 <<< CM_WR_FREQ_FRAC_BITS.toNat : Nat) : ℚ)
  llround word_d

/-- The write of the `--wr-freq-set-ppb` command of `dpll_utility.c`. -/
def do_wr_freq_set_ppb (bus : cm_bus_t) (hl_dpll_idx : Nat) (hl_wr_ppb : ℚ) :
    Int × cm_bus_t :=
  cm_write_dpll_wr_freq_s42 bus hl_dpll_idx (wr_freq_set_ppb_word hl_wr_ppb) true false

/-- Decode `dpll_input_freq_from_ratio` of `renesas_cm8a34001_tables.c`. -/
def dpll_input_freq_from_ratio (M N_reg : Nat) : ℚ :=
  let N : Nat := if N_reg = 0 then 1 else N_reg
  if N = 0 then 0 else (M : ℚ) / (N : ℚ)

/-! ## Reference notions for the servo loop -/

/-- The wrapped samples that the verification loop reads in `k` passes from the world
`w`, in order (up to the first failing read). -/
def verify_samples (hw : device_t) (cfg : discipline_cfg_t) : Nat → world_t → List ℚ
  | 0, _ => []
  | k + 1, w =>
    match read_phase_sec w.bus cfg with
    | .error _ => []
    | .ok (_, pw) => pw :: verify_samples hw cfg k (sleep_sec hw w cfg.interval_sec)

/-- Assertion that the configured indices exist on the chip: the measurement channel
and the frequency-write channels are below 8, the outputs below 12. -/
def cfg_valid (cfg : discipline_cfg_t) : Prop :=
  cfg.meas_dpll < 8 ∧ (∀ d ∈ cfg.wr_dplls, d < 8) ∧ (∀ x ∈ cfg.step_outs, x < 12)

/-- Assertion that every access of the bus succeeds and that the FOD frequency read for
every configured output is positive. -/
def bus_ready (cfg : discipline_cfg_t) (bus : cm_bus_t) : Prop :=
  bus_ok bus ∧ ∀ x ∈ cfg.step_outs, ∃ F M N,
    read_dpll_fod_freq_hz bus (fod_dpll_for_output x) = .ok (F, M, N) ∧ 0 < F

/-- Assertion that no sleep takes the bus out of `bus_ready`. -/
def device_keeps_ready (hw : device_t) (cfg : discipline_cfg_t) : Prop :=
  ∀ k bus, bus_ready cfg bus → bus_ready cfg (hw k bus)

/-- A device that leaves every register as it is while the program sleeps. -/
def device_idle : device_t := fun _ bus => bus

/-- A register file whose accesses all succeed, holding the FOD numerator 100 (raw
denominator 0) for DPLL5 and DPLL6 and zero everywhere else. -/
def bus_fod_100 : cm_bus_t :=
  ⟨fun a => if a = 0xC758 ∨ a = 0xC79C then 100 else 0, fun _ => 0, fun _ => 0⟩

/-- A register file whose accesses all succeed and whose `DPLL5_PHASE_STATUS` holds
6000000000 units of 50 ps, that is 0.3 s (bytes `00 BC A0 65 01` at `0xC140`). -/
def bus_phase_03 : cm_bus_t :=
  ⟨fun a => if a = 0xC141 then 0xBC else if a = 0xC142 then 0xA0
      else if a = 0xC143 then 0x65 else if a = 0xC144 then 0x01 else 0,
    fun _ => 0, fun _ => 0⟩

/-- A register file of zeros on which every write succeeds and every read succeeds except
a read that starts at `0xC848`, the `DPLL_WR_FREQ` register of channel 2, which fails
with code `-1`. -/
def bus_readback_fails : cm_bus_t :=
  ⟨fun _ => 0, fun a => if a = 0xC848 then -1 else 0, fun _ => 0⟩

/-- A register file of zeros on which every read fails with code `-5`. -/
def bus_read_fails : cm_bus_t :=
  ⟨fun _ => 0, fun _ => -5, fun _ => 0⟩

/-! ## Helpers of `cm_dpll_utils.c` and `renesas_cm8a34001_tables.c` outside the servo -/

/-- Helper `cm_read_dpll_fod_freq_hz` of `cm_dpll_utils.c` (pointers not null), with the
register names it passes to `cm_string_read_bytes`: on success `(hz, M, N)` with `N` the
denominator after `if (N == 0) N = 1`. -/
def cm_read_dpll_fod_freq_hz (bus : cm_bus_t) (dpll_idx : Nat) :
    Except Int (ℚ × Nat × Nat) :=
  match cm_string_read_bytes bus "DPLL_Ctrl" dpll_idx "DPLL_FOD_FREQ_M_0_7" 6 with
  | .error rc => .error rc
  | .ok bufM =>
    match cm_string_read_bytes bus "DPLL_Ctrl" dpll_idx "DPLL_FOD_FREQ_N_0_7" 2 with
    | .error rc => .error rc
    | .ok bufN =>
      let M : Nat := (byte_at bufM 0 <<< 0) ||| (byte_at bufM 1 <<< 8)
        ||| (byte_at bufM 2 <<< 16) ||| (byte_at bufM 3 <<< 24)
        ||| (byte_at bufM 4 <<< 32) ||| (byte_at bufM 5 <<< 40)
      let N : Nat := (byte_at bufN 0 ||| (byte_at bufN 1 <<< 8)) % 2 ^ 16
      let N : Nat := if N = 0 then 1 else N
      .ok ((M : ℚ) / (N : ℚ), M, N)

/-- The callback `bus->read8` as the shipped shim `cm_spi_read8` implements it, through
`cm_read8`: the code, and the byte stored through `val` (nothing is stored when the
read fails). -/
def cm_read8 (bus : cm_bus_t) (addr : Nat) : Except Int Nat :=
  match bus.read addr 1 with
  | .error rc => .error rc
  | .ok b => .ok (byte_at b 0)

/-- The callback `bus->write8` through `cm_write8`. -/
def cm_write8 (bus : cm_bus_t) (addr : Nat) (v : Nat) : Int × cm_bus_t :=
  bus.write addr [v]

/-- Helper `cm_string_trigger_rw` (`bus` not null): `reg_value` starts at 0, the codes of
`cm_read8` and `cm_write8` are dropped, and the function returns 0 once the address is
resolved. -/
def cm_string_trigger_rw (bus : cm_bus_t) (mod_name : String) (inst : Nat)
    (reg_name : String) : Int × cm_bus_t :=
  match cm_resolve_reg_addr mod_name inst reg_name with
  | .error rc => (rc, bus)
  | .ok addr =>
    let reg_value : Nat :=
      match cm_read8 bus addr with
      | .error _ => 0
      | .ok v => v
    (0, (cm_write8 bus addr reg_value).2)

/-- Helper `cm_field_write8` of `renesas_cm8a34001_tables.h`: read, merge the field,
write; it returns the code of a failed read without writing. -/
def cm_field_write8 (bus : cm_bus_t) (a sh w val : Nat) : Int × cm_bus_t :=
  let cm_mask8 : Nat := if w ≥ 8 then 0xFF else (1 <<< w) - 1
  match cm_read8 bus a with
  | .error rc => (rc, bus)
  | .ok v =>
    let m := (cm_mask8 <<< sh) % 256
    let v := ((v &&& (m ^^^ 0xFF)) ||| ((val &&& cm_mask8) <<< sh)) % 256
    cm_write8 bus a v

/-- The macro `DPLL_MAX_M`, `(1ULL << 48) - 1`. -/
def DPLL_MAX_M : Nat := (1 <<< 48) - 1

/-- The macro `DPLL_MAX_N`. -/
def DPLL_MAX_N : Nat := 65535

/-- The constant `DBL_MAX` of `float.h` for IEEE doubles. -/
def DBL_MAX : ℚ := 2 ^ 1024 - 2 ^ 971

/-- The locals `best_err`, `best_M`, `best_N` of `dpll_compute_input_ratio`. -/
structure ratio_best_t where
  best_err : ℚ
  best_M : Nat
  best_N : Nat

/-- The `for` loop of `dpll_compute_input_ratio` with `k` values of `N` still to try,
starting at `N`; it leaves at once when the error is 0. -/
def dpll_compute_input_ratio_loop (freq_hz : ℚ) : Nat → Nat → ratio_best_t → ratio_best_t
  | 0, _, b => b
  | k + 1, N, b =>
    let m_real := freq_hz * (N : ℚ)
    if m_real > (DPLL_MAX_M : ℚ) then dpll_compute_input_ratio_loop freq_hz k (N + 1) b
    else
      let M := u64_of_s64 (llround m_real)
      let realized := (M : ℚ) / (N : ℚ)
      let err := |realized - freq_hz|
      if err < b.best_err then
        if err = 0 then { best_err := err, best_M := M, best_N := N }
        else dpll_compute_input_ratio_loop freq_hz k (N + 1)
          { best_err := err, best_M := M, best_N := N }
      else dpll_compute_input_ratio_loop freq_hz k (N + 1) b

/-- Function `dpll_compute_input_ratio` (pointers not null): the code, or
`(M, N_reg, actual_hz, error_hz)`. -/
def dpll_compute_input_ratio (freq_hz : ℚ) : Except Int (Nat × Nat × ℚ × ℚ) :=
  if ¬ (freq_hz > 0) then .error (-2)
  else
    let b := dpll_compute_input_ratio_loop freq_hz DPLL_MAX_N 1
      { best_err := DBL_MAX, best_M := 0, best_N := 1 }
    if b.best_M = 0 ∧ b.best_N = 1 then .error (-3)
    else
      let realized := (b.best_M : ℚ) / (b.best_N : ℚ)
      let err := realized - freq_hz
      .ok (b.best_M, if b.best_N = 1 then 0 else b.best_N % 2 ^ 16, realized, err)

/-- Inline helper `dpll_compute_page_from_addr` of `linux_dpll.h`: the four bytes
written to the page register for a 16-bit address. -/
def dpll_compute_page_from_addr (addr : Nat) : List Nat :=
  let a7 : Nat := if addr &&& 0x0080 ≠ 0 then 1 else 0
  let hi : Nat := (addr >>> 8) &&& 0xFF
  [if a7 ≠ 0 then 0x80 else 0x00, hi, 0x10, 0x20]

/-- The command byte of `dpll_read_seq` / `dpll_write_seq`: the offset `A6..A0` of the
start address inside the selected page. -/
def dpll_seq_offset (start_addr : Nat) : Nat := start_addr &&& 0x7F

/-- Assertion that a burst of `len` bytes at a named register stays in one page: the
register resolves to an address `a` with `a % 128 + len <= 128`, and every byte of the
burst has the page bytes of `a` and the next offset after the command byte. -/
def burst_in_one_page (mod_name : String) (inst : Nat) (reg_name : String) (len : Nat) :
    Prop :=
  ∃ a, cm_resolve_reg_addr mod_name inst reg_name = .ok a ∧ a % 128 + len ≤ 128
    ∧ ∀ k < len, dpll_compute_page_from_addr (a + k) = dpll_compute_page_from_addr a
        ∧ dpll_seq_offset (a + k) = dpll_seq_offset a + k

/-! ## Reference notions for the measurement window -/

/-- The world after `k` sleeps of `interval_sec` each. -/
def sleep_iter (hw : device_t) (cfg : discipline_cfg_t) : Nat → world_t → world_t
  | 0, w => w
  | k + 1, w => sleep_iter hw cfg k (sleep_sec hw w cfg.interval_sec)

/-- The outlier gate: the sample is dropped. -/
def outlier_drop (cfg : discipline_cfg_t) (p : ℚ) : Prop :=
  cfg.max_abs_phase_sec > 0 ∧ |p| > cfg.max_abs_phase_sec

/-- A register file whose accesses all succeed, with the FOD numerator 100 for DPLL5 and
DPLL6 and `DPLL5_PHASE_STATUS` holding 6000000000 units of 50 ps, that is 0.3 s. -/
def bus_phase_03_fod_100 : cm_bus_t :=
  ⟨fun a => if a = 0xC758 ∨ a = 0xC79C then 100 else if a = 0xC141 then 0xBC
      else if a = 0xC142 then 0xA0 else if a = 0xC143 then 0x65
      else if a = 0xC144 then 0x01 else 0,
    fun _ => 0, fun _ => 0⟩

/-- A register file holding `0x5A` in every byte, on which every write succeeds and
every read fails with code `-1`. -/
def bus_5a_read_fails : cm_bus_t :=
  ⟨fun _ => 0x5A, fun _ => -1, fun _ => 0⟩

/-! ## Binary64 values of the servo -/

/-- Conversion `phase_s36_to_seconds` in binary64: `(double)phase_s36 * CM_ITDC_UI_SEC`
with `CM_ITDC_UI_SEC = (1.0 / (32.0 * CM_ITDC_HZ))`, each operation rounded (the
conversion of a 36-bit integer and the product `32.0 * CM_ITDC_HZ` are exact). -/
def phase_s36_to_seconds_f64 (phase_s36 : Int) : ℚ :=
  f64 ((phase_s36 : ℚ) * f64 (1 / f64 (32 * CM_ITDC_HZ)))

/-- The command fraction of the hand-off in binary64: `cmd_frac0 = cmd_ppb0 * 1e-9` (after
a flip `(cmd_ppb0 * 1e-9) / 1.0`, the same value). -/
def s1_cmd_frac0_f64 (cmd_ppb0 : ℚ) : ℚ := f64 (f64 cmd_ppb0 * f64 (1 / 10 ^ 9))

/-- The integral seed of the hand-off in binary64:
`integ = cmd_frac0 / (CM_DEFAULT_POLARITY * cfg->ki)` when `cfg->ki > 0.0`, else `0.0`. -/
def s1_integ_seed_f64 (cfg : discipline_cfg_t) (cmd_frac0 : ℚ) : ℚ :=
  if f64 cfg.ki > 0 then f64 (cmd_frac0 / f64 (CM_DEFAULT_POLARITY * f64 cfg.ki)) else 0

/-- The command fraction of `do_s2_slew` in binary64, each operation rounded: the
integral update, the PI sum and the clamp to `max_abs_ppb * 1e-9`.  (With `phase_sec = 0`
the sum is the rounded product `ki * integ` also when the compiler fuses the
multiplication into the addition.) -/
def do_s2_slew_cmd_frac_f64 (cfg : discipline_cfg_t) (integ phase_sec dt_sec : ℚ) : ℚ :=
  let polarity := CM_DEFAULT_POLARITY
  let integ := f64 (integ + f64 (phase_sec * dt_sec))
  let cmd_frac := f64 (polarity * f64 (f64 (f64 cfg.kp * phase_sec) + f64 (f64 cfg.ki * integ)))
  if f64 cfg.max_abs_ppb > 0 then
    let max_frac := f64 (f64 cfg.max_abs_ppb * f64 (1 / 10 ^ 9))
    clamp_d cmd_frac (-max_frac) max_frac
  else cmd_frac

/-- A register file whose accesses all succeed, holding the FOD numerator 500000000
(bytes `00 65 CD 1D` at `0xC758`, raw denominator 0) for DPLL5 and zero everywhere
else. -/
def bus_fod_500mhz : cm_bus_t :=
  ⟨fun a => if a = 0xC759 then 0x65 else if a = 0xC75A then 0xCD
      else if a = 0xC75B then 0x1D else 0,
    fun _ => 0, fun _ => 0⟩

/-- The default configuration with `--ki 0.7 --max-abs-ppb 99.92007282688675`. -/
def cfg_ki_07 : discipline_cfg_t :=
  { main_default_cfg with ki := 7 / 10, max_abs_ppb := 9992007282688675 / 10 ^ 14 }

/-! ## Machine-word lemmas -/

theorem or_shl_eq_add (a b k : Nat) (h : a < 2 ^ k) : a ||| (b <<< k) = a + b * 2 ^ k := by
  rw [Nat.shiftLeft_eq, Nat.lor_comm, Nat.mul_comm b, Nat.add_comm, Nat.mul_add_lt_is_or h]

theorem byte_at_lt (buf : List Nat) (i : Nat) : byte_at buf i < 256 := by
  unfold byte_at; omega

theorem and_ff_eq_mod (x : Nat) : x &&& 0xFF = x % 256 := by
  have := Nat.and_pow_two_sub_one_eq_mod x 8
  simpa using this

theorem sign_bit_ne_zero_iff (v k : Nat) (hv : v < 2 ^ (k + 1)) :
    v &&& (1 <<< k) ≠ 0 ↔ 2 ^ k ≤ v := by
  rw [Nat.one_shiftLeft, Nat.and_two_pow, Nat.testBit_to_div_mod]
  have hk : 0 < 2 ^ k := Nat.two_pow_pos k
  have hdiv : v / 2 ^ k < 2 := by
    rw [Nat.div_lt_iff_lt_mul hk]; rw [pow_succ] at hv; omega
  constructor
  · intro h
    by_contra hlt
    push_neg at hlt
    have : v / 2 ^ k = 0 := Nat.div_eq_of_lt hlt
    simp [this] at h
  · intro h
    have h1 : 1 ≤ v / 2 ^ k := (Nat.one_le_div_iff hk).mpr h
    have h2 : v / 2 ^ k = 1 := by omega
    simp [h2]

theorem sign_extend_s64 (v k : Nat) (hk : k < 63) (hv : v < 2 ^ k) :
    s64_of_u64 (u64_of_s64 (s64_of_u64 v) ||| u64_of_s64 (-(s64_of_u64 ((1 <<< k) - 1)) - 1))
      = (v : Int) - 2 ^ k := by
  have hk63 : 2 ^ k ≤ 2 ^ 62 := Nat.pow_le_pow_right (by norm_num) (by omega)
  have hkpos : 0 < 2 ^ k := Nat.two_pow_pos k
  have hv64 : v % 2 ^ 64 = v := Nat.mod_eq_of_lt (by omega)
  have hs : s64_of_u64 v = (v : Int) := by
    unfold s64_of_u64; rw [hv64]; rw [if_pos (by omega)]
  have hm64 : (2 ^ k - 1) % 2 ^ 64 = 2 ^ k - 1 := Nat.mod_eq_of_lt (by omega)
  have hmask : s64_of_u64 ((1 <<< k) - 1) = ((2 ^ k - 1 : Nat) : Int) := by
    unfold s64_of_u64; rw [Nat.one_shiftLeft, hm64]; rw [if_pos (by omega)]
  have hu : u64_of_s64 (v : Int) = v := by
    unfold u64_of_s64
    have : ((v : Int) % 2 ^ 64) = (v : Int) := Int.emod_eq_of_lt (by omega) (by omega)
    rw [this]; simp
  have hnot : u64_of_s64 (-(((2 ^ k - 1 : Nat)) : Int) - 1) = 2 ^ k * (2 ^ (64 - k) - 1) := by
    unfold u64_of_s64
    have e1 : (2 : Nat) ^ k * 2 ^ (64 - k) = 2 ^ 64 := by
      rw [← pow_add]; congr 1; omega
    have hge : 1 ≤ 2 ^ (64 - k) := Nat.one_le_two_pow
    have e2 : 2 ^ k * (2 ^ (64 - k) - 1) = 2 ^ 64 - 2 ^ k := by
      rw [Nat.mul_sub, e1, Nat.mul_one]
    rw [e2]
    have e3 : (-(((2 ^ k - 1 : Nat)) : Int) - 1) = -((2 ^ k : Nat) : Int) := by
      have : ((2 ^ k - 1 : Nat) : Int) = ((2 ^ k : Nat) : Int) - 1 := by
        rw [Nat.cast_sub hkpos]; simp
      rw [this]; ring
    rw [e3]
    have e4 : (-((2 ^ k : Nat) : Int)) % 2 ^ 64 = ((2 ^ 64 - 2 ^ k : Nat) : Int) := by
      generalize (2 : Nat) ^ k = P at hk63 hkpos ⊢
      omega
    rw [e4]; simp
  rw [hs, hmask, hu, hnot, Nat.lor_comm, ← Nat.mul_add_lt_is_or hv]
  unfold s64_of_u64
  have e1 : (2 : Nat) ^ k * 2 ^ (64 - k) = 2 ^ 64 := by
    rw [← pow_add]; congr 1; omega
  have hge : 1 ≤ 2 ^ (64 - k) := Nat.one_le_two_pow
  have e2 : 2 ^ k * (2 ^ (64 - k) - 1) = 2 ^ 64 - 2 ^ k := by
    rw [Nat.mul_sub, e1, Nat.mul_one]
  rw [e2]
  have hlt : 2 ^ 64 - 2 ^ k + v < 2 ^ 64 := by omega
  rw [Nat.mod_eq_of_lt hlt, if_neg (by omega)]
  rw [Nat.cast_add, Nat.cast_sub (by omega)]
  push_cast; ring

theorem s64_of_u64_small (v : Nat) (hv : v < 2 ^ 63) : s64_of_u64 v = (v : Int) := by
  unfold s64_of_u64
  rw [Nat.mod_eq_of_lt (by omega), if_pos hv]

theorem le_assemble5 (b0 b1 b2 b3 b4 : Nat) (h0 : b0 < 256) (h1 : b1 < 256) (h2 : b2 < 256)
    (h3 : b3 < 256) :
    (b0 <<< 0) ||| (b1 <<< 8) ||| (b2 <<< 16) ||| (b3 <<< 24) ||| (b4 <<< 32)
      = b0 + b1 * 2 ^ 8 + b2 * 2 ^ 16 + b3 * 2 ^ 24 + b4 * 2 ^ 32 := by
  rw [Nat.shiftLeft_zero, or_shl_eq_add b0 b1 8 (by omega),
    or_shl_eq_add _ b2 16 (by omega), or_shl_eq_add _ b3 24 (by omega),
    or_shl_eq_add _ b4 32 (by omega)]

theorem le_value_five (buf : List Nat) :
    le_value buf 5 = byte_at buf 0 + byte_at buf 1 * 2 ^ 8 + byte_at buf 2 * 2 ^ 16
      + byte_at buf 3 * 2 ^ 24 + byte_at buf 4 * 2 ^ 32 := by
  simp [le_value]

theorem phase_status_decode_eq (buf : List Nat) :
    phase_status_decode buf = signed_of_bits 36 (le_value buf 5 % 2 ^ 36) := by
  have hb := byte_at_lt buf
  unfold phase_status_decode
  simp only []
  rw [le_assemble5 _ _ _ _ _ (hb 0) (hb 1) (hb 2) (hb 3), ← le_value_five,
    Nat.one_shiftLeft, Nat.and_pow_two_sub_one_eq_mod]
  have hv : le_value buf 5 % 2 ^ 36 < 2 ^ 36 := Nat.mod_lt _ (by norm_num)
  generalize le_value buf 5 % 2 ^ 36 = v at hv
  have hbit := sign_bit_ne_zero_iff v 35 (by simpa using hv)
  have hext := sign_extend_s64 v 36 (by norm_num) hv
  rw [Nat.one_shiftLeft] at hext
  unfold signed_of_bits
  by_cases h : 2 ^ 35 ≤ v
  · rw [if_pos (hbit.mpr h), hext, if_neg (by omega)]
  · rw [if_neg (fun hh => h (hbit.mp hh)), if_pos (by omega), s64_of_u64_small v (by omega)]

/-! ## Rounding and wrapping lemmas -/

theorem llround_nearest (x : ℚ) : |((llround x : Int) : ℚ) - x| ≤ 1 / 2 := by
  unfold llround
  split_ifs with h
  · have h1 := Int.floor_le (x + 1 / 2)
    have h2 := Int.lt_floor_add_one (x + 1 / 2)
    rw [abs_le]; constructor <;> linarith
  · have h1 := Int.floor_le (-x + 1 / 2)
    have h2 := Int.lt_floor_add_one (-x + 1 / 2)
    push_cast
    rw [abs_le]; constructor <;> linarith

theorem wrap_phase_sec_down_lt (x : ℚ) : wrap_phase_sec_down x < 1 / 2 := by
  induction x using wrap_phase_sec_down.induct with
  | case1 x h ih => rw [wrap_phase_sec_down, if_pos h]; exact ih
  | case2 x h => rw [wrap_phase_sec_down, if_neg h]; exact lt_of_not_ge h

theorem wrap_phase_sec_down_ge (x : ℚ) (hx : -(1 / 2) ≤ x) :
    -(1 / 2) ≤ wrap_phase_sec_down x := by
  induction x using wrap_phase_sec_down.induct with
  | case1 x h ih => rw [wrap_phase_sec_down, if_pos h]; exact ih (by linarith)
  | case2 x h => rw [wrap_phase_sec_down, if_neg h]; exact hx

theorem wrap_phase_sec_down_of_lt (x : ℚ) (hx : x < 1 / 2) : wrap_phase_sec_down x = x := by
  rw [wrap_phase_sec_down, if_neg (not_le.mpr hx)]

theorem wrap_phase_sec_up_ge (x : ℚ) : -(1 / 2) ≤ wrap_phase_sec_up x := by
  induction x using wrap_phase_sec_up.induct with
  | case1 x h ih => rw [wrap_phase_sec_up, if_pos h]; exact ih
  | case2 x h => rw [wrap_phase_sec_up, if_neg h]; exact le_of_not_lt h

theorem wrap_phase_sec_up_lt (x : ℚ) (hx : x < 1 / 2) : wrap_phase_sec_up x < 1 / 2 := by
  induction x using wrap_phase_sec_up.induct with
  | case1 x h ih => rw [wrap_phase_sec_up, if_pos h]; exact ih (by linarith)
  | case2 x h => rw [wrap_phase_sec_up, if_neg h]; exact hx

theorem wrap_phase_sec_up_of_ge (x : ℚ) (hx : -(1 / 2) ≤ x) : wrap_phase_sec_up x = x := by
  rw [wrap_phase_sec_up, if_neg (not_lt.mpr hx)]

theorem sat_eq_clamp_d (x lo hi : ℚ) (h : lo ≤ hi) : clamp_d x lo hi = sat lo hi x := by
  unfold sat clamp_d
  split_ifs with h1 h2
  · rw [min_eq_right (by linarith), max_eq_left (by linarith)]
  · rw [min_eq_left (by linarith), max_eq_right h]
  · rw [min_eq_right (by linarith), max_eq_right (by linarith)]

theorem clamp_s42_eq_sat (x : Int) : clamp_s42 x = sat (-(2 ^ 41)) (2 ^ 41 - 1) x := by
  unfold clamp_s42 sat
  simp only []
  split_ifs with h1 h2 <;> omega

theorem ldexp_frac_bits (x : ℚ) : ldexp x CM_WR_FREQ_FRAC_BITS = x * 2 ^ 53 := by
  unfold ldexp CM_WR_FREQ_FRAC_BITS
  norm_num

theorem wr_freq_word_eq (f : ℚ) : wr_freq_word f = clamp_s42 (llround (f * 2 ^ 53)) := by
  unfold wr_freq_word
  rw [ldexp_frac_bits]

/-! ## Binary64 rounding -/

theorem round_half_even_err (y : ℚ) : |((round_half_even y : Int) : ℚ) - y| ≤ 1 / 2 := by
  have h1 := Int.floor_le y
  have h2 := Int.lt_floor_add_one y
  unfold round_half_even
  simp only []
  rw [abs_le]
  split_ifs with ha hb hc <;> push_cast <;> constructor <;> linarith

theorem round_half_even_intCast (n : Int) : round_half_even (n : ℚ) = n := by
  unfold round_half_even
  simp

theorem round_half_even_mono (a b : ℚ) (h : a ≤ b) : round_half_even a ≤ round_half_even b := by
  have ha1 := Int.floor_le a
  have ha2 := Int.lt_floor_add_one a
  have hb1 := Int.floor_le b
  have hb2 := Int.lt_floor_add_one b
  have hfl : ⌊a⌋ ≤ ⌊b⌋ := Int.floor_mono h
  have hlo : ∀ y : ℚ, ⌊y⌋ ≤ round_half_even y := by
    intro y
    unfold round_half_even
    simp only []
    split_ifs <;> omega
  have hhi : ∀ y : ℚ, round_half_even y ≤ ⌊y⌋ + 1 := by
    intro y
    unfold round_half_even
    simp only []
    split_ifs <;> omega
  rcases lt_or_eq_of_le hfl with hlt | heq
  · calc round_half_even a ≤ ⌊a⌋ + 1 := hhi a
      _ ≤ ⌊b⌋ := hlt
      _ ≤ round_half_even b := hlo b
  · unfold round_half_even
    simp only []
    rw [heq]
    have hr : a - (⌊b⌋ : ℚ) ≤ b - (⌊b⌋ : ℚ) := by linarith
    split_ifs <;> first | omega | (exfalso; linarith)

theorem round_half_even_neg (y : ℚ) : round_half_even (-y) = -round_half_even y := by
  have h1 := Int.floor_le y
  have h2 := Int.lt_floor_add_one y
  by_cases hint : (⌊y⌋ : ℚ) = y
  · rw [← hint, ← Int.cast_neg, round_half_even_intCast, round_half_even_intCast]
  · have hlt : (⌊y⌋ : ℚ) < y := lt_of_le_of_ne h1 hint
    have hfn : ⌊-y⌋ = -⌊y⌋ - 1 := by
      rw [Int.floor_eq_iff]
      push_cast
      constructor <;> linarith
    unfold round_half_even
    simp only []
    rw [hfn]
    push_cast
    split_ifs <;> first | omega | (exfalso; linarith)

theorem f64_zero : f64 0 = 0 := by
  unfold f64
  rw [if_pos rfl]

theorem log2_eq (x : ℚ) (e : Int) (h1 : (2 : ℚ) ^ e ≤ |x|) (h2 : |x| < (2 : ℚ) ^ (e + 1)) :
    Int.log 2 |x| = e := by
  have hpos : 0 < |x| := lt_of_lt_of_le (zpow_pos (by norm_num) e) h1
  have ha : e ≤ Int.log 2 |x| := by
    rw [← Int.zpow_le_iff_le_log (by norm_num) hpos]
    exact_mod_cast h1
  have hb : Int.log 2 |x| < e + 1 := by
    rw [← Int.lt_zpow_iff_log_lt (by norm_num) hpos]
    exact_mod_cast h2
  omega

theorem log2_bounds (x : ℚ) (hx : x ≠ 0) :
    (2 : ℚ) ^ (Int.log 2 |x|) ≤ |x| ∧ |x| < (2 : ℚ) ^ (Int.log 2 |x| + 1) := by
  have hpos : 0 < |x| := abs_pos.mpr hx
  constructor
  · have := Int.zpow_log_le_self (b := 2) (r := |x|) (by norm_num) hpos
    exact_mod_cast this
  · have := Int.lt_zpow_succ_log_self (b := 2) (by norm_num) |x|
    exact_mod_cast this

/-- Evaluation of `f64` once the binade of `x` is known. -/
theorem f64_eval (x : ℚ) (e : Int) (h1 : (2 : ℚ) ^ e ≤ |x|) (h2 : |x| < (2 : ℚ) ^ (e + 1)) :
    f64 x = (round_half_even (x / (2 : ℚ) ^ (max e (-1022) - 52)) : ℚ)
      * (2 : ℚ) ^ (max e (-1022) - 52) := by
  have hpos : 0 < |x| := lt_of_lt_of_le (zpow_pos (by norm_num) e) h1
  unfold f64
  rw [if_neg (abs_pos.mp hpos)]
  simp only []
  rw [log2_eq x e h1 h2]

theorem f64_quantum_err (x : ℚ) (hx : x ≠ 0) :
    |f64 x - x| ≤ (2 : ℚ) ^ (max (Int.log 2 |x|) (-1022) - 53) := by
  unfold f64
  rw [if_neg hx]
  simp only []
  generalize max (Int.log 2 |x|) (-1022) = e
  have hq : (0 : ℚ) < 2 ^ (e - 52) := zpow_pos (by norm_num) _
  have herr := round_half_even_err (x / (2 : ℚ) ^ (e - 52))
  have e1 : ((round_half_even (x / (2 : ℚ) ^ (e - 52)) : Int) : ℚ) * 2 ^ (e - 52) - x
      = (((round_half_even (x / (2 : ℚ) ^ (e - 52)) : Int) : ℚ) - x / 2 ^ (e - 52))
        * 2 ^ (e - 52) := by
    field_simp
  rw [e1, abs_mul, abs_of_pos hq]
  have e2 : (2 : ℚ) ^ (e - 53) = 1 / 2 * 2 ^ (e - 52) := by
    rw [show e - 52 = (e - 53) + 1 by ring, zpow_add_one₀ (by norm_num)]
    ring
  rw [e2]
  exact mul_le_mul_of_nonneg_right herr (le_of_lt hq)

/-- Relative error of a rounding in the normal range. -/
theorem f64_rel_err (x : ℚ) (h : (2 : ℚ) ^ (-1022 : Int) ≤ |x|) :
    |f64 x - x| ≤ |x| * (2 : ℚ) ^ (-53 : Int) := by
  have hpos : 0 < |x| := lt_of_lt_of_le (zpow_pos (by norm_num) _) h
  have hx : x ≠ 0 := abs_pos.mp hpos
  have hlog : (-1022 : Int) ≤ Int.log 2 |x| := by
    rw [← Int.zpow_le_iff_le_log (by norm_num) hpos]
    exact_mod_cast h
  have hq := f64_quantum_err x hx
  rw [max_eq_left hlog] at hq
  have hb := (log2_bounds x hx).1
  calc |f64 x - x| ≤ (2 : ℚ) ^ (Int.log 2 |x| - 53) := hq
    _ = (2 : ℚ) ^ (Int.log 2 |x|) * 2 ^ (-53 : Int) := by
        rw [← zpow_add₀ (by norm_num)]; rfl
    _ ≤ |x| * 2 ^ (-53 : Int) := mul_le_mul_of_nonneg_right hb (le_of_lt (zpow_pos (by norm_num) _))

/-- Error of a rounding, gradual underflow included. -/
theorem f64_err (x : ℚ) :
    |f64 x - x| ≤ |x| * (2 : ℚ) ^ (-53 : Int) + (2 : ℚ) ^ (-1075 : Int) := by
  by_cases hx : x = 0
  · rw [hx, f64_zero]
    norm_num
  · have hq := f64_quantum_err x hx
    have hb := (log2_bounds x hx).1
    have hp1 : (0 : ℚ) ≤ |x| * 2 ^ (-53 : Int) :=
      mul_nonneg (abs_nonneg _) (le_of_lt (zpow_pos (by norm_num) _))
    have hp2 : (0 : ℚ) < 2 ^ (-1075 : Int) := zpow_pos (by norm_num) _
    rcases le_total (Int.log 2 |x|) (-1022) with hl | hl
    · rw [max_eq_right hl] at hq
      have : (2 : ℚ) ^ ((-1022 : Int) - 53) = 2 ^ (-1075 : Int) := by norm_num
      rw [this] at hq
      linarith
    · have := f64_rel_err x (by
        refine le_trans ?_ hb
        exact zpow_le_zpow_right₀ (by norm_num) hl)
      linarith

theorem f64_neg (x : ℚ) : f64 (-x) = -f64 x := by
  by_cases hx : x = 0
  · rw [hx, neg_zero, f64_zero, neg_zero]
  · unfold f64
    rw [if_neg hx, if_neg (neg_ne_zero.mpr hx)]
    simp only [abs_neg]
    rw [neg_div, round_half_even_neg]
    push_cast
    ring

theorem zpow_split53 (e : Int) : (2 : ℚ) ^ (53 : ℕ) * 2 ^ (e - 52) = 2 ^ (e + 1) := by
  rw [← zpow_natCast, ← zpow_add₀ (by norm_num)]
  congr 1
  push_cast
  ring

theorem zpow_split52 (e : Int) : (2 : ℚ) ^ (52 : ℕ) * 2 ^ (e - 52) = 2 ^ e := by
  rw [← zpow_natCast, ← zpow_add₀ (by norm_num)]
  congr 1
  push_cast
  ring

theorem cast_two_pow_53 : (((2 ^ 53 : Int)) : ℚ) = (2 : ℚ) ^ (53 : ℕ) := by norm_num

theorem cast_two_pow_52 : (((2 ^ 52 : Int)) : ℚ) = (2 : ℚ) ^ (52 : ℕ) := by norm_num

theorem f64_nonneg (x : ℚ) (h : 0 ≤ x) : 0 ≤ f64 x := by
  by_cases hx : x = 0
  · rw [hx, f64_zero]
  · unfold f64
    rw [if_neg hx]
    simp only []
    have hq : (0 : ℚ) < 2 ^ (max (Int.log 2 |x|) (-1022) - 52) := zpow_pos (by norm_num) _
    have h0 : round_half_even 0 ≤ round_half_even (x / 2 ^ (max (Int.log 2 |x|) (-1022) - 52)) :=
      round_half_even_mono _ _ (div_nonneg h (le_of_lt hq))
    have h00 : round_half_even 0 = 0 := by
      have := round_half_even_intCast 0
      simpa using this
    rw [h00] at h0
    exact mul_nonneg (by exact_mod_cast h0) (le_of_lt hq)

theorem f64_mono_pos (x y : ℚ) (hx : 0 < x) (hxy : x ≤ y) : f64 x ≤ f64 y := by
  have hy : 0 < y := lt_of_lt_of_le hx hxy
  have hx0 : x ≠ 0 := ne_of_gt hx
  have hy0 : y ≠ 0 := ne_of_gt hy
  have hbx := log2_bounds x hx0
  have hby := log2_bounds y hy0
  rw [abs_of_pos hx] at hbx
  rw [abs_of_pos hy] at hby
  have hL : Int.log 2 x ≤ Int.log 2 y := Int.log_mono_right hx hxy
  unfold f64
  rw [if_neg hx0, if_neg hy0]
  simp only []
  rw [abs_of_pos hx, abs_of_pos hy]
  generalize hex : max (Int.log 2 x) (-1022) = ex
  generalize hey : max (Int.log 2 y) (-1022) = ey
  have hle : ex ≤ ey := by
    rw [← hex, ← hey]
    exact max_le_max hL (le_refl _)
  have hqx : (0 : ℚ) < 2 ^ (ex - 52) := zpow_pos (by norm_num) _
  have hqy : (0 : ℚ) < 2 ^ (ey - 52) := zpow_pos (by norm_num) _
  rcases lt_or_eq_of_le hle with hlt | heq
  · -- different binades: `f64 x ≤ 2^(ex+1) ≤ 2^ey ≤ f64 y`
    have hey1 : ey = Int.log 2 y := by
      rw [← hey]
      apply max_eq_left
      have : (-1022 : Int) ≤ ex := by rw [← hex]; exact le_max_right _ _
      have : ex < max (Int.log 2 y) (-1022) := by rw [hey]; exact hlt
      rcases max_cases (Int.log 2 y) (-1022) with ⟨h1, h2⟩ | ⟨h1, h2⟩ <;> omega
    have hxup : x ≤ (2 : ℚ) ^ (ex + 1) := by
      have h1 : Int.log 2 x + 1 ≤ ex + 1 := by
        rw [← hex]
        have := le_max_left (Int.log 2 x) (-1022)
        omega
      exact le_trans (le_of_lt hbx.2) (zpow_le_zpow_right₀ (by norm_num) h1)
    have hfx : ((round_half_even (x / 2 ^ (ex - 52)) : Int) : ℚ) * 2 ^ (ex - 52)
        ≤ (2 : ℚ) ^ (ex + 1) := by
      have h1 : x / 2 ^ (ex - 52) ≤ (((2 ^ 53 : Int)) : ℚ) := by
        rw [div_le_iff₀ hqx, cast_two_pow_53, zpow_split53]
        exact hxup
      have h2 := round_half_even_mono _ _ h1
      rw [round_half_even_intCast] at h2
      have h3 : ((round_half_even (x / 2 ^ (ex - 52)) : Int) : ℚ) ≤ (2 : ℚ) ^ (53 : ℕ) := by
        rw [← cast_two_pow_53]
        exact Int.cast_le.mpr h2
      calc ((round_half_even (x / 2 ^ (ex - 52)) : Int) : ℚ) * 2 ^ (ex - 52)
          ≤ (2 : ℚ) ^ (53 : ℕ) * 2 ^ (ex - 52) := mul_le_mul_of_nonneg_right h3 (le_of_lt hqx)
        _ = 2 ^ (ex + 1) := zpow_split53 ex
    have hfy : (2 : ℚ) ^ ey ≤ ((round_half_even (y / 2 ^ (ey - 52)) : Int) : ℚ) * 2 ^ (ey - 52) := by
      have h1 : (((2 ^ 52 : Int)) : ℚ) ≤ y / 2 ^ (ey - 52) := by
        rw [le_div_iff₀ hqy, cast_two_pow_52, zpow_split52, hey1]
        exact hby.1
      have h2 := round_half_even_mono _ _ h1
      rw [round_half_even_intCast] at h2
      have h3 : (2 : ℚ) ^ (52 : ℕ) ≤ ((round_half_even (y / 2 ^ (ey - 52)) : Int) : ℚ) := by
        rw [← cast_two_pow_52]
        exact Int.cast_le.mpr h2
      calc (2 : ℚ) ^ ey = (2 : ℚ) ^ (52 : ℕ) * 2 ^ (ey - 52) := (zpow_split52 ey).symm
        _ ≤ _ := mul_le_mul_of_nonneg_right h3 (le_of_lt hqy)
    have hmid : (2 : ℚ) ^ (ex + 1) ≤ 2 ^ ey := zpow_le_zpow_right₀ (by norm_num) (by omega)
    linarith
  · rw [heq]
    have h1 : x / 2 ^ (ey - 52) ≤ y / 2 ^ (ey - 52) := div_le_div_of_nonneg_right hxy (le_of_lt hqy)
    have h2 := round_half_even_mono _ _ h1
    exact mul_le_mul_of_nonneg_right (by exact_mod_cast h2) (le_of_lt hqy)

/-- Rounding to binary64 is monotone. -/
theorem f64_mono (x y : ℚ) (hxy : x ≤ y) : f64 x ≤ f64 y := by
  rcases lt_trichotomy 0 x with hx | hx | hx
  · exact f64_mono_pos x y hx hxy
  · rw [← hx, f64_zero]
    exact f64_nonneg y (by rw [← hx] at hxy; exact hxy)
  · rcases le_or_lt 0 y with hy | hy
    · have h1 := f64_nonneg (-x) (by linarith)
      rw [f64_neg] at h1
      have h2 := f64_nonneg y hy
      linarith
    · have h1 := f64_mono_pos (-y) (-x) (by linarith) (by linarith)
      rw [f64_neg, f64_neg] at h1
      linarith

theorem f64_abs (x : ℚ) : f64 |x| = |f64 x| := by
  rcases le_total 0 x with h | h
  · rw [abs_of_nonneg h, abs_of_nonneg (f64_nonneg x h)]
  · have h1 := f64_nonneg (-x) (by linarith)
    rw [f64_neg] at h1
    rw [abs_of_nonpos h, abs_of_nonpos (by linarith), f64_neg]

theorem f64_abs_le (x m : ℚ) (h : |x| ≤ m) : |f64 x| ≤ f64 m := by
  rw [← f64_abs]
  exact f64_mono _ _ h

/-- A value `n * 2^q` with `|n| < 2^53` and `q ≥ -1074` is a binary64 number: rounding
leaves it as it is. -/
theorem f64_of_repr (n q : Int) (hn : |n| < 2 ^ 53) (hq : -1074 ≤ q) :
    f64 ((n : ℚ) * 2 ^ q) = (n : ℚ) * 2 ^ q := by
  by_cases hn0 : n = 0
  · rw [hn0]
    simp [f64_zero]
  · have h2q : (0 : ℚ) < 2 ^ q := zpow_pos (by norm_num) _
    have hx0 : (n : ℚ) * 2 ^ q ≠ 0 := mul_ne_zero (by exact_mod_cast hn0) (ne_of_gt h2q)
    have hb := log2_bounds _ hx0
    have habs : |(n : ℚ) * 2 ^ q| = (|n| : Int) * 2 ^ q := by
      rw [abs_mul, abs_of_pos h2q]
      push_cast
      rfl
    have hlt : |(n : ℚ) * 2 ^ q| < 2 ^ (53 + q) := by
      rw [habs, zpow_add₀ (by norm_num)]
      apply mul_lt_mul_of_pos_right _ h2q
      have : ((|n| : Int) : ℚ) < ((2 ^ 53 : Int) : ℚ) := Int.cast_lt.mpr hn
      rw [cast_two_pow_53] at this
      exact_mod_cast this
    have hL : Int.log 2 |(n : ℚ) * 2 ^ q| < 53 + q := by
      have h1 := lt_of_le_of_lt hb.1 hlt
      exact (zpow_lt_zpow_iff_right₀ (by norm_num)).mp h1
    unfold f64
    rw [if_neg hx0]
    simp only []
    generalize he : max (Int.log 2 |(n : ℚ) * 2 ^ q|) (-1022) = e
    have heq : e - 52 ≤ q := by
      rw [← he]
      rcases max_cases (Int.log 2 |(n : ℚ) * 2 ^ q|) (-1022) with ⟨h1, _⟩ | ⟨h1, _⟩ <;> omega
    obtain ⟨k, hk⟩ : ∃ k : ℕ, q = (e - 52) + k := ⟨(q - (e - 52)).toNat, by omega⟩
    have hdiv : (n : ℚ) * 2 ^ q / 2 ^ (e - 52) = ((n * 2 ^ k : Int) : ℚ) := by
      rw [hk, zpow_add₀ (by norm_num), zpow_natCast]
      push_cast
      field_simp
      ring
    rw [hdiv, round_half_even_intCast]
    rw [hk, zpow_add₀ (by norm_num), zpow_natCast]
    push_cast
    ring

theorem round_half_even_abs_le (y : ℚ) (m : Int) (h : |y| ≤ (m : ℚ)) :
    |round_half_even y| ≤ m := by
  have h1 := abs_le.mp h
  have ha := round_half_even_mono _ _ h1.2
  have hb := round_half_even_mono _ _ h1.1
  rw [round_half_even_intCast] at ha
  rw [← Int.cast_neg, round_half_even_intCast] at hb
  exact abs_le.mpr ⟨hb, ha⟩

/-- The result of a rounding is a binary64 number. -/
theorem f64_idem (x : ℚ) : f64 (f64 x) = f64 x := by
  by_cases hx : x = 0
  · rw [hx, f64_zero, f64_zero]
  · have hb := log2_bounds x hx
    have hfx : f64 x = (round_half_even (x / (2 : ℚ) ^ (max (Int.log 2 |x|) (-1022) - 52)) : ℚ)
        * (2 : ℚ) ^ (max (Int.log 2 |x|) (-1022) - 52) := by
      unfold f64
      rw [if_neg hx]
    generalize he : max (Int.log 2 |x|) (-1022) = e at hfx
    have he1 : Int.log 2 |x| ≤ e := by rw [← he]; exact le_max_left _ _
    have he2 : -1022 ≤ e := by rw [← he]; exact le_max_right _ _
    have hq : (0 : ℚ) < 2 ^ (e - 52) := zpow_pos (by norm_num) _
    have hy : |x / 2 ^ (e - 52)| ≤ ((2 ^ 53 : Int) : ℚ) := by
      rw [abs_div, abs_of_pos hq, div_le_iff₀ hq, cast_two_pow_53, zpow_split53]
      exact le_trans (le_of_lt hb.2) (zpow_le_zpow_right₀ (by norm_num) (by omega))
    have hN := round_half_even_abs_le _ _ hy
    generalize round_half_even (x / 2 ^ (e - 52)) = N at hfx hN
    rw [hfx]
    rcases lt_or_eq_of_le hN with hlt | heq
    · exact f64_of_repr N (e - 52) hlt (by omega)
    · have hN2 : ∃ m : Int, N = 2 * m ∧ |m| < 2 ^ 53 := by
        refine ⟨N / 2, ?_, ?_⟩
        · rcases abs_cases N with ⟨h1, _⟩ | ⟨h1, _⟩ <;> omega
        · rcases abs_cases N with ⟨h1, _⟩ | ⟨h1, _⟩ <;>
            rcases abs_cases (N / 2) with ⟨h2, _⟩ | ⟨h2, _⟩ <;> omega
      obtain ⟨m, hm, hmlt⟩ := hN2
      have e1 : (N : ℚ) * 2 ^ (e - 52) = (m : ℚ) * 2 ^ (e - 51) := by
        rw [hm, show e - 51 = (e - 52) + 1 by ring, zpow_add_one₀ (by norm_num)]
        push_cast
        ring
      rw [e1]
      exact f64_of_repr m (e - 51) hmlt (by omega)

theorem f64_pos_of_normal (x : ℚ) (h : (2 : ℚ) ^ (-1022 : Int) ≤ x) : 0 < f64 x := by
  have hx : 0 < x := lt_of_lt_of_le (zpow_pos (by norm_num) _) h
  have herr := f64_rel_err x (by rw [abs_of_pos hx]; exact h)
  rw [abs_of_pos hx] at herr
  have h1 := (abs_le.mp herr).1
  have hu : (2 : ℚ) ^ (-53 : Int) < 1 := by norm_num
  nlinarith

/-! ## Frequency-word packing -/

theorem wr_freq_unpack_eq (rb : List Nat) :
    wr_freq_unpack rb = signed_of_bits 42 (le_value rb 6 % 2 ^ 42) := by
  have hb := byte_at_lt rb
  have hfold : (List.range 6).foldl (fun acc i => acc ||| (byte_at rb i <<< (8 * i))) 0
      = le_value rb 6 := by
    have : (List.range 6).foldl (fun acc i => acc ||| (byte_at rb i <<< (8 * i))) 0
        = (((((0 ||| (byte_at rb 0 <<< 0)) ||| (byte_at rb 1 <<< 8)) ||| (byte_at rb 2 <<< 16))
            ||| (byte_at rb 3 <<< 24)) ||| (byte_at rb 4 <<< 32)) ||| (byte_at rb 5 <<< 40) := rfl
    rw [this, Nat.zero_or, Nat.shiftLeft_zero, or_shl_eq_add _ _ 8 (hb 0),
      or_shl_eq_add _ _ 16 (by have := hb 0; have := hb 1; omega),
      or_shl_eq_add _ _ 24 (by have := hb 0; have := hb 1; have := hb 2; omega),
      or_shl_eq_add _ _ 32 (by have := hb 0; have := hb 1; have := hb 2; have := hb 3; omega),
      or_shl_eq_add _ _ 40
        (by have := hb 0; have := hb 1; have := hb 2; have := hb 3; have := hb 4; omega)]
    simp [le_value]
  unfold wr_freq_unpack
  simp only []
  rw [hfold, Nat.one_shiftLeft, Nat.and_pow_two_sub_one_eq_mod]
  have hv : le_value rb 6 % 2 ^ 42 < 2 ^ 42 := Nat.mod_lt _ (by norm_num)
  generalize le_value rb 6 % 2 ^ 42 = v at hv
  have hbit := sign_bit_ne_zero_iff v 41 (by simpa using hv)
  have hext := sign_extend_s64 v 42 (by norm_num) hv
  rw [Nat.one_shiftLeft] at hext
  unfold signed_of_bits
  by_cases h : 2 ^ 41 ≤ v
  · rw [if_pos (hbit.mpr h), hext, if_neg (by omega)]
  · rw [if_neg (fun hh => h (hbit.mp hh)), if_pos (by omega), s64_of_u64_small v (by omega)]

theorem shr_and_ff (u k : Nat) : (u >>> k) &&& 0xFF = u / 2 ^ k % 256 := by
  rw [and_ff_eq_mod, Nat.shiftRight_eq_div_pow]

theorem le_value_wr_freq_pack (w : Int) :
    le_value (wr_freq_pack w) 6 = (w % 2 ^ 42).toNat := by
  have hu : u64_of_s64 w &&& ((1 <<< 42) - 1) = (w % 2 ^ 42).toNat := by
    rw [Nat.one_shiftLeft, Nat.and_pow_two_sub_one_eq_mod]
    unfold u64_of_s64
    omega
  unfold wr_freq_pack
  simp only []
  rw [hu]
  have hlt : (w % 2 ^ 42).toNat < 2 ^ 42 := by omega
  generalize (w % 2 ^ 42).toNat = u at hlt
  simp only [le_value, byte_at, List.getD_cons_zero, List.getD_cons_succ, and_ff_eq_mod,
    shr_and_ff]
  omega

/-- Packing a word into the six `DPLL_WR_FREQ` bytes and decoding them again gives the
signed value of the low 42 bits of the word. -/
theorem wr_freq_unpack_pack (w : Int) :
    wr_freq_unpack (wr_freq_pack w) = signed_of_bits 42 ((w % 2 ^ 42).toNat) := by
  rw [wr_freq_unpack_eq, le_value_wr_freq_pack]
  congr 1
  exact Nat.mod_eq_of_lt (by omega)

theorem wr_freq_unpack_pack_of_range (w : Int) (hlo : -(2 ^ 41) ≤ w) (hhi : w ≤ 2 ^ 41 - 1) :
    wr_freq_unpack (wr_freq_pack w) = w := by
  rw [wr_freq_unpack_pack]
  unfold signed_of_bits
  split_ifs with h <;> omega

theorem llround_mem_range (x : ℚ) (lo hi : Int) (hlo : (lo : ℚ) ≤ x) (hhi : x ≤ (hi : ℚ)) :
    lo ≤ llround x ∧ llround x ≤ hi := by
  have h := abs_le.mp (llround_nearest x)
  constructor
  · have h1 : ((lo : Int) : ℚ) - 1 < ((llround x : Int) : ℚ) := by linarith [h.1]
    have h2 : lo - 1 < llround x := by exact_mod_cast h1
    omega
  · have h1 : ((llround x : Int) : ℚ) < ((hi : Int) : ℚ) + 1 := by linarith [h.2]
    have h2 : llround x < hi + 1 := by exact_mod_cast h1
    omega

/-! ## Phase-status decode -/

theorem read_phase_status_s36_of_bytes (bus : cm_bus_t) (n : Nat) (buf : List Nat)
    (hb : cm_string_read_bytes bus "Status" 0 (phase_status_reg_name n) 5 = .ok buf) :
    read_phase_status_s36 bus n = .ok (signed_of_bits 36 (le_value buf 5 % 2 ^ 36))
      ∧ cm_read_phase_status_s36 bus n = .ok (signed_of_bits 36 (le_value buf 5 % 2 ^ 36)) := by
  simp only [read_phase_status_s36, cm_read_phase_status_s36, hb, phase_status_decode_eq,
    and_self]

/-! ## Register addresses and the bus -/

theorem resolve_output_adj (o : Nat) (ho : o < 12) :
    cm_resolve_reg_addr "Output" o "OUT_PHASE_ADJ_7_0" = .ok (cm_Output_bases.getD o 0 + 0xC) := by
  interval_cases o <;> rfl

theorem resolve_output_div (o : Nat) (ho : o < 12) :
    cm_resolve_reg_addr "Output" o "OUT_DIV" = .ok (cm_Output_bases.getD o 0) := by
  interval_cases o <;> rfl

theorem resolve_output_bad (o : Nat) (ho : 12 ≤ o) (reg : String) :
    cm_resolve_reg_addr "Output" o reg = .error (-3) := by
  have hm : cm_find_module "Output" = .ok cm_Output_module := rfl
  unfold cm_resolve_reg_addr
  rw [hm]
  simp only []
  rw [if_pos (by show o ≥ 12; omega)]

theorem resolve_fod_m (d : Nat) (hd : d < 8) :
    cm_resolve_reg_addr "DPLL_Ctrl" d "FOD_FREQ_M_7_0"
      = .ok (cm_DPLL_Ctrl_bases.getD d 0 + 0x1C) := by
  interval_cases d <;> rfl

theorem resolve_fod_n (d : Nat) (hd : d < 8) :
    cm_resolve_reg_addr "DPLL_Ctrl" d "FOD_FREQ_N_7_0"
      = .ok (cm_DPLL_Ctrl_bases.getD d 0 + 0x22) := by
  interval_cases d <;> rfl

theorem resolve_dpll_ctrl_bad (d : Nat) (hd : 8 ≤ d) (reg : String) :
    cm_resolve_reg_addr "DPLL_Ctrl" d reg = .error (-3) := by
  have hm : cm_find_module "DPLL_Ctrl" = .ok cm_DPLL_Ctrl_module := rfl
  unfold cm_resolve_reg_addr
  rw [hm]
  simp only []
  rw [if_pos (by show d ≥ 8; omega)]

theorem dpll_ctrl_bases_bound (d : Nat) (hd : d < 8) :
    cm_DPLL_Ctrl_bases.getD d 0 + 0x24 ≤ 0xCA00 := by
  interval_cases d <;> decide

theorem output_bases_bound (o : Nat) (ho : o < 12) :
    0xCA14 ≤ cm_Output_bases.getD o 0 := by
  interval_cases o <;> decide

theorem output_bases_apart :
    ∀ o < 12, ∀ o1 < 12, o ≠ o1 →
      cm_Output_bases.getD o 0 + 16 ≤ cm_Output_bases.getD o1 0
        ∨ cm_Output_bases.getD o1 0 + 16 ≤ cm_Output_bases.getD o 0 := by
  decide

theorem bus_ok_write (bus : cm_bus_t) (addr : Nat) (data : List Nat) (hok : bus_ok bus) :
    bus_ok (bus.write addr data).2 := by
  unfold cm_bus_t.write
  split_ifs with h
  · exact hok
  · exact hok

theorem write_fst_of_ok (bus : cm_bus_t) (addr : Nat) (data : List Nat) (hok : bus_ok bus) :
    (bus.write addr data).1 = 0 := by
  unfold cm_bus_t.write
  rw [if_neg (by simp [(hok addr).2])]

theorem read_write_disjoint (bus : cm_bus_t) (addr : Nat) (data : List Nat) (a len : Nat)
    (h : a + len ≤ addr ∨ addr + data.length ≤ a) :
    (bus.write addr data).2.read a len = bus.read a len := by
  unfold cm_bus_t.write
  split_ifs with hw
  · rfl
  · unfold cm_bus_t.read
    simp only []
    split_ifs with hr
    · rfl
    · congr 1
      apply List.map_congr_left
      intro i hi
      rw [List.mem_range] at hi
      rw [if_neg (by omega)]

theorem read_write_same_rc (bus : cm_bus_t) (addr : Nat) (data : List Nat)
    (hr : bus.read_rc addr = 0) (hw : bus.write_rc addr = 0) :
    (bus.write addr data).2.read addr data.length
      = .ok ((List.range data.length).map fun i => byte_at data i) := by
  unfold cm_bus_t.write
  rw [if_neg (by simp [hw])]
  unfold cm_bus_t.read
  simp only []
  rw [if_neg (by simp [hr])]
  congr 1
  apply List.map_congr_left
  intro i hi
  rw [List.mem_range] at hi
  rw [if_pos (by omega)]
  have : addr + i - addr = i := by omega
  rw [this]
  unfold byte_at
  omega

theorem read_write_same (bus : cm_bus_t) (addr : Nat) (data : List Nat) (hok : bus_ok bus) :
    (bus.write addr data).2.read addr data.length
      = .ok ((List.range data.length).map fun i => byte_at data i) :=
  read_write_same_rc bus addr data (hok addr).1 (hok addr).2

/-! ## The phase-adjust register -/

theorem le_assemble4 (b0 b1 b2 b3 : Nat) (h0 : b0 < 256) (h1 : b1 < 256) (h2 : b2 < 256) :
    (b0 <<< 0) ||| (b1 <<< 8) ||| (b2 <<< 16) ||| (b3 <<< 24)
      = b0 + b1 * 2 ^ 8 + b2 * 2 ^ 16 + b3 * 2 ^ 24 := by
  rw [Nat.shiftLeft_zero, or_shl_eq_add b0 b1 8 (by omega),
    or_shl_eq_add _ b2 16 (by omega), or_shl_eq_add _ b3 24 (by omega)]

theorem phase_adj_unpack_pack (x : Int) (hlo : INT32_MIN ≤ x) (hhi : x ≤ INT32_MAX) :
    s32_of_u32 (u32_of_le_bytes ((List.range 4).map fun i => byte_at (phase_adj_pack x) i))
      = x := by
  have hr : List.range 4 = [0, 1, 2, 3] := rfl
  unfold INT32_MIN at hlo
  unfold INT32_MAX at hhi
  have hu : u32_of_s32 x < 2 ^ 32 := by unfold u32_of_s32; omega
  have hx : s32_of_u32 (u32_of_s32 x) = x := by
    unfold s32_of_u32 u32_of_s32
    split_ifs with h <;> omega
  rw [hr]
  unfold u32_of_le_bytes
  rw [le_assemble4 _ _ _ _ (byte_at_lt _ 0) (byte_at_lt _ 1) (byte_at_lt _ 2)]
  unfold phase_adj_pack
  generalize u32_of_s32 x = u at hu hx
  simp only [List.map, byte_at, List.getD_cons_zero, List.getD_cons_succ, and_ff_eq_mod,
    Nat.shiftRight_eq_div_pow]
  have : u % 256 % 256 % 256 + u / 2 ^ 8 % 256 % 256 % 256 * 2 ^ 8
      + u / 2 ^ 16 % 256 % 256 % 256 * 2 ^ 16 + u / 2 ^ 24 % 256 % 256 % 256 * 2 ^ 24 = u := by
    omega
  rw [this, hx]

theorem write_output_phase_adj_s32_ok (bus : cm_bus_t) (o : Nat) (adj : Int) (trace : Bool)
    (hok : bus_ok bus) (ho : o < 12) :
    write_output_phase_adj_s32 bus o adj trace false
      = (0, (bus.write (cm_Output_bases.getD o 0 + 0xC) (phase_adj_pack adj)).2) := by
  unfold write_output_phase_adj_s32 cm_string_write_bytes
  simp only [Bool.false_eq_true, if_false]
  rw [if_neg (by simp [phase_adj_pack]), resolve_output_adj o ho]
  simp only []
  exact Prod.ext (write_fst_of_ok _ _ _ hok) rfl

theorem cm_string_read_bytes_eq (bus : cm_bus_t) (m : String) (i : Nat) (r : String)
    (len addr : Nat) (hlen : len ≠ 0) (hres : cm_resolve_reg_addr m i r = .ok addr) :
    cm_string_read_bytes bus m i r len = bus.read addr len := by
  unfold cm_string_read_bytes
  rw [if_neg hlen, hres]

theorem cm_string_read_bytes_err (bus : cm_bus_t) (m : String) (i : Nat) (r : String)
    (len : Nat) (rc : Int) (hlen : len ≠ 0) (hres : cm_resolve_reg_addr m i r = .error rc) :
    cm_string_read_bytes bus m i r len = .error rc := by
  unfold cm_string_read_bytes
  rw [if_neg hlen, hres]

theorem read_output_phase_adj_s32_written_rc (bus : cm_bus_t) (o : Nat) (adj : Int)
    (ho : o < 12) (hr : bus.read_rc (cm_Output_bases.getD o 0 + 0xC) = 0)
    (hw : bus.write_rc (cm_Output_bases.getD o 0 + 0xC) = 0)
    (hlo : INT32_MIN ≤ adj) (hhi : adj ≤ INT32_MAX) :
    read_output_phase_adj_s32
        (bus.write (cm_Output_bases.getD o 0 + 0xC) (phase_adj_pack adj)).2 o = .ok adj := by
  unfold read_output_phase_adj_s32
  rw [cm_string_read_bytes_eq _ _ _ _ _ _ (by norm_num) (resolve_output_adj o ho)]
  have h := read_write_same_rc bus (cm_Output_bases.getD o 0 + 0xC) (phase_adj_pack adj) hr hw
  have hl : (phase_adj_pack adj).length = 4 := rfl
  rw [hl] at h
  rw [h]
  simp only []
  rw [phase_adj_unpack_pack adj hlo hhi]

theorem read_output_phase_adj_s32_written (bus : cm_bus_t) (o : Nat) (adj : Int)
    (hok : bus_ok bus) (ho : o < 12) (hlo : INT32_MIN ≤ adj) (hhi : adj ≤ INT32_MAX) :
    read_output_phase_adj_s32
        (bus.write (cm_Output_bases.getD o 0 + 0xC) (phase_adj_pack adj)).2 o = .ok adj :=
  read_output_phase_adj_s32_written_rc bus o adj ho (hok _).1 (hok _).2 hlo hhi

theorem read_output_phase_adj_s32_valid (bus : cm_bus_t) (o : Nat) (a : Int)
    (ha : read_output_phase_adj_s32 bus o = .ok a) :
    o < 12 ∧ bus.read_rc (cm_Output_bases.getD o 0 + 0xC) = 0 := by
  have ho : o < 12 := by
    by_contra h
    unfold read_output_phase_adj_s32 at ha
    rw [cm_string_read_bytes_err _ _ _ _ _ _ (by norm_num) (resolve_output_bad o (by omega) _)]
      at ha
    cases ha
  refine ⟨ho, ?_⟩
  by_contra h
  unfold read_output_phase_adj_s32 at ha
  rw [cm_string_read_bytes_eq _ _ _ _ _ _ (by norm_num) (resolve_output_adj o ho)] at ha
  unfold cm_bus_t.read at ha
  rw [if_pos h] at ha
  cases ha

theorem read_output_phase_adj_s32_frame (bus : cm_bus_t) (o o1 : Nat) (data : List Nat)
    (ho : o < 12) (hne : o1 ≠ o) (hlen : data.length = 4) :
    read_output_phase_adj_s32 (bus.write (cm_Output_bases.getD o 0 + 0xC) data).2 o1
      = read_output_phase_adj_s32 bus o1 := by
  unfold read_output_phase_adj_s32
  by_cases h1 : o1 < 12
  · simp only [cm_string_read_bytes_eq _ _ _ _ _ _ (by norm_num : (4 : Nat) ≠ 0)
      (resolve_output_adj o1 h1)]
    have hd := output_bases_apart o ho o1 h1 (Ne.symm hne)
    rw [read_write_disjoint _ _ _ _ _ (by rw [hlen]; omega)]
  · simp only [cm_string_read_bytes_err _ _ _ _ _ _ (by norm_num : (4 : Nat) ≠ 0)
      (resolve_output_bad o1 (by omega) _)]

theorem read_output_div_u32_frame (bus : cm_bus_t) (o o1 : Nat) (data : List Nat)
    (ho : o < 12) (hlen : data.length = 4) :
    read_output_div_u32 (bus.write (cm_Output_bases.getD o 0 + 0xC) data).2 o1
      = read_output_div_u32 bus o1 := by
  unfold read_output_div_u32
  by_cases h1 : o1 < 12
  · simp only [cm_string_read_bytes_eq _ _ _ _ _ _ (by norm_num : (4 : Nat) ≠ 0)
      (resolve_output_div o1 h1)]
    by_cases he : o1 = o
    · rw [he, read_write_disjoint _ _ _ _ _ (by rw [hlen]; omega)]
    · have hd := output_bases_apart o ho o1 h1 (Ne.symm he)
      rw [read_write_disjoint _ _ _ _ _ (by rw [hlen]; omega)]
  · simp only [cm_string_read_bytes_err _ _ _ _ _ _ (by norm_num : (4 : Nat) ≠ 0)
      (resolve_output_bad o1 (by omega) _)]

theorem read_dpll_fod_freq_hz_frame (bus : cm_bus_t) (o d : Nat) (data : List Nat)
    (ho : o < 12) :
    read_dpll_fod_freq_hz (bus.write (cm_Output_bases.getD o 0 + 0xC) data).2 d
      = read_dpll_fod_freq_hz bus d := by
  unfold read_dpll_fod_freq_hz
  by_cases h1 : d < 8
  · simp only [cm_string_read_bytes_eq _ _ _ _ _ _ (by norm_num : (6 : Nat) ≠ 0)
      (resolve_fod_m d h1),
      cm_string_read_bytes_eq _ _ _ _ _ _ (by norm_num : (2 : Nat) ≠ 0) (resolve_fod_n d h1)]
    have hb := dpll_ctrl_bases_bound d h1
    have hb1 := output_bases_bound o ho
    rw [read_write_disjoint _ _ _ _ _ (by omega), read_write_disjoint _ _ _ _ _ (by omega)]
  · simp only [cm_string_read_bytes_err _ _ _ _ _ _ (by norm_num : (6 : Nat) ≠ 0)
      (resolve_dpll_ctrl_bad d (by omega) _)]

theorem resolve_wr_freq (d : Nat) (hd : d < 8) :
    cm_resolve_reg_addr "DPLL_Freq_Write" d "DPLL_WR_FREQ_7_0"
      = .ok (cm_DPLL_Freq_Write_bases.getD d 0) := by
  interval_cases d <;> rfl

theorem write_dpll_wr_freq_s42_ok (bus : cm_bus_t) (d : Nat) (w : Int) (trace : Bool)
    (hok : bus_ok bus) (hd : d < 8) :
    write_dpll_wr_freq_s42 bus d w trace false
      = (0, (bus.write (cm_DPLL_Freq_Write_bases.getD d 0) (wr_freq_pack w)).2) := by
  unfold write_dpll_wr_freq_s42 cm_string_write_bytes
  simp only [Bool.false_eq_true, if_false]
  rw [if_neg (by simp [wr_freq_pack]), resolve_wr_freq d hd]
  simp only []
  exact Prod.ext (write_fst_of_ok _ _ _ hok) rfl

theorem le_value_map_byte_at (data : List Nat) (n k : Nat) (hk : k ≤ n) :
    le_value ((List.range n).map fun i => byte_at data i) k = le_value data k := by
  induction k with
  | zero => rfl
  | succ m ih =>
    have hm : m < n := by omega
    have hb : byte_at ((List.range n).map fun i => byte_at data i) m = byte_at data m := by
      unfold byte_at
      rw [List.getD_eq_getElem _ _ (by simpa using hm)]
      simp
    rw [le_value, le_value, ih (by omega), hb]

/-- Reading `DPLL_WR_FREQ` back with `cm_read_dpll_wr_freq_s42` after a successful
`write_dpll_wr_freq_s42` of an in-range word returns that word. -/
theorem cm_read_dpll_wr_freq_s42_written (bus : cm_bus_t) (d : Nat) (w : Int) (trace : Bool)
    (hok : bus_ok bus) (hd : d < 8) (hlo : -(2 ^ 41) ≤ w) (hhi : w ≤ 2 ^ 41 - 1) :
    cm_read_dpll_wr_freq_s42 (write_dpll_wr_freq_s42 bus d w trace false).2 d = .ok w := by
  rw [write_dpll_wr_freq_s42_ok bus d w trace hok hd]
  unfold cm_read_dpll_wr_freq_s42
  rw [cm_string_read_bytes_eq _ _ _ _ _ _ (by norm_num) (resolve_wr_freq d hd)]
  have h := read_write_same bus (cm_DPLL_Freq_Write_bases.getD d 0) (wr_freq_pack w) hok
  have hl : (wr_freq_pack w).length = 6 := rfl
  rw [hl] at h
  rw [h]
  simp only []
  rw [wr_freq_unpack_eq, le_value_map_byte_at _ 6 6 (le_refl _), ← wr_freq_unpack_eq,
    wr_freq_unpack_pack_of_range w hlo hhi]

/-! ## The coarse step actuator -/

theorem s1_new_adj_eq (a d : Int) :
    s1_new_adj a d = sat (-(2 ^ 31)) (2 ^ 31 - 1) (a + d) := by
  unfold s1_new_adj sat INT32_MAX INT32_MIN
  simp only []
  split_ifs <;> omega

theorem s1_new_adj_range (a d : Int) :
    INT32_MIN ≤ s1_new_adj a d ∧ s1_new_adj a d ≤ INT32_MAX := by
  unfold s1_new_adj INT32_MAX INT32_MIN
  simp only []
  split_ifs <;> omega

theorem read_output_div_u32_ok (bus : cm_bus_t) (o : Nat) (hok : bus_ok bus) (ho : o < 12) :
    ∃ dv, read_output_div_u32 bus o = .ok dv := by
  unfold read_output_div_u32
  rw [cm_string_read_bytes_eq _ _ _ _ _ _ (by norm_num) (resolve_output_div o ho)]
  unfold cm_bus_t.read
  rw [if_neg (by simp [(hok _).1])]
  exact ⟨_, rfl⟩

theorem do_s1_step_output_ok (bus : cm_bus_t) (cfg : discipline_cfg_t) (s : ℚ) (o : Nat)
    (a : Int) (F : ℚ) (M N : Nat) (hok : bus_ok bus) (ho : o < 12)
    (hdry : cfg.dry_run = false)
    (hF : read_dpll_fod_freq_hz bus (fod_dpll_for_output o) = .ok (F, M, N)) (hpos : 0 < F)
    (ha : read_output_phase_adj_s32 bus o = .ok a) :
    do_s1_step_output bus cfg s o
      = (0, (bus.write (cm_Output_bases.getD o 0 + 0xC)
          (phase_adj_pack (s1_new_adj a (s1_step_cycles s F)))).2) := by
  obtain ⟨dv, hdv⟩ := read_output_div_u32_ok bus o hok ho
  unfold do_s1_step_output
  simp only [hF, hdv, ha, hdry, if_neg (not_le.mpr hpos)]
  exact write_output_phase_adj_s32_ok bus o _ _ hok ho

theorem read_dpll_fod_freq_hz_ratio (bus : cm_bus_t) (d : Nat) (F : ℚ) (M N : Nat)
    (hF : read_dpll_fod_freq_hz bus d = .ok (F, M, N)) :
    F = (M : ℚ) / (N : ℚ) ∧ 0 < N := by
  unfold read_dpll_fod_freq_hz at hF
  split at hF
  · cases hF
  · split at hF
    · cases hF
    · simp only [Except.ok.injEq, Prod.mk.injEq] at hF
      obtain ⟨h1, h2, h3⟩ := hF
      rw [← h1, ← h2, ← h3]
      refine ⟨rfl, ?_⟩
      split_ifs with h
      · norm_num
      · exact Nat.pos_of_ne_zero h

theorem do_s1_step_loop_ok (cfg : discipline_cfg_t) (s : ℚ) (hdry : cfg.dry_run = false) :
    ∀ (L : List Nat) (bus : cm_bus_t), bus_ok bus → (∀ x ∈ L, x < 12) → L.Nodup →
      (∀ x ∈ L, ∃ F M N, read_dpll_fod_freq_hz bus (fod_dpll_for_output x) = .ok (F, M, N)
        ∧ 0 < F) →
      (∀ x ∈ L, ∃ a, read_output_phase_adj_s32 bus x = .ok a) →
      ∃ bus1, do_s1_step_loop cfg s bus L = (0, bus1) ∧ bus_ok bus1
        ∧ (∀ d, read_dpll_fod_freq_hz bus1 d = read_dpll_fod_freq_hz bus d)
        ∧ (∀ x, x ∉ L → read_output_phase_adj_s32 bus1 x = read_output_phase_adj_s32 bus x)
        ∧ (∀ x ∈ L, ∀ a F M N, read_output_phase_adj_s32 bus x = .ok a →
            read_dpll_fod_freq_hz bus (fod_dpll_for_output x) = .ok (F, M, N) →
            read_output_phase_adj_s32 bus1 x = .ok (s1_new_adj a (s1_step_cycles s F))) := by
  intro L
  induction L with
  | nil =>
    intro bus hok _ _ _ _
    exact ⟨bus, rfl, hok, fun _ => rfl, fun _ _ => rfl, fun x hx => absurd hx (List.not_mem_nil x)⟩
  | cons o rest ih =>
    intro bus hok hlt hnd hfod hadj
    have ho : o < 12 := hlt o (List.mem_cons_self o rest)
    obtain ⟨F, M, N, hF, hpos⟩ := hfod o (List.mem_cons_self o rest)
    obtain ⟨a, ha⟩ := hadj o (List.mem_cons_self o rest)
    have hstep := do_s1_step_output_ok bus cfg s o a F M N hok ho hdry hF hpos ha
    have hlen : (phase_adj_pack (s1_new_adj a (s1_step_cycles s F))).length = 4 := rfl
    have hnd1 := List.nodup_cons.mp hnd
    -- the bus after the pass for `o`
    have hok1 := bus_ok_write bus (cm_Output_bases.getD o 0 + 0xC)
      (phase_adj_pack (s1_new_adj a (s1_step_cycles s F))) hok
    have hfodf := fun d => read_dpll_fod_freq_hz_frame bus o d
      (phase_adj_pack (s1_new_adj a (s1_step_cycles s F))) ho
    have hadjf := fun x (hx : x ≠ o) => read_output_phase_adj_s32_frame bus o x
      (phase_adj_pack (s1_new_adj a (s1_step_cycles s F))) ho hx hlen
    have hwr := read_output_phase_adj_s32_written bus o (s1_new_adj a (s1_step_cycles s F))
      hok ho (s1_new_adj_range _ _).1 (s1_new_adj_range _ _).2
    generalize (bus.write (cm_Output_bases.getD o 0 + 0xC)
      (phase_adj_pack (s1_new_adj a (s1_step_cycles s F)))).2 = busA at hstep hok1 hfodf hadjf hwr
    have hne : ∀ x ∈ rest, x ≠ o := fun x hx hxo => hnd1.1 (hxo ▸ hx)
    obtain ⟨bus1, hloop, hok2, hfod2, hframe2, hval2⟩ := ih busA hok1
      (fun x hx => hlt x (List.mem_cons_of_mem o hx)) hnd1.2
      (fun x hx => by
        rw [hfodf]; exact hfod x (List.mem_cons_of_mem o hx))
      (fun x hx => by
        rw [hadjf x (hne x hx)]; exact hadj x (List.mem_cons_of_mem o hx))
    refine ⟨bus1, ?_, hok2, ?_, ?_, ?_⟩
    · rw [do_s1_step_loop, hstep]
      simp only [ne_eq, not_true_eq_false, if_false]
      exact hloop
    · intro d; rw [hfod2, hfodf]
    · intro x hx
      rw [List.mem_cons, not_or] at hx
      rw [hframe2 x hx.2, hadjf x hx.1]
    · intro x hx a1 F1 M1 N1 ha1 hF1
      rcases List.mem_cons.mp hx with hxo | hxr
      · subst hxo
        rw [hframe2 x hnd1.1, hwr]
        rw [ha] at ha1
        rw [hF] at hF1
        cases ha1
        cases hF1
        rfl
      · exact hval2 x hxr a1 F1 M1 N1 (by rw [hadjf x (hne x hxr)]; exact ha1)
          (by rw [hfodf]; exact hF1)

theorem read_output_phase_adj_s32_ok (bus : cm_bus_t) (o : Nat) (hok : bus_ok bus)
    (ho : o < 12) : ∃ a, read_output_phase_adj_s32 bus o = .ok a := by
  unfold read_output_phase_adj_s32
  rw [cm_string_read_bytes_eq _ _ _ _ _ _ (by norm_num) (resolve_output_adj o ho)]
  unfold cm_bus_t.read
  rw [if_neg (by simp [(hok _).1])]
  exact ⟨_, rfl⟩

theorem read_output_phase_adj_s32_range (bus : cm_bus_t) (o : Nat) (a : Int)
    (ha : read_output_phase_adj_s32 bus o = .ok a) : -(2 ^ 31) ≤ a ∧ a ≤ 2 ^ 31 - 1 := by
  unfold read_output_phase_adj_s32 at ha
  split at ha
  · cases ha
  · simp only [Except.ok.injEq] at ha
    rw [← ha]
    unfold s32_of_u32
    split_ifs with h <;> omega

theorem do_s1_step_output_eq (bus : cm_bus_t) (cfg : discipline_cfg_t) (s : ℚ) (o : Nat)
    (a : Int) (F : ℚ) (M N dv : Nat)
    (hF : read_dpll_fod_freq_hz bus (fod_dpll_for_output o) = .ok (F, M, N)) (hpos : 0 < F)
    (hdiv : read_output_div_u32 bus o = .ok dv)
    (ha : read_output_phase_adj_s32 bus o = .ok a) :
    do_s1_step_output bus cfg s o
      = write_output_phase_adj_s32 bus o (s1_new_adj a (s1_step_cycles s F)) (want_print cfg)
          cfg.dry_run := by
  unfold do_s1_step_output
  simp only [hF, hdiv, ha, if_neg (not_le.mpr hpos)]

theorem write_output_phase_adj_s32_readback (bus : cm_bus_t) (o : Nat) (a adj : Int)
    (trace : Bool) (ha : read_output_phase_adj_s32 bus o = .ok a)
    (hlo : INT32_MIN ≤ adj) (hhi : adj ≤ INT32_MAX)
    (hrc : (write_output_phase_adj_s32 bus o adj trace false).1 = 0) :
    read_output_phase_adj_s32 (write_output_phase_adj_s32 bus o adj trace false).2 o
      = .ok adj := by
  obtain ⟨ho, hr⟩ := read_output_phase_adj_s32_valid bus o a ha
  have hwr : write_output_phase_adj_s32 bus o adj trace false
      = bus.write (cm_Output_bases.getD o 0 + 0xC) (phase_adj_pack adj) := by
    unfold write_output_phase_adj_s32 cm_string_write_bytes
    simp only [Bool.false_eq_true, if_false]
    rw [if_neg (by simp [phase_adj_pack]), resolve_output_adj o ho]
  rw [hwr] at hrc ⊢
  have hw : bus.write_rc (cm_Output_bases.getD o 0 + 0xC) = 0 := by
    by_contra h
    unfold cm_bus_t.write at hrc
    rw [if_pos h] at hrc
    exact h hrc
  exact read_output_phase_adj_s32_written_rc bus o adj ho hr hw hlo hhi

/-! ## FOD frequency decode -/

theorem le_assemble6 (b0 b1 b2 b3 b4 b5 : Nat) (h0 : b0 < 256) (h1 : b1 < 256)
    (h2 : b2 < 256) (h3 : b3 < 256) (h4 : b4 < 256) :
    (b0 <<< 0) ||| (b1 <<< 8) ||| (b2 <<< 16) ||| (b3 <<< 24) ||| (b4 <<< 32) ||| (b5 <<< 40)
      = b0 + b1 * 2 ^ 8 + b2 * 2 ^ 16 + b3 * 2 ^ 24 + b4 * 2 ^ 32 + b5 * 2 ^ 40 := by
  rw [Nat.shiftLeft_zero, or_shl_eq_add b0 b1 8 (by omega),
    or_shl_eq_add _ b2 16 (by omega), or_shl_eq_add _ b3 24 (by omega),
    or_shl_eq_add _ b4 32 (by omega), or_shl_eq_add _ b5 40 (by omega)]

theorem le_value_lt (buf : List Nat) (n : Nat) : le_value buf n < 2 ^ (8 * n) := by
  induction n with
  | zero => simp [le_value]
  | succ k ih =>
    have hb := byte_at_lt buf k
    have e : 2 ^ (8 * (k + 1)) = 2 ^ (8 * k) * 256 := by
      rw [show 8 * (k + 1) = 8 * k + 8 by ring, pow_add]; norm_num
    rw [le_value, e]
    nlinarith [Nat.two_pow_pos (8 * k)]

theorem read_dpll_fod_freq_hz_of_bytes (bus : cm_bus_t) (d : Nat) (bufM bufN : List Nat)
    (hM : cm_string_read_bytes bus "DPLL_Ctrl" d "FOD_FREQ_M_7_0" 6 = .ok bufM)
    (hN : cm_string_read_bytes bus "DPLL_Ctrl" d "FOD_FREQ_N_7_0" 2 = .ok bufN) :
    read_dpll_fod_freq_hz bus d
      = .ok (((le_value bufM 6 : Nat) : ℚ)
              / (((if le_value bufN 2 = 0 then 1 else le_value bufN 2 : Nat)) : ℚ),
             le_value bufM 6, if le_value bufN 2 = 0 then 1 else le_value bufN 2) := by
  have hbM := byte_at_lt bufM
  have hbN := byte_at_lt bufN
  have eM : (byte_at bufM 0 <<< 0) ||| (byte_at bufM 1 <<< 8) ||| (byte_at bufM 2 <<< 16)
      ||| (byte_at bufM 3 <<< 24) ||| (byte_at bufM 4 <<< 32) ||| (byte_at bufM 5 <<< 40)
      = le_value bufM 6 := by
    rw [le_assemble6 _ _ _ _ _ _ (hbM 0) (hbM 1) (hbM 2) (hbM 3) (hbM 4)]
    simp [le_value]
  have eN : (byte_at bufN 0 ||| (byte_at bufN 1 <<< 8)) % 2 ^ 16 = le_value bufN 2 := by
    rw [or_shl_eq_add _ _ 8 (hbN 0)]
    have h0 := hbN 0
    have h1 := hbN 1
    simp only [le_value]
    omega
  unfold read_dpll_fod_freq_hz
  rw [hM, hN]
  simp only [eM, eN]

theorem wr_freq_word_range (f : ℚ) :
    -(2 ^ 41) ≤ wr_freq_word f ∧ wr_freq_word f ≤ 2 ^ 41 - 1 := by
  rw [wr_freq_word_eq]
  unfold clamp_s42
  simp only []
  split_ifs <;> omega

/-! ## Dry run -/

theorem do_s1_step_output_dry (bus : cm_bus_t) (cfg : discipline_cfg_t) (s : ℚ) (o : Nat)
    (hdry : cfg.dry_run = true) : (do_s1_step_output bus cfg s o).2 = bus := by
  unfold do_s1_step_output
  simp only []
  split
  · rfl
  · split_ifs
    · rfl
    · split
      · unfold write_output_phase_adj_s32
        rw [hdry]
        rfl
      · rfl

theorem do_s1_step_loop_dry (cfg : discipline_cfg_t) (s : ℚ) (hdry : cfg.dry_run = true) :
    ∀ (L : List Nat) (bus : cm_bus_t), (do_s1_step_loop cfg s bus L).2 = bus := by
  intro L
  induction L with
  | nil => intro bus; rfl
  | cons o rest ih =>
    intro bus
    rw [do_s1_step_loop]
    split_ifs with h
    · exact do_s1_step_output_dry bus cfg s o hdry
    · rw [ih, do_s1_step_output_dry bus cfg s o hdry]

theorem do_s2_slew_loop_dry (cfg : discipline_cfg_t) (word : Int) (hdry : cfg.dry_run = true) :
    ∀ (L : List Nat) (bus : cm_bus_t), do_s2_slew_loop cfg word bus L = (0, bus) := by
  intro L
  induction L with
  | nil => intro bus; rfl
  | cons d rest ih =>
    intro bus
    have hw : write_dpll_wr_freq_s42 bus d word (want_print cfg) cfg.dry_run = (0, bus) := by
      unfold write_dpll_wr_freq_s42
      rw [hdry]
      rfl
    rw [do_s2_slew_loop, hw]
    simp only [ne_eq, not_true_eq_false, if_false]
    exact ih bus

/-! ## The frequency-write loop -/

theorem resolve_wr_freq_bad (d : Nat) (hd : 8 ≤ d) (reg : String) :
    cm_resolve_reg_addr "DPLL_Freq_Write" d reg = .error (-3) := by
  have hm : cm_find_module "DPLL_Freq_Write" = .ok cm_DPLL_Freq_Write_module := rfl
  unfold cm_resolve_reg_addr
  rw [hm]
  simp only []
  rw [if_pos (by show d ≥ 8; omega)]

theorem wr_freq_bases_apart :
    ∀ d < 8, ∀ d1 < 8, d ≠ d1 →
      cm_DPLL_Freq_Write_bases.getD d 0 + 8 ≤ cm_DPLL_Freq_Write_bases.getD d1 0
        ∨ cm_DPLL_Freq_Write_bases.getD d1 0 + 8 ≤ cm_DPLL_Freq_Write_bases.getD d 0 := by
  decide

theorem wr_freq_pack_length (w : Int) : (wr_freq_pack w).length = 6 := rfl

/-- A frequency-word write that returns a non-zero code leaves the bus as it was. -/
theorem write_dpll_wr_freq_s42_fail (bus : cm_bus_t) (d : Nat) (word : Int)
    (trace dry : Bool) (h : (write_dpll_wr_freq_s42 bus d word trace dry).1 ≠ 0) :
    (write_dpll_wr_freq_s42 bus d word trace dry).2 = bus ∧ dry = false := by
  cases dry with
  | true => exact absurd rfl h
  | false =>
    refine ⟨?_, rfl⟩
    have h1 : (cm_string_write_bytes bus "DPLL_Freq_Write" d "DPLL_WR_FREQ_7_0"
        (wr_freq_pack word)).1 ≠ 0 := h
    show (cm_string_write_bytes bus "DPLL_Freq_Write" d "DPLL_WR_FREQ_7_0"
        (wr_freq_pack word)).2 = bus
    unfold cm_string_write_bytes at h1 ⊢
    rw [if_neg (by simp [wr_freq_pack])] at h1 ⊢
    cases hres : cm_resolve_reg_addr "DPLL_Freq_Write" d "DPLL_WR_FREQ_7_0" with
    | error rc => rfl
    | ok addr =>
      rw [hres] at h1
      simp only [] at h1 ⊢
      unfold cm_bus_t.write at h1 ⊢
      split_ifs with hw
      · rfl
      · rw [if_neg hw] at h1
        exact absurd rfl h1

/-- A frequency-word write that returns 0 with dry-run off went to a valid channel and
stored the six packed bytes at its address, changing nothing else. -/
theorem write_dpll_wr_freq_s42_success (bus : cm_bus_t) (d : Nat) (word : Int)
    (trace : Bool) (h : (write_dpll_wr_freq_s42 bus d word trace false).1 = 0) :
    d < 8
      ∧ write_dpll_wr_freq_s42 bus d word trace false
          = (0, (bus.write (cm_DPLL_Freq_Write_bases.getD d 0) (wr_freq_pack word)).2)
      ∧ bus.write_rc (cm_DPLL_Freq_Write_bases.getD d 0) = 0 := by
  have hd : d < 8 := by
    by_contra hge
    unfold write_dpll_wr_freq_s42 cm_string_write_bytes at h
    simp only [Bool.false_eq_true, if_false] at h
    rw [if_neg (by simp [wr_freq_pack]), resolve_wr_freq_bad d (by omega)] at h
    simp at h
  have hwr : write_dpll_wr_freq_s42 bus d word trace false
      = bus.write (cm_DPLL_Freq_Write_bases.getD d 0) (wr_freq_pack word) := by
    unfold write_dpll_wr_freq_s42 cm_string_write_bytes
    simp only [Bool.false_eq_true, if_false]
    rw [if_neg (by simp [wr_freq_pack]), resolve_wr_freq d hd]
  rw [hwr] at h
  have hw : bus.write_rc (cm_DPLL_Freq_Write_bases.getD d 0) = 0 := by
    by_contra hne
    unfold cm_bus_t.write at h
    rw [if_pos hne] at h
    exact hne h
  refine ⟨hd, ?_, hw⟩
  rw [hwr]
  exact Prod.ext h rfl

theorem write_mem_in (bus : cm_bus_t) (addr : Nat) (data : List Nat) (i : Nat)
    (hw : bus.write_rc addr = 0) (hi : i < data.length) :
    (bus.write addr data).2.mem (addr + i) = byte_at data i := by
  unfold cm_bus_t.write
  rw [if_neg (by simp [hw])]
  simp only []
  rw [if_pos (by omega)]
  congr 1
  omega

theorem write_mem_out (bus : cm_bus_t) (addr : Nat) (data : List Nat) (a : Nat)
    (ha : a < addr ∨ addr + data.length ≤ a) :
    (bus.write addr data).2.mem a = bus.mem a := by
  unfold cm_bus_t.write
  split_ifs with hw
  · rfl
  · simp only []
    rw [if_neg (by omega)]

theorem write_rc_same (bus : cm_bus_t) (addr : Nat) (data : List Nat) :
    (bus.write addr data).2.read_rc = bus.read_rc
      ∧ (bus.write addr data).2.write_rc = bus.write_rc := by
  unfold cm_bus_t.write
  split_ifs <;> exact ⟨rfl, rfl⟩

theorem do_s2_slew_loop_success (cfg : discipline_cfg_t) (word : Int)
    (hdry : cfg.dry_run = false) :
    ∀ (L : List Nat) (bus b1 : cm_bus_t), do_s2_slew_loop cfg word bus L = (0, b1) →
      (∀ d ∈ L, d < 8 ∧ ∀ i < 6,
          b1.mem (cm_DPLL_Freq_Write_bases.getD d 0 + i) = byte_at (wr_freq_pack word) i)
        ∧ (∀ a, (∀ d ∈ L, a < cm_DPLL_Freq_Write_bases.getD d 0
            ∨ cm_DPLL_Freq_Write_bases.getD d 0 + 6 ≤ a) → b1.mem a = bus.mem a)
        ∧ b1.read_rc = bus.read_rc ∧ b1.write_rc = bus.write_rc := by
  intro L
  induction L with
  | nil =>
    intro bus b1 h
    rw [do_s2_slew_loop] at h
    cases h
    exact ⟨fun d hd => absurd hd (List.not_mem_nil d), fun _ _ => rfl, rfl, rfl⟩
  | cons c rest ih =>
    intro bus b1 h
    rw [do_s2_slew_loop, hdry] at h
    by_cases hr : (write_dpll_wr_freq_s42 bus c word (want_print cfg) false).1 = 0
    · obtain ⟨hc, hwr, hw⟩ := write_dpll_wr_freq_s42_success bus c word _ hr
      rw [hwr] at h
      simp only [ne_eq, not_true_eq_false, if_false] at h
      obtain ⟨hin, hout, hrr, hwr2⟩ := ih _ b1 h
      have hrc := write_rc_same bus (cm_DPLL_Freq_Write_bases.getD c 0) (wr_freq_pack word)
      refine ⟨?_, ?_, by rw [hrr, hrc.1], by rw [hwr2, hrc.2]⟩
      · intro d hd
        rcases List.mem_cons.mp hd with hdc | hdr
        · subst hdc
          refine ⟨hc, ?_⟩
          intro i hi
          by_cases hmem : d ∈ rest
          · exact (hin d hmem).2 i hi
          · rw [hout _ (fun d1 hd1 => by
              have hd18 := (hin d1 hd1).1
              have hne : d ≠ d1 := fun hh => hmem (hh ▸ hd1)
              have := wr_freq_bases_apart d hc d1 hd18 hne
              omega)]
            exact write_mem_in bus _ _ i hw (by rw [wr_freq_pack_length]; exact hi)
        · exact hin d hdr
      · intro a ha
        rw [hout a (fun d hd => ha d (List.mem_cons_of_mem c hd))]
        exact write_mem_out bus _ _ a (by
          rw [wr_freq_pack_length]
          exact ha c (List.mem_cons_self c rest))
    · simp only [ne_eq, hr, not_false_eq_true, if_true] at h
      exact absurd (congrArg Prod.fst h) hr

theorem do_s2_slew_loop_append_fail (cfg : discipline_cfg_t) (word : Int) (c : Nat)
    (post : List Nat) (rc : Int) (hrc : rc ≠ 0) :
    ∀ (pre : List Nat) (bus b1 : cm_bus_t), do_s2_slew_loop cfg word bus pre = (0, b1) →
      (write_dpll_wr_freq_s42 b1 c word (want_print cfg) cfg.dry_run).1 = rc →
      do_s2_slew_loop cfg word bus (pre ++ c :: post) = (rc, b1) := by
  intro pre
  induction pre with
  | nil =>
    intro bus b1 h hc
    rw [do_s2_slew_loop] at h
    cases h
    rw [List.nil_append, do_s2_slew_loop]
    have hne : (write_dpll_wr_freq_s42 bus c word (want_print cfg) cfg.dry_run).1 ≠ 0 := by
      rw [hc]; exact hrc
    rw [if_pos hne]
    exact Prod.ext hc (write_dpll_wr_freq_s42_fail bus c word _ _ hne).1
  | cons d rest ih =>
    intro bus b1 h hc
    rw [do_s2_slew_loop] at h
    rw [List.cons_append, do_s2_slew_loop]
    by_cases hr : (write_dpll_wr_freq_s42 bus d word (want_print cfg) cfg.dry_run).1 = 0
    · rw [if_neg (by simp [hr])] at h ⊢
      exact ih _ b1 h hc
    · rw [if_pos hr] at h
      exact absurd (congrArg Prod.fst h) hr

theorem cm_read_dpll_wr_freq_s42_of_bytes (b1 : cm_bus_t) (d : Nat) (word : Int) (hd : d < 8)
    (hlo : -(2 ^ 41) ≤ word) (hhi : word ≤ 2 ^ 41 - 1)
    (hb : ∀ i < 6,
      b1.mem (cm_DPLL_Freq_Write_bases.getD d 0 + i) = byte_at (wr_freq_pack word) i)
    (hr : b1.read_rc (cm_DPLL_Freq_Write_bases.getD d 0) = 0) :
    cm_read_dpll_wr_freq_s42 b1 d = .ok word := by
  unfold cm_read_dpll_wr_freq_s42
  rw [cm_string_read_bytes_eq _ _ _ _ _ _ (by norm_num) (resolve_wr_freq d hd)]
  unfold cm_bus_t.read
  rw [if_neg (fun hne => hne hr)]
  simp only []
  have hl : (List.range 6).map (fun i => b1.mem (cm_DPLL_Freq_Write_bases.getD d 0 + i) % 256)
      = (List.range 6).map (fun i => byte_at (wr_freq_pack word) i) := by
    apply List.map_congr_left
    intro i hi
    rw [List.mem_range] at hi
    rw [hb i hi]
    exact Nat.mod_eq_of_lt (byte_at_lt _ _)
  rw [hl, wr_freq_unpack_eq, le_value_map_byte_at _ 6 6 (le_refl _), ← wr_freq_unpack_eq,
    wr_freq_unpack_pack_of_range word hlo hhi]

/-! ## Return codes of the servo loop -/

theorem cm_resolve_reg_addr_error_ne (m : String) (i : Nat) (r : String) (rc : Int)
    (h : cm_resolve_reg_addr m i r = .error rc) : rc ≠ 0 := by
  unfold cm_resolve_reg_addr at h
  cases hm : cm_find_module m with
  | error rc1 =>
    rw [hm] at h
    simp only [Except.error.injEq] at h
    unfold cm_find_module at hm
    split at hm
    · cases hm
    · simp only [Except.error.injEq] at hm
      omega
  | ok mod =>
    rw [hm] at h
    simp only [] at h
    split_ifs at h with hi
    · simp only [Except.error.injEq] at h
      omega
    · cases hr : cm_find_reg mod r with
      | error rc2 =>
        rw [hr] at h
        simp only [Except.error.injEq] at h
        unfold cm_find_reg at hr
        split at hr
        · cases hr
        · simp only [Except.error.injEq] at hr
          omega
      | ok reg =>
        rw [hr] at h
        cases h

theorem cm_string_read_bytes_error_ne (bus : cm_bus_t) (m : String) (i : Nat) (r : String)
    (len : Nat) (rc : Int) (h : cm_string_read_bytes bus m i r len = .error rc) : rc ≠ 0 := by
  unfold cm_string_read_bytes at h
  split_ifs at h with hl
  · simp only [Except.error.injEq] at h
    omega
  · cases hres : cm_resolve_reg_addr m i r with
    | error rc1 =>
      rw [hres] at h
      simp only [Except.error.injEq] at h
      rw [← h]
      exact cm_resolve_reg_addr_error_ne m i r rc1 hres
    | ok addr =>
      rw [hres] at h
      simp only [] at h
      unfold cm_bus_t.read at h
      split_ifs at h with hr
      · simp only [Except.error.injEq] at h
        rw [← h]
        exact hr

theorem read_phase_sec_error_ne (bus : cm_bus_t) (cfg : discipline_cfg_t) (rc : Int)
    (h : read_phase_sec bus cfg = .error rc) : rc ≠ 0 := by
  unfold read_phase_sec read_phase_status_s36 at h
  cases hb : cm_string_read_bytes bus "Status" 0 (phase_status_reg_name cfg.meas_dpll) 5 with
  | error rc1 =>
    rw [hb] at h
    simp only [Except.error.injEq] at h
    rw [← h]
    exact cm_string_read_bytes_error_ne _ _ _ _ _ _ hb
  | ok buf =>
    rw [hb] at h
    cases h

theorem s1_verify_loop_zero (hw : device_t) (cfg : discipline_cfg_t) (w : world_t)
    (acc : s1_verify_t) : s1_verify_loop hw cfg 0 w acc = .ok (acc, w) := rfl

theorem s1_verify_loop_succ (hw : device_t) (cfg : discipline_cfg_t) (k : Nat) (w : world_t)
    (acc : s1_verify_t) :
    s1_verify_loop hw cfg (k + 1) w acc
      = match read_phase_sec w.bus cfg with
        | .error rcv => .error rcv
        | .ok (_, pw) =>
          s1_verify_loop hw cfg k (sleep_sec hw w cfg.interval_sec)
            (s1_verify_update cfg acc pw) := rfl

theorem verify_samples_zero (hw : device_t) (cfg : discipline_cfg_t) (w : world_t) :
    verify_samples hw cfg 0 w = [] := rfl

theorem verify_samples_succ (hw : device_t) (cfg : discipline_cfg_t) (k : Nat) (w : world_t) :
    verify_samples hw cfg (k + 1) w
      = match read_phase_sec w.bus cfg with
        | .error _ => []
        | .ok (_, pw) => pw :: verify_samples hw cfg k (sleep_sec hw w cfg.interval_sec) := rfl

theorem discipline_run_loop_zero (hw : device_t) (cfg : discipline_cfg_t) (fuel : Nat) (w : world_t)
    (v : discipline_vars_t) : discipline_run_loop hw cfg fuel 0 w v = .running w v := rfl

theorem discipline_run_loop_succ (hw : device_t) (cfg : discipline_cfg_t) (fuel n : Nat) (w : world_t)
    (v : discipline_vars_t) : discipline_run_loop hw cfg fuel (n + 1) w v =
    match discipline_run_iter hw cfg fuel w v with
    | none => .measuring
    | some (.error rc) => .returned rc
    | some (.ok (w1, v1)) => discipline_run_loop hw cfg fuel n w1 v1 := rfl

theorem s1_verify_loop_error_ne (hw : device_t) (cfg : discipline_cfg_t) :
    ∀ (k : Nat) (w : world_t) (acc : s1_verify_t) (rc : Int),
      s1_verify_loop hw cfg k w acc = .error rc → rc ≠ 0 := by
  intro k
  induction k with
  | zero =>
    intro w acc rc h
    rw [s1_verify_loop_zero] at h
    cases h
  | succ k ih =>
    intro w acc rc h
    rw [s1_verify_loop_succ] at h
    split at h
    · rename_i rc1 hr
      simp only [Except.error.injEq] at h
      rw [← h]
      exact read_phase_sec_error_ne _ _ _ hr
    · exact ih _ _ rc h

theorem do_s0_measure_loop_error_ne (hw : device_t) (cfg : discipline_cfg_t) (t_start : ℚ) :
    ∀ (fuel : Nat) (w : world_t) (sum sumw : ℚ) (rc : Int),
      do_s0_measure_loop hw cfg t_start fuel w sum sumw = some (.error rc) → rc ≠ 0 := by
  intro fuel
  induction fuel with
  | zero =>
    intro w sum sumw rc h
    rw [do_s0_measure_loop] at h
    split at h
    · cases h
    · cases h
  | succ f ih =>
    intro w sum sumw rc h
    rw [do_s0_measure_loop] at h
    split at h
    · split at h
      · rename_i rc1 hr
        simp only [Option.some.injEq, Except.error.injEq] at h
        rw [← h]
        exact read_phase_sec_error_ne _ _ _ hr
      · split at h
        · exact ih _ _ _ rc h
        · exact ih _ _ _ rc h
    · cases h

theorem do_s0_measure_error_ne (hw : device_t) (cfg : discipline_cfg_t) (fuel : Nat)
    (w : world_t) (rc : Int) (h : do_s0_measure hw cfg fuel w = some (.error rc)) : rc ≠ 0 := by
  unfold do_s0_measure at h
  split at h
  · cases h
  · rename_i rc1 heq
    simp only [Option.some.injEq, Except.error.injEq] at h
    rw [← h]
    exact do_s0_measure_loop_error_ne hw cfg _ fuel w 0 0 rc1 heq
  · cases h

theorem s1_polarity_check_error_ne (hw : device_t) (cfg : discipline_cfg_t) (w : world_t)
    (d0 cmd : ℚ) (n : Nat) (rc : Int)
    (h : s1_polarity_check hw cfg w d0 cmd n = .error rc) : rc ≠ 0 := by
  unfold s1_polarity_check at h
  split at h
  · split at h
    · rename_i rc0 h0
      simp only [Except.error.injEq] at h
      rw [← h]
      exact read_phase_sec_error_ne _ _ _ h0
    · simp only [] at h
      split at h
      · rename_i rc1 h1
        simp only [Except.error.injEq] at h
        rw [← h]
        exact read_phase_sec_error_ne _ _ _ h1
      · split at h
        · split at h
          · rename_i hwr
            simp only [Except.error.injEq] at h
            rw [← h]
            exact hwr
          · cases h
        · cases h
  · cases h

theorem s1_handoff_error_ne (hw : device_t) (cfg : discipline_cfg_t) (w : world_t)
    (p_ver d0 : ℚ) (n : Nat) (rc : Int)
    (h : s1_handoff hw cfg w p_ver d0 n = .error rc) : rc ≠ 0 := by
  unfold s1_handoff at h
  simp only [] at h
  split at h
  · rename_i hrf
    simp only [Except.error.injEq] at h
    rw [← h]; exact hrf
  · split at h
    · rename_i hwr
      simp only [Except.error.injEq] at h
      rw [← h]; exact hwr
    · split at h
      · rename_i rc1 heq
        simp only [Except.error.injEq] at h
        rw [← h]
        exact s1_polarity_check_error_ne _ _ _ _ _ _ _ heq
      · cases h

theorem discipline_run_step_error_ne (hw : device_t) (cfg : discipline_cfg_t) (w : world_t)
    (v : discipline_vars_t) (p : ℚ) (rc : Int)
    (h : discipline_run_step hw cfg w v p = .error rc) : rc ≠ 0 := by
  unfold discipline_run_step at h
  simp only [] at h
  split at h
  · rename_i hr1
    simp only [Except.error.injEq] at h
    rw [← h]; exact hr1
  · split at h
    · rename_i rcv heq
      simp only [Except.error.injEq] at h
      rw [← h]
      exact s1_verify_loop_error_ne _ _ _ _ _ _ heq
    · split at h
      · split at h
        · rename_i rc1 heq
          simp only [Except.error.injEq] at h
          rw [← h]
          exact s1_handoff_error_ne _ _ _ _ _ _ _ heq
        · cases h
      · cases h

theorem discipline_run_slew_error_ne (hw : device_t) (cfg : discipline_cfg_t) (w : world_t)
    (v : discipline_vars_t) (p : ℚ) (rc : Int)
    (h : discipline_run_slew hw cfg w v p = .error rc) : rc ≠ 0 := by
  unfold discipline_run_slew at h
  simp only [] at h
  split at h
  · cases h
  · split at h
    · rename_i hrc
      simp only [Except.error.injEq] at h
      rw [← h]; exact hrc
    · cases h

theorem discipline_run_iter_error_ne (hw : device_t) (cfg : discipline_cfg_t) (fuel : Nat)
    (w : world_t) (v : discipline_vars_t) (rc : Int)
    (h : discipline_run_iter hw cfg fuel w v = some (.error rc)) : rc ≠ 0 := by
  unfold discipline_run_iter at h
  split at h
  · split at h
    · cases h
    · rename_i rc1 heq
      simp only [Option.some.injEq, Except.error.injEq] at h
      rw [← h]
      exact do_s0_measure_error_ne _ _ _ _ _ heq
    · split at h
      · rename_i rc1 hm
        unfold discipline_run_measure at hm
        simp only [ne_eq, not_true_eq_false, if_false] at hm
        split at hm
        · cases hm
        · cases hm
      · cases h
  · split at h
    · rename_i rc1 hr
      simp only [Option.some.injEq, Except.error.injEq] at h
      rw [← h]
      exact read_phase_sec_error_ne _ _ _ hr
    · split at h
      · cases h
      · split at h
        · exact discipline_run_step_error_ne _ _ _ _ _ _ (Option.some.inj h)
        · exact discipline_run_slew_error_ne _ _ _ _ _ _ (Option.some.inj h)

theorem discipline_run_loop_returned_ne (hw : device_t) (cfg : discipline_cfg_t) (fuel : Nat) :
    ∀ (n : Nat) (w : world_t) (v : discipline_vars_t) (rc : Int),
      discipline_run_loop hw cfg fuel n w v = .returned rc → rc ≠ 0 := by
  intro n
  induction n with
  | zero =>
    intro w v rc h
    rw [discipline_run_loop_zero] at h
    cases h
  | succ n ih =>
    intro w v rc h
    rw [discipline_run_loop_succ] at h
    split at h
    · cases h
    · rename_i rc1 heq
      simp only [run_t.returned.injEq] at h
      rw [← h]
      exact discipline_run_iter_error_ne _ _ _ _ _ _ heq
    · exact ih _ _ rc h

/-! ## The verification loop -/

theorem read_phase_sec_wrapped (bus : cm_bus_t) (cfg : discipline_cfg_t) (pr pw : ℚ)
    (h : read_phase_sec bus cfg = .ok (pr, pw)) : pw = wrap_phase_sec pr := by
  unfold read_phase_sec at h
  split at h
  · cases h
  · simp only [Except.ok.injEq, Prod.mk.injEq] at h
    rw [← h.1, ← h.2]

theorem read_phase_sec_range (bus : cm_bus_t) (cfg : discipline_cfg_t) (pr pw : ℚ)
    (h : read_phase_sec bus cfg = .ok (pr, pw)) : -(1 / 2) ≤ pw ∧ pw < 1 / 2 := by
  rw [read_phase_sec_wrapped bus cfg pr pw h]
  exact ⟨wrap_phase_sec_up_ge _, wrap_phase_sec_up_lt _ (wrap_phase_sec_down_lt pr)⟩

theorem verify_samples_range (hw : device_t) (cfg : discipline_cfg_t) :
    ∀ (k : Nat) (w : world_t), ∀ q ∈ verify_samples hw cfg k w, -(1 / 2) ≤ q ∧ q < 1 / 2 := by
  intro k
  induction k with
  | zero =>
    intro w q hq
    rw [verify_samples_zero] at hq
    exact absurd hq (List.not_mem_nil q)
  | succ k ih =>
    intro w q hq
    rw [verify_samples_succ] at hq
    split at hq
    · exact absurd hq (List.not_mem_nil q)
    · rename_i pr pw hr
      rcases List.mem_cons.mp hq with h | h
      · rw [h]; exact read_phase_sec_range _ _ _ _ hr
      · exact ih _ q h

theorem resolve_phase_status (d : Nat) (hd : d < 8) :
    ∃ a, cm_resolve_reg_addr "Status" 0 (phase_status_reg_name d) = .ok a := by
  interval_cases d <;> exact ⟨_, rfl⟩

theorem read_phase_sec_ok (bus : cm_bus_t) (cfg : discipline_cfg_t) (hok : bus_ok bus)
    (hm : cfg.meas_dpll < 8) : ∃ pr pw, read_phase_sec bus cfg = .ok (pr, pw) := by
  obtain ⟨a, ha⟩ := resolve_phase_status cfg.meas_dpll hm
  unfold read_phase_sec read_phase_status_s36
  rw [cm_string_read_bytes_eq _ _ _ _ _ _ (by norm_num) ha]
  unfold cm_bus_t.read
  rw [if_neg (by simp [(hok _).1])]
  exact ⟨_, _, rfl⟩

theorem wr_freq_bases_bound (d : Nat) (hd : d < 8) :
    0xC838 ≤ cm_DPLL_Freq_Write_bases.getD d 0 := by
  interval_cases d <;> decide

theorem read_dpll_fod_freq_hz_frame_wr (bus : cm_bus_t) (c d : Nat) (data : List Nat)
    (hc : c < 8) :
    read_dpll_fod_freq_hz (bus.write (cm_DPLL_Freq_Write_bases.getD c 0) data).2 d
      = read_dpll_fod_freq_hz bus d := by
  unfold read_dpll_fod_freq_hz
  by_cases h1 : d < 8
  · simp only [cm_string_read_bytes_eq _ _ _ _ _ _ (by norm_num : (6 : Nat) ≠ 0)
      (resolve_fod_m d h1),
      cm_string_read_bytes_eq _ _ _ _ _ _ (by norm_num : (2 : Nat) ≠ 0) (resolve_fod_n d h1)]
    have hb : cm_DPLL_Ctrl_bases.getD d 0 + 0x24 ≤ 0xC7E0 := by
      interval_cases d <;> decide
    have hb1 := wr_freq_bases_bound c hc
    rw [read_write_disjoint _ _ _ _ _ (by omega), read_write_disjoint _ _ _ _ _ (by omega)]
  · simp only [cm_string_read_bytes_err _ _ _ _ _ _ (by norm_num : (6 : Nat) ≠ 0)
      (resolve_dpll_ctrl_bad d (by omega) _)]

theorem bus_ready_write_output (cfg : discipline_cfg_t) (bus : cm_bus_t) (o : Nat)
    (data : List Nat) (ho : o < 12) (h : bus_ready cfg bus) :
    bus_ready cfg (bus.write (cm_Output_bases.getD o 0 + 0xC) data).2 := by
  refine ⟨bus_ok_write _ _ _ h.1, ?_⟩
  intro x hx
  rw [read_dpll_fod_freq_hz_frame bus o _ data ho]
  exact h.2 x hx

theorem bus_ready_write_wr_freq (cfg : discipline_cfg_t) (bus : cm_bus_t) (c : Nat)
    (data : List Nat) (hc : c < 8) (h : bus_ready cfg bus) :
    bus_ready cfg (bus.write (cm_DPLL_Freq_Write_bases.getD c 0) data).2 := by
  refine ⟨bus_ok_write _ _ _ h.1, ?_⟩
  intro x hx
  rw [read_dpll_fod_freq_hz_frame_wr bus c _ data hc]
  exact h.2 x hx

theorem do_s1_step_output_ready (bus : cm_bus_t) (cfg : discipline_cfg_t) (s : ℚ) (o : Nat)
    (ho : o < 12) (hmem : o ∈ cfg.step_outs) (h : bus_ready cfg bus) :
    ∃ b1, do_s1_step_output bus cfg s o = (0, b1) ∧ bus_ready cfg b1 := by
  obtain ⟨F, M, N, hF, hpos⟩ := h.2 o hmem
  obtain ⟨dv, hdv⟩ := read_output_div_u32_ok bus o h.1 ho
  obtain ⟨a, ha⟩ := read_output_phase_adj_s32_ok bus o h.1 ho
  rw [do_s1_step_output_eq bus cfg s o a F M N dv hF hpos hdv ha]
  cases hdry : cfg.dry_run with
  | true => exact ⟨bus, rfl, h⟩
  | false =>
    rw [write_output_phase_adj_s32_ok bus o _ _ h.1 ho]
    exact ⟨_, rfl, bus_ready_write_output cfg bus o _ ho h⟩

theorem do_s1_step_loop_ready (cfg : discipline_cfg_t) (s : ℚ) :
    ∀ (L : List Nat) (bus : cm_bus_t), (∀ x ∈ L, x < 12 ∧ x ∈ cfg.step_outs) →
      bus_ready cfg bus →
      ∃ b1, do_s1_step_loop cfg s bus L = (0, b1) ∧ bus_ready cfg b1 := by
  intro L
  induction L with
  | nil => intro bus _ h; exact ⟨bus, rfl, h⟩
  | cons o rest ih =>
    intro bus hL h
    obtain ⟨ho, hmem⟩ := hL o (List.mem_cons_self o rest)
    obtain ⟨b1, hb1, hr1⟩ := do_s1_step_output_ready bus cfg s o ho hmem h
    rw [do_s1_step_loop, hb1]
    simp only [ne_eq, not_true_eq_false, if_false]
    exact ih b1 (fun x hx => hL x (List.mem_cons_of_mem o hx)) hr1

theorem do_s1_step_ready (bus : cm_bus_t) (cfg : discipline_cfg_t) (p : ℚ)
    (hv : cfg_valid cfg) (h : bus_ready cfg bus) :
    ∃ b1, do_s1_step bus cfg p = (0, b1) ∧ bus_ready cfg b1 :=
  do_s1_step_loop_ready cfg _ cfg.step_outs bus (fun x hx => ⟨hv.2.2 x hx, hx⟩) h

theorem do_s2_slew_loop_ready (cfg : discipline_cfg_t) (word : Int) :
    ∀ (L : List Nat) (bus : cm_bus_t), (∀ d ∈ L, d < 8) → bus_ready cfg bus →
      ∃ b1, do_s2_slew_loop cfg word bus L = (0, b1) ∧ bus_ready cfg b1 := by
  intro L
  induction L with
  | nil => intro bus _ h; exact ⟨bus, rfl, h⟩
  | cons c rest ih =>
    intro bus hL h
    have hc := hL c (List.mem_cons_self c rest)
    have hw : ∃ b1, write_dpll_wr_freq_s42 bus c word (want_print cfg) cfg.dry_run = (0, b1)
        ∧ bus_ready cfg b1 := by
      cases hdry : cfg.dry_run with
      | true => exact ⟨bus, rfl, h⟩
      | false =>
        rw [write_dpll_wr_freq_s42_ok bus c word _ h.1 hc]
        exact ⟨_, rfl, bus_ready_write_wr_freq cfg bus c _ hc h⟩
    obtain ⟨b1, hb1, hr1⟩ := hw
    rw [do_s2_slew_loop, hb1]
    simp only [ne_eq, not_true_eq_false, if_false]
    exact ih b1 (fun x hx => hL x (List.mem_cons_of_mem c hx)) hr1

theorem sleep_sec_ready (hw : device_t) (cfg : discipline_cfg_t) (w : world_t) (sec : ℚ)
    (hd : device_keeps_ready hw cfg) (h : bus_ready cfg w.bus) :
    bus_ready cfg (sleep_sec hw w sec).bus := by
  unfold sleep_sec
  split_ifs
  · exact h
  · exact hd _ _ h

theorem do_s1_step_sleep_ready (hw : device_t) (cfg : discipline_cfg_t) (w : world_t) (p : ℚ)
    (hv : cfg_valid cfg) (hd : device_keeps_ready hw cfg) (h : bus_ready cfg w.bus) :
    ∃ w1, do_s1_step_sleep hw cfg w p = (0, w1) ∧ bus_ready cfg w1.bus := by
  obtain ⟨b1, hb1, hr1⟩ := do_s1_step_ready w.bus cfg p hv h
  unfold do_s1_step_sleep
  rw [hb1]
  simp only [ne_eq, not_true_eq_false, if_false]
  exact ⟨_, rfl, sleep_sec_ready hw cfg _ _ hd hr1⟩

theorem s1_verify_loop_ready (hw : device_t) (cfg : discipline_cfg_t)
    (hv : cfg_valid cfg) (hd : device_keeps_ready hw cfg) :
    ∀ (k : Nat) (w : world_t) (acc : s1_verify_t), bus_ready cfg w.bus →
      ∃ acc1 w1, s1_verify_loop hw cfg k w acc = .ok (acc1, w1) ∧ bus_ready cfg w1.bus := by
  intro k
  induction k with
  | zero => intro w acc h; exact ⟨acc, w, s1_verify_loop_zero hw cfg w acc, h⟩
  | succ k ih =>
    intro w acc h
    obtain ⟨pr, pw, hr⟩ := read_phase_sec_ok w.bus cfg h.1 hv.1
    rw [s1_verify_loop_succ, hr]
    exact ih _ _ (sleep_sec_ready hw cfg w _ hd h)

theorem s1_polarity_check_ready (hw : device_t) (cfg : discipline_cfg_t) (w : world_t)
    (d0 cmd : ℚ) (n : Nat)
    (hv : cfg_valid cfg) (hd : device_keeps_ready hw cfg) (h : bus_ready cfg w.bus) :
    ∃ w1 cmd1, s1_polarity_check hw cfg w d0 cmd n = .ok (w1, cmd1) ∧ bus_ready cfg w1.bus := by
  unfold s1_polarity_check
  split_ifs with hc
  · obtain ⟨pr0, p0, hr0⟩ := read_phase_sec_ok w.bus cfg h.1 hv.1
    have h1 := sleep_sec_ready hw cfg w cfg.interval_sec hd h
    obtain ⟨pr1, p1, hr1⟩ := read_phase_sec_ok _ cfg h1.1 hv.1
    rw [hr0]
    simp only []
    rw [hr1]
    simp only []
    by_cases hf : |wrap_phase_sec (p1 - p0) / cfg.interval_sec * 10 ^ 9| > |d0| * (120 / 100)
    · obtain ⟨b2, hb2, hr2⟩ := do_s2_slew_loop_ready cfg
        (wr_freq_word (-cmd * (1 / 10 ^ 9) / 1)) cfg.wr_dplls _ hv.2.1 h1
      rw [if_pos hf, hb2]
      simp only [ne_eq, not_true_eq_false, if_false]
      exact ⟨_, _, rfl, hr2⟩
    · rw [if_neg hf]
      exact ⟨_, _, rfl, h1⟩
  · exact ⟨_, _, rfl, h⟩

theorem s1_handoff_ready (hw : device_t) (cfg : discipline_cfg_t) (w : world_t)
    (p_ver d0 : ℚ) (n : Nat)
    (hv : cfg_valid cfg) (hd : device_keeps_ready hw cfg) (h : bus_ready cfg w.bus) :
    ∃ r, s1_handoff hw cfg w p_ver d0 n = .ok r ∧ bus_ready cfg r.w.bus := by
  obtain ⟨w1, hw1, hr1⟩ := do_s1_step_sleep_ready hw cfg w p_ver hv hd h
  obtain ⟨b2, hb2, hr2⟩ := do_s2_slew_loop_ready cfg
    (wr_freq_word (s1_init_cmd_ppb cfg d0 * (1 / 10 ^ 9))) cfg.wr_dplls w1.bus hv.2.1 hr1
  obtain ⟨w3, cmd3, hp3, hr3⟩ := s1_polarity_check_ready hw cfg { w1 with bus := b2 } d0
    (s1_init_cmd_ppb cfg d0) n hv hd hr2
  unfold s1_handoff
  rw [hw1]
  simp only [ne_eq, not_true_eq_false, if_false]
  rw [hb2]
  simp only [ne_eq, not_true_eq_false, if_false]
  rw [hp3]
  exact ⟨_, rfl, hr3⟩

theorem discipline_run_step_ready (hw : device_t) (cfg : discipline_cfg_t) (w : world_t)
    (v : discipline_vars_t) (p : ℚ)
    (hv : cfg_valid cfg) (hd : device_keeps_ready hw cfg) (h : bus_ready cfg w.bus) :
    ∃ w1 v1, discipline_run_step hw cfg w v p = .ok (w1, v1) ∧ bus_ready cfg w1.bus := by
  obtain ⟨w1, hw1, hr1⟩ := do_s1_step_sleep_ready hw cfg w p hv hd h
  obtain ⟨acc, w2, hl2, hr2⟩ := s1_verify_loop_ready hw cfg hv hd cfg.s1_verify_samples w1
    s1_verify_init hr1
  unfold discipline_run_step
  rw [hw1]
  simp only [ne_eq, not_true_eq_false, if_false]
  rw [hl2]
  simp only []
  split_ifs with hex
  · obtain ⟨r, hr, hr3⟩ := s1_handoff_ready hw cfg w2 acc.p_ver (s1_avg_drift_ppb acc)
      acc.drift_n hv hd hr2
    rw [hr]
    exact ⟨_, _, rfl, hr3⟩
  · exact ⟨_, _, rfl, hr2⟩

theorem discipline_run_slew_ready (hw : device_t) (cfg : discipline_cfg_t) (w : world_t)
    (v : discipline_vars_t) (p : ℚ)
    (hv : cfg_valid cfg) (hd : device_keeps_ready hw cfg) (h : bus_ready cfg w.bus) :
    ∃ w1 v1, discipline_run_slew hw cfg w v p = .ok (w1, v1) ∧ bus_ready cfg w1.bus := by
  unfold discipline_run_slew
  by_cases hf : |p| > cfg.s2_fallback_abs_sec
  · rw [if_pos hf]
    exact ⟨_, _, rfl, h⟩
  · obtain ⟨b2, hb2, hr2⟩ := do_s2_slew_loop_ready cfg
      (do_s2_slew w.bus cfg v.integ p cfg.interval_sec).word cfg.wr_dplls w.bus hv.2.1 h
    have hrc : (do_s2_slew w.bus cfg v.integ p cfg.interval_sec).rc = 0 :=
      congrArg Prod.fst hb2
    have hbus : (do_s2_slew w.bus cfg v.integ p cfg.interval_sec).bus = b2 :=
      congrArg Prod.snd hb2
    rw [if_neg hf]
    simp only [hrc, ne_eq, not_true_eq_false, if_false]
    refine ⟨_, _, rfl, sleep_sec_ready hw cfg _ _ hd ?_⟩
    rw [hbus]
    exact hr2

theorem discipline_run_iter_ready (hw : device_t) (cfg : discipline_cfg_t) (fuel : Nat)
    (w : world_t) (v : discipline_vars_t) (hst : v.st ≠ .ST_S0_MEASURE)
    (hv : cfg_valid cfg) (hd : device_keeps_ready hw cfg) (h : bus_ready cfg w.bus) :
    ∃ w1 v1, discipline_run_iter hw cfg fuel w v = some (.ok (w1, v1))
      ∧ bus_ready cfg w1.bus := by
  obtain ⟨pr, pw, hr⟩ := read_phase_sec_ok w.bus cfg h.1 hv.1
  unfold discipline_run_iter
  rw [if_neg hst, hr]
  simp only []
  split_ifs with hg hs
  · exact ⟨_, _, rfl, sleep_sec_ready hw cfg w _ hd h⟩
  · obtain ⟨w1, v1, h1, hr1⟩ := discipline_run_step_ready hw cfg w v pw hv hd h
    exact ⟨w1, v1, by rw [h1], hr1⟩
  · obtain ⟨w1, v1, h1, hr1⟩ := discipline_run_slew_ready hw cfg w v pw hv hd h
    exact ⟨w1, v1, by rw [h1], hr1⟩

/-! ## What a successful hand-off and a successful Step iteration did -/

theorem s1_polarity_check_skip (hw : device_t) (cfg : discipline_cfg_t) (w : world_t)
    (d0 cmd : ℚ) (n : Nat)
    (h : ¬(cfg.dry_run = false ∧ cfg.debug = true ∧ cfg.interval_sec > 0 ∧ n ≥ 2)) :
    s1_polarity_check hw cfg w d0 cmd n = .ok (w, cmd) := by
  unfold s1_polarity_check
  rw [if_neg h]

theorem s1_polarity_check_run (hw : device_t) (cfg : discipline_cfg_t) (w : world_t)
    (d0 cmd : ℚ) (n : Nat) (w1 : world_t) (cmd1 : ℚ)
    (hc : cfg.dry_run = false ∧ cfg.debug = true ∧ cfg.interval_sec > 0 ∧ n ≥ 2)
    (h : s1_polarity_check hw cfg w d0 cmd n = .ok (w1, cmd1)) :
    ∃ pr0 p0 pr1 p1, read_phase_sec w.bus cfg = .ok (pr0, p0)
      ∧ read_phase_sec (sleep_sec hw w cfg.interval_sec).bus cfg = .ok (pr1, p1)
      ∧ (|wrap_phase_sec (p1 - p0) / cfg.interval_sec * 10 ^ 9| > |d0| * (120 / 100) →
          cmd1 = -cmd ∧ ∃ b3,
            do_s2_slew_loop cfg (wr_freq_word (-cmd * (1 / 10 ^ 9)))
              (sleep_sec hw w cfg.interval_sec).bus cfg.wr_dplls = (0, b3)
            ∧ w1 = { sleep_sec hw w cfg.interval_sec with bus := b3 })
      ∧ (¬ |wrap_phase_sec (p1 - p0) / cfg.interval_sec * 10 ^ 9| > |d0| * (120 / 100) →
          cmd1 = cmd ∧ w1 = sleep_sec hw w cfg.interval_sec) := by
  unfold s1_polarity_check at h
  rw [if_pos hc] at h
  split at h
  · cases h
  · rename_i pr0 p0 hr0
    simp only [] at h
    split at h
    · cases h
    · rename_i pr1 p1 hr1
      refine ⟨pr0, p0, pr1, p1, hr0, hr1, ?_, ?_⟩
      · intro hf
        rw [if_pos hf] at h
        split at h
        · cases h
        · simp only [Except.ok.injEq, Prod.mk.injEq] at h
          rename_i hz
          have hz0 : (do_s2_slew_loop cfg (wr_freq_word (-cmd * (1 / 10 ^ 9)))
              (sleep_sec hw w cfg.interval_sec).bus cfg.wr_dplls).1 = 0 := by
            rw [div_one] at hz
            exact not_not.mp hz
          refine ⟨h.2.symm, _, Prod.ext hz0 rfl, ?_⟩
          rw [← h.1, div_one]
      · intro hf
        rw [if_neg hf] at h
        simp only [Except.ok.injEq, Prod.mk.injEq] at h
        exact ⟨h.2.symm, h.1.symm⟩

theorem s1_polarity_check_cmd (hw : device_t) (cfg : discipline_cfg_t) (w : world_t)
    (d0 cmd : ℚ) (n : Nat) (w1 : world_t) (cmd1 : ℚ)
    (h : s1_polarity_check hw cfg w d0 cmd n = .ok (w1, cmd1)) :
    cmd1 = cmd ∨ cmd1 = -cmd := by
  by_cases hc : cfg.dry_run = false ∧ cfg.debug = true ∧ cfg.interval_sec > 0 ∧ n ≥ 2
  · obtain ⟨pr0, p0, pr1, p1, _, _, hflip, hkeep⟩ :=
      s1_polarity_check_run hw cfg w d0 cmd n w1 cmd1 hc h
    by_cases hf : |wrap_phase_sec (p1 - p0) / cfg.interval_sec * 10 ^ 9| > |d0| * (120 / 100)
    · exact Or.inr (hflip hf).1
    · exact Or.inl (hkeep hf).1
  · rw [s1_polarity_check_skip hw cfg w d0 cmd n hc] at h
    simp only [Except.ok.injEq, Prod.mk.injEq] at h
    exact Or.inl h.2.symm

theorem s1_handoff_ok (hw : device_t) (cfg : discipline_cfg_t) (w : world_t)
    (p_ver d0 : ℚ) (n : Nat) (r : s1_handoff_t)
    (h : s1_handoff hw cfg w p_ver d0 n = .ok r) :
    ∃ w1 b2, do_s1_step_sleep hw cfg w p_ver = (0, w1)
      ∧ do_s2_slew_loop cfg (wr_freq_word (s1_init_cmd_ppb cfg d0 * (1 / 10 ^ 9))) w1.bus
          cfg.wr_dplls = (0, b2)
      ∧ s1_polarity_check hw cfg { w1 with bus := b2 } d0 (s1_init_cmd_ppb cfg d0) n
          = .ok (r.w, r.cmd_ppb0)
      ∧ r.cmd_frac0 = r.cmd_ppb0 * (1 / 10 ^ 9)
      ∧ r.word0 = wr_freq_word r.cmd_frac0
      ∧ r.integ = if cfg.ki > 0 then r.cmd_frac0 / (CM_DEFAULT_POLARITY * cfg.ki) else 0 := by
  unfold s1_handoff at h
  simp only [] at h
  split at h
  · cases h
  · rename_i h1
    split at h
    · cases h
    · rename_i h2
      split at h
      · cases h
      · rename_i w2 cmd1 h3
        simp only [Except.ok.injEq] at h
        refine ⟨(do_s1_step_sleep hw cfg w p_ver).2, _, Prod.ext (not_not.mp h1) rfl,
          Prod.ext (not_not.mp h2) rfl, ?_, ?_, ?_, ?_⟩
        · rw [h3, ← h]
        · rw [← h]
        · rw [← h]
        · rw [← h]

theorem discipline_run_step_ok (hw : device_t) (cfg : discipline_cfg_t) (w : world_t)
    (v : discipline_vars_t) (p : ℚ) (w3 : world_t) (v3 : discipline_vars_t)
    (h : discipline_run_step hw cfg w v p = .ok (w3, v3)) :
    ∃ w1 acc w2, do_s1_step_sleep hw cfg w p = (0, w1)
      ∧ s1_verify_loop hw cfg cfg.s1_verify_samples w1 s1_verify_init = .ok (acc, w2)
      ∧ (|acc.p_ver| ≤ cfg.s1_exit_abs_sec →
          ∃ r, s1_handoff hw cfg w2 acc.p_ver (s1_avg_drift_ppb acc) acc.drift_n = .ok r
            ∧ w3 = r.w
            ∧ v3 = { v with st := .ST_S2_SLEW, integ := r.integ, have_prev := false,
                            s1_iter := (v.s1_iter + 1) % 2 ^ 32 })
      ∧ (¬ |acc.p_ver| ≤ cfg.s1_exit_abs_sec →
          w3 = w2 ∧ v3 = { v with s1_iter := (v.s1_iter + 1) % 2 ^ 32 }) := by
  unfold discipline_run_step at h
  simp only [] at h
  split at h
  · cases h
  · rename_i h1
    split at h
    · cases h
    · rename_i acc w2 h2
      refine ⟨(do_s1_step_sleep hw cfg w p).2, acc, w2, Prod.ext (not_not.mp h1) rfl, h2, ?_, ?_⟩
      · intro hex
        rw [if_pos hex] at h
        split at h
        · cases h
        · rename_i r h3
          simp only [Except.ok.injEq, Prod.mk.injEq] at h
          exact ⟨r, h3, h.1.symm, h.2.symm⟩
      · intro hex
        rw [if_neg hex] at h
        simp only [Except.ok.injEq, Prod.mk.injEq] at h
        exact ⟨h.1.symm, h.2.symm⟩

theorem discipline_run_iter_step (hw : device_t) (cfg : discipline_cfg_t) (fuel : Nat)
    (w : world_t) (v : discipline_vars_t) (pr p : ℚ) (hst : v.st = .ST_S1_STEP)
    (hread : read_phase_sec w.bus cfg = .ok (pr, p))
    (hgate : ¬(cfg.max_abs_phase_sec > 0 ∧ |p| > cfg.max_abs_phase_sec)) :
    discipline_run_iter hw cfg fuel w v = some (discipline_run_step hw cfg w v p) := by
  unfold discipline_run_iter
  rw [if_neg (by rw [hst]; decide), hread]
  simp only []
  rw [if_neg hgate, if_pos hst]

theorem discipline_run_iter_slew (hw : device_t) (cfg : discipline_cfg_t) (fuel : Nat)
    (w : world_t) (v : discipline_vars_t) (pr p : ℚ) (hst : v.st = .ST_S2_SLEW)
    (hread : read_phase_sec w.bus cfg = .ok (pr, p))
    (hgate : ¬(cfg.max_abs_phase_sec > 0 ∧ |p| > cfg.max_abs_phase_sec)) :
    discipline_run_iter hw cfg fuel w v = some (discipline_run_slew hw cfg w v p) := by
  unfold discipline_run_iter
  rw [if_neg (by rw [hst]; decide), hread]
  simp only []
  rw [if_neg hgate, if_neg (by rw [hst]; decide)]

theorem discipline_run_iter_drop (hw : device_t) (cfg : discipline_cfg_t) (fuel : Nat)
    (w : world_t) (v : discipline_vars_t) (pr p : ℚ) (hst : v.st ≠ .ST_S0_MEASURE)
    (hread : read_phase_sec w.bus cfg = .ok (pr, p))
    (hgate : cfg.max_abs_phase_sec > 0 ∧ |p| > cfg.max_abs_phase_sec) :
    discipline_run_iter hw cfg fuel w v = some (.ok (sleep_sec hw w cfg.interval_sec, v)) := by
  unfold discipline_run_iter
  rw [if_neg hst, hread]
  simp only []
  rw [if_pos hgate]

/-! ## A concrete start -/

theorem cfg_valid_default : cfg_valid main_default_cfg :=
  ⟨by decide, by decide, by decide⟩

theorem bus_ready_fod_100 (cfg : discipline_cfg_t) (h : ∀ x ∈ cfg.step_outs, x < 12) :
    bus_ready cfg bus_fod_100 := by
  refine ⟨fun _ => ⟨rfl, rfl⟩, ?_⟩
  intro x hx
  have hx12 := h x hx
  have hpos : (0 : ℚ) < ((100 : Nat) : ℚ) / ((1 : Nat) : ℚ) := by norm_num
  interval_cases x <;> exact ⟨((100 : Nat) : ℚ) / ((1 : Nat) : ℚ), 100, 1, rfl, hpos⟩

theorem device_idle_keeps_ready (cfg : discipline_cfg_t) : device_keeps_ready device_idle cfg :=
  fun _ _ h => h

theorem read_phase_sec_gate_default (bus : cm_bus_t) (cfg : discipline_cfg_t) (pr p : ℚ)
    (hread : read_phase_sec bus cfg = .ok (pr, p)) (hmax : cfg.max_abs_phase_sec = 5 / 10) :
    ¬(cfg.max_abs_phase_sec > 0 ∧ |p| > cfg.max_abs_phase_sec) := by
  obtain ⟨h1, h2⟩ := read_phase_sec_range bus cfg pr p hread
  rw [hmax]
  intro h
  have := h.2
  rw [gt_iff_lt, lt_abs] at this
  rcases this with h3 | h3 <;> linarith

theorem read_phase_sec_of_s36 (bus : cm_bus_t) (cfg : discipline_cfg_t) (s : Int) (x : ℚ)
    (h : read_phase_status_s36 bus cfg.meas_dpll = .ok s) (hinv : cfg.invert = false)
    (hx : phase_s36_to_seconds s = x) (hlo : -(1 / 2) ≤ x) (hhi : x < 1 / 2) :
    read_phase_sec bus cfg = .ok (x, x) := by
  unfold read_phase_sec
  rw [h]
  simp only [hinv, Bool.false_eq_true, if_false, hx]
  unfold wrap_phase_sec
  rw [wrap_phase_sec_down_of_lt x hhi, wrap_phase_sec_up_of_ge x hlo]

theorem read_phase_sec_fod_100 :
    read_phase_sec bus_fod_100 main_default_cfg = .ok (0, 0) :=
  read_phase_sec_of_s36 bus_fod_100 main_default_cfg 0 0 rfl rfl
    (by norm_num [phase_s36_to_seconds]) (by norm_num) (by norm_num)

theorem s1_verify_loop_p_ver (hw : device_t) (cfg : discipline_cfg_t) :
    ∀ (k : Nat) (w : world_t) (acc acc1 : s1_verify_t) (w1 : world_t),
      s1_verify_loop hw cfg k w acc = .ok (acc1, w1) →
      (verify_samples hw cfg k w).length = k
        ∧ acc1.p_ver = (verify_samples hw cfg k w).getLastD acc.p_ver := by
  intro k
  induction k with
  | zero =>
    intro w acc acc1 w1 h
    rw [s1_verify_loop_zero] at h
    simp only [Except.ok.injEq, Prod.mk.injEq] at h
    rw [verify_samples_zero, ← h.1]
    exact ⟨rfl, rfl⟩
  | succ k ih =>
    intro w acc acc1 w1 h
    rw [s1_verify_loop_succ] at h
    rw [verify_samples_succ]
    split at h
    · cases h
    · rename_i pr pw hr
      obtain ⟨h1, h4⟩ := ih _ (s1_verify_update cfg acc pw) acc1 w1 h
      refine ⟨by rw [List.length_cons, h1], ?_⟩
      rw [h4]
      simp only [s1_verify_update]
      cases hv : verify_samples hw cfg k (sleep_sec hw w cfg.interval_sec) with
      | nil => rfl
      | cons a l => rfl

/-! ## The phase registers are not touched by the step actuator -/

theorem write_output_phase_adj_s32_low (bus : cm_bus_t) (o : Nat) (adj : Int)
    (trace dry : Bool) :
    (∀ a < 0xCA14, (write_output_phase_adj_s32 bus o adj trace dry).2.mem a = bus.mem a)
      ∧ (write_output_phase_adj_s32 bus o adj trace dry).2.read_rc = bus.read_rc := by
  cases dry with
  | true => exact ⟨fun _ _ => rfl, rfl⟩
  | false =>
    show (∀ a < 0xCA14, (cm_string_write_bytes bus "Output" o "OUT_PHASE_ADJ_7_0"
        (phase_adj_pack adj)).2.mem a = bus.mem a)
      ∧ (cm_string_write_bytes bus "Output" o "OUT_PHASE_ADJ_7_0"
        (phase_adj_pack adj)).2.read_rc = bus.read_rc
    unfold cm_string_write_bytes
    rw [if_neg (by simp [phase_adj_pack])]
    by_cases ho : o < 12
    · rw [resolve_output_adj o ho]
      simp only []
      have hb := output_bases_bound o ho
      exact ⟨fun a ha => write_mem_out bus _ _ a (Or.inl (by omega)),
        (write_rc_same bus _ _).1⟩
    · rw [resolve_output_bad o (by omega)]
      exact ⟨fun _ _ => rfl, rfl⟩

theorem do_s1_step_output_low (bus : cm_bus_t) (cfg : discipline_cfg_t) (s : ℚ) (o : Nat) :
    (∀ a < 0xCA14, (do_s1_step_output bus cfg s o).2.mem a = bus.mem a)
      ∧ (do_s1_step_output bus cfg s o).2.read_rc = bus.read_rc := by
  unfold do_s1_step_output
  simp only []
  split
  · exact ⟨fun _ _ => rfl, rfl⟩
  · split_ifs
    · exact ⟨fun _ _ => rfl, rfl⟩
    · split
      · exact write_output_phase_adj_s32_low bus o _ _ _
      · exact ⟨fun _ _ => rfl, rfl⟩

theorem do_s1_step_loop_low (cfg : discipline_cfg_t) (s : ℚ) :
    ∀ (L : List Nat) (bus : cm_bus_t),
      (∀ a < 0xCA14, (do_s1_step_loop cfg s bus L).2.mem a = bus.mem a)
        ∧ (do_s1_step_loop cfg s bus L).2.read_rc = bus.read_rc := by
  intro L
  induction L with
  | nil => intro bus; exact ⟨fun _ _ => rfl, rfl⟩
  | cons o rest ih =>
    intro bus
    have h1 := do_s1_step_output_low bus cfg s o
    rw [do_s1_step_loop]
    split_ifs with h
    · exact h1
    · have h2 := ih (do_s1_step_output bus cfg s o).2
      exact ⟨fun a ha => by rw [h2.1 a ha, h1.1 a ha], by rw [h2.2, h1.2]⟩

theorem read_phase_sec_congr (b b1 : cm_bus_t) (cfg : discipline_cfg_t)
    (hm : cfg.meas_dpll < 8) (hmem : ∀ a < 0xCA14, b1.mem a = b.mem a)
    (hrc : b1.read_rc = b.read_rc) :
    read_phase_sec b1 cfg = read_phase_sec b cfg := by
  have hres : ∃ a, cm_resolve_reg_addr "Status" 0 (phase_status_reg_name cfg.meas_dpll) = .ok a
      ∧ a + 5 ≤ 0xCA14 := by
    generalize cfg.meas_dpll = d at hm
    interval_cases d <;> exact ⟨_, rfl, by decide⟩
  obtain ⟨a, ha, hle⟩ := hres
  have hread : b1.read a 5 = b.read a 5 := by
    unfold cm_bus_t.read
    rw [hrc]
    split_ifs
    · rfl
    · congr 1
      apply List.map_congr_left
      intro i hi
      rw [List.mem_range] at hi
      rw [hmem (a + i) (by omega)]
  unfold read_phase_sec read_phase_status_s36
  rw [cm_string_read_bytes_eq _ _ _ _ _ _ (by norm_num) ha,
    cm_string_read_bytes_eq _ _ _ _ _ _ (by norm_num) ha, hread]

theorem sleep_sec_idle_bus (w : world_t) (sec : ℚ) : (sleep_sec device_idle w sec).bus = w.bus := by
  unfold sleep_sec
  split_ifs <;> rfl

theorem do_s1_step_sleep_idle_phase (cfg : discipline_cfg_t) (w : world_t) (p : ℚ)
    (hm : cfg.meas_dpll < 8) :
    read_phase_sec (do_s1_step_sleep device_idle cfg w p).2.bus cfg = read_phase_sec w.bus cfg := by
  have h := do_s1_step_loop_low cfg (s1_step_sec cfg p) cfg.step_outs w.bus
  have hb : (do_s1_step_sleep device_idle cfg w p).2.bus = (do_s1_step w.bus cfg p).2 := by
    unfold do_s1_step_sleep
    simp only []
    split_ifs
    · rfl
    · rw [sleep_sec_idle_bus]
  rw [hb]
  exact read_phase_sec_congr w.bus _ cfg hm h.1 h.2

theorem verify_samples_idle (cfg : discipline_cfg_t) (pr pw : ℚ) :
    ∀ (k : Nat) (w : world_t), read_phase_sec w.bus cfg = .ok (pr, pw) →
      verify_samples device_idle cfg k w = List.replicate k pw := by
  intro k
  induction k with
  | zero => intro w _; exact verify_samples_zero _ _ _
  | succ k ih =>
    intro w h
    rw [verify_samples_succ, h]
    simp only []
    rw [ih _ (by rw [sleep_sec_idle_bus]; exact h)]
    rfl

theorem getLastD_replicate (k : Nat) (x : ℚ) : (List.replicate k x).getLastD x = x := by
  induction k with
  | zero => rfl
  | succ k ih =>
    cases k with
    | zero => rfl
    | succ j =>
      have e : List.replicate (j + 1 + 1) x = x :: List.replicate (j + 1) x := rfl
      rw [e]
      have e2 : List.replicate (j + 1) x = x :: List.replicate j x := rfl
      rw [e2] at ih ⊢
      simpa [List.getLastD] using ih

/-- On the register file `bus_fod_100` with the idle device, a Step iteration with phase
sample 0 hands off to Slew, whatever the gains and thresholds (the exit threshold
being non-negative). -/
theorem discipline_run_step_idle_slew (cfg : discipline_cfg_t) (v : discipline_vars_t)
    (hv : cfg_valid cfg) (hm : cfg.meas_dpll = 5) (hinv : cfg.invert = false)
    (hex : 0 ≤ cfg.s1_exit_abs_sec) :
    ∃ w3 v3, discipline_run_step device_idle cfg ⟨bus_fod_100, 0, 0⟩ v 0 = .ok (w3, v3)
      ∧ v3.st = .ST_S2_SLEW := by
  have hr := bus_ready_fod_100 cfg hv.2.2
  obtain ⟨w3, v3, hstep, _⟩ := discipline_run_step_ready device_idle cfg ⟨bus_fod_100, 0, 0⟩ v 0
    hv (device_idle_keeps_ready _) hr
  obtain ⟨w1, acc, w2, h1, h2, hexit, _⟩ := discipline_run_step_ok _ _ _ _ _ _ _ hstep
  have hread0 : read_phase_sec bus_fod_100 cfg = .ok (0, 0) :=
    read_phase_sec_of_s36 bus_fod_100 cfg 0 0 (by rw [hm]; rfl) hinv
      (by norm_num [phase_s36_to_seconds]) (by norm_num) (by norm_num)
  have hread1 : read_phase_sec w1.bus cfg = .ok (0, 0) := by
    have := do_s1_step_sleep_idle_phase cfg ⟨bus_fod_100, 0, 0⟩ 0 hv.1
    rw [h1] at this
    rw [this]
    exact hread0
  obtain ⟨_, hp⟩ := s1_verify_loop_p_ver device_idle cfg _ w1 s1_verify_init acc w2 h2
  rw [verify_samples_idle cfg 0 0 _ w1 hread1] at hp
  have hp0 : acc.p_ver = 0 := by
    rw [hp]
    exact getLastD_replicate _ 0
  obtain ⟨r, _, _, hv3⟩ := hexit (by rw [hp0, abs_zero]; exact hex)
  exact ⟨w3, v3, hstep, by rw [hv3]⟩

/-! ## The hand-off command -/

theorem s1_init_cmd_ppb_eq (cfg : discipline_cfg_t) (d0 : ℚ) :
    s1_init_cmd_ppb cfg d0
      = if cfg.max_abs_ppb > 0 then sat (-cfg.max_abs_ppb) cfg.max_abs_ppb (-d0) else -d0 := by
  unfold s1_init_cmd_ppb
  simp only []
  split_ifs with h
  · exact sat_eq_clamp_d _ _ _ (by linarith)
  · rfl

theorem s1_init_cmd_ppb_bound (cfg : discipline_cfg_t) (d0 : ℚ) (h : cfg.max_abs_ppb > 0) :
    |s1_init_cmd_ppb cfg d0| ≤ cfg.max_abs_ppb := by
  rw [s1_init_cmd_ppb_eq, if_pos h]
  unfold sat
  rw [abs_le]
  exact ⟨le_max_left _ _, max_le (by linarith) (min_le_left _ _)⟩

theorem wr_freq_word_eq_sat (f : ℚ) :
    wr_freq_word f = sat (-(2 ^ 41)) (2 ^ 41 - 1) (llround (f * 2 ^ 53)) := by
  rw [wr_freq_word_eq, clamp_s42_eq_sat]

/-- The PI law started from the seed `c / (polarity * Ki)` with phase error 0 reproduces the
command fraction `c` when `Ki > 0` and `c` is inside the command bound. -/
theorem do_s2_slew_seeded (bus : cm_bus_t) (cfg : discipline_cfg_t) (c dt : ℚ)
    (hki : cfg.ki > 0) (hb : cfg.max_abs_ppb > 0 → |c| ≤ cfg.max_abs_ppb * (1 / 10 ^ 9)) :
    (do_s2_slew bus cfg (c / (CM_DEFAULT_POLARITY * cfg.ki)) 0 dt).integ
        = c / (CM_DEFAULT_POLARITY * cfg.ki)
      ∧ (do_s2_slew bus cfg (c / (CM_DEFAULT_POLARITY * cfg.ki)) 0 dt).cmd_ppb = c * 10 ^ 9
      ∧ (do_s2_slew bus cfg (c / (CM_DEFAULT_POLARITY * cfg.ki)) 0 dt).word = wr_freq_word c := by
  have hne : cfg.ki ≠ 0 := ne_of_gt hki
  have hraw : CM_DEFAULT_POLARITY
      * (cfg.kp * 0 + cfg.ki * (c / (CM_DEFAULT_POLARITY * cfg.ki) + 0 * dt)) = c := by
    unfold CM_DEFAULT_POLARITY
    field_simp
  have hfrac : (if cfg.max_abs_ppb > 0 then
      clamp_d (CM_DEFAULT_POLARITY
          * (cfg.kp * 0 + cfg.ki * (c / (CM_DEFAULT_POLARITY * cfg.ki) + 0 * dt)))
        (-(cfg.max_abs_ppb * (1 / 10 ^ 9))) (cfg.max_abs_ppb * (1 / 10 ^ 9))
      else CM_DEFAULT_POLARITY
          * (cfg.kp * 0 + cfg.ki * (c / (CM_DEFAULT_POLARITY * cfg.ki) + 0 * dt))) = c := by
    rw [hraw]
    split_ifs with h
    · have hc := abs_le.mp (hb h)
      unfold clamp_d
      rw [if_neg (by linarith [hc.1]), if_neg (by linarith [hc.2])]
    · rfl
  refine ⟨?_, ?_, ?_⟩
  · show c / (CM_DEFAULT_POLARITY * cfg.ki) + 0 * dt = c / (CM_DEFAULT_POLARITY * cfg.ki)
    ring
  · unfold do_s2_slew
    simp only []
    rw [hfrac]
  · unfold do_s2_slew
    simp only []
    rw [hfrac]

theorem s1_handoff_cmd_bound (hw : device_t) (cfg : discipline_cfg_t) (w : world_t)
    (p_ver d0 : ℚ) (n : Nat) (r : s1_handoff_t)
    (h : s1_handoff hw cfg w p_ver d0 n = .ok r) (hmax : cfg.max_abs_ppb > 0) :
    |r.cmd_frac0| ≤ cfg.max_abs_ppb * (1 / 10 ^ 9) := by
  obtain ⟨w1, b2, _, _, hp, hf, _, _⟩ := s1_handoff_ok hw cfg w p_ver d0 n r h
  have hb := s1_init_cmd_ppb_bound cfg d0 hmax
  have hc : |r.cmd_ppb0| ≤ cfg.max_abs_ppb := by
    rcases s1_polarity_check_cmd hw cfg _ d0 _ n r.w r.cmd_ppb0 hp with e | e
    · rw [e]; exact hb
    · rw [e, abs_neg]; exact hb
  rw [hf, abs_mul, abs_of_pos (by norm_num : (0 : ℚ) < 1 / 10 ^ 9)]
  exact mul_le_mul_of_nonneg_right hc (by norm_num)

/-! ## The fallback from Slew -/

theorem read_phase_sec_phase_03 (cfg : discipline_cfg_t) (hm : cfg.meas_dpll = 5)
    (hinv : cfg.invert = false) :
    read_phase_sec bus_phase_03 cfg = .ok (3 / 10, 3 / 10) :=
  read_phase_sec_of_s36 bus_phase_03 cfg 6000000000 (3 / 10) (by rw [hm]; rfl) hinv
    (by norm_num [phase_s36_to_seconds, CM_ITDC_UI_SEC, CM_ITDC_HZ]) (by norm_num)
    (by norm_num)

theorem discipline_run_step_integ (hw : device_t) (cfg : discipline_cfg_t) (w : world_t)
    (u : discipline_vars_t) (q I : ℚ) (hst : u.st = .ST_S1_STEP) :
    discipline_run_step hw cfg w { u with integ := I } q
      = match discipline_run_step hw cfg w u q with
        | .error rc => .error rc
        | .ok (w1, u1) =>
          .ok (w1, if u1.st = .ST_S2_SLEW then u1 else { u1 with integ := I }) := by
  unfold discipline_run_step
  simp only []
  by_cases h1 : (do_s1_step_sleep hw cfg w q).1 ≠ 0
  · rw [if_pos h1, if_pos h1]
  · rw [if_neg h1, if_neg h1]
    cases hl : s1_verify_loop hw cfg cfg.s1_verify_samples (do_s1_step_sleep hw cfg w q).2
        s1_verify_init with
    | error rc => rfl
    | ok x =>
      obtain ⟨acc, w2⟩ := x
      simp only []
      by_cases hex : |acc.p_ver| ≤ cfg.s1_exit_abs_sec
      · rw [if_pos hex, if_pos hex]
        cases hh : s1_handoff hw cfg w2 acc.p_ver (s1_avg_drift_ppb acc) acc.drift_n with
        | error rc => rfl
        | ok r => simp
      · rw [if_neg hex, if_neg hex]
        simp [hst]

/-! ## Failed accesses -/

theorem do_s0_measure_read_error (hw : device_t) (cfg : discipline_cfg_t) (k : Nat)
    (w : world_t) (rc : Int) (hwin : 0 < cfg.s0_window_sec)
    (hread : read_phase_sec w.bus cfg = .error rc) :
    do_s0_measure hw cfg (k + 1) w = some (.error rc) := by
  unfold do_s0_measure
  rw [do_s0_measure_loop]
  rw [if_pos (by rw [sub_self]; exact hwin), hread]

theorem discipline_run_iter_read_error (hw : device_t) (cfg : discipline_cfg_t) (fuel : Nat)
    (w : world_t) (v : discipline_vars_t) (rc : Int) (hst : v.st ≠ .ST_S0_MEASURE)
    (hread : read_phase_sec w.bus cfg = .error rc) :
    discipline_run_iter hw cfg fuel w v = some (.error rc) := by
  unfold discipline_run_iter
  rw [if_neg hst, hread]

theorem discipline_run_iter_measure_error (hw : device_t) (cfg : discipline_cfg_t) (fuel : Nat)
    (w : world_t) (v : discipline_vars_t) (rc : Int) (hst : v.st = .ST_S0_MEASURE)
    (hm : do_s0_measure hw cfg fuel w = some (.error rc)) :
    discipline_run_iter hw cfg fuel w v = some (.error rc) := by
  unfold discipline_run_iter
  rw [if_pos hst, hm]

theorem discipline_run_step_error (hw : device_t) (cfg : discipline_cfg_t) (w : world_t)
    (v : discipline_vars_t) (p : ℚ) (h : (do_s1_step w.bus cfg p).1 ≠ 0) :
    discipline_run_step hw cfg w v p = .error (do_s1_step w.bus cfg p).1 := by
  have h1 : (do_s1_step_sleep hw cfg w p).1 = (do_s1_step w.bus cfg p).1 := by
    unfold do_s1_step_sleep
    simp only []
    rw [if_pos h]
  unfold discipline_run_step
  simp only []
  rw [if_pos (by rw [h1]; exact h), h1]

theorem discipline_run_slew_error (hw : device_t) (cfg : discipline_cfg_t) (w : world_t)
    (v : discipline_vars_t) (p : ℚ) (hfb : ¬ |p| > cfg.s2_fallback_abs_sec)
    (h : (do_s2_slew w.bus cfg v.integ p cfg.interval_sec).rc ≠ 0) :
    discipline_run_slew hw cfg w v p
      = .error (do_s2_slew w.bus cfg v.integ p cfg.interval_sec).rc := by
  unfold discipline_run_slew
  rw [if_neg hfb]
  simp only []
  rw [if_pos h]

/-! ## Helpers outside the servo -/

theorem resolve_dpll_fod_m_0_7 (d : Nat) (hd : d < 8) :
    cm_resolve_reg_addr "DPLL_Ctrl" d "DPLL_FOD_FREQ_M_0_7" = .error (-2) := by
  interval_cases d <;> rfl

theorem cm_string_trigger_rw_of_read (bus : cm_bus_t) (m : String) (i : Nat) (r : String)
    (a : Nat) (hres : cm_resolve_reg_addr m i r = .ok a) (hr : bus.read_rc a = 0) :
    cm_string_trigger_rw bus m i r = (0, (bus.write a [bus.mem a % 256]).2) := by
  unfold cm_string_trigger_rw cm_read8 cm_write8 cm_bus_t.read
  rw [hres]
  simp only []
  rw [if_neg (fun h => h hr)]
  simp [byte_at]

theorem write_same_byte (bus : cm_bus_t) (a : Nat) (x : Nat) :
    (bus.write a [bus.mem a % 256]).2.mem x % 256 = bus.mem x % 256 := by
  unfold cm_bus_t.write
  split_ifs with hw
  · rfl
  · simp only [List.length_singleton]
    split_ifs with hx
    · have : x = a := by omega
      subst this
      simp [byte_at]
    · rfl

/-! ## Wrapping modulo one second -/

theorem wrap_phase_sec_down_int (x : ℚ) : ∃ k : ℤ, wrap_phase_sec_down x - x = k := by
  induction x using wrap_phase_sec_down.induct with
  | case1 x h ih =>
    obtain ⟨k, hk⟩ := ih
    refine ⟨k - 1, ?_⟩
    rw [wrap_phase_sec_down, if_pos h]
    push_cast
    linarith
  | case2 x h =>
    refine ⟨0, ?_⟩
    rw [wrap_phase_sec_down, if_neg h]
    simp

theorem wrap_phase_sec_up_int (x : ℚ) : ∃ k : ℤ, wrap_phase_sec_up x - x = k := by
  induction x using wrap_phase_sec_up.induct with
  | case1 x h ih =>
    obtain ⟨k, hk⟩ := ih
    refine ⟨k + 1, ?_⟩
    rw [wrap_phase_sec_up, if_pos h]
    push_cast
    linarith
  | case2 x h =>
    refine ⟨0, ?_⟩
    rw [wrap_phase_sec_up, if_neg h]
    simp

theorem wrap_phase_sec_int (x : ℚ) : ∃ k : ℤ, wrap_phase_sec x - x = k := by
  obtain ⟨k1, h1⟩ := wrap_phase_sec_down_int x
  obtain ⟨k2, h2⟩ := wrap_phase_sec_up_int (wrap_phase_sec_down x)
  refine ⟨k1 + k2, ?_⟩
  unfold wrap_phase_sec
  push_cast
  linarith

theorem wrap_phase_sec_of_mem (x : ℚ) (hlo : -(1 / 2) ≤ x) (hhi : x < 1 / 2) :
    wrap_phase_sec x = x := by
  unfold wrap_phase_sec
  rw [wrap_phase_sec_down_of_lt x hhi, wrap_phase_sec_up_of_ge x hlo]

/-! ## Bursts and the page register -/

theorem and_80_ne_zero_iff (a : Nat) : a &&& 0x0080 ≠ 0 ↔ a / 128 % 2 = 1 := by
  have h := Nat.testBit_to_div_mod (x := a) (i := 7)
  have e : a &&& 0x0080 = (a.testBit 7).toNat * 128 := by
    have := Nat.and_two_pow a 7
    simpa using this
  rw [e]
  cases hb : a.testBit 7 with
  | true =>
    rw [hb] at h
    simp at h ⊢
    omega
  | false =>
    rw [hb] at h
    simp at h ⊢
    omega

theorem dpll_compute_page_from_addr_eq (a : Nat) :
    dpll_compute_page_from_addr a
      = [if a / 128 % 2 = 1 then 0x80 else 0x00, a / 256 % 256, 0x10, 0x20] := by
  unfold dpll_compute_page_from_addr
  have h1 : (a >>> 8) &&& 0xFF = a / 256 % 256 := by
    rw [Nat.shiftRight_eq_div_pow]
    exact Nat.and_pow_two_sub_one_eq_mod _ 8
  simp only [h1]
  by_cases h : a / 128 % 2 = 1
  · rw [if_pos ((and_80_ne_zero_iff a).mpr h), if_pos h]
    simp
  · rw [if_neg (fun hh => h ((and_80_ne_zero_iff a).mp hh)), if_neg h]
    simp

theorem dpll_seq_offset_eq (a : Nat) : dpll_seq_offset a = a % 128 := by
  unfold dpll_seq_offset
  exact Nat.and_pow_two_sub_one_eq_mod a 7

/-- A burst of `len` bytes from `a` with `a % 128 + len <= 128` stays in the page selected
for `a`, at the offsets that follow the command byte. -/
theorem burst_in_page (a len i : Nat) (h : a % 128 + len ≤ 128) (hi : i < len) :
    dpll_compute_page_from_addr (a + i) = dpll_compute_page_from_addr a
      ∧ dpll_seq_offset (a + i) = dpll_seq_offset a + i := by
  rw [dpll_compute_page_from_addr_eq, dpll_compute_page_from_addr_eq, dpll_seq_offset_eq,
    dpll_seq_offset_eq]
  have e1 : (a + i) / 128 = a / 128 := by omega
  have e2 : (a + i) / 256 = a / 256 := by omega
  rw [e1, e2]
  exact ⟨rfl, by omega⟩

/-! ## The input ratio search -/

theorem dpll_max_m_cast : (DPLL_MAX_M : ℚ) = 2 ^ 48 - 1 := by
  have h : DPLL_MAX_M = 281474976710655 := by decide
  rw [h]
  norm_num

theorem dpll_ratio_numerator_lt (f : ℚ) (N : Nat) (hf : 0 < f)
    (h1 : ¬ f * (N : ℚ) > (DPLL_MAX_M : ℚ)) :
    u64_of_s64 (llround (f * (N : ℚ))) < 2 ^ 48
      ∧ ((u64_of_s64 (llround (f * (N : ℚ))) : Nat) : Int) = llround (f * (N : ℚ)) := by
  rw [dpll_max_m_cast] at h1
  have hr := llround_mem_range (f * (N : ℚ)) 0 (2 ^ 48 - 1)
    (by push_cast; positivity) (by push_cast; linarith)
  unfold u64_of_s64
  omega

theorem dpll_compute_input_ratio_loop_inv (f : ℚ) (hf : 0 < f) :
    ∀ (k N : Nat) (b : ratio_best_t), 1 ≤ N → N + k ≤ 65536 →
      (b.best_M < 2 ^ 48 ∧ 1 ≤ b.best_N ∧ b.best_N ≤ 65535) →
      (dpll_compute_input_ratio_loop f k N b).best_M < 2 ^ 48
        ∧ 1 ≤ (dpll_compute_input_ratio_loop f k N b).best_N
        ∧ (dpll_compute_input_ratio_loop f k N b).best_N ≤ 65535 := by
  intro k
  induction k with
  | zero =>
    intro N b _ _ hb
    rw [dpll_compute_input_ratio_loop]
    exact hb
  | succ k ih =>
    intro N b hN hk hb
    rw [dpll_compute_input_ratio_loop]
    simp only []
    split_ifs with h1 h2 h3
    · exact ih (N + 1) b (by omega) (by omega) hb
    · exact ⟨(dpll_ratio_numerator_lt f N hf h1).1, hN, show N ≤ 65535 by omega⟩
    · exact ih (N + 1) _ (by omega) (by omega)
        ⟨(dpll_ratio_numerator_lt f N hf h1).1, hN, show N ≤ 65535 by omega⟩
    · exact ih (N + 1) b (by omega) (by omega) hb

theorem dpll_compute_input_ratio_exact (n : Nat) (hn : 0 < n) (hmax : n < 2 ^ 48) :
    dpll_compute_input_ratio (n : ℚ) = .ok (n, 0, ((n : Nat) : ℚ) / ((1 : Nat) : ℚ),
      ((n : Nat) : ℚ) / ((1 : Nat) : ℚ) - (n : ℚ)) := by
  have hpos : (0 : ℚ) < (n : ℚ) := by exact_mod_cast hn
  have hll : llround ((n : ℚ) * ((1 : Nat) : ℚ)) = (n : Int) := by
    unfold llround
    rw [if_pos (by push_cast; linarith)]
    push_cast
    rw [mul_one]
    have : ((n : ℚ) + 1 / 2) = (((n : Int) : ℚ) + 1 / 2) := by push_cast; rfl
    rw [this, Int.floor_int_add]
    norm_num
  have hu : u64_of_s64 (n : Int) = n := by
    unfold u64_of_s64
    omega
  have hle : ¬ (n : ℚ) * ((1 : Nat) : ℚ) > (DPLL_MAX_M : ℚ) := by
    rw [dpll_max_m_cast]
    push_cast
    have h1 : n ≤ 281474976710655 := by omega
    have h2 : (n : ℚ) ≤ 281474976710655 := by exact_mod_cast h1
    have h3 : (2 : ℚ) ^ 48 - 1 = 281474976710655 := by norm_num
    rw [h3]
    linarith
  have hloop : dpll_compute_input_ratio_loop (n : ℚ) DPLL_MAX_N 1
      { best_err := DBL_MAX, best_M := 0, best_N := 1 }
      = { best_err := |((n : Nat) : ℚ) / ((1 : Nat) : ℚ) - (n : ℚ)|, best_M := n, best_N := 1 } := by
    have hD : DPLL_MAX_N = 65534 + 1 := rfl
    rw [hD, dpll_compute_input_ratio_loop]
    simp only []
    rw [if_neg hle, hll, hu]
    have herr : |((n : Nat) : ℚ) / ((1 : Nat) : ℚ) - (n : ℚ)| = 0 := by simp
    rw [if_pos (by rw [herr]; norm_num [DBL_MAX]), if_pos herr]
  unfold dpll_compute_input_ratio
  rw [if_neg (not_not.mpr hpos)]
  simp only []
  rw [hloop]
  simp only []
  rw [if_neg (by omega)]
  simp

/-! ## Slew with zero gains, and Slew below the fallback threshold -/

theorem wr_freq_word_zero : wr_freq_word 0 = 0 := by
  rw [wr_freq_word_eq]
  norm_num [llround, clamp_s42]

theorem do_s2_slew_zero_gains (bus : cm_bus_t) (cfg : discipline_cfg_t) (I e dt : ℚ)
    (hkp : cfg.kp = 0) (hki : cfg.ki = 0) :
    (do_s2_slew bus cfg I e dt).cmd_ppb = 0 ∧ (do_s2_slew bus cfg I e dt).word = 0
      ∧ ((do_s2_slew bus cfg I e dt).rc, (do_s2_slew bus cfg I e dt).bus)
          = do_s2_slew_loop cfg 0 bus cfg.wr_dplls := by
  have hfrac : (if cfg.max_abs_ppb > 0 then
      clamp_d (CM_DEFAULT_POLARITY * (cfg.kp * e + cfg.ki * (I + e * dt)))
        (-(cfg.max_abs_ppb * (1 / 10 ^ 9))) (cfg.max_abs_ppb * (1 / 10 ^ 9))
      else CM_DEFAULT_POLARITY * (cfg.kp * e + cfg.ki * (I + e * dt))) = 0 := by
    rw [hkp, hki]
    have h0 : CM_DEFAULT_POLARITY * (0 * e + 0 * (I + e * dt)) = 0 := by ring
    rw [h0]
    split_ifs with h
    · unfold clamp_d
      have hm : 0 < cfg.max_abs_ppb * (1 / 10 ^ 9) := by positivity
      rw [if_neg (by linarith), if_neg (by linarith)]
    · rfl
  have hw : (do_s2_slew bus cfg I e dt).word = 0 := by
    unfold do_s2_slew
    simp only []
    rw [hfrac, wr_freq_word_zero]
  refine ⟨?_, hw, ?_⟩
  · unfold do_s2_slew
    simp only []
    rw [hfrac, zero_mul]
  · have hl : ((do_s2_slew bus cfg I e dt).rc, (do_s2_slew bus cfg I e dt).bus)
        = do_s2_slew_loop cfg (do_s2_slew bus cfg I e dt).word bus cfg.wr_dplls := rfl
    rw [hl, hw]

theorem discipline_run_iter_slew_stays (hw : device_t) (cfg : discipline_cfg_t)
    (h1 : 0 < cfg.max_abs_phase_sec) (h2 : cfg.max_abs_phase_sec ≤ cfg.s2_fallback_abs_sec)
    (fuel : Nat) (w : world_t) (v : discipline_vars_t) (w1 : world_t)
    (v1 : discipline_vars_t) (hst : v.st = .ST_S2_SLEW)
    (hiter : discipline_run_iter hw cfg fuel w v = some (.ok (w1, v1))) :
    v1.st = .ST_S2_SLEW := by
  cases hr : read_phase_sec w.bus cfg with
  | error rc =>
    rw [discipline_run_iter_read_error hw cfg fuel w v rc (by rw [hst]; decide) hr] at hiter
    cases hiter
  | ok x =>
    obtain ⟨pr, p⟩ := x
    by_cases hg : cfg.max_abs_phase_sec > 0 ∧ |p| > cfg.max_abs_phase_sec
    · rw [discipline_run_iter_drop hw cfg fuel w v pr p (by rw [hst]; decide) hr hg] at hiter
      simp only [Option.some.injEq, Except.ok.injEq, Prod.mk.injEq] at hiter
      rw [← hiter.2]
      exact hst
    · rw [discipline_run_iter_slew hw cfg fuel w v pr p hst hr hg] at hiter
      have hs : discipline_run_slew hw cfg w v p = .ok (w1, v1) := Option.some.inj hiter
      have hfb : ¬ |p| > cfg.s2_fallback_abs_sec := by
        intro hf
        exact hg ⟨h1, lt_of_le_of_lt h2 hf⟩
      unfold discipline_run_slew at hs
      rw [if_neg hfb] at hs
      simp only [] at hs
      split at hs
      · cases hs
      · simp only [Except.ok.injEq, Prod.mk.injEq] at hs
        rw [← hs.2]
        exact hst

/-! ## Step without verification samples -/

theorem s1_step_sec_zero (cfg : discipline_cfg_t) : s1_step_sec cfg 0 = 0 := by
  unfold s1_step_sec
  simp only [neg_zero]
  split_ifs with h
  · unfold clamp_d
    rw [if_neg (by linarith), if_neg (by linarith)]
  · rfl

theorem s1_step_cycles_zero (F : ℚ) : s1_step_cycles 0 F = 0 := by
  unfold s1_step_cycles
  simp only [zero_div, f64_zero]
  norm_num [llround, INT32_MAX, INT32_MIN]

theorem s1_new_adj_zero (a : Int) (hlo : INT32_MIN ≤ a) (hhi : a ≤ INT32_MAX) :
    s1_new_adj a 0 = a := by
  unfold s1_new_adj
  simp only [add_zero]
  rw [if_neg (by omega), if_neg (by omega)]

theorem s1_init_cmd_ppb_zero (cfg : discipline_cfg_t) : s1_init_cmd_ppb cfg 0 = 0 := by
  unfold s1_init_cmd_ppb
  simp only [neg_zero]
  split_ifs with h
  · unfold clamp_d
    rw [if_neg (by linarith), if_neg (by linarith)]
  · rfl

theorem bus_ready_phase_03_fod_100 (cfg : discipline_cfg_t) (h : ∀ x ∈ cfg.step_outs, x < 12) :
    bus_ready cfg bus_phase_03_fod_100 := by
  refine ⟨fun _ => ⟨rfl, rfl⟩, ?_⟩
  intro x hx
  have hx12 := h x hx
  have hpos : (0 : ℚ) < ((100 : Nat) : ℚ) / ((1 : Nat) : ℚ) := by norm_num
  interval_cases x <;> exact ⟨((100 : Nat) : ℚ) / ((1 : Nat) : ℚ), 100, 1, rfl, hpos⟩

theorem read_phase_sec_phase_03_fod_100 (cfg : discipline_cfg_t) (hm : cfg.meas_dpll = 5)
    (hinv : cfg.invert = false) :
    read_phase_sec bus_phase_03_fod_100 cfg = .ok (3 / 10, 3 / 10) :=
  read_phase_sec_of_s36 bus_phase_03_fod_100 cfg 6000000000 (3 / 10) (by rw [hm]; rfl) hinv
    (by norm_num [phase_s36_to_seconds, CM_ITDC_UI_SEC, CM_ITDC_HZ]) (by norm_num)
    (by norm_num)

/-! ## The measurement window -/

theorem sleep_sec_clock (hw : device_t) (w : world_t) (sec : ℚ) (h : 0 < sec) :
    (sleep_sec hw w sec).clock = w.clock + sec := by
  unfold sleep_sec
  rw [if_neg (not_le.mpr h)]

theorem sleep_iter_succ (hw : device_t) (cfg : discipline_cfg_t) (k : Nat) (w : world_t) :
    sleep_iter hw cfg (k + 1) w = sleep_iter hw cfg k (sleep_sec hw w cfg.interval_sec) := rfl

theorem sleep_iter_idle_bus (cfg : discipline_cfg_t) :
    ∀ (k : Nat) (w : world_t), (sleep_iter device_idle cfg k w).bus = w.bus := by
  intro k
  induction k with
  | zero => intro w; rfl
  | succ k ih =>
    intro w
    rw [sleep_iter_succ, ih, sleep_sec_idle_bus]

/-- Enough fuel: with a positive interval the loop of `do_s0_measure` ends (with a code or
with its sums) within `fuel` passes as soon as `fuel * interval_sec` covers what is left
of the window. -/
theorem do_s0_measure_loop_fuel (hw : device_t) (cfg : discipline_cfg_t) (t0 : ℚ)
    (hint : 0 < cfg.interval_sec) :
    ∀ (fuel : Nat) (w : world_t) (sum sumw : ℚ),
      cfg.s0_window_sec - (now_monotonic_sec w - t0) ≤ (fuel : ℚ) * cfg.interval_sec →
      do_s0_measure_loop hw cfg t0 fuel w sum sumw ≠ none := by
  intro fuel
  induction fuel with
  | zero =>
    intro w sum sumw h
    rw [do_s0_measure_loop, if_neg (by push_cast at h; linarith)]
    exact Option.some_ne_none _
  | succ f ih =>
    intro w sum sumw h
    have hnext : cfg.s0_window_sec
        - (now_monotonic_sec (sleep_sec hw w cfg.interval_sec) - t0)
        ≤ (f : ℚ) * cfg.interval_sec := by
      unfold now_monotonic_sec at h ⊢
      rw [sleep_sec_clock hw w _ hint]
      push_cast at h
      linarith
    rw [do_s0_measure_loop]
    split_ifs with hopen
    · split
      · exact Option.some_ne_none _
      · split_ifs
        · exact ih _ _ _ hnext
        · exact ih _ _ _ hnext
    · exact Option.some_ne_none _

theorem do_s0_measure_fuel (hw : device_t) (cfg : discipline_cfg_t) (w : world_t)
    (hint : 0 < cfg.interval_sec) (fuel : Nat)
    (h : cfg.s0_window_sec ≤ (fuel : ℚ) * cfg.interval_sec) :
    do_s0_measure hw cfg fuel w ≠ none := by
  have hl := do_s0_measure_loop_fuel hw cfg (now_monotonic_sec w) hint fuel w 0 0
    (by rw [sub_self, sub_zero]; exact h)
  unfold do_s0_measure
  split
  · rename_i heq
    exact absurd heq hl
  · exact Option.some_ne_none _
  · exact Option.some_ne_none _

/-- The loop of `do_s0_measure` when every sample read while the window is open is dropped
by the outlier gate: the sums are returned as they were. -/
theorem do_s0_measure_loop_all_dropped (hw : device_t) (cfg : discipline_cfg_t) (t0 : ℚ)
    (hint : 0 < cfg.interval_sec) :
    ∀ (fuel : Nat) (w : world_t) (sum sumw : ℚ),
      (∀ k, now_monotonic_sec (sleep_iter hw cfg k w) - t0 < cfg.s0_window_sec →
        ∃ pr p, read_phase_sec (sleep_iter hw cfg k w).bus cfg = .ok (pr, p)
          ∧ outlier_drop cfg p) →
      cfg.s0_window_sec - (now_monotonic_sec w - t0) ≤ (fuel : ℚ) * cfg.interval_sec →
      ∃ k, k ≤ fuel ∧ do_s0_measure_loop hw cfg t0 fuel w sum sumw
        = some (.ok (sum, sumw, sleep_iter hw cfg k w)) := by
  intro fuel
  induction fuel with
  | zero =>
    intro w sum sumw _ h
    refine ⟨0, le_refl 0, ?_⟩
    rw [do_s0_measure_loop, if_neg (by push_cast at h; linarith)]
    rfl
  | succ f ih =>
    intro w sum sumw hall h
    rw [do_s0_measure_loop]
    by_cases hopen : now_monotonic_sec w - t0 < cfg.s0_window_sec
    · obtain ⟨pr, p, hr, hd⟩ := hall 0 hopen
      have hr0 : read_phase_sec w.bus cfg = .ok (pr, p) := hr
      have hnext : cfg.s0_window_sec
          - (now_monotonic_sec (sleep_sec hw w cfg.interval_sec) - t0)
          ≤ (f : ℚ) * cfg.interval_sec := by
        unfold now_monotonic_sec at h ⊢
        rw [sleep_sec_clock hw w _ hint]
        push_cast at h
        linarith
      obtain ⟨k, hk, hres⟩ := ih (sleep_sec hw w cfg.interval_sec) sum sumw
        (fun j hj => hall (j + 1) hj) hnext
      refine ⟨k + 1, by omega, ?_⟩
      have hd1 : cfg.max_abs_phase_sec > 0 ∧ |p| > cfg.max_abs_phase_sec := hd
      rw [if_pos hopen, hr0]
      simp only []
      rw [if_pos hd1, hres]
      rfl
    · refine ⟨0, Nat.zero_le _, ?_⟩
      rw [if_neg hopen]
      rfl

theorem discipline_run_iter_measure_ok (hw : device_t) (cfg : discipline_cfg_t) (fuel : Nat)
    (w : world_t) (v : discipline_vars_t) (avg : ℚ) (w1 : world_t)
    (hst : v.st = .ST_S0_MEASURE)
    (hm : do_s0_measure hw cfg fuel w = some (.ok (avg, w1))) :
    discipline_run_iter hw cfg fuel w v
      = match discipline_run_measure cfg v 0 avg with
        | .error rc => some (.error rc)
        | .ok v1 => some (.ok (w1, v1)) := by
  unfold discipline_run_iter
  rw [if_pos hst, hm]

/-! ## The field `s1_max_iters` is never read -/

theorem do_s1_step_loop_max_iters (cfg : discipline_cfg_t) (n : Nat) (s : ℚ) :
    ∀ (L : List Nat) (bus : cm_bus_t),
      do_s1_step_loop { cfg with s1_max_iters := n } s bus L = do_s1_step_loop cfg s bus L := by
  intro L
  induction L with
  | nil => intro bus; rfl
  | cons o rest ih =>
    intro bus
    rw [do_s1_step_loop, do_s1_step_loop]
    have h : do_s1_step_output bus { cfg with s1_max_iters := n } s o
        = do_s1_step_output bus cfg s o := rfl
    rw [h, ih]

theorem do_s2_slew_loop_max_iters (cfg : discipline_cfg_t) (n : Nat) (word : Int) :
    ∀ (L : List Nat) (bus : cm_bus_t),
      do_s2_slew_loop { cfg with s1_max_iters := n } word bus L
        = do_s2_slew_loop cfg word bus L := by
  intro L
  induction L with
  | nil => intro bus; rfl
  | cons d rest ih =>
    intro bus
    rw [do_s2_slew_loop, do_s2_slew_loop]
    have h : write_dpll_wr_freq_s42 bus d word (want_print { cfg with s1_max_iters := n })
        ({ cfg with s1_max_iters := n } : discipline_cfg_t).dry_run
        = write_dpll_wr_freq_s42 bus d word (want_print cfg) cfg.dry_run := rfl
    rw [h, ih]

theorem do_s1_step_sleep_max_iters (hw : device_t) (cfg : discipline_cfg_t) (n : Nat)
    (w : world_t) (p : ℚ) :
    do_s1_step_sleep hw { cfg with s1_max_iters := n } w p = do_s1_step_sleep hw cfg w p := by
  have h : do_s1_step w.bus { cfg with s1_max_iters := n } p = do_s1_step w.bus cfg p :=
    do_s1_step_loop_max_iters cfg n _ cfg.step_outs w.bus
  unfold do_s1_step_sleep
  rw [h]

theorem read_phase_sec_max_iters (cfg : discipline_cfg_t) (n : Nat) (bus : cm_bus_t) :
    read_phase_sec bus { cfg with s1_max_iters := n } = read_phase_sec bus cfg := rfl

theorem s1_verify_loop_max_iters (hw : device_t) (cfg : discipline_cfg_t) (n : Nat) :
    ∀ (k : Nat) (w : world_t) (acc : s1_verify_t),
      s1_verify_loop hw { cfg with s1_max_iters := n } k w acc
        = s1_verify_loop hw cfg k w acc := by
  intro k
  induction k with
  | zero => intro w acc; rfl
  | succ k ih =>
    intro w acc
    rw [s1_verify_loop_succ, s1_verify_loop_succ, read_phase_sec_max_iters]
    cases read_phase_sec w.bus cfg with
    | error rc => rfl
    | ok x =>
      obtain ⟨pr, pw⟩ := x
      exact ih _ _

theorem do_s2_slew_max_iters (cfg : discipline_cfg_t) (n : Nat) (bus : cm_bus_t)
    (I e dt : ℚ) :
    do_s2_slew bus { cfg with s1_max_iters := n } I e dt = do_s2_slew bus cfg I e dt := by
  unfold do_s2_slew
  simp only [do_s2_slew_loop_max_iters]

theorem s1_polarity_check_max_iters (hw : device_t) (cfg : discipline_cfg_t) (n : Nat)
    (w : world_t) (d0 cmd : ℚ) (m : Nat) :
    s1_polarity_check hw { cfg with s1_max_iters := n } w d0 cmd m
      = s1_polarity_check hw cfg w d0 cmd m := by
  unfold s1_polarity_check
  simp only [do_s2_slew_loop_max_iters, read_phase_sec_max_iters]

theorem s1_handoff_max_iters (hw : device_t) (cfg : discipline_cfg_t) (n : Nat)
    (w : world_t) (p_ver d0 : ℚ) (m : Nat) :
    s1_handoff hw { cfg with s1_max_iters := n } w p_ver d0 m
      = s1_handoff hw cfg w p_ver d0 m := by
  unfold s1_handoff
  simp only [do_s1_step_sleep_max_iters, do_s2_slew_loop_max_iters,
    s1_polarity_check_max_iters]
  rfl

theorem discipline_run_step_max_iters (hw : device_t) (cfg : discipline_cfg_t) (n : Nat)
    (w : world_t) (v : discipline_vars_t) (p : ℚ) :
    discipline_run_step hw { cfg with s1_max_iters := n } w v p
      = discipline_run_step hw cfg w v p := by
  unfold discipline_run_step
  simp only [do_s1_step_sleep_max_iters, s1_verify_loop_max_iters, s1_handoff_max_iters]

theorem discipline_run_slew_max_iters (hw : device_t) (cfg : discipline_cfg_t) (n : Nat)
    (w : world_t) (v : discipline_vars_t) (p : ℚ) :
    discipline_run_slew hw { cfg with s1_max_iters := n } w v p
      = discipline_run_slew hw cfg w v p := by
  unfold discipline_run_slew
  simp only [do_s2_slew_max_iters]

theorem do_s0_measure_loop_max_iters (hw : device_t) (cfg : discipline_cfg_t) (n : Nat)
    (t0 : ℚ) :
    ∀ (fuel : Nat) (w : world_t) (sum sumw : ℚ),
      do_s0_measure_loop hw { cfg with s1_max_iters := n } t0 fuel w sum sumw
        = do_s0_measure_loop hw cfg t0 fuel w sum sumw := by
  intro fuel
  induction fuel with
  | zero => intro w sum sumw; rfl
  | succ f ih =>
    intro w sum sumw
    rw [do_s0_measure_loop, do_s0_measure_loop, read_phase_sec_max_iters]
    simp only [ih]

theorem discipline_run_iter_max_iters (hw : device_t) (cfg : discipline_cfg_t) (n : Nat)
    (fuel : Nat) (w : world_t) (v : discipline_vars_t) :
    discipline_run_iter hw { cfg with s1_max_iters := n } fuel w v
      = discipline_run_iter hw cfg fuel w v := by
  have hm : do_s0_measure hw { cfg with s1_max_iters := n } fuel w
      = do_s0_measure hw cfg fuel w := by
    unfold do_s0_measure
    rw [do_s0_measure_loop_max_iters]
  unfold discipline_run_iter
  simp only [hm, read_phase_sec_max_iters, discipline_run_step_max_iters,
    discipline_run_slew_max_iters]
  rfl

theorem discipline_run_loop_max_iters (hw : device_t) (cfg : discipline_cfg_t) (n : Nat)
    (fuel : Nat) :
    ∀ (k : Nat) (w : world_t) (v : discipline_vars_t),
      discipline_run_loop hw { cfg with s1_max_iters := n } fuel k w v
        = discipline_run_loop hw cfg fuel k w v := by
  intro k
  induction k with
  | zero => intro w v; rfl
  | succ k ih =>
    intro w v
    rw [discipline_run_loop_succ, discipline_run_loop_succ, discipline_run_iter_max_iters]
    cases discipline_run_iter hw cfg fuel w v with
    | none => rfl
    | some x =>
      cases x with
      | error rc => rfl
      | ok y =>
        obtain ⟨w1, v1⟩ := y
        exact ih w1 v1

theorem getLastD_replicate_succ (k : Nat) (x d : ℚ) :
    (List.replicate (k + 1) x).getLastD d = x := by
  induction k with
  | zero => rfl
  | succ k ih =>
    have e : List.replicate (k + 1 + 1) x = x :: List.replicate (k + 1) x := rfl
    rw [e]
    have e2 : List.replicate (k + 1) x = x :: List.replicate k x := rfl
    rw [e2] at ih ⊢
    simpa [List.getLastD] using ih

theorem s1_verify_loop_idle_bus (cfg : discipline_cfg_t) :
    ∀ (k : Nat) (w : world_t) (acc acc1 : s1_verify_t) (w1 : world_t),
      s1_verify_loop device_idle cfg k w acc = .ok (acc1, w1) → w1.bus = w.bus := by
  intro k
  induction k with
  | zero =>
    intro w acc acc1 w1 h
    rw [s1_verify_loop_zero] at h
    simp only [Except.ok.injEq, Prod.mk.injEq] at h
    rw [← h.2]
  | succ k ih =>
    intro w acc acc1 w1 h
    rw [s1_verify_loop_succ] at h
    split at h
    · cases h
    · rw [ih _ _ _ _ h, sleep_sec_idle_bus]

/-- On a ready register file whose phase sample stays at 0.3 s (idle device), a Step
iteration with at least one verification sample and an exit threshold below 0.3 s
stays in Step, counts one more iteration, and leaves such a register file. -/
theorem discipline_run_iter_idle_stays_step (cfg : discipline_cfg_t) (hv : cfg_valid cfg)
    (hgate : cfg.max_abs_phase_sec = 5 / 10) (hexit : cfg.s1_exit_abs_sec < 3 / 10)
    (hn : 0 < cfg.s1_verify_samples) (fuel : Nat) (w : world_t) (v : discipline_vars_t)
    (hst : v.st = .ST_S1_STEP) (hr : bus_ready cfg w.bus)
    (hread : read_phase_sec w.bus cfg = .ok (3 / 10, 3 / 10)) :
    ∃ w3, discipline_run_iter device_idle cfg fuel w v
        = some (.ok (w3, { v with s1_iter := (v.s1_iter + 1) % 2 ^ 32 }))
      ∧ bus_ready cfg w3.bus ∧ read_phase_sec w3.bus cfg = .ok (3 / 10, 3 / 10) := by
  obtain ⟨w3, v3, hiter, hr3⟩ := discipline_run_iter_ready device_idle cfg fuel w v
    (by rw [hst]; decide) hv (device_idle_keeps_ready _) hr
  have hg := read_phase_sec_gate_default _ _ _ _ hread hgate
  have hstep : discipline_run_step device_idle cfg w v (3 / 10) = .ok (w3, v3) := by
    rw [discipline_run_iter_step device_idle cfg fuel w v _ _ hst hread hg] at hiter
    exact Option.some.inj hiter
  obtain ⟨w1, acc, w2, h1, h2, _, hstay⟩ := discipline_run_step_ok _ _ _ _ _ _ _ hstep
  have hread1 : read_phase_sec w1.bus cfg = .ok (3 / 10, 3 / 10) := by
    have := do_s1_step_sleep_idle_phase cfg w (3 / 10) hv.1
    rw [h1] at this
    rw [this]
    exact hread
  obtain ⟨_, hp⟩ := s1_verify_loop_p_ver device_idle cfg _ w1 s1_verify_init acc w2 h2
  rw [verify_samples_idle cfg (3 / 10) (3 / 10) _ w1 hread1] at hp
  obtain ⟨j, hj⟩ : ∃ j, cfg.s1_verify_samples = j + 1 := ⟨cfg.s1_verify_samples - 1, by omega⟩
  rw [hj, getLastD_replicate_succ] at hp
  have hne : ¬ |acc.p_ver| ≤ cfg.s1_exit_abs_sec := by
    rw [hp, abs_of_pos (by norm_num)]
    exact not_le.mpr hexit
  obtain ⟨hw3, hv3⟩ := hstay hne
  refine ⟨w3, by rw [hiter, hv3], hr3, ?_⟩
  rw [hw3, s1_verify_loop_idle_bus cfg _ w1 _ acc w2 h2]
  exact hread1

theorem discipline_run_loop_idle_stays_step (cfg : discipline_cfg_t) (hv : cfg_valid cfg)
    (hgate : cfg.max_abs_phase_sec = 5 / 10) (hexit : cfg.s1_exit_abs_sec < 3 / 10)
    (hn : 0 < cfg.s1_verify_samples) (fuel : Nat) :
    ∀ (k : Nat) (w : world_t) (v : discipline_vars_t), v.st = .ST_S1_STEP →
      v.s1_iter < 2 ^ 32 →
      bus_ready cfg w.bus → read_phase_sec w.bus cfg = .ok (3 / 10, 3 / 10) →
      ∃ wk vk, discipline_run_loop device_idle cfg fuel k w v = .running wk vk
        ∧ vk.st = .ST_S1_STEP ∧ vk.s1_iter = (v.s1_iter + k) % 2 ^ 32 := by
  intro k
  induction k with
  | zero =>
    intro w v hst hlt _ _
    refine ⟨w, v, discipline_run_loop_zero _ _ _ _ _, hst, ?_⟩
    rw [add_zero, Nat.mod_eq_of_lt hlt]
  | succ k ih =>
    intro w v hst hlt hr hread
    obtain ⟨w3, hiter, hr3, hread3⟩ := discipline_run_iter_idle_stays_step cfg hv hgate hexit
      hn fuel w v hst hr hread
    obtain ⟨wk, vk, hloop, hstk, hik⟩ := ih w3 { v with s1_iter := (v.s1_iter + 1) % 2 ^ 32 }
      hst (Nat.mod_lt _ (by norm_num)) hr3 hread3
    refine ⟨wk, vk, ?_, hstk, ?_⟩
    · rw [discipline_run_loop_succ, hiter]
      exact hloop
    · rw [hik]
      show ((v.s1_iter + 1) % 2 ^ 32 + k) % 2 ^ 32 = (v.s1_iter + (k + 1)) % 2 ^ 32
      norm_num
      omega

/-! ## The cycle count in binary64 -/

theorem llround_of_near (x : ℚ) (k : Int) (h : |x - k| < 1 / 2) : llround x = k := by
  have h1 := abs_lt.mp h
  unfold llround
  split_ifs with h0
  · rw [Int.floor_eq_iff]
    constructor <;> linarith [h1.1, h1.2]
  · have : ⌊-x + 1 / 2⌋ = -k := by
      rw [Int.floor_eq_iff]
      push_cast
      constructor <;> linarith [h1.1, h1.2]
    rw [this, neg_neg]

theorem s1_step_cycles_eq_sat (s F : ℚ) :
    s1_step_cycles s F
      = sat (-(2 ^ 31)) (2 ^ 31 - 1) (llround (f64 (s / f64 (1 / f64 F)))) := by
  unfold s1_step_cycles sat INT32_MAX INT32_MIN
  simp only []
  split_ifs <;> omega

theorem read_dpll_fod_freq_hz_bounds (bus : cm_bus_t) (d : Nat) (F : ℚ) (M N : Nat)
    (hF : read_dpll_fod_freq_hz bus d = .ok (F, M, N)) :
    M < 2 ^ 48 ∧ N < 2 ^ 16 := by
  cases hM : cm_string_read_bytes bus "DPLL_Ctrl" d "FOD_FREQ_M_7_0" 6 with
  | error rc =>
    unfold read_dpll_fod_freq_hz at hF
    rw [hM] at hF
    cases hF
  | ok bufM =>
    cases hN : cm_string_read_bytes bus "DPLL_Ctrl" d "FOD_FREQ_N_7_0" 2 with
    | error rc =>
      unfold read_dpll_fod_freq_hz at hF
      rw [hM, hN] at hF
      cases hF
    | ok bufN =>
      rw [read_dpll_fod_freq_hz_of_bytes bus d bufM bufN hM hN] at hF
      simp only [Except.ok.injEq, Prod.mk.injEq] at hF
      obtain ⟨_, h2, h3⟩ := hF
      rw [← h2, ← h3]
      have hm := le_value_lt bufM 6
      have hn := le_value_lt bufN 2
      constructor
      · exact hm
      · split_ifs with h
        · norm_num
        · exact hn

/-- The ratio of a 48-bit numerator and a 16-bit denominator, when positive, lies in
`[2^-16, 2^48)`. -/
theorem fod_ratio_range (M N : Nat) (hM : M < 2 ^ 48) (hN : N < 2 ^ 16) (hN0 : 0 < N)
    (hpos : (0 : ℚ) < (M : ℚ) / (N : ℚ)) :
    (1 : ℚ) / 2 ^ 16 ≤ (M : ℚ) / (N : ℚ) ∧ (M : ℚ) / (N : ℚ) < 2 ^ 48 := by
  have hNq : (0 : ℚ) < (N : ℚ) := by exact_mod_cast hN0
  have hM0 : 0 < M := by
    rcases Nat.eq_zero_or_pos M with h | h
    · rw [h] at hpos
      simp at hpos
    · exact h
  have hM1 : (1 : ℚ) ≤ (M : ℚ) := by exact_mod_cast hM0
  have hM2 : (M : ℚ) < 2 ^ 48 := by exact_mod_cast hM
  have hN1 : (1 : ℚ) ≤ (N : ℚ) := by exact_mod_cast hN0
  have hN2 : (N : ℚ) < 2 ^ 16 := by exact_mod_cast hN
  constructor
  · rw [div_le_div_iff₀ (by norm_num) hNq]
    nlinarith
  · rw [div_lt_iff₀ hNq]
    nlinarith

/-- Two roundings of relative error at most `u` in a quotient: `Y * (1 + b) = X * (1 + a)`
puts `Y` within `2u / (1 - u)` of `X`, relatively. -/
theorem quotient_err (X Y a b : ℚ) (h : Y * (1 + b) = X * (1 + a))
    (ha : |a| ≤ 1 / 2 ^ 53) (hb : |b| ≤ 1 / 2 ^ 53) :
    |Y - X| + |Y| * (1 / 2 ^ 53) ≤ |X| * (1 / 2 ^ 51) := by
  have e : Y - X = X * a - Y * b := by linarith
  have h1 : |Y - X| ≤ |X| * (1 / 2 ^ 53) + |Y| * (1 / 2 ^ 53) := by
    rw [e]
    calc |X * a - Y * b| ≤ |X * a| + |Y * b| := abs_sub _ _
      _ = |X| * |a| + |Y| * |b| := by rw [abs_mul, abs_mul]
      _ ≤ |X| * (1 / 2 ^ 53) + |Y| * (1 / 2 ^ 53) :=
          add_le_add (mul_le_mul_of_nonneg_left ha (abs_nonneg _))
            (mul_le_mul_of_nonneg_left hb (abs_nonneg _))
  have h2 : |Y| ≤ |X| + |Y - X| := by
    have := abs_add X (Y - X)
    rw [add_sub_cancel] at this
    exact this
  have hX := abs_nonneg X
  have hD := abs_nonneg (Y - X)
  norm_num at h1 ⊢
  linarith

/-- The binary64 quotient `step_sec / (1.0 / fod_hz)` against the exact product. -/
theorem s1_step_quotient_err (s F : ℚ) (hlo : (1 : ℚ) / 2 ^ 16 ≤ F) (hhi : F < 2 ^ 48) :
    |f64 (s / f64 (1 / f64 F)) - s * F| ≤ |s * F| / 2 ^ 51 + 1 / 2 ^ 1075 := by
  have hF0 : 0 < F := lt_of_lt_of_le (by norm_num) hlo
  have hu : (2 : ℚ) ^ (-53 : Int) = 1 / 2 ^ 53 := by norm_num
  have heta : (2 : ℚ) ^ (-1075 : Int) = 1 / 2 ^ 1075 := by norm_num
  -- the rounding of `F`
  have hFn : (2 : ℚ) ^ (-1022 : Int) ≤ |F| := by
    rw [abs_of_pos hF0]
    refine le_trans ?_ hlo
    norm_num
  have h1 := f64_rel_err F hFn
  rw [abs_of_pos hF0, hu] at h1
  have h1' := abs_le.mp h1
  have hF1 : 0 < f64 F := by nlinarith [h1'.1]
  have hF1up : f64 F < 2 ^ 49 := by nlinarith [h1'.2]
  -- the rounding of `1 / f64 F`
  have hinv : (1 : ℚ) / 2 ^ 49 < 1 / f64 F := by
    rw [div_lt_div_iff₀ (by norm_num) hF1]
    linarith
  have hinv0 : (0 : ℚ) < 1 / f64 F := lt_trans (by norm_num) hinv
  have htn : (2 : ℚ) ^ (-1022 : Int) ≤ |1 / f64 F| := by
    rw [abs_of_pos hinv0]
    refine le_trans ?_ (le_of_lt hinv)
    norm_num
  have h2 := f64_rel_err (1 / f64 F) htn
  rw [abs_of_pos hinv0, hu] at h2
  have h2' := abs_le.mp h2
  have ht : 0 < f64 (1 / f64 F) := by nlinarith [h2'.1]
  -- the relative errors `a` and `b`
  obtain ⟨a, ha, hae⟩ : ∃ a : ℚ, |a| ≤ 1 / 2 ^ 53 ∧ f64 F = F * (1 + a) := by
    refine ⟨(f64 F - F) / F, ?_, by field_simp⟩
    rw [abs_div, abs_of_pos hF0, div_le_iff₀ hF0]
    linarith [h1]
  obtain ⟨b, hb, hbe⟩ : ∃ b : ℚ, |b| ≤ 1 / 2 ^ 53 ∧ f64 (1 / f64 F) * f64 F = 1 + b := by
    refine ⟨f64 (1 / f64 F) * f64 F - 1, ?_, by ring⟩
    have e : f64 (1 / f64 F) * f64 F - 1 = (f64 (1 / f64 F) - 1 / f64 F) * f64 F := by
      field_simp
    rw [e, abs_mul, abs_of_pos hF1]
    calc |f64 (1 / f64 F) - 1 / f64 F| * f64 F ≤ 1 / f64 F * (1 / 2 ^ 53) * f64 F :=
          mul_le_mul_of_nonneg_right h2 (le_of_lt hF1)
      _ = 1 / 2 ^ 53 := by field_simp
  have hY : s / f64 (1 / f64 F) * (1 + b) = s * F * (1 + a) := by
    rw [← hbe, ← mul_assoc, div_mul_cancel₀ _ (ne_of_gt ht), mul_assoc, ← hae]
  have hq := quotient_err (s * F) (s / f64 (1 / f64 F)) a b hY ha hb
  have h3 := f64_err (s / f64 (1 / f64 F))
  rw [hu, heta] at h3
  have h4 : |f64 (s / f64 (1 / f64 F)) - s * F|
      ≤ |f64 (s / f64 (1 / f64 F)) - s / f64 (1 / f64 F)| + |s / f64 (1 / f64 F) - s * F| := by
    have := abs_add (f64 (s / f64 (1 / f64 F)) - s / f64 (1 / f64 F))
      (s / f64 (1 / f64 F) - s * F)
    rw [sub_add_sub_cancel] at this
    exact this
  have e51 : |s * F| / 2 ^ 51 = |s * F| * (1 / 2 ^ 51) := by ring
  rw [e51]
  linarith

theorem f64_fod_500mhz : f64 (((500000000 : Nat) : ℚ) / ((1 : Nat) : ℚ)) = 500000000 := by
  rw [f64_eval _ 28 (by norm_num [abs_of_pos]) (by norm_num [abs_of_pos])]
  norm_num [round_half_even]

theorem f64_period_500mhz : f64 (1 / 500000000) = 4835703278458517 / 2 ^ 81 := by
  rw [f64_eval _ (-29) (by norm_num [abs_of_pos]) (by norm_num [abs_of_pos])]
  norm_num [round_half_even]

theorem phase_s36_to_seconds_f64_60 :
    phase_s36_to_seconds_f64 60 = 7253554917687775 / 2 ^ 81 := by
  have h1 : f64 (32 * CM_ITDC_HZ) = 20000000000 := by
    unfold CM_ITDC_HZ
    rw [f64_eval _ 34 (by norm_num [abs_of_pos]) (by norm_num [abs_of_pos])]
    norm_num [round_half_even]
  have h2 : f64 (1 / 20000000000) = 7737125245533627 / 2 ^ 87 := by
    rw [f64_eval _ (-35) (by norm_num [abs_of_pos]) (by norm_num [abs_of_pos])]
    norm_num [round_half_even]
  unfold phase_s36_to_seconds_f64
  rw [h1, h2, f64_eval _ (-29) (by norm_num [abs_of_pos]) (by norm_num [abs_of_pos])]
  norm_num [round_half_even]

theorem s1_step_cycles_half_cycle :
    s1_step_cycles (-(7253554917687775 / 2 ^ 81)) (((500000000 : Nat) : ℚ) / ((1 : Nat) : ℚ))
      = -2 := by
  have hq : f64 (7253554917687775 / 2 ^ 81 / (4835703278458517 / 2 ^ 81)) = 3 / 2 := by
    rw [f64_eval _ 0 (by norm_num [abs_of_pos]) (by norm_num [abs_of_pos])]
    norm_num [round_half_even]
  rw [s1_step_cycles_eq_sat, f64_fod_500mhz, f64_period_500mhz, neg_div, f64_neg, hq]
  norm_num [llround, sat]

/-- The cycle count the code computes for `DPLL5_PHASE_STATUS = 180` at an FOD of 500 MHz:
the phase is held as a double just below 9 ns, the binary64 quotient is just above
`-4.5`, and the count is `-4`. -/
theorem s1_step_cycles_status_180 :
    s1_step_cycles (-(phase_s36_to_seconds_f64 180))
      (((500000000 : Nat) : ℚ) / ((1 : Nat) : ℚ)) = -4 := by
  have h1 : f64 (32 * CM_ITDC_HZ) = 20000000000 := by
    unfold CM_ITDC_HZ
    rw [f64_eval _ 34 (by norm_num [abs_of_pos]) (by norm_num [abs_of_pos])]
    norm_num [round_half_even]
  have h2 : f64 (1 / 20000000000) = 7737125245533627 / 2 ^ 87 := by
    rw [f64_eval _ (-35) (by norm_num [abs_of_pos]) (by norm_num [abs_of_pos])]
    norm_num [round_half_even]
  have hp : phase_s36_to_seconds_f64 180 = 5440166188265831 / 2 ^ 79 := by
    unfold phase_s36_to_seconds_f64
    rw [h1, h2, f64_eval _ (-27) (by norm_num [abs_of_pos]) (by norm_num [abs_of_pos])]
    norm_num [round_half_even]
  have hq : f64 (5440166188265831 / 2 ^ 79 / (4835703278458517 / 2 ^ 81))
      = 5066549580791807 / 2 ^ 50 := by
    rw [f64_eval _ 2 (by norm_num [abs_of_pos]) (by norm_num [abs_of_pos])]
    norm_num [round_half_even]
  rw [hp, s1_step_cycles_eq_sat, f64_fod_500mhz, f64_period_500mhz, neg_div, f64_neg, hq]
  norm_num [llround, sat]

/-! ## Passes of the step loop that fail, and what a pass that returns 0 found -/

theorem read_dpll_fod_freq_hz_error_ne (bus : cm_bus_t) (d : Nat) (rc : Int)
    (h : read_dpll_fod_freq_hz bus d = .error rc) : rc ≠ 0 := by
  unfold read_dpll_fod_freq_hz at h
  cases hM : cm_string_read_bytes bus "DPLL_Ctrl" d "FOD_FREQ_M_7_0" 6 with
  | error rc1 =>
    rw [hM] at h
    simp only [Except.error.injEq] at h
    rw [← h]
    exact cm_string_read_bytes_error_ne _ _ _ _ _ _ hM
  | ok bufM =>
    rw [hM] at h
    simp only [] at h
    cases hN : cm_string_read_bytes bus "DPLL_Ctrl" d "FOD_FREQ_N_7_0" 2 with
    | error rc1 =>
      rw [hN] at h
      simp only [Except.error.injEq] at h
      rw [← h]
      exact cm_string_read_bytes_error_ne _ _ _ _ _ _ hN
    | ok bufN =>
      rw [hN] at h
      cases h

theorem read_dpll_fod_freq_hz_m_error (bus : cm_bus_t) (d : Nat) (rc : Int)
    (h : cm_string_read_bytes bus "DPLL_Ctrl" d "FOD_FREQ_M_7_0" 6 = .error rc) :
    read_dpll_fod_freq_hz bus d = .error rc := by
  unfold read_dpll_fod_freq_hz
  rw [h]

theorem read_dpll_fod_freq_hz_n_error (bus : cm_bus_t) (d : Nat) (bufM : List Nat) (rc : Int)
    (hM : cm_string_read_bytes bus "DPLL_Ctrl" d "FOD_FREQ_M_7_0" 6 = .ok bufM)
    (h : cm_string_read_bytes bus "DPLL_Ctrl" d "FOD_FREQ_N_7_0" 2 = .error rc) :
    read_dpll_fod_freq_hz bus d = .error rc := by
  unfold read_dpll_fod_freq_hz
  rw [hM, h]

theorem do_s1_step_output_fod_error (bus : cm_bus_t) (cfg : discipline_cfg_t) (s : ℚ)
    (o : Nat) (rc : Int)
    (h : read_dpll_fod_freq_hz bus (fod_dpll_for_output o) = .error rc) :
    do_s1_step_output bus cfg s o = (rc, bus) := by
  unfold do_s1_step_output
  simp only [h]

theorem do_s1_step_output_fod_nonpos (bus : cm_bus_t) (cfg : discipline_cfg_t) (s : ℚ)
    (o : Nat) (F : ℚ) (M N : Nat)
    (h : read_dpll_fod_freq_hz bus (fod_dpll_for_output o) = .ok (F, M, N)) (hF : F ≤ 0) :
    do_s1_step_output bus cfg s o = (-1, bus) := by
  unfold do_s1_step_output
  simp only [h, if_pos hF]

theorem do_s1_step_output_div_error (bus : cm_bus_t) (cfg : discipline_cfg_t) (s : ℚ)
    (o : Nat) (F : ℚ) (M N : Nat) (rc : Int)
    (h : read_dpll_fod_freq_hz bus (fod_dpll_for_output o) = .ok (F, M, N)) (hF : 0 < F)
    (hd : read_output_div_u32 bus o = .error rc) :
    do_s1_step_output bus cfg s o = (-1, bus) := by
  unfold do_s1_step_output
  simp only [h, if_neg (not_le.mpr hF), hd]

theorem do_s1_step_output_adj_error (bus : cm_bus_t) (cfg : discipline_cfg_t) (s : ℚ)
    (o : Nat) (F : ℚ) (M N : Nat) (rc : Int)
    (h : read_dpll_fod_freq_hz bus (fod_dpll_for_output o) = .ok (F, M, N)) (hF : 0 < F)
    (ha : read_output_phase_adj_s32 bus o = .error rc) :
    do_s1_step_output bus cfg s o = (-1, bus) := by
  unfold do_s1_step_output
  simp only [h, if_neg (not_le.mpr hF), ha]
  cases read_output_div_u32 bus o <;> rfl

/-- A pass of the step loop that returns 0 read a positive FOD frequency, the divider and
the phase adjustment of the output. -/
theorem do_s1_step_output_zero_inv (bus : cm_bus_t) (cfg : discipline_cfg_t) (s : ℚ)
    (o : Nat) (h : (do_s1_step_output bus cfg s o).1 = 0) :
    ∃ F M N dv a, read_dpll_fod_freq_hz bus (fod_dpll_for_output o) = .ok (F, M, N) ∧ 0 < F
      ∧ read_output_div_u32 bus o = .ok dv ∧ read_output_phase_adj_s32 bus o = .ok a := by
  cases hF : read_dpll_fod_freq_hz bus (fod_dpll_for_output o) with
  | error rc =>
    rw [do_s1_step_output_fod_error bus cfg s o rc hF] at h
    exact absurd h (read_dpll_fod_freq_hz_error_ne _ _ _ hF)
  | ok x =>
    obtain ⟨F, M, N⟩ := x
    by_cases hpos : 0 < F
    · cases hd : read_output_div_u32 bus o with
      | error rc =>
        rw [do_s1_step_output_div_error bus cfg s o F M N rc hF hpos hd] at h
        exact absurd h (by show ((-1 : Int)) ≠ 0; decide)
      | ok dv =>
        cases ha : read_output_phase_adj_s32 bus o with
        | error rc =>
          rw [do_s1_step_output_adj_error bus cfg s o F M N rc hF hpos ha] at h
          exact absurd h (by show ((-1 : Int)) ≠ 0; decide)
        | ok a => exact ⟨F, M, N, dv, a, rfl, hpos, rfl, rfl⟩
    · rw [do_s1_step_output_fod_nonpos bus cfg s o F M N hF (not_lt.mp hpos)] at h
      exact absurd h (by show ((-1 : Int)) ≠ 0; decide)

/-- When the step loop returns 0 on a bus whose accesses succeed, every output of the list
exists on the chip and has a positive FOD frequency. -/
theorem do_s1_step_loop_inv (cfg : discipline_cfg_t) (s : ℚ) (hdry : cfg.dry_run = false) :
    ∀ (L : List Nat) (bus : cm_bus_t), bus_ok bus → (do_s1_step_loop cfg s bus L).1 = 0 →
      ∀ x ∈ L, x < 12 ∧ ∃ F M N,
        read_dpll_fod_freq_hz bus (fod_dpll_for_output x) = .ok (F, M, N) ∧ 0 < F := by
  intro L
  induction L with
  | nil => intro bus _ _ x hx; exact absurd hx (List.not_mem_nil x)
  | cons o rest ih =>
    intro bus hok h x hx
    rw [do_s1_step_loop] at h
    by_cases hr : (do_s1_step_output bus cfg s o).1 = 0
    · rw [if_neg (by simp [hr])] at h
      obtain ⟨F, M, N, dv, a, hF, hpos, _, ha⟩ := do_s1_step_output_zero_inv bus cfg s o hr
      have ho := (read_output_phase_adj_s32_valid bus o a ha).1
      rcases List.mem_cons.mp hx with hxo | hxr
      · rw [hxo]
        exact ⟨ho, F, M, N, hF, hpos⟩
      · rw [do_s1_step_output_ok bus cfg s o a F M N hok ho hdry hF hpos ha] at h
        have h2 := ih _ (bus_ok_write bus _ _ hok) h x hxr
        rw [read_dpll_fod_freq_hz_frame bus o _ _ ho] at h2
        exact h2
    · rw [if_pos hr] at h
      exact absurd h hr

/-- The step loop returns the code of the first pass that fails. -/
theorem do_s1_step_loop_append_fail (cfg : discipline_cfg_t) (s : ℚ) (c : Nat)
    (post : List Nat) :
    ∀ (pre : List Nat) (bus b1 : cm_bus_t), do_s1_step_loop cfg s bus pre = (0, b1) →
      (do_s1_step_output b1 cfg s c).1 ≠ 0 →
      do_s1_step_loop cfg s bus (pre ++ c :: post) = do_s1_step_output b1 cfg s c := by
  intro pre
  induction pre with
  | nil =>
    intro bus b1 h hc
    rw [do_s1_step_loop] at h
    cases h
    rw [List.nil_append, do_s1_step_loop, if_pos hc]
  | cons d rest ih =>
    intro bus b1 h hc
    rw [do_s1_step_loop] at h
    rw [List.cons_append, do_s1_step_loop]
    by_cases hr : (do_s1_step_output bus cfg s d).1 = 0
    · rw [if_neg (by simp [hr])] at h ⊢
      exact ih _ b1 h hc
    · rw [if_pos hr] at h
      exact absurd (congrArg Prod.fst h) hr

theorem f64_fod_100 : f64 (((100 : Nat) : ℚ) / ((1 : Nat) : ℚ)) = 100 := by
  rw [f64_eval _ 6 (by norm_num [abs_of_pos]) (by norm_num [abs_of_pos])]
  norm_num [round_half_even]

theorem f64_period_100 : f64 (1 / 100) = 5764607523034235 / 2 ^ 59 := by
  rw [f64_eval _ (-7) (by norm_num [abs_of_pos]) (by norm_num [abs_of_pos])]
  norm_num [round_half_even]

/-- The cycle count for a step of `-1/32` s at an FOD of 100 Hz: the binary64 quotient is
`-3.125`. -/
theorem s1_step_cycles_fod_100 :
    s1_step_cycles (-(1 / 32)) (((100 : Nat) : ℚ) / ((1 : Nat) : ℚ)) = -3 := by
  have hq : f64 (1 / 32 / (5764607523034235 / 2 ^ 59)) = 25 / 8 := by
    rw [f64_eval _ 1 (by norm_num [abs_of_pos]) (by norm_num [abs_of_pos])]
    norm_num [round_half_even]
  rw [s1_step_cycles_eq_sat, f64_fod_100, f64_period_100, neg_div, f64_neg, hq]
  norm_num [llround, sat]

theorem s1_step_sec_default_small (cfg : discipline_cfg_t) (h : cfg.s1_max_step_sec = 5 / 100) :
    s1_step_sec cfg (1 / 32) = -(1 / 32) := by
  unfold s1_step_sec clamp_d
  rw [h]
  norm_num

/-! ## The hand-off seed and the first Slew command in binary64 -/

theorem f64_two_zpow (k : Int) (hk : -1074 ≤ k) : f64 ((2 : ℚ) ^ k) = (2 : ℚ) ^ k := by
  have h := f64_of_repr 1 k (by norm_num) hk
  simpa using h

theorem f64_abs_le_two_zpow (x : ℚ) (k : Int) (hk : -1074 ≤ k) (h : |x| ≤ (2 : ℚ) ^ k) :
    |f64 x| ≤ (2 : ℚ) ^ k := by
  have := f64_abs_le x _ h
  rwa [f64_two_zpow k hk] at this

theorem f64_pos_imp (x : ℚ) (h : 0 < f64 x) : 0 < x := by
  by_contra hx
  have := f64_mono x 0 (not_lt.mp hx)
  rw [f64_zero] at this
  linarith

theorem f64_nano : f64 (1 / 10 ^ 9) = 4835703278458517 / 2 ^ 82 := by
  rw [f64_eval _ (-30) (by norm_num [abs_of_pos]) (by norm_num [abs_of_pos])]
  norm_num [round_half_even]

theorem f64_nano_pos : 0 < f64 (1 / 10 ^ 9) := by
  rw [f64_nano]
  norm_num

theorem f64_nano_le : f64 (1 / 10 ^ 9) ≤ (2 : ℚ) ^ (-29 : Int) := by
  rw [f64_nano]
  norm_num

/-- The binary64 command fraction of a command within the bound is within the bound that
`do_s2_slew` clamps to. -/
theorem s1_cmd_frac0_f64_bound (x m : ℚ) (h : |x| ≤ m) :
    |s1_cmd_frac0_f64 x| ≤ f64 (f64 m * f64 (1 / 10 ^ 9)) := by
  unfold s1_cmd_frac0_f64
  apply f64_abs_le
  rw [abs_mul, abs_of_pos f64_nano_pos]
  exact mul_le_mul_of_nonneg_right (f64_abs_le x m h) (le_of_lt f64_nano_pos)

theorem clamp_d_near (x c lo hi : ℚ) (h1 : lo ≤ c) (h2 : c ≤ hi) :
    |clamp_d x lo hi - c| ≤ |x - c| := by
  unfold clamp_d
  split_ifs with ha hb
  · rw [abs_le]
    constructor
    · have := neg_abs_le (x - c); linarith [abs_nonneg (x - c), le_abs_self (c - x), abs_sub_comm x c]
    · linarith [abs_nonneg (x - c)]
  · rw [abs_le]
    constructor
    · linarith [abs_nonneg (x - c)]
    · have := le_abs_self (x - c); linarith
  · exact le_refl _

theorem s1_integ_seed_f64_pos (cfg : discipline_cfg_t) (c : ℚ) (hki : f64 cfg.ki > 0) :
    s1_integ_seed_f64 cfg c = f64 (c / f64 cfg.ki) := by
  unfold s1_integ_seed_f64 CM_DEFAULT_POLARITY
  rw [if_pos hki, one_mul, f64_idem]

theorem s1_integ_seed_f64_nonpos (cfg : discipline_cfg_t) (c : ℚ) (hki : ¬ f64 cfg.ki > 0) :
    s1_integ_seed_f64 cfg c = 0 := by
  unfold s1_integ_seed_f64
  rw [if_neg hki]

/-- With phase error 0 and an integral that is a binary64 number, `do_s2_slew` computes
the rounded product `ki * integ`, then clamps it. -/
theorem do_s2_slew_cmd_frac_f64_zero (cfg : discipline_cfg_t) (y dt : ℚ) :
    do_s2_slew_cmd_frac_f64 cfg (f64 y) 0 dt
      = if f64 cfg.max_abs_ppb > 0 then
          clamp_d (f64 (f64 cfg.ki * f64 y))
            (-f64 (f64 cfg.max_abs_ppb * f64 (1 / 10 ^ 9)))
            (f64 (f64 cfg.max_abs_ppb * f64 (1 / 10 ^ 9)))
        else f64 (f64 cfg.ki * f64 y) := by
  unfold do_s2_slew_cmd_frac_f64 CM_DEFAULT_POLARITY
  simp only [zero_mul, mul_zero, f64_zero, add_zero, zero_add, one_mul, f64_idem]

/-- The product of the gain with the seed against the command fraction: two roundings. -/
theorem seed_product_err (c K : ℚ) (hK : 0 < K) :
    |f64 (K * f64 (c / K)) - c| ≤ |c| / 2 ^ 51 + (1 + 2 * K) / 2 ^ 1075 := by
  have hu : (2 : ℚ) ^ (-53 : Int) = 1 / 2 ^ 53 := by norm_num
  have heta : (2 : ℚ) ^ (-1075 : Int) = 1 / 2 ^ 1075 := by norm_num
  have h1 := f64_err (c / K)
  rw [hu, heta, abs_div, abs_of_pos hK] at h1
  have h2 := f64_err (K * f64 (c / K))
  rw [hu, heta] at h2
  have h3 : |K * f64 (c / K) - c| ≤ |c| * (1 / 2 ^ 53) + K * (1 / 2 ^ 1075) := by
    have e : K * f64 (c / K) - c = K * (f64 (c / K) - c / K) := by
      field_simp
      ring
    rw [e, abs_mul, abs_of_pos hK]
    calc K * |f64 (c / K) - c / K| ≤ K * (|c| / K * (1 / 2 ^ 53) + 1 / 2 ^ 1075) :=
          mul_le_mul_of_nonneg_left h1 (le_of_lt hK)
      _ = |c| * (1 / 2 ^ 53) + K * (1 / 2 ^ 1075) := by
          field_simp
          ring
  have h4 : |K * f64 (c / K)| ≤ |c| + |K * f64 (c / K) - c| := by
    have := abs_add c (K * f64 (c / K) - c)
    rw [add_sub_cancel] at this
    exact this
  have h5 : |f64 (K * f64 (c / K)) - c|
      ≤ |f64 (K * f64 (c / K)) - K * f64 (c / K)| + |K * f64 (c / K) - c| := by
    have := abs_add (f64 (K * f64 (c / K)) - K * f64 (c / K)) (K * f64 (c / K) - c)
    rw [sub_add_sub_cancel] at this
    exact this
  have hc := abs_nonneg c
  have e1 : |c| / 2 ^ 51 = |c| * (1 / 2 ^ 51) := by ring
  have e2 : (1 + 2 * K) / 2 ^ 1075 = (1 + 2 * K) * (1 / 2 ^ 1075) := by ring
  rw [e1, e2]
  have h6 : |K * f64 (c / K)| * (1 / 2 ^ 53)
      ≤ (|c| + (|c| * (1 / 2 ^ 53) + K * (1 / 2 ^ 1075))) * (1 / 2 ^ 53) :=
    mul_le_mul_of_nonneg_right (by linarith) (by norm_num)
  norm_num at h2 h3 h6 ⊢
  linarith

theorem f64_abs_le_two_pow (x : ℚ) (n : ℕ) (h : |x| ≤ (2 : ℚ) ^ n) : |f64 x| ≤ (2 : ℚ) ^ n := by
  have := f64_abs_le_two_zpow x (n : ℤ) (by omega) (by rw [zpow_natCast]; exact h)
  rwa [zpow_natCast] at this

theorem f64_nano_le_inv : f64 (1 / 10 ^ 9) ≤ 1 / 2 ^ 29 := by
  rw [f64_nano]
  norm_num

theorem f64_gain_07 : f64 (7 / 10) = 3152519739159347 / 2 ^ 52 := by
  rw [f64_eval _ (-1) (by norm_num [abs_of_pos]) (by norm_num [abs_of_pos])]
  norm_num [round_half_even]

theorem f64_bound_9992 : f64 (9992007282688675 / 10 ^ 14) = 3515625021484375 / 2 ^ 45 := by
  rw [f64_eval _ 6 (by norm_num [abs_of_pos]) (by norm_num [abs_of_pos])]
  norm_num [round_half_even]

theorem s1_cmd_frac0_f64_9992 :
    s1_cmd_frac0_f64 (9992007282688675 / 10 ^ 14) = 1800000011 / 2 ^ 54 := by
  unfold s1_cmd_frac0_f64
  rw [f64_bound_9992, f64_nano,
    f64_eval _ (-24) (by norm_num [abs_of_pos]) (by norm_num [abs_of_pos])]
  norm_num [round_half_even]

theorem s1_integ_seed_f64_9992 :
    s1_integ_seed_f64 cfg_ki_07 (1800000011 / 2 ^ 54) = 5392676604383817 / 2 ^ 75 := by
  have hk : f64 cfg_ki_07.ki = 3152519739159347 / 2 ^ 52 := f64_gain_07
  rw [s1_integ_seed_f64_pos cfg_ki_07 _ (by rw [hk]; norm_num), hk,
    f64_eval _ (-23) (by norm_num [abs_of_pos]) (by norm_num [abs_of_pos])]
  norm_num [round_half_even]

theorem do_s2_slew_cmd_frac_f64_9992 (dt : ℚ) :
    do_s2_slew_cmd_frac_f64 cfg_ki_07 (5392676604383817 / 2 ^ 75) 0 dt
      = 7549747246137343 / 2 ^ 76 := by
  have hk : f64 cfg_ki_07.ki = 3152519739159347 / 2 ^ 52 := f64_gain_07
  have hm : f64 cfg_ki_07.max_abs_ppb = 3515625021484375 / 2 ^ 45 := f64_bound_9992
  have hI : f64 (5392676604383817 / 2 ^ 75) = 5392676604383817 / 2 ^ 75 := by
    rw [f64_eval _ (-23) (by norm_num [abs_of_pos]) (by norm_num [abs_of_pos])]
    norm_num [round_half_even]
  have hB : f64 (f64 cfg_ki_07.max_abs_ppb * f64 (1 / 10 ^ 9)) = 1800000011 / 2 ^ 54 :=
    s1_cmd_frac0_f64_9992
  have hP : f64 (3152519739159347 / 2 ^ 52 * (5392676604383817 / 2 ^ 75))
      = 7549747246137343 / 2 ^ 76 := by
    rw [f64_eval _ (-24) (by norm_num [abs_of_pos]) (by norm_num [abs_of_pos])]
    norm_num [round_half_even]
  have h := do_s2_slew_cmd_frac_f64_zero cfg_ki_07 (5392676604383817 / 2 ^ 75) dt
  rw [hI] at h
  rw [h, hB, hk, hP, if_pos (by rw [hm]; norm_num)]
  norm_num [clamp_d]

/-- The hand-off ends with a write loop that wrote the word of its final command; the
world it leaves holds the bus of that loop, or what the device made of it during the
sleep of a polarity check that kept the sign. -/
theorem s1_handoff_last_write (hw : device_t) (cfg : discipline_cfg_t) (w : world_t)
    (p_ver d0 : ℚ) (n : Nat) (r : s1_handoff_t)
    (h : s1_handoff hw cfg w p_ver d0 n = .ok r) :
    (r.cmd_ppb0 = s1_init_cmd_ppb cfg d0 ∨ r.cmd_ppb0 = -s1_init_cmd_ppb cfg d0)
      ∧ ∃ b4 b5, do_s2_slew_loop cfg r.word0 b4 cfg.wr_dplls = (0, b5)
          ∧ (r.w.bus = b5 ∨ ∃ k, r.w.bus = hw k b5) := by
  obtain ⟨w1, b2, _, h2, hp, hf, hword, _⟩ := s1_handoff_ok hw cfg w p_ver d0 n r h
  refine ⟨s1_polarity_check_cmd hw cfg _ d0 _ n r.w r.cmd_ppb0 hp, ?_⟩
  rw [hword, hf]
  by_cases hc : cfg.dry_run = false ∧ cfg.debug = true ∧ cfg.interval_sec > 0 ∧ n ≥ 2
  · obtain ⟨pr0, p0, pr1, p1, _, _, hflip, hkeep⟩ :=
      s1_polarity_check_run hw cfg _ d0 _ n r.w r.cmd_ppb0 hc hp
    by_cases hfl : |wrap_phase_sec (p1 - p0) / cfg.interval_sec * 10 ^ 9| > |d0| * (120 / 100)
    · obtain ⟨hcmd, b3, hb3, hw3⟩ := hflip hfl
      refine ⟨(sleep_sec hw { w1 with bus := b2 } cfg.interval_sec).bus, b3, ?_, Or.inl ?_⟩
      · rw [hcmd]
        exact hb3
      · rw [hw3]
    · obtain ⟨hcmd, hw3⟩ := hkeep hfl
      refine ⟨w1.bus, b2, ?_, Or.inr ⟨w1.sleeps, ?_⟩⟩
      · rw [hcmd]
        exact h2
      · rw [hw3]
        unfold sleep_sec
        rw [if_neg (not_le.mpr hc.2.2.1)]
  · rw [s1_polarity_check_skip hw cfg _ d0 _ n hc] at hp
    simp only [Except.ok.injEq, Prod.mk.injEq] at hp
    refine ⟨w1.bus, b2, ?_, Or.inl ?_⟩
    · rw [← hp.2]
      exact h2
    · rw [← hp.1]

theorem s1_handoff_ppb_bound (hw : device_t) (cfg : discipline_cfg_t) (w : world_t)
    (p_ver d0 : ℚ) (n : Nat) (r : s1_handoff_t)
    (h : s1_handoff hw cfg w p_ver d0 n = .ok r) (hmax : cfg.max_abs_ppb > 0) :
    |r.cmd_ppb0| ≤ cfg.max_abs_ppb := by
  have hb := s1_init_cmd_ppb_bound cfg d0 hmax
  rcases (s1_handoff_last_write hw cfg w p_ver d0 n r h).1 with e | e
  · rw [e]; exact hb
  · rw [e, abs_neg]; exact hb

/-- The binary64 quotient `step_sec / (1.0 / fod_hz)` of a step of at most 1/2 s stays
below `2^47`: no operation overflows. -/
theorem s1_step_quotient_bound (s F : ℚ) (hs : |s| ≤ 1 / 2) (hlo : (1 : ℚ) / 2 ^ 16 ≤ F)
    (hhi : F < 2 ^ 48) : |f64 (s / f64 (1 / f64 F))| ≤ 2 ^ 47 := by
  have hF0 : 0 < F := lt_of_lt_of_le (by norm_num) hlo
  have h1 : |f64 F| ≤ (2 : ℚ) ^ 48 :=
    f64_abs_le_two_pow F 48 (by rw [abs_of_pos hF0]; exact le_of_lt hhi)
  have hFp : 0 < f64 F := by
    apply f64_pos_of_normal
    refine le_trans ?_ hlo
    norm_num
  rw [abs_of_pos hFp] at h1
  have h2 : (2 : ℚ) ^ (-48 : Int) ≤ 1 / f64 F := by
    rw [le_div_iff₀ hFp]
    have : (2 : ℚ) ^ (-48 : Int) = 1 / 2 ^ 48 := by norm_num
    rw [this]
    calc (1 : ℚ) / 2 ^ 48 * f64 F ≤ 1 / 2 ^ 48 * 2 ^ 48 :=
          mul_le_mul_of_nonneg_left h1 (by norm_num)
      _ = 1 := by norm_num
  have h3 : (2 : ℚ) ^ (-48 : Int) ≤ f64 (1 / f64 F) := by
    have := f64_mono _ _ h2
    rwa [f64_two_zpow (-48) (by norm_num)] at this
  have ht : 0 < f64 (1 / f64 F) := lt_of_lt_of_le (by norm_num) h3
  apply f64_abs_le_two_pow
  rw [abs_div, abs_of_pos ht, div_le_iff₀ ht]
  have h4 : (1 : ℚ) / 2 ≤ 2 ^ 47 * (2 : ℚ) ^ (-48 : Int) := by norm_num
  calc |s| ≤ 1 / 2 := hs
    _ ≤ 2 ^ 47 * (2 : ℚ) ^ (-48 : Int) := h4
    _ ≤ 2 ^ 47 * f64 (1 / f64 F) := mul_le_mul_of_nonneg_left h3 (by norm_num)

/-! ## Every checked access is fatal -/

theorem read_phase_sec_bytes_error (bus : cm_bus_t) (cfg : discipline_cfg_t) (rc : Int)
    (h : cm_string_read_bytes bus "Status" 0 (phase_status_reg_name cfg.meas_dpll) 5
      = .error rc) :
    read_phase_sec bus cfg = .error rc := by
  unfold read_phase_sec read_phase_status_s36
  rw [h]

theorem do_s1_step_output_write_error (bus : cm_bus_t) (cfg : discipline_cfg_t) (s : ℚ)
    (o : Nat) (a : Int) (F : ℚ) (M N dv : Nat)
    (hF : read_dpll_fod_freq_hz bus (fod_dpll_for_output o) = .ok (F, M, N)) (hpos : 0 < F)
    (hdiv : read_output_div_u32 bus o = .ok dv)
    (ha : read_output_phase_adj_s32 bus o = .ok a) :
    (do_s1_step_output bus cfg s o).1
      = (write_output_phase_adj_s32 bus o (s1_new_adj a (s1_step_cycles s F)) (want_print cfg)
          cfg.dry_run).1 := by
  rw [do_s1_step_output_eq bus cfg s o a F M N dv hF hpos hdiv ha]

theorem do_s1_step_append_fail (bus : cm_bus_t) (cfg : discipline_cfg_t) (p : ℚ)
    (pre post : List Nat) (c : Nat) (b1 : cm_bus_t)
    (hL : cfg.step_outs = pre ++ c :: post)
    (hpre : do_s1_step_loop cfg (s1_step_sec cfg p) bus pre = (0, b1))
    (hc : (do_s1_step_output b1 cfg (s1_step_sec cfg p) c).1 ≠ 0) :
    do_s1_step bus cfg p = do_s1_step_output b1 cfg (s1_step_sec cfg p) c := by
  unfold do_s1_step
  rw [hL]
  exact do_s1_step_loop_append_fail cfg _ c post pre bus b1 hpre hc

theorem do_s2_slew_loop_fail (cfg : discipline_cfg_t) (word : Int) (bus : cm_bus_t)
    (pre post : List Nat) (c : Nat) (b1 : cm_bus_t) (rc : Int)
    (hL : cfg.wr_dplls = pre ++ c :: post)
    (hpre : do_s2_slew_loop cfg word bus pre = (0, b1))
    (hc : (write_dpll_wr_freq_s42 b1 c word (want_print cfg) cfg.dry_run).1 = rc)
    (hrc : rc ≠ 0) :
    do_s2_slew_loop cfg word bus cfg.wr_dplls = (rc, b1) := by
  rw [hL]
  exact do_s2_slew_loop_append_fail cfg word c post rc hrc pre bus b1 hpre hc

/-- The verification loop returns the code of the first read that fails. -/
theorem s1_verify_loop_read_error (hw : device_t) (cfg : discipline_cfg_t) (rc : Int) :
    ∀ (j n : Nat) (w : world_t) (acc : s1_verify_t), j < n →
      (∀ i < j, ∃ pr pw, read_phase_sec (sleep_iter hw cfg i w).bus cfg = .ok (pr, pw)) →
      read_phase_sec (sleep_iter hw cfg j w).bus cfg = .error rc →
      s1_verify_loop hw cfg n w acc = .error rc := by
  intro j
  induction j with
  | zero =>
    intro n w acc hn _ hread
    obtain ⟨m, rfl⟩ : ∃ m, n = m + 1 := ⟨n - 1, by omega⟩
    have h0 : read_phase_sec w.bus cfg = .error rc := hread
    rw [s1_verify_loop_succ, h0]
  | succ j ih =>
    intro n w acc hn hok hread
    obtain ⟨m, rfl⟩ : ∃ m, n = m + 1 := ⟨n - 1, by omega⟩
    obtain ⟨pr, pw, h0⟩ := hok 0 (by omega)
    have h0' : read_phase_sec w.bus cfg = .ok (pr, pw) := h0
    rw [s1_verify_loop_succ, h0']
    exact ih m (sleep_sec hw w cfg.interval_sec) _ (by omega)
      (fun i hi => hok (i + 1) (by omega)) hread

/-- The loop of `do_s0_measure` returns the code of the first read that fails while the
window is open. -/
theorem do_s0_measure_loop_read_error (hw : device_t) (cfg : discipline_cfg_t) (t0 : ℚ)
    (rc : Int) :
    ∀ (j fuel : Nat) (w : world_t) (sum sumw : ℚ),
      (∀ i ≤ j, now_monotonic_sec (sleep_iter hw cfg i w) - t0 < cfg.s0_window_sec) →
      (∀ i < j, ∃ pr p, read_phase_sec (sleep_iter hw cfg i w).bus cfg = .ok (pr, p)) →
      read_phase_sec (sleep_iter hw cfg j w).bus cfg = .error rc →
      do_s0_measure_loop hw cfg t0 (j + 1 + fuel) w sum sumw = some (.error rc) := by
  intro j
  induction j with
  | zero =>
    intro fuel w sum sumw hopen _ hread
    have h0 : read_phase_sec w.bus cfg = .error rc := hread
    have ho : now_monotonic_sec w - t0 < cfg.s0_window_sec := hopen 0 (le_refl 0)
    rw [show 0 + 1 + fuel = fuel + 1 by omega, do_s0_measure_loop, if_pos ho, h0]
  | succ j ih =>
    intro fuel w sum sumw hopen hok hread
    obtain ⟨pr, p, h0⟩ := hok 0 (by omega)
    have h0' : read_phase_sec w.bus cfg = .ok (pr, p) := h0
    have ho : now_monotonic_sec w - t0 < cfg.s0_window_sec := hopen 0 (by omega)
    have hnext := fun (s1 s2 : ℚ) => ih fuel (sleep_sec hw w cfg.interval_sec) s1 s2
      (fun i hi => hopen (i + 1) (by omega)) (fun i hi => hok (i + 1) (by omega)) hread
    rw [show j + 1 + 1 + fuel = (j + 1 + fuel) + 1 by omega, do_s0_measure_loop, if_pos ho, h0']
    simp only []
    split_ifs
    · exact hnext _ _
    · exact hnext _ _

theorem do_s0_measure_read_error_at (hw : device_t) (cfg : discipline_cfg_t) (rc : Int)
    (j fuel : Nat) (w : world_t)
    (hopen : ∀ i ≤ j, now_monotonic_sec (sleep_iter hw cfg i w) - now_monotonic_sec w
      < cfg.s0_window_sec)
    (hok : ∀ i < j, ∃ pr p, read_phase_sec (sleep_iter hw cfg i w).bus cfg = .ok (pr, p))
    (hread : read_phase_sec (sleep_iter hw cfg j w).bus cfg = .error rc) :
    do_s0_measure hw cfg (j + 1 + fuel) w = some (.error rc) := by
  unfold do_s0_measure
  rw [do_s0_measure_loop_read_error hw cfg _ rc j fuel w 0 0 hopen hok hread]

theorem discipline_run_loop_iter_error (hw : device_t) (cfg : discipline_cfg_t) (fuel k : Nat)
    (w : world_t) (v : discipline_vars_t) (rc : Int)
    (h : discipline_run_iter hw cfg fuel w v = some (.error rc)) :
    discipline_run_loop hw cfg fuel (k + 1) w v = .returned rc := by
  rw [discipline_run_loop_succ, h]

theorem discipline_run_loop_step_error (hw : device_t) (cfg : discipline_cfg_t) (fuel k : Nat)
    (w : world_t) (v : discipline_vars_t) (pr p : ℚ) (rc : Int)
    (hst : v.st = .ST_S1_STEP) (hread : read_phase_sec w.bus cfg = .ok (pr, p))
    (hgate : ¬(cfg.max_abs_phase_sec > 0 ∧ |p| > cfg.max_abs_phase_sec))
    (h : discipline_run_step hw cfg w v p = .error rc) :
    discipline_run_loop hw cfg fuel (k + 1) w v = .returned rc := by
  apply discipline_run_loop_iter_error
  rw [discipline_run_iter_step hw cfg fuel w v pr p hst hread hgate, h]

theorem discipline_run_step_verify_error (hw : device_t) (cfg : discipline_cfg_t) (w : world_t)
    (v : discipline_vars_t) (p : ℚ) (w1 : world_t) (rc : Int)
    (h1 : do_s1_step_sleep hw cfg w p = (0, w1))
    (h2 : s1_verify_loop hw cfg cfg.s1_verify_samples w1 s1_verify_init = .error rc) :
    discipline_run_step hw cfg w v p = .error rc := by
  unfold discipline_run_step
  simp only [h1, ne_eq, not_true_eq_false, if_false, h2]

theorem discipline_run_step_handoff_error (hw : device_t) (cfg : discipline_cfg_t)
    (w : world_t) (v : discipline_vars_t) (p : ℚ) (w1 w2 : world_t) (acc : s1_verify_t)
    (rc : Int)
    (h1 : do_s1_step_sleep hw cfg w p = (0, w1))
    (h2 : s1_verify_loop hw cfg cfg.s1_verify_samples w1 s1_verify_init = .ok (acc, w2))
    (hex : |acc.p_ver| ≤ cfg.s1_exit_abs_sec)
    (h3 : s1_handoff hw cfg w2 acc.p_ver (s1_avg_drift_ppb acc) acc.drift_n = .error rc) :
    discipline_run_step hw cfg w v p = .error rc := by
  unfold discipline_run_step
  simp only [h1, ne_eq, not_true_eq_false, if_false, h2, if_pos hex, h3]

theorem s1_handoff_step_error (hw : device_t) (cfg : discipline_cfg_t) (w : world_t)
    (p_ver d0 : ℚ) (n : Nat) (h : (do_s1_step w.bus cfg p_ver).1 ≠ 0) :
    s1_handoff hw cfg w p_ver d0 n = .error (do_s1_step w.bus cfg p_ver).1 := by
  have h1 : (do_s1_step_sleep hw cfg w p_ver).1 = (do_s1_step w.bus cfg p_ver).1 := by
    unfold do_s1_step_sleep
    simp only []
    rw [if_pos h]
  unfold s1_handoff
  simp only []
  rw [if_pos (by rw [h1]; exact h), h1]

theorem s1_handoff_write_error (hw : device_t) (cfg : discipline_cfg_t) (w : world_t)
    (p_ver d0 : ℚ) (n : Nat) (w4 : world_t)
    (h1 : do_s1_step_sleep hw cfg w p_ver = (0, w4))
    (h2 : (do_s2_slew_loop cfg (wr_freq_word (s1_init_cmd_ppb cfg d0 * (1 / 10 ^ 9))) w4.bus
      cfg.wr_dplls).1 ≠ 0) :
    s1_handoff hw cfg w p_ver d0 n
      = .error (do_s2_slew_loop cfg (wr_freq_word (s1_init_cmd_ppb cfg d0 * (1 / 10 ^ 9)))
          w4.bus cfg.wr_dplls).1 := by
  unfold s1_handoff
  simp only [h1, ne_eq, not_true_eq_false, if_false]
  rw [if_pos h2]

theorem s1_handoff_check_error (hw : device_t) (cfg : discipline_cfg_t) (w : world_t)
    (p_ver d0 : ℚ) (n : Nat) (w4 : world_t) (b5 : cm_bus_t) (rc : Int)
    (h1 : do_s1_step_sleep hw cfg w p_ver = (0, w4))
    (h2 : do_s2_slew_loop cfg (wr_freq_word (s1_init_cmd_ppb cfg d0 * (1 / 10 ^ 9))) w4.bus
      cfg.wr_dplls = (0, b5))
    (h3 : s1_polarity_check hw cfg { w4 with bus := b5 } d0 (s1_init_cmd_ppb cfg d0) n
      = .error rc) :
    s1_handoff hw cfg w p_ver d0 n = .error rc := by
  unfold s1_handoff
  simp only [h1, ne_eq, not_true_eq_false, if_false, h2, h3]

theorem s1_polarity_check_p0_error (hw : device_t) (cfg : discipline_cfg_t) (w : world_t)
    (d0 cmd : ℚ) (n : Nat) (rc : Int)
    (hc : cfg.dry_run = false ∧ cfg.debug = true ∧ cfg.interval_sec > 0 ∧ n ≥ 2)
    (h : read_phase_sec w.bus cfg = .error rc) :
    s1_polarity_check hw cfg w d0 cmd n = .error rc := by
  unfold s1_polarity_check
  rw [if_pos hc, h]

theorem s1_polarity_check_p1_error (hw : device_t) (cfg : discipline_cfg_t) (w : world_t)
    (d0 cmd : ℚ) (n : Nat) (pr0 p0 : ℚ) (rc : Int)
    (hc : cfg.dry_run = false ∧ cfg.debug = true ∧ cfg.interval_sec > 0 ∧ n ≥ 2)
    (h0 : read_phase_sec w.bus cfg = .ok (pr0, p0))
    (h : read_phase_sec (sleep_sec hw w cfg.interval_sec).bus cfg = .error rc) :
    s1_polarity_check hw cfg w d0 cmd n = .error rc := by
  unfold s1_polarity_check
  rw [if_pos hc, h0]
  simp only []
  rw [h]

theorem s1_polarity_check_flip_error (hw : device_t) (cfg : discipline_cfg_t) (w : world_t)
    (d0 cmd : ℚ) (n : Nat) (pr0 p0 pr1 p1 : ℚ)
    (hc : cfg.dry_run = false ∧ cfg.debug = true ∧ cfg.interval_sec > 0 ∧ n ≥ 2)
    (h0 : read_phase_sec w.bus cfg = .ok (pr0, p0))
    (h1 : read_phase_sec (sleep_sec hw w cfg.interval_sec).bus cfg = .ok (pr1, p1))
    (hflip : |wrap_phase_sec (p1 - p0) / cfg.interval_sec * 10 ^ 9| > |d0| * (120 / 100))
    (h : (do_s2_slew_loop cfg (wr_freq_word (-cmd * (1 / 10 ^ 9)))
      (sleep_sec hw w cfg.interval_sec).bus cfg.wr_dplls).1 ≠ 0) :
    s1_polarity_check hw cfg w d0 cmd n
      = .error (do_s2_slew_loop cfg (wr_freq_word (-cmd * (1 / 10 ^ 9)))
          (sleep_sec hw w cfg.interval_sec).bus cfg.wr_dplls).1 := by
  unfold s1_polarity_check
  rw [if_pos hc, h0]
  simp only []
  rw [h1]
  simp only []
  rw [if_pos hflip]
  simp only [div_one]
  rw [if_pos h]

theorem do_s1_step_sleep_error (hw : device_t) (cfg : discipline_cfg_t) (w : world_t) (p : ℚ)
    (h : (do_s1_step w.bus cfg p).1 ≠ 0) :
    (do_s1_step_sleep hw cfg w p).1 = (do_s1_step w.bus cfg p).1 := by
  unfold do_s1_step_sleep
  simp only []
  rw [if_pos h]

/-! ## The claims -/

/-- Claim C3: with a positive max-step magnitude `m`, `do_s1_step` runs its output loop with the
request `step_sec = clamp(-p, -m, +m)`; its magnitude is at most `m` and its sign is
opposite to that of `p`.  For `p = 0.10` and `m = 0.05` the request before saturation is
`-0.10` and the request applied is `-0.05`. -/
theorem do_s1_step_request (bus : cm_bus_t) (cfg : discipline_cfg_t) (p : ℚ)
    (hm : 0 < cfg.s1_max_step_sec) :
    do_s1_step bus cfg p
        = do_s1_step_loop cfg (sat (-cfg.s1_max_step_sec) cfg.s1_max_step_sec (-p)) bus
            cfg.step_outs
      ∧ s1_step_sec cfg p = sat (-cfg.s1_max_step_sec) cfg.s1_max_step_sec (-p)
      ∧ |s1_step_sec cfg p| ≤ cfg.s1_max_step_sec
      ∧ (0 < p → s1_step_sec cfg p < 0)
      ∧ (p < 0 → 0 < s1_step_sec cfg p)
      ∧ (p = 0 → s1_step_sec cfg p = 0)
      ∧ (cfg.s1_max_step_sec = 5 / 100 → p = 10 / 100 →
          s1_step_sec cfg p = clamp_d (-(10 / 100)) (-(5 / 100)) (5 / 100)
            ∧ s1_step_sec cfg p = -(5 / 100)) := by
  have key : s1_step_sec cfg p = sat (-cfg.s1_max_step_sec) cfg.s1_max_step_sec (-p) := by
    unfold s1_step_sec sat clamp_d
    simp only [gt_iff_lt, hm, if_true]
    split_ifs with h1 h2
    · rw [min_eq_right (by linarith), max_eq_left (by linarith)]
    · rw [min_eq_left (by linarith), max_eq_right (by linarith)]
    · rw [min_eq_right (by linarith), max_eq_right (by linarith)]
  have hlo : -cfg.s1_max_step_sec ≤ s1_step_sec cfg p := by
    rw [key]; exact le_max_left _ _
  have hhi : s1_step_sec cfg p ≤ cfg.s1_max_step_sec := by
    rw [key]; exact max_le (by linarith) (min_le_left _ _)
  refine ⟨?_, key, abs_le.mpr ⟨hlo, hhi⟩, ?_, ?_, ?_, ?_⟩
  · unfold do_s1_step; rw [key]
  · intro hp
    rw [key]; unfold sat
    exact max_lt (by linarith) (lt_of_le_of_lt (min_le_right _ _) (by linarith))
  · intro hp
    rw [key]; unfold sat
    exact lt_max_of_lt_right (lt_min hm (by linarith))
  · intro hp
    rw [key, hp]; unfold sat
    rw [neg_zero, min_eq_right (le_of_lt hm), max_eq_right (by linarith)]
  · intro hmax hp
    have : s1_step_sec cfg p = -(5 / 100) := by
      unfold s1_step_sec clamp_d
      rw [hmax, hp]; norm_num
    refine ⟨?_, this⟩
    rw [this]; unfold clamp_d; norm_num

/-- Witness for claim C3: the default configuration (max step 0.05 s) and a phase of 0.10 s. -/
theorem do_s1_step_request_witness :
    (0 : ℚ) < main_default_cfg.s1_max_step_sec
      ∧ s1_step_sec main_default_cfg (10 / 100) = -(5 / 100) :=
  have hm : (0 : ℚ) < main_default_cfg.s1_max_step_sec := by norm_num [main_default_cfg]
  ⟨hm, ((do_s1_step_request ⟨fun _ => 0, fun _ => 0, fun _ => 0⟩ main_default_cfg (10 / 100)
    hm).2.2.2.2.2.2 (by norm_num [main_default_cfg]) rfl).2⟩

/-- Counterexample to claim C4: a half-cycle phase.  `DPLL5_PHASE_STATUS = 60` is held by
the program as the double `phase_s36_to_seconds_f64 60` (just below 3 ns), the default
configuration turns it into the step request `s` of the opposite sign, and output 9 runs
from an FOD of 500 MHz (`M = 500000000`, `N = 1`) with `OUT_PHASE_ADJ = 0`.  The pass
returns 0 and leaves `-2` in the register: the binary64 quotient `s / (1.0 / fod_hz)` is
exactly `-1.5`.  The value of the claim, `clamp32(0 + clamp32(round(s * F)))`, is `-1`,
because the exact product `s * F` is above `-1.5`. -/
theorem do_s1_step_output_half_cycle :
    s1_step_sec main_default_cfg (phase_s36_to_seconds_f64 60) = -(phase_s36_to_seconds_f64 60)
      ∧ read_dpll_fod_freq_hz bus_fod_500mhz (fod_dpll_for_output 9)
          = .ok (((500000000 : Nat) : ℚ) / ((1 : Nat) : ℚ), 500000000, 1)
      ∧ read_output_phase_adj_s32 bus_fod_500mhz 9 = .ok 0
      ∧ (do_s1_step_output bus_fod_500mhz main_default_cfg
          (-(phase_s36_to_seconds_f64 60)) 9).1 = 0
      ∧ read_output_phase_adj_s32
          (do_s1_step_output bus_fod_500mhz main_default_cfg
            (-(phase_s36_to_seconds_f64 60)) 9).2 9 = .ok (-2)
      ∧ sat (-(2 ^ 31)) (2 ^ 31 - 1)
          (0 + sat (-(2 ^ 31)) (2 ^ 31 - 1)
            (llround (-(phase_s36_to_seconds_f64 60)
              * (((500000000 : Nat) : ℚ) / ((1 : Nat) : ℚ))))) = -1 := by
  have hF : read_dpll_fod_freq_hz bus_fod_500mhz (fod_dpll_for_output 9)
      = .ok (((500000000 : Nat) : ℚ) / ((1 : Nat) : ℚ), 500000000, 1) := rfl
  have ha : read_output_phase_adj_s32 bus_fod_500mhz 9 = .ok 0 := rfl
  have hdiv : read_output_div_u32 bus_fod_500mhz 9 = .ok 0 := rfl
  have heq := do_s1_step_output_eq bus_fod_500mhz main_default_cfg
    (-(phase_s36_to_seconds_f64 60)) 9 0 _ 500000000 1 0 hF (by norm_num) hdiv ha
  rw [phase_s36_to_seconds_f64_60] at heq ⊢
  rw [s1_step_cycles_half_cycle] at heq
  have hadj : s1_new_adj 0 (-2) = -2 := by decide
  rw [hadj] at heq
  have hrc : (write_output_phase_adj_s32 bus_fod_500mhz 9 (-2)
      (want_print main_default_cfg) main_default_cfg.dry_run).1 = 0 := rfl
  refine ⟨?_, hF, ha, ?_, ?_, ?_⟩
  · norm_num [s1_step_sec, clamp_d, main_default_cfg]
  · rw [heq]
    exact hrc
  · rw [heq]
    exact write_output_phase_adj_s32_readback bus_fod_500mhz 9 0 (-2) _ ha (by decide)
      (by decide) hrc
  · norm_num [llround, sat]

/-- Claim C4 (amended): for an output `o` whose `OUT_PHASE_ADJ` reads `a`, a step request
`s` of magnitude at most 1/2 s (the range of a wrapped phase) and an FOD frequency
`F = M / N > 0` (`N` being the denominator read, with 0 read as 1), one pass of the loop
of `do_s1_step` hands `clamp32(a + clamp32(round(q)))` to the register writer, where `q`
is the binary64 quotient `s / (1.0 / F)`, `round` is rounding to a nearest integer and
`clamp32` saturation to `[-2^31, 2^31-1]`.  No operation overflows (`|q| ≤ 2^47`), and
the quotient is within
`|s * F| / 2^51 + 2^-1075` of the exact product `s * F`, so the cycle count is
`clamp32(round(s * F))` whenever `s * F` is farther than that from every half-integer.
The value written lies in `[-2^31, 2^31-1]`, it is the value read plus the cycle count
whenever that sum is in range, and with dry-run off a pass that returns 0 leaves the
register reading that value. -/
theorem do_s1_step_output_writes (bus : cm_bus_t) (cfg : discipline_cfg_t) (s : ℚ) (o : Nat)
    (a : Int) (F : ℚ) (M N dv : Nat) (hs : |s| ≤ 1 / 2)
    (hF : read_dpll_fod_freq_hz bus (fod_dpll_for_output o) = .ok (F, M, N)) (hpos : 0 < F)
    (hdiv : read_output_div_u32 bus o = .ok dv)
    (ha : read_output_phase_adj_s32 bus o = .ok a) :
    let r := do_s1_step_output bus cfg s o
    let q := f64 (s / f64 (1 / f64 F))
    let d := sat (-(2 ^ 31)) (2 ^ 31 - 1) (llround q)
    let new_adj := sat (-(2 ^ 31)) (2 ^ 31 - 1) (a + d)
    r = write_output_phase_adj_s32 bus o new_adj (want_print cfg) cfg.dry_run
      ∧ (cfg.dry_run = false → r.1 = 0 → read_output_phase_adj_s32 r.2 o = .ok new_adj)
      ∧ -(2 ^ 31) ≤ new_adj ∧ new_adj ≤ 2 ^ 31 - 1
      ∧ (-(2 ^ 31) ≤ a + d → a + d ≤ 2 ^ 31 - 1 → new_adj = a + d)
      ∧ |((llround q : Int) : ℚ) - q| ≤ 1 / 2
      ∧ |q| ≤ 2 ^ 47
      ∧ |q - s * F| ≤ |s * F| / 2 ^ 51 + 1 / 2 ^ 1075
      ∧ (∀ k : Int, |s * F - k| + (|s * F| / 2 ^ 51 + 1 / 2 ^ 1075) < 1 / 2 →
          llround q = k ∧ llround (s * F) = k ∧ d = sat (-(2 ^ 31)) (2 ^ 31 - 1) k)
      ∧ F = (M : ℚ) / (N : ℚ) ∧ 0 < N ∧ M < 2 ^ 48 ∧ N < 2 ^ 16 := by
  intro r q d new_adj
  have hratio := read_dpll_fod_freq_hz_ratio bus _ F M N hF
  have hbnd := read_dpll_fod_freq_hz_bounds bus _ F M N hF
  have hrange_F := fod_ratio_range M N hbnd.1 hbnd.2 hratio.2 (by rw [← hratio.1]; exact hpos)
  rw [← hratio.1] at hrange_F
  have herr : |q - s * F| ≤ |s * F| / 2 ^ 51 + 1 / 2 ^ 1075 :=
    s1_step_quotient_err s F hrange_F.1 hrange_F.2
  have hnew : s1_new_adj a (s1_step_cycles s F) = new_adj := by
    rw [s1_new_adj_eq, s1_step_cycles_eq_sat s F]
  have hr : r = write_output_phase_adj_s32 bus o new_adj (want_print cfg) cfg.dry_run := by
    rw [← hnew]
    exact do_s1_step_output_eq bus cfg s o a F M N dv hF hpos hdiv ha
  have hrange := s1_new_adj_range a (s1_step_cycles s F)
  rw [hnew] at hrange
  refine ⟨hr, ?_, hrange.1, hrange.2, ?_, llround_nearest _,
    s1_step_quotient_bound s F hs hrange_F.1 hrange_F.2, herr, ?_, hratio.1, hratio.2,
    hbnd.1, hbnd.2⟩
  · intro hdry hrc
    rw [hr, hdry] at hrc ⊢
    exact write_output_phase_adj_s32_readback bus o a new_adj _ ha hrange.1 hrange.2 hrc
  · intro h1 h2
    show sat (-(2 ^ 31)) (2 ^ 31 - 1) (a + d) = a + d
    unfold sat
    omega
  · intro k hk
    have hk1 : |s * F - k| < 1 / 2 := by
      have h0 : (0 : ℚ) ≤ |s * F| / 2 ^ 51 + 1 / 2 ^ 1075 := by positivity
      linarith
    have hk2 : |q - k| < 1 / 2 := by
      have h3 : |q - k| ≤ |q - s * F| + |s * F - k| := by
        have := abs_add (q - s * F) (s * F - k)
        rw [sub_add_sub_cancel] at this
        exact this
      linarith
    have e1 : llround q = k := llround_of_near q k hk2
    refine ⟨e1, llround_of_near _ k hk1, ?_⟩
    show sat (-(2 ^ 31)) (2 ^ 31 - 1) (llround q) = sat (-(2 ^ 31)) (2 ^ 31 - 1) k
    rw [e1]

/-- Witness for claim C4 (amended): output 9 on a register file holding `M = 100`, `N = 0`
for DPLL5 and zero elsewhere, with the step request `-1/32` s: the pass returns 0 and the
register then reads the value computed, `-3` (the quotient is `-3.125`). -/
theorem do_s1_step_output_writes_witness :
    (do_s1_step_output ⟨fun a => if a = 0xC758 then 100 else 0, fun _ => 0, fun _ => 0⟩
        main_default_cfg (-(1 / 32)) 9).1 = 0
      ∧ read_output_phase_adj_s32
          (do_s1_step_output ⟨fun a => if a = 0xC758 then 100 else 0, fun _ => 0, fun _ => 0⟩
            main_default_cfg (-(1 / 32)) 9).2 9
        = .ok (sat (-(2 ^ 31)) (2 ^ 31 - 1)
            (0 + sat (-(2 ^ 31)) (2 ^ 31 - 1)
              (llround (f64 (-(1 / 32) / f64 (1 / f64 (((100 : Nat) : ℚ) / ((1 : Nat) : ℚ))))))))
      ∧ sat (-(2 ^ 31)) (2 ^ 31 - 1)
            (0 + sat (-(2 ^ 31)) (2 ^ 31 - 1)
              (llround (f64 (-(1 / 32) / f64 (1 / f64 (((100 : Nat) : ℚ) / ((1 : Nat) : ℚ)))))))
          = -3 :=
  have h := do_s1_step_output_writes
    ⟨fun a => if a = 0xC758 then 100 else 0, fun _ => 0, fun _ => 0⟩ main_default_cfg
    (-(1 / 32)) 9 0 (((100 : Nat) : ℚ) / ((1 : Nat) : ℚ)) 100 1 0 (by norm_num [abs_of_neg])
    rfl (by norm_num) rfl rfl
  have hrc : (do_s1_step_output
      ⟨fun a => if a = 0xC758 then 100 else 0, fun _ => 0, fun _ => 0⟩
      main_default_cfg (-(1 / 32)) 9).1 = 0 := by
    rw [h.1]; rfl
  have hk := (h.2.2.2.2.2.2.2.2.1 (-3) (by norm_num [abs_of_neg])).2.2
  ⟨hrc, h.2.1 rfl hrc, by
    show sat (-(2 ^ 31)) (2 ^ 31 - 1) (0 + sat (-(2 ^ 31)) (2 ^ 31 - 1)
      (llround (f64 (-(1 / 32) / f64 (1 / f64 (((100 : Nat) : ℚ) / ((1 : Nat) : ℚ))))))) = -3
    rw [hk]
    decide⟩

/-- Counterexample to claim C5: an output listed twice.  With `--step-outs 9,9` (the list
parser keeps duplicates), dry-run off, on a register file whose accesses all succeed, with
FOD ratio 100/1 for DPLL5 and `OUT_PHASE_ADJ = 0` for output 9, one call of `do_s1_step`
with the phase sample `1/32` s returns 0; the cycle delta of the call is `d = -3`, and
after this first call the register reads `-6 = a + 2 d`, not `a + d`: the loop has
already run the read-modify-write twice for the output. -/
theorem do_s1_step_output_listed_twice :
    ({ main_default_cfg with step_outs := [9, 9] } : discipline_cfg_t).dry_run = false
      ∧ bus_ok bus_fod_100
      ∧ read_output_phase_adj_s32 bus_fod_100 9 = .ok 0
      ∧ read_dpll_fod_freq_hz bus_fod_100 (fod_dpll_for_output 9)
          = .ok (((100 : Nat) : ℚ) / ((1 : Nat) : ℚ), 100, 1)
      ∧ s1_step_cycles (s1_step_sec { main_default_cfg with step_outs := [9, 9] } (1 / 32))
          (((100 : Nat) : ℚ) / ((1 : Nat) : ℚ)) = -3
      ∧ (do_s1_step bus_fod_100 { main_default_cfg with step_outs := [9, 9] } (1 / 32)).1 = 0
      ∧ read_output_phase_adj_s32
          (do_s1_step bus_fod_100 { main_default_cfg with step_outs := [9, 9] } (1 / 32)).2 9
          = .ok (-6) := by
  have hok : bus_ok bus_fod_100 := fun _ => ⟨rfl, rfl⟩
  have hF : read_dpll_fod_freq_hz bus_fod_100 (fod_dpll_for_output 9)
      = .ok (((100 : Nat) : ℚ) / ((1 : Nat) : ℚ), 100, 1) := rfl
  have ha : read_output_phase_adj_s32 bus_fod_100 9 = .ok 0 := rfl
  have hs := s1_step_sec_default_small { main_default_cfg with step_outs := [9, 9] } rfl
  have hpos : (0 : ℚ) < ((100 : Nat) : ℚ) / ((1 : Nat) : ℚ) := by norm_num
  -- the first pass
  have h1 := do_s1_step_output_ok bus_fod_100 { main_default_cfg with step_outs := [9, 9] }
    (-(1 / 32)) 9 0 _ 100 1 hok (by decide) rfl hF hpos ha
  rw [s1_step_cycles_fod_100, show s1_new_adj 0 (-3) = -3 by decide] at h1
  have hok1 := bus_ok_write bus_fod_100 (cm_Output_bases.getD 9 0 + 0xC) (phase_adj_pack (-3)) hok
  have hF1 : read_dpll_fod_freq_hz
      (bus_fod_100.write (cm_Output_bases.getD 9 0 + 0xC) (phase_adj_pack (-3))).2
      (fod_dpll_for_output 9) = .ok (((100 : Nat) : ℚ) / ((1 : Nat) : ℚ), 100, 1) := by
    rw [read_dpll_fod_freq_hz_frame bus_fod_100 9 _ _ (by decide)]
    exact hF
  have ha1 := read_output_phase_adj_s32_written bus_fod_100 9 (-3) hok (by decide) (by decide)
    (by decide)
  -- the second pass, for the same output
  have h2 := do_s1_step_output_ok _ { main_default_cfg with step_outs := [9, 9] }
    (-(1 / 32)) 9 (-3) _ 100 1 hok1 (by decide) rfl hF1 hpos ha1
  rw [s1_step_cycles_fod_100, show s1_new_adj (-3) (-3) = -6 by decide] at h2
  have ha2 := read_output_phase_adj_s32_written
    (bus_fod_100.write (cm_Output_bases.getD 9 0 + 0xC) (phase_adj_pack (-3))).2 9 (-6) hok1
    (by decide) (by decide) (by decide)
  have hrun : do_s1_step bus_fod_100 { main_default_cfg with step_outs := [9, 9] } (1 / 32)
      = (0, ((bus_fod_100.write (cm_Output_bases.getD 9 0 + 0xC) (phase_adj_pack (-3))).2.write
          (cm_Output_bases.getD 9 0 + 0xC) (phase_adj_pack (-6))).2) := by
    unfold do_s1_step
    rw [hs]
    show do_s1_step_loop _ (-(1 / 32)) bus_fod_100 [9, 9] = _
    rw [do_s1_step_loop, h1]
    simp only [ne_eq, not_true_eq_false, if_false]
    rw [do_s1_step_loop, h2]
    simp only [ne_eq, not_true_eq_false, if_false]
    rfl
  refine ⟨rfl, hok, ha, hF, ?_, ?_, ?_⟩
  · rw [hs]
    exact s1_step_cycles_fod_100
  · rw [hrun]
  · rw [hrun]
    exact ha2

/-- Claim C5 (amended): with dry-run off and every configured output listed once, on a bus
whose accesses all succeed and whose registers keep the last value written, when a call
of `do_s1_step` returns 0, a second call in succession with the same phase sample returns
0 as well, reads the same FOD frequency, and the cycle delta `d` (the count the calls
compute for the output) is applied twice: an output of the configured set whose
`OUT_PHASE_ADJ` read `a` reads `a + d` after the first call and `a + 2 d` after the second
when `a + 2 d` is within the signed 32-bit range, so for `d ≠ 0` the second call changes
the register again. -/
theorem do_s1_step_twice (bus : cm_bus_t) (cfg : discipline_cfg_t) (p : ℚ) (o : Nat)
    (a : Int) (F : ℚ) (M N : Nat) (hok : bus_ok bus) (hdry : cfg.dry_run = false)
    (hnd : cfg.step_outs.Nodup)
    (hrc : (do_s1_step bus cfg p).1 = 0)
    (ho : o ∈ cfg.step_outs)
    (ha : read_output_phase_adj_s32 bus o = .ok a)
    (hF : read_dpll_fod_freq_hz bus (fod_dpll_for_output o) = .ok (F, M, N))
    (hlo : -(2 ^ 31) ≤ a + 2 * s1_step_cycles (s1_step_sec cfg p) F)
    (hhi : a + 2 * s1_step_cycles (s1_step_sec cfg p) F ≤ 2 ^ 31 - 1) :
    let d := s1_step_cycles (s1_step_sec cfg p) F
    let r1 := do_s1_step bus cfg p
    let r2 := do_s1_step r1.2 cfg p
    r2.1 = 0
      ∧ read_dpll_fod_freq_hz r1.2 (fod_dpll_for_output o) = .ok (F, M, N)
      ∧ read_output_phase_adj_s32 r1.2 o = .ok (a + d)
      ∧ read_output_phase_adj_s32 r2.2 o = .ok (a + 2 * d)
      ∧ (d ≠ 0 → read_output_phase_adj_s32 r2.2 o ≠ read_output_phase_adj_s32 r1.2 o)
      ∧ -(2 ^ 31) ≤ d ∧ d ≤ 2 ^ 31 - 1 := by
  intro d r1 r2
  have hinv := do_s1_step_loop_inv cfg (s1_step_sec cfg p) hdry cfg.step_outs bus hok hrc
  have hlt : ∀ x ∈ cfg.step_outs, x < 12 := fun x hx => (hinv x hx).1
  have hfod : ∀ x ∈ cfg.step_outs, ∃ F M N,
      read_dpll_fod_freq_hz bus (fod_dpll_for_output x) = .ok (F, M, N) ∧ 0 < F :=
    fun x hx => (hinv x hx).2
  have hdr : -(2 ^ 31) ≤ d ∧ d ≤ 2 ^ 31 - 1 := by
    show -(2 ^ 31) ≤ s1_step_cycles (s1_step_sec cfg p) F
      ∧ s1_step_cycles (s1_step_sec cfg p) F ≤ 2 ^ 31 - 1
    rw [s1_step_cycles_eq_sat]
    unfold sat
    omega
  have har := read_output_phase_adj_s32_range bus o a ha
  obtain ⟨bus1, h1, hok1, hfod1, _, hval1⟩ := do_s1_step_loop_ok cfg (s1_step_sec cfg p) hdry
    cfg.step_outs bus hok hlt hnd hfod
    (fun x hx => read_output_phase_adj_s32_ok bus x hok (hlt x hx))
  have hr1 : r1 = (0, bus1) := h1
  have ha1 : read_output_phase_adj_s32 bus1 o = .ok (a + d) := by
    rw [hval1 o ho a F M N ha hF, s1_new_adj_eq]
    congr 1
    change max _ (min _ _) = _
    change -(2 ^ 31) ≤ a + 2 * d at hlo
    change a + 2 * d ≤ 2 ^ 31 - 1 at hhi
    omega
  obtain ⟨bus2, h2, _, _, _, hval2⟩ := do_s1_step_loop_ok cfg (s1_step_sec cfg p) hdry
    cfg.step_outs bus1 hok1 hlt hnd
    (fun x hx => by rw [hfod1]; exact hfod x hx)
    (fun x hx => read_output_phase_adj_s32_ok bus1 x hok1 (hlt x hx))
  have hr2 : r2 = (0, bus2) := by
    show do_s1_step r1.2 cfg p = (0, bus2)
    rw [hr1]; exact h2
  have ha2 : read_output_phase_adj_s32 bus2 o = .ok (a + 2 * d) := by
    rw [hval2 o ho (a + d) F M N ha1 (by rw [hfod1]; exact hF), s1_new_adj_eq]
    congr 1
    change max _ (min _ _) = _
    change -(2 ^ 31) ≤ a + 2 * d at hlo
    change a + 2 * d ≤ 2 ^ 31 - 1 at hhi
    omega
  refine ⟨by rw [hr2], by rw [hr1]; show read_dpll_fod_freq_hz bus1 _ = _; rw [hfod1]; exact hF,
    by rw [hr1]; exact ha1, by rw [hr2]; exact ha2, ?_, hdr⟩
  intro hd0
  rw [hr2, hr1]
  show read_output_phase_adj_s32 bus2 o ≠ read_output_phase_adj_s32 bus1 o
  rw [ha1, ha2]
  intro heq
  simp only [Except.ok.injEq] at heq
  omega

/-- Witness for claim C5 (amended): the default configuration (outputs 9, 10, 11) on a
register file where the FOD ratio of DPLL5 and of DPLL6 is `100 / 1` and every other byte
is zero, with the phase sample `1/32` s: the first call returns 0, the delta is `-3`
cycles, and output 9 reads `-3`, then `-6`. -/
theorem do_s1_step_twice_witness :
    (do_s1_step bus_fod_100 main_default_cfg (1 / 32)).1 = 0
      ∧ s1_step_cycles (s1_step_sec main_default_cfg (1 / 32))
          (((100 : Nat) : ℚ) / ((1 : Nat) : ℚ)) = -3
      ∧ read_output_phase_adj_s32 (do_s1_step bus_fod_100 main_default_cfg (1 / 32)).2 9
          = .ok (-3)
      ∧ read_output_phase_adj_s32
        (do_s1_step (do_s1_step bus_fod_100 main_default_cfg (1 / 32)).2
          main_default_cfg (1 / 32)).2 9 = .ok (-6) := by
  have hd : s1_step_cycles (s1_step_sec main_default_cfg (1 / 32))
      (((100 : Nat) : ℚ) / ((1 : Nat) : ℚ)) = -3 := by
    rw [s1_step_sec_default_small main_default_cfg rfl]
    exact s1_step_cycles_fod_100
  have hrc : (do_s1_step bus_fod_100 main_default_cfg (1 / 32)).1 = 0 := by
    obtain ⟨b1, hb1, _⟩ := do_s1_step_loop_ready main_default_cfg
      (s1_step_sec main_default_cfg (1 / 32)) main_default_cfg.step_outs bus_fod_100
      (fun x hx => ⟨cfg_valid_default.2.2 x hx, hx⟩)
      (bus_ready_fod_100 main_default_cfg cfg_valid_default.2.2)
    show (do_s1_step_loop main_default_cfg (s1_step_sec main_default_cfg (1 / 32)) bus_fod_100
      main_default_cfg.step_outs).1 = 0
    rw [hb1]
  have h := do_s1_step_twice bus_fod_100 main_default_cfg (1 / 32) 9 0
    (((100 : Nat) : ℚ) / ((1 : Nat) : ℚ)) 100 1
    (fun _ => ⟨rfl, rfl⟩) rfl (by decide) hrc (by decide) rfl rfl
    (by rw [hd]; norm_num) (by rw [hd]; norm_num)
  simp only [hd] at h
  exact ⟨hrc, hd, h.2.2.1, h.2.2.2.1⟩

/-- Claim C6: for a command fraction `f` with `f * 2^53` inside the signed 42-bit range, the
encoded word is `f * 2^53` rounded to a nearest integer; the six bytes packed for it
decode to the same word (also when written to and read back from a register file with
`cm_read_dpll_wr_freq_s42`), and the decoded value `word * 2^-53` is within half a unit of
`2^-53` of `f` (within `1e9 * 2^-54` in ppb).  For `f = 500e-9` the word is `4503599627`
and it decodes to 500 ppb within that tolerance. -/
theorem wr_freq_word_roundtrip (f : ℚ) (hlo : -(2 ^ 41) ≤ f * 2 ^ 53)
    (hhi : f * 2 ^ 53 ≤ 2 ^ 41 - 1) :
    wr_freq_word f = llround (f * 2 ^ 53)
      ∧ |((wr_freq_word f : Int) : ℚ) - f * 2 ^ 53| ≤ 1 / 2
      ∧ wr_freq_unpack (wr_freq_pack (wr_freq_word f)) = wr_freq_word f
      ∧ |ldexp ((wr_freq_word f : Int) : ℚ) (-CM_WR_FREQ_FRAC_BITS) - f| ≤ 1 / 2 ^ 54
      ∧ |wr_freq_word_ppb (wr_freq_word f) - f * 10 ^ 9| ≤ 10 ^ 9 / 2 ^ 54
      ∧ (∀ (bus : cm_bus_t) (d : Nat) (trace : Bool), bus_ok bus → d < 8 →
          cm_read_dpll_wr_freq_s42 (write_dpll_wr_freq_s42 bus d (wr_freq_word f) trace false).2 d
            = .ok (wr_freq_word f))
      ∧ wr_freq_word (500 / 10 ^ 9) = 4503599627
      ∧ |wr_freq_word_ppb 4503599627 - 500| ≤ 10 ^ 9 / 2 ^ 54 := by
  have hr := llround_mem_range (f * 2 ^ 53) (-(2 ^ 41)) (2 ^ 41 - 1)
    (by push_cast; linarith) (by push_cast; linarith)
  have hword : wr_freq_word f = llround (f * 2 ^ 53) := by
    rw [wr_freq_word_eq]
    unfold clamp_s42
    simp only []
    rw [if_neg (by omega), if_neg (by omega)]
  have hnear := llround_nearest (f * 2 ^ 53)
  have hdec : |ldexp ((wr_freq_word f : Int) : ℚ) (-CM_WR_FREQ_FRAC_BITS) - f| ≤ 1 / 2 ^ 54 := by
    rw [hword]
    unfold ldexp CM_WR_FREQ_FRAC_BITS
    have e : ((llround (f * 2 ^ 53) : Int) : ℚ) * (2 : ℚ) ^ (-(53 : ℤ)) - f
        = (((llround (f * 2 ^ 53) : Int) : ℚ) - f * 2 ^ 53) * (1 / 2 ^ 53) := by
      rw [zpow_neg, zpow_ofNat]; field_simp; ring
    rw [e, abs_mul, abs_of_pos (by positivity : (0 : ℚ) < 1 / 2 ^ 53)]
    calc |((llround (f * 2 ^ 53) : Int) : ℚ) - f * 2 ^ 53| * (1 / 2 ^ 53)
        ≤ 1 / 2 * (1 / 2 ^ 53) := by
          exact mul_le_mul_of_nonneg_right hnear (by positivity)
      _ = 1 / 2 ^ 54 := by norm_num
  refine ⟨hword, ?_, ?_, hdec, ?_, ?_, ?_, ?_⟩
  · rw [hword]; exact hnear
  · rw [hword]; exact wr_freq_unpack_pack_of_range _ hr.1 hr.2
  · unfold wr_freq_word_ppb
    have e : ldexp ((wr_freq_word f : Int) : ℚ) (-CM_WR_FREQ_FRAC_BITS) * 10 ^ 9 - f * 10 ^ 9
        = (ldexp ((wr_freq_word f : Int) : ℚ) (-CM_WR_FREQ_FRAC_BITS) - f) * 10 ^ 9 := by ring
    rw [e, abs_mul, abs_of_pos (by positivity : (0 : ℚ) < 10 ^ 9)]
    calc |ldexp ((wr_freq_word f : Int) : ℚ) (-CM_WR_FREQ_FRAC_BITS) - f| * 10 ^ 9
        ≤ 1 / 2 ^ 54 * 10 ^ 9 := mul_le_mul_of_nonneg_right hdec (by positivity)
      _ = 10 ^ 9 / 2 ^ 54 := by ring
  · intro bus d trace hok hd
    rw [hword]
    exact cm_read_dpll_wr_freq_s42_written bus d _ trace hok hd hr.1 hr.2
  · rw [wr_freq_word_eq]
    unfold clamp_s42 llround
    norm_num
  · unfold wr_freq_word_ppb ldexp CM_WR_FREQ_FRAC_BITS
    rw [abs_le]
    constructor <;> norm_num

/-- Witness for claim C6: the command fraction `500e-9`. -/
theorem wr_freq_word_roundtrip_witness :
    (-(2 ^ 41) ≤ (500 / 10 ^ 9 : ℚ) * 2 ^ 53 ∧ (500 / 10 ^ 9 : ℚ) * 2 ^ 53 ≤ 2 ^ 41 - 1)
      ∧ wr_freq_word (500 / 10 ^ 9) = llround (500 / 10 ^ 9 * 2 ^ 53)
      ∧ wr_freq_unpack (wr_freq_pack (wr_freq_word (500 / 10 ^ 9))) = wr_freq_word (500 / 10 ^ 9)
      ∧ |wr_freq_word_ppb (wr_freq_word (500 / 10 ^ 9)) - 500 / 10 ^ 9 * 10 ^ 9|
          ≤ 10 ^ 9 / 2 ^ 54 :=
  have h1 : -(2 ^ 41) ≤ (500 / 10 ^ 9 : ℚ) * 2 ^ 53 := by norm_num
  have h2 : (500 / 10 ^ 9 : ℚ) * 2 ^ 53 ≤ 2 ^ 41 - 1 := by norm_num
  have h := wr_freq_word_roundtrip (500 / 10 ^ 9) h1 h2
  ⟨⟨h1, h2⟩, h.1, h.2.2.1, h.2.2.2.2.1⟩

/-- Claim C7: for every input `x`, `wrap_phase_sec x` is returned (the function is total) and
lies in `[-0.5, 0.5)`. -/
theorem wrap_phase_sec_range (x : ℚ) :
    -(1 / 2) ≤ wrap_phase_sec x ∧ wrap_phase_sec x < 1 / 2 :=
  ⟨wrap_phase_sec_up_ge _, wrap_phase_sec_up_lt _ (wrap_phase_sec_down_lt x)⟩

/-- Claim C8: when the five bytes read from `DPLLn_PHASE_STATUS` hold the 36-bit pattern `w`
(little-endian, the top four bits of the fifth byte being anything), both
`cm_read_phase_status_s36` and `read_phase_status_s36` return a signed value `s` in
`[-2^35, 2^35-1]` whose 36-bit twos-complement pattern `s mod 2^36` is `w`; the patterns
of `0`, `2^35-1`, `-1` and `-2^35` decode to these values. -/
theorem phase_status_s36_roundtrip (bus : cm_bus_t) (meas_dpll w top : Nat)
    (hw : w < 2 ^ 36)
    (hread : cm_string_read_bytes bus "Status" 0 (phase_status_reg_name meas_dpll) 5
      = .ok [w % 256, w / 2 ^ 8 % 256, w / 2 ^ 16 % 256, w / 2 ^ 24 % 256,
             (w / 2 ^ 32 + 16 * top) % 256]) :
    ∃ s : Int, cm_read_phase_status_s36 bus meas_dpll = .ok s
      ∧ read_phase_status_s36 bus meas_dpll = .ok s
      ∧ -(2 ^ 35) ≤ s ∧ s ≤ 2 ^ 35 - 1
      ∧ s % 2 ^ 36 = (w : Int)
      ∧ (w = 0 → s = 0)
      ∧ (w = 2 ^ 35 - 1 → s = 2 ^ 35 - 1)
      ∧ (w = 2 ^ 36 - 1 → s = -1)
      ∧ (w = 2 ^ 35 → s = -(2 ^ 35)) := by
  have h := read_phase_status_s36_of_bytes bus meas_dpll _ hread
  have hval : le_value [w % 256, w / 2 ^ 8 % 256, w / 2 ^ 16 % 256, w / 2 ^ 24 % 256,
      (w / 2 ^ 32 + 16 * top) % 256] 5 % 2 ^ 36 = w := by
    simp only [le_value, byte_at, List.getD_cons_zero, List.getD_cons_succ]
    omega
  rw [hval] at h
  refine ⟨signed_of_bits 36 w, h.2, h.1, ?_⟩
  unfold signed_of_bits
  split_ifs with hlt
  · refine ⟨by omega, by omega, by omega, ?_, ?_, ?_, ?_⟩ <;> intro hh <;> omega
  · refine ⟨by omega, by omega, by omega, ?_, ?_, ?_, ?_⟩ <;> intro hh <;> omega

/-- Witness for claim C8: a register file whose bytes are all `0xFF` holds the pattern of `-1`. -/
theorem phase_status_s36_roundtrip_witness :
    ∃ s : Int, cm_read_phase_status_s36 ⟨fun _ => 0xFF, fun _ => 0, fun _ => 0⟩ 5 = .ok s
      ∧ read_phase_status_s36 ⟨fun _ => 0xFF, fun _ => 0, fun _ => 0⟩ 5 = .ok s
      ∧ -(2 ^ 35) ≤ s ∧ s ≤ 2 ^ 35 - 1
      ∧ s % 2 ^ 36 = ((2 ^ 36 - 1 : Nat) : Int)
      ∧ ((2 ^ 36 - 1 : Nat) = 0 → s = 0)
      ∧ ((2 ^ 36 - 1 : Nat) = 2 ^ 35 - 1 → s = 2 ^ 35 - 1)
      ∧ ((2 ^ 36 - 1 : Nat) = 2 ^ 36 - 1 → s = -1)
      ∧ ((2 ^ 36 - 1 : Nat) = 2 ^ 35 → s = -(2 ^ 35)) :=
  phase_status_s36_roundtrip ⟨fun _ => 0xFF, fun _ => 0, fun _ => 0⟩ 5 (2 ^ 36 - 1) 15
    (by norm_num) rfl

/-- Claim C9: for every `x`, `clamp_s42 x = max (-2^41) (min (2^41-1) x)`, and the result is
never outside `[-2^41, 2^41-1]`. -/
theorem clamp_s42_spec (x : Int) :
    clamp_s42 x = max (-(2 ^ 41)) (min (2 ^ 41 - 1) x)
      ∧ -(2 ^ 41) ≤ clamp_s42 x ∧ clamp_s42 x ≤ 2 ^ 41 - 1 := by
  unfold clamp_s42
  simp only []
  split_ifs with h1 h2 <;> omega

/-- Claim C10: the phase-status decode depends only on the low 36 bits of the five bytes read:
two reads whose little-endian values agree modulo `2^36` decode to the same value, which
is the signed value of that 36-bit pattern (sign from bit 35); the conversion to seconds
is `s * 1/(32 * 625000000)`, which is `s` times 50 ps. -/
theorem phase_status_low36 (bus bus1 : cm_bus_t) (n : Nat) (buf buf1 : List Nat)
    (hb : cm_string_read_bytes bus "Status" 0 (phase_status_reg_name n) 5 = .ok buf)
    (hb1 : cm_string_read_bytes bus1 "Status" 0 (phase_status_reg_name n) 5 = .ok buf1)
    (hlow : le_value buf 5 % 2 ^ 36 = le_value buf1 5 % 2 ^ 36) :
    read_phase_status_s36 bus n = read_phase_status_s36 bus1 n
      ∧ cm_read_phase_status_s36 bus n = cm_read_phase_status_s36 bus1 n
      ∧ read_phase_status_s36 bus n
          = .ok (if le_value buf 5 % 2 ^ 36 < 2 ^ 35 then ((le_value buf 5 % 2 ^ 36 : Nat) : Int)
                 else ((le_value buf 5 % 2 ^ 36 : Nat) : Int) - 2 ^ 36)
      ∧ ∀ s : Int, phase_s36_to_seconds s = (s : ℚ) * (1 / (32 * 625000000))
          ∧ phase_s36_to_seconds s = (s : ℚ) * (50 / 10 ^ 12) := by
  have h := read_phase_status_s36_of_bytes bus n buf hb
  have h1 := read_phase_status_s36_of_bytes bus1 n buf1 hb1
  refine ⟨?_, ?_, ?_, ?_⟩
  · rw [h.1, h1.1, hlow]
  · rw [h.2, h1.2, hlow]
  · rw [h.1]; rfl
  · intro s
    unfold phase_s36_to_seconds CM_ITDC_UI_SEC CM_ITDC_HZ
    constructor
    · rfl
    · norm_num

/-- Witness for claim C10: two register files that differ only in the top four bits of the
fifth byte of `DPLL5_PHASE_STATUS`. -/
theorem phase_status_low36_witness :
    read_phase_status_s36 ⟨fun a => if a = 0xC144 then 0xA7 else 0x17, fun _ => 0, fun _ => 0⟩ 5
      = read_phase_status_s36 ⟨fun a => if a = 0xC144 then 0x57 else 0x17, fun _ => 0, fun _ => 0⟩ 5 :=
  (phase_status_low36 ⟨fun a => if a = 0xC144 then 0xA7 else 0x17, fun _ => 0, fun _ => 0⟩
      ⟨fun a => if a = 0xC144 then 0x57 else 0x17, fun _ => 0, fun _ => 0⟩ 5
      [0x17, 0x17, 0x17, 0x17, 0xA7] [0x17, 0x17, 0x17, 0x17, 0x57] rfl rfl (by decide)).1

/-- Claim C11: a Step iteration (state `ST_S1_STEP`, the sample read passing the outlier gate)
that ends without a failed access has stepped the outputs, then read `s1_verify_samples`
wrapped samples, each in `[-0.5, 0.5)`; with `p_ver` the last of them (0 when none is
taken) the state after the iteration is `ST_S2_SLEW` exactly when
`|p_ver| <= s1_exit_abs_sec`, and it is still `ST_S1_STEP` when `|p_ver|` is larger. -/
theorem discipline_run_step_exit (hw : device_t) (cfg : discipline_cfg_t) (fuel : Nat)
    (w : world_t) (v : discipline_vars_t) (pr p : ℚ) (w3 : world_t) (v3 : discipline_vars_t)
    (hst : v.st = .ST_S1_STEP)
    (hread : read_phase_sec w.bus cfg = .ok (pr, p))
    (hgate : ¬(cfg.max_abs_phase_sec > 0 ∧ |p| > cfg.max_abs_phase_sec))
    (hiter : discipline_run_iter hw cfg fuel w v = some (.ok (w3, v3))) :
    ∃ w1, do_s1_step_sleep hw cfg w p = (0, w1)
      ∧ (verify_samples hw cfg cfg.s1_verify_samples w1).length = cfg.s1_verify_samples
      ∧ (∀ q ∈ verify_samples hw cfg cfg.s1_verify_samples w1, -(1 / 2) ≤ q ∧ q < 1 / 2)
      ∧ (v3.st = .ST_S2_SLEW
          ↔ |(verify_samples hw cfg cfg.s1_verify_samples w1).getLastD 0|
              ≤ cfg.s1_exit_abs_sec)
      ∧ (cfg.s1_exit_abs_sec < |(verify_samples hw cfg cfg.s1_verify_samples w1).getLastD 0|
          → v3.st = .ST_S1_STEP) := by
  rw [discipline_run_iter_step hw cfg fuel w v pr p hst hread hgate] at hiter
  have hstep : discipline_run_step hw cfg w v p = .ok (w3, v3) := Option.some.inj hiter
  obtain ⟨w1, acc, w2, h1, h2, hex, hstay⟩ := discipline_run_step_ok hw cfg w v p w3 v3 hstep
  obtain ⟨hlen, hp⟩ := s1_verify_loop_p_ver hw cfg _ w1 s1_verify_init acc w2 h2
  have hp0 : acc.p_ver = (verify_samples hw cfg cfg.s1_verify_samples w1).getLastD 0 := hp
  refine ⟨w1, h1, hlen, verify_samples_range hw cfg _ w1, ?_, ?_⟩ <;> rw [← hp0]
  · constructor
    · intro hs
      by_contra hne
      have h3 := (hstay hne).2
      rw [h3] at hs
      rw [hst] at hs
      cases hs
    · intro hle
      obtain ⟨r, _, _, hv3⟩ := hex hle
      rw [hv3]
  · intro hlt
    have h3 := (hstay (not_le.mpr hlt)).2
    rw [h3]
    exact hst

/-- Witness for claim C11: the first Step iteration of the default configuration on a register
file with FOD ratio 100/1 and phase sample 0, with a device that leaves the registers
alone. -/
theorem discipline_run_step_exit_witness :
    ∃ w1 w3 v3,
      discipline_run_iter device_idle main_default_cfg 0 ⟨bus_fod_100, 0, 0⟩
          { discipline_run_init with st := .ST_S1_STEP } = some (.ok (w3, v3))
        ∧ do_s1_step_sleep device_idle main_default_cfg ⟨bus_fod_100, 0, 0⟩ 0 = (0, w1)
        ∧ (v3.st = .ST_S2_SLEW
          ↔ |(verify_samples device_idle main_default_cfg main_default_cfg.s1_verify_samples
                w1).getLastD 0| ≤ main_default_cfg.s1_exit_abs_sec) := by
  have hr := bus_ready_fod_100 main_default_cfg cfg_valid_default.2.2
  obtain ⟨w3, v3, hiter, _⟩ := discipline_run_iter_ready device_idle main_default_cfg 0
    ⟨bus_fod_100, 0, 0⟩ { discipline_run_init with st := .ST_S1_STEP } (by decide)
    cfg_valid_default (device_idle_keeps_ready _) hr
  obtain ⟨w1, h1, _, _, h, _⟩ := discipline_run_step_exit device_idle main_default_cfg 0
    ⟨bus_fod_100, 0, 0⟩ { discipline_run_init with st := .ST_S1_STEP } 0 0 w3 v3 rfl
    read_phase_sec_fod_100
    (read_phase_sec_gate_default _ _ 0 0 read_phase_sec_fod_100 rfl) hiter
  exact ⟨w1, w3, v3, hiter, h1, h⟩

/-- Counterexample to claim C12: with the outlier cap at 0.1 s and the fallback threshold at
its default 0.25 s, a Slew iteration whose sample is 0.3 s (more than the fallback
threshold) drops the sample at the outlier gate: it sleeps one interval and stays in
`ST_S2_SLEW` with the Step counter as it was. -/
theorem slew_fallback_dropped_sample :
    read_phase_sec bus_phase_03 { main_default_cfg with max_abs_phase_sec := 1 / 10 }
        = .ok (3 / 10, 3 / 10)
      ∧ |(3 / 10 : ℚ)|
          > ({ main_default_cfg with max_abs_phase_sec := 1 / 10 } : discipline_cfg_t).s2_fallback_abs_sec
      ∧ discipline_run_iter device_idle { main_default_cfg with max_abs_phase_sec := 1 / 10 } 0
          ⟨bus_phase_03, 0, 0⟩
          { st := .ST_S2_SLEW, integ := 7, phase_prev := 0, have_prev := true, s1_iter := 4 }
        = some (.ok (sleep_sec device_idle ⟨bus_phase_03, 0, 0⟩ 1,
            { st := .ST_S2_SLEW, integ := 7, phase_prev := 0, have_prev := true,
              s1_iter := 4 })) := by
  have hread := read_phase_sec_phase_03 { main_default_cfg with max_abs_phase_sec := 1 / 10 }
    rfl rfl
  refine ⟨hread, ?_, ?_⟩
  · show |(3 / 10 : ℚ)| > 25 / 100
    rw [abs_of_pos (by norm_num)]
    norm_num
  · exact discipline_run_iter_drop device_idle _ 0 ⟨bus_phase_03, 0, 0⟩ _ (3 / 10) (3 / 10)
      (by decide) hread (by
        show (1 / 10 : ℚ) > 0 ∧ |(3 / 10 : ℚ)| > 1 / 10
        rw [abs_of_pos (by norm_num)]
        norm_num)

/-- Claim C12 (amended): in Slew, a sample that passes the outlier gate and whose magnitude
exceeds `s2_fallback_abs_sec` ends the iteration at once with the state `ST_S1_STEP` and
`s1_iter = 0`, the registers and the clock as they were (no PI law, no write, no sleep).
The integral left behind is not used: a Step iteration does the same accesses and
returns the same code whatever `integ` holds, and when it hands off to Slew the locals
it leaves (the seeded `integ` among them) do not depend on it. -/
theorem discipline_run_slew_fallback (hw : device_t) (cfg : discipline_cfg_t) (fuel : Nat)
    (w : world_t) (v : discipline_vars_t) (pr p : ℚ)
    (hst : v.st = .ST_S2_SLEW)
    (hread : read_phase_sec w.bus cfg = .ok (pr, p))
    (hgate : ¬(cfg.max_abs_phase_sec > 0 ∧ |p| > cfg.max_abs_phase_sec))
    (hfb : |p| > cfg.s2_fallback_abs_sec) :
    discipline_run_iter hw cfg fuel w v
        = some (.ok (w, { v with st := .ST_S1_STEP, s1_iter := 0 }))
      ∧ ∀ (w1 : world_t) (u : discipline_vars_t) (q I : ℚ), u.st = .ST_S1_STEP →
          discipline_run_step hw cfg w1 { u with integ := I } q
            = match discipline_run_step hw cfg w1 u q with
              | .error rc => .error rc
              | .ok (w2, u2) =>
                .ok (w2, if u2.st = .ST_S2_SLEW then u2 else { u2 with integ := I }) := by
  refine ⟨?_, fun w1 u q I hu => discipline_run_step_integ hw cfg w1 u q I hu⟩
  rw [discipline_run_iter_slew hw cfg fuel w v pr p hst hread hgate]
  unfold discipline_run_slew
  rw [if_pos hfb]

/-- Witness for claim C12 (amended): the default configuration (outlier cap 0.5 s, fallback
threshold 0.25 s) in Slew with the sample 0.3 s. -/
theorem discipline_run_slew_fallback_witness :
    discipline_run_iter device_idle main_default_cfg 0 ⟨bus_phase_03, 0, 0⟩
        { st := .ST_S2_SLEW, integ := 7, phase_prev := 0, have_prev := true, s1_iter := 4 }
      = some (.ok (⟨bus_phase_03, 0, 0⟩,
          { st := .ST_S1_STEP, integ := 7, phase_prev := 0, have_prev := true,
            s1_iter := 0 })) :=
  (discipline_run_slew_fallback device_idle main_default_cfg 0 ⟨bus_phase_03, 0, 0⟩
    { st := .ST_S2_SLEW, integ := 7, phase_prev := 0, have_prev := true, s1_iter := 4 }
    (3 / 10) (3 / 10) rfl (read_phase_sec_phase_03 main_default_cfg rfl rfl)
    (read_phase_sec_gate_default _ _ _ _ (read_phase_sec_phase_03 main_default_cfg rfl rfl) rfl)
    (by
      show |(3 / 10 : ℚ)| > 25 / 100
      rw [abs_of_pos (by norm_num)]
      norm_num)).1

/-- Counterexample to claim C14: a hand-off whose initial word and first Slew word differ.
With `--ki 0.7 --max-abs-ppb 99.92007282688675` an average drift of `-100` ppb or beyond
is clamped to the command `99.92007282688675` ppb.  In binary64 its fraction
`cmd_ppb0 * 1e-9` is `c = 1800000011 / 2^54`, so `c * 2^53 = 900000005.5` and the word
written at the hand-off is `900000006`.  The seed `c / (1.0 * 0.7)` rounds to
`5392676604383817 / 2^75`, and the first Slew iteration with phase error 0 computes from
it the fraction `7549747246137343 / 2^76`, one unit in the last place below `c`; it is
inside the clamp, and its word is `900000005`. -/
theorem s1_handoff_seed_word_differs :
    (∀ d0 : ℚ, d0 ≤ -100 → s1_init_cmd_ppb cfg_ki_07 d0 = cfg_ki_07.max_abs_ppb)
      ∧ f64 cfg_ki_07.ki > 0
      ∧ s1_cmd_frac0_f64 cfg_ki_07.max_abs_ppb = 1800000011 / 2 ^ 54
      ∧ wr_freq_word (s1_cmd_frac0_f64 cfg_ki_07.max_abs_ppb) = 900000006
      ∧ s1_integ_seed_f64 cfg_ki_07 (s1_cmd_frac0_f64 cfg_ki_07.max_abs_ppb)
          = 5392676604383817 / 2 ^ 75
      ∧ do_s2_slew_cmd_frac_f64 cfg_ki_07
          (s1_integ_seed_f64 cfg_ki_07 (s1_cmd_frac0_f64 cfg_ki_07.max_abs_ppb)) 0
          cfg_ki_07.interval_sec = 7549747246137343 / 2 ^ 76
      ∧ do_s2_slew_cmd_frac_f64 cfg_ki_07
          (s1_integ_seed_f64 cfg_ki_07 (s1_cmd_frac0_f64 cfg_ki_07.max_abs_ppb)) 0
          cfg_ki_07.interval_sec ≠ s1_cmd_frac0_f64 cfg_ki_07.max_abs_ppb
      ∧ wr_freq_word (do_s2_slew_cmd_frac_f64 cfg_ki_07
          (s1_integ_seed_f64 cfg_ki_07 (s1_cmd_frac0_f64 cfg_ki_07.max_abs_ppb)) 0
          cfg_ki_07.interval_sec) = 900000005 := by
  have hc : s1_cmd_frac0_f64 cfg_ki_07.max_abs_ppb = 1800000011 / 2 ^ 54 :=
    s1_cmd_frac0_f64_9992
  have hI := s1_integ_seed_f64_9992
  have hP := do_s2_slew_cmd_frac_f64_9992 cfg_ki_07.interval_sec
  rw [hc, hI, hP]
  refine ⟨?_, ?_, rfl, ?_, rfl, rfl, ?_, ?_⟩
  · intro d0 hd0
    unfold s1_init_cmd_ppb clamp_d
    have hm : cfg_ki_07.max_abs_ppb = 9992007282688675 / 10 ^ 14 := rfl
    rw [hm]
    simp only []
    rw [if_pos (by norm_num), if_neg (by linarith), if_pos (by linarith)]
  · have hk : f64 cfg_ki_07.ki = 3152519739159347 / 2 ^ 52 := f64_gain_07
    rw [hk]
    norm_num
  · rw [wr_freq_word_eq_sat]
    norm_num [llround, sat]
  · norm_num
  · rw [wr_freq_word_eq_sat]
    norm_num [llround, sat]

/-- Claim C14 (amended): a Step iteration that hands off to Slew ran the verification
loop and the hand-off, whose last write loop wrote the word of the final command
`cmd_ppb0` (the initial command or, after a flip, its negative) to the frequency-write
channels; the iteration leaves in `integ`, when `Ki > 0`, the command fraction
`cmd_ppb0 * 1e-9` divided by `polarity * Ki` (polarity `+1`), and 0 when `Ki > 0` does not
hold.  In binary64 the fraction is `c = fl(cmd_ppb0 * 1e-9)` and the seed is the rounded
quotient `fl(c / (1.0 * Ki))` (0 when `Ki > 0` does not hold).  When no operation
overflows (`|cmd_ppb0| ≤ 2^1000` and `|c| ≤ Ki * 2^1000`), the first Slew iteration, taken
with phase error 0, computes from that seed a command fraction that is approximately
`c`: it differs from `c` by at most `|c| / 2^51 + (1 + 2 Ki) / 2^1075`, and its word is
the word of `c` whenever `c * 2^53` is farther than `2^53` times that bound from every
half-integer. -/
theorem s1_handoff_integ_seed (hw : device_t) (cfg : discipline_cfg_t) (fuel : Nat)
    (w : world_t) (v : discipline_vars_t) (pr p : ℚ) (w3 : world_t) (v3 : discipline_vars_t)
    (hst : v.st = .ST_S1_STEP)
    (hread : read_phase_sec w.bus cfg = .ok (pr, p))
    (hgate : ¬(cfg.max_abs_phase_sec > 0 ∧ |p| > cfg.max_abs_phase_sec))
    (hiter : discipline_run_iter hw cfg fuel w v = some (.ok (w3, v3)))
    (hslew : v3.st = .ST_S2_SLEW) :
    ∃ (w1 : world_t) (acc : s1_verify_t) (w2 : world_t) (r : s1_handoff_t) (b4 b5 : cm_bus_t),
      do_s1_step_sleep hw cfg w p = (0, w1)
        ∧ s1_verify_loop hw cfg cfg.s1_verify_samples w1 s1_verify_init = .ok (acc, w2)
        ∧ s1_handoff hw cfg w2 acc.p_ver (s1_avg_drift_ppb acc) acc.drift_n = .ok r
        ∧ w3 = r.w
        ∧ v3 = { v with st := .ST_S2_SLEW, integ := r.integ, have_prev := false,
                        s1_iter := (v.s1_iter + 1) % 2 ^ 32 }
        ∧ (r.cmd_ppb0 = s1_init_cmd_ppb cfg (s1_avg_drift_ppb acc)
            ∨ r.cmd_ppb0 = -s1_init_cmd_ppb cfg (s1_avg_drift_ppb acc))
        ∧ r.cmd_frac0 = r.cmd_ppb0 * (1 / 10 ^ 9)
        ∧ r.word0 = wr_freq_word r.cmd_frac0
        ∧ do_s2_slew_loop cfg r.word0 b4 cfg.wr_dplls = (0, b5)
        ∧ (w3.bus = b5 ∨ ∃ k, w3.bus = hw k b5)
        ∧ (cfg.dry_run = false → ∀ d ∈ cfg.wr_dplls, d < 8
            ∧ ∀ i < 6, b5.mem (cm_DPLL_Freq_Write_bases.getD d 0 + i)
                = byte_at (wr_freq_pack r.word0) i)
        ∧ (cfg.ki > 0 → v3.integ = r.cmd_frac0 / (CM_DEFAULT_POLARITY * cfg.ki))
        ∧ (¬ cfg.ki > 0 → v3.integ = 0)
        ∧ (¬ f64 cfg.ki > 0 → s1_integ_seed_f64 cfg (s1_cmd_frac0_f64 r.cmd_ppb0) = 0)
        ∧ (f64 cfg.ki > 0 → |r.cmd_ppb0| ≤ 2 ^ 1000 →
            |s1_cmd_frac0_f64 r.cmd_ppb0| ≤ f64 cfg.ki * 2 ^ 1000 →
            let c := s1_cmd_frac0_f64 r.cmd_ppb0
            let I := s1_integ_seed_f64 cfg c
            I = f64 (c / f64 (CM_DEFAULT_POLARITY * f64 cfg.ki))
              ∧ |c| ≤ 2 ^ 971 ∧ |I| ≤ 2 ^ 1000
              ∧ ∀ dt : ℚ,
                  |do_s2_slew_cmd_frac_f64 cfg I 0 dt - c|
                      ≤ |c| / 2 ^ 51 + (1 + 2 * f64 cfg.ki) / 2 ^ 1075
                    ∧ ∀ k : Int,
                        |c * 2 ^ 53 - k|
                            + (|c| / 2 ^ 51 + (1 + 2 * f64 cfg.ki) / 2 ^ 1075) * 2 ^ 53 < 1 / 2 →
                        wr_freq_word (do_s2_slew_cmd_frac_f64 cfg I 0 dt) = wr_freq_word c) := by
  rw [discipline_run_iter_step hw cfg fuel w v pr p hst hread hgate] at hiter
  have hstep : discipline_run_step hw cfg w v p = .ok (w3, v3) := Option.some.inj hiter
  obtain ⟨w1, acc, w2, h1, h2, hex, hstay⟩ := discipline_run_step_ok hw cfg w v p w3 v3 hstep
  have hle : |acc.p_ver| ≤ cfg.s1_exit_abs_sec := by
    by_contra hne
    have h3 := (hstay hne).2
    rw [h3, hst] at hslew
    cases hslew
  obtain ⟨r, hr, hw3, hv3⟩ := hex hle
  obtain ⟨_, _, _, _, _, hf, hword, hinteg⟩ := s1_handoff_ok hw cfg w2 _ _ _ r hr
  obtain ⟨hcmd, b4, b5, hloop, hbus⟩ := s1_handoff_last_write hw cfg w2 _ _ _ r hr
  have hi : v3.integ = r.integ := by rw [hv3]
  refine ⟨w1, acc, w2, r, b4, b5, h1, h2, hr, hw3, hv3, hcmd, hf, hword, hloop,
    by rw [hw3]; exact hbus, ?_, ?_, ?_, ?_, ?_⟩
  · intro hdry d hd
    exact (do_s2_slew_loop_success cfg _ hdry cfg.wr_dplls b4 b5 hloop).1 d hd
  · intro hki
    rw [hi, hinteg, if_pos hki]
  · intro hki
    rw [hi, hinteg, if_neg hki]
  · intro hki
    exact s1_integ_seed_f64_nonpos cfg _ hki
  · intro hki hx hg c I
    have hK : f64 (CM_DEFAULT_POLARITY * f64 cfg.ki) = f64 cfg.ki := by
      unfold CM_DEFAULT_POLARITY
      rw [one_mul, f64_idem]
    have hI : I = f64 (c / f64 cfg.ki) := s1_integ_seed_f64_pos cfg c hki
    -- no operation overflows
    have hc971 : |c| ≤ 2 ^ 971 := by
      have hx1 : |f64 r.cmd_ppb0| ≤ (2 : ℚ) ^ (971 + 29) :=
        f64_abs_le_two_pow _ (971 + 29) (by
          rw [show (971 + 29 : ℕ) = 1000 from rfl]
          exact hx)
      have hprod : |f64 r.cmd_ppb0 * f64 (1 / 10 ^ 9)| ≤ (2 : ℚ) ^ 971 := by
        rw [abs_mul, abs_of_pos f64_nano_pos]
        calc |f64 r.cmd_ppb0| * f64 (1 / 10 ^ 9)
            ≤ (2 : ℚ) ^ (971 + 29) * (1 / 2 ^ 29) :=
              mul_le_mul hx1 f64_nano_le_inv (le_of_lt f64_nano_pos)
                (pow_nonneg (by norm_num) _)
          _ = (2 : ℚ) ^ 971 := by
              rw [pow_add, mul_one_div, mul_div_assoc,
                div_self (pow_ne_zero _ (by norm_num)), mul_one]
      exact f64_abs_le_two_pow _ 971 hprod
    have hI1000 : |I| ≤ 2 ^ 1000 := by
      rw [hI]
      apply f64_abs_le_two_pow
      rw [abs_div, abs_of_pos hki, div_le_iff₀ hki, mul_comm]
      exact hg
    refine ⟨by rw [hK]; exact hI, hc971, hI1000, ?_⟩
    intro dt
    -- the command fraction of the first Slew iteration
    have hraw := seed_product_err c (f64 cfg.ki) hki
    have hbound : |do_s2_slew_cmd_frac_f64 cfg I 0 dt - c|
        ≤ |c| / 2 ^ 51 + (1 + 2 * f64 cfg.ki) / 2 ^ 1075 := by
      rw [hI, do_s2_slew_cmd_frac_f64_zero]
      split_ifs with hm
      · have hm0 : cfg.max_abs_ppb > 0 := f64_pos_imp _ hm
        have hcb : |c| ≤ f64 (f64 cfg.max_abs_ppb * f64 (1 / 10 ^ 9)) :=
          s1_cmd_frac0_f64_bound _ _ (s1_handoff_ppb_bound hw cfg w2 _ _ _ r hr hm0)
        have hcb2 := abs_le.mp hcb
        exact le_trans (clamp_d_near _ c _ _ hcb2.1 hcb2.2) hraw
      · exact hraw
    refine ⟨hbound, ?_⟩
    intro k hk
    have he0 : (0 : ℚ) ≤ |c| / 2 ^ 51 + (1 + 2 * f64 cfg.ki) / 2 ^ 1075 :=
      add_nonneg (div_nonneg (abs_nonneg c) (pow_nonneg (by norm_num) 51))
        (div_nonneg (by linarith) (pow_nonneg (by norm_num) 1075))
    generalize |c| / 2 ^ 51 + (1 + 2 * f64 cfg.ki) / 2 ^ 1075 = err at hbound hk he0
    have h0 : (0 : ℚ) ≤ err * 2 ^ 53 := mul_nonneg he0 (by norm_num)
    have hk1 : |c * 2 ^ 53 - k| < 1 / 2 :=
      lt_of_le_of_lt (le_add_of_nonneg_right h0) hk
    have hk2 : |do_s2_slew_cmd_frac_f64 cfg I 0 dt * 2 ^ 53 - k| < 1 / 2 := by
      have h3 : |do_s2_slew_cmd_frac_f64 cfg I 0 dt * 2 ^ 53 - k|
          ≤ |do_s2_slew_cmd_frac_f64 cfg I 0 dt - c| * 2 ^ 53 + |c * 2 ^ 53 - k| := by
        have e : do_s2_slew_cmd_frac_f64 cfg I 0 dt * 2 ^ 53 - k
            = (do_s2_slew_cmd_frac_f64 cfg I 0 dt - c) * 2 ^ 53 + (c * 2 ^ 53 - k) := by ring
        rw [e]
        refine le_trans (abs_add _ _) ?_
        rw [abs_mul, abs_of_pos (by norm_num : (0 : ℚ) < 2 ^ 53)]
      have h4 : |do_s2_slew_cmd_frac_f64 cfg I 0 dt - c| * 2 ^ 53 ≤ err * 2 ^ 53 :=
        mul_le_mul_of_nonneg_right hbound (by norm_num)
      refine lt_of_le_of_lt (le_trans h3 (add_le_add_right h4 _)) ?_
      rw [add_comm]
      exact hk
    rw [wr_freq_word_eq_sat, wr_freq_word_eq_sat, llround_of_near _ k hk1,
      llround_of_near _ k hk2]

/-- Witness for claim C14 (amended): the default configuration with `Ki = 0.001`, on a
register file with FOD ratio 100/1 and phase sample 0, with a device that leaves the
registers alone: the iteration hands off with the seed of the claim. -/
theorem s1_handoff_integ_seed_witness :
    ∃ (w3 : world_t) (v3 : discipline_vars_t),
      discipline_run_iter device_idle { main_default_cfg with ki := 1 / 1000 } 0
          ⟨bus_fod_100, 0, 0⟩ { discipline_run_init with st := .ST_S1_STEP }
          = some (.ok (w3, v3))
        ∧ v3.st = .ST_S2_SLEW
        ∧ ∃ (w2 : world_t) (acc : s1_verify_t) (r : s1_handoff_t) (b4 b5 : cm_bus_t),
          s1_handoff device_idle { main_default_cfg with ki := 1 / 1000 } w2 acc.p_ver
              (s1_avg_drift_ppb acc) acc.drift_n = .ok r
            ∧ w3 = r.w
            ∧ do_s2_slew_loop { main_default_cfg with ki := 1 / 1000 } r.word0 b4 [2] = (0, b5)
            ∧ (∀ i < 6, b5.mem (0xC848 + i) = byte_at (wr_freq_pack r.word0) i)
            ∧ v3.integ = r.cmd_frac0 / (1 * (1 / 1000)) := by
  have hv : cfg_valid { main_default_cfg with ki := 1 / 1000 } :=
    ⟨by decide, by decide, by decide⟩
  obtain ⟨w3, v3, hstep, hslew⟩ := discipline_run_step_idle_slew
    { main_default_cfg with ki := 1 / 1000 }
    { discipline_run_init with st := .ST_S1_STEP } hv rfl rfl
    (by norm_num [main_default_cfg])
  have hread : read_phase_sec bus_fod_100 { main_default_cfg with ki := 1 / 1000 }
      = .ok (0, 0) :=
    read_phase_sec_of_s36 bus_fod_100 _ 0 0 rfl rfl
      (by norm_num [phase_s36_to_seconds]) (by norm_num) (by norm_num)
  have hgate := read_phase_sec_gate_default _ _ 0 0 hread rfl
  have hiter : discipline_run_iter device_idle { main_default_cfg with ki := 1 / 1000 } 0
      ⟨bus_fod_100, 0, 0⟩ { discipline_run_init with st := .ST_S1_STEP }
      = some (.ok (w3, v3)) := by
    rw [discipline_run_iter_step device_idle _ 0 ⟨bus_fod_100, 0, 0⟩ _ 0 0 rfl hread hgate,
      hstep]
  obtain ⟨w1, acc, w2, r, b4, b5, _, _, hr, hw3, _, _, _, _, hloop, _, hbytes, hki, _⟩ :=
    s1_handoff_integ_seed device_idle
    { main_default_cfg with ki := 1 / 1000 } 0 ⟨bus_fod_100, 0, 0⟩
    { discipline_run_init with st := .ST_S1_STEP } 0 0 w3 v3 rfl hread hgate hiter hslew
  have hpos : ({ main_default_cfg with ki := 1 / 1000 } : discipline_cfg_t).ki > 0 := by
    show (1 / 1000 : ℚ) > 0
    norm_num
  exact ⟨w3, v3, hiter, hslew, w2, acc, r, b4, b5, hr, hw3, hloop,
    (hbytes rfl 2 (by decide)).2, hki hpos⟩

/-- Claim C16, evaluated on the code: the three servo call sites pass `wr_freq_word f`, which
is always in `[-2^41, 2^41-1]`; the `--wr-freq-set-ppb` command does not clamp: for
250000 ppb it passes the word `2251799813685 > 2^41 - 1`, and the six bytes packed for
it decode to `-2146246697419` (about -238281 ppb), also after the write to a register
file. -/
theorem wr_freq_set_ppb_unclamped :
    (∀ f : ℚ, -(2 ^ 41) ≤ wr_freq_word f ∧ wr_freq_word f ≤ 2 ^ 41 - 1)
      ∧ wr_freq_set_ppb_word 250000 = 2251799813685
      ∧ (2 ^ 41 - 1 : Int) < wr_freq_set_ppb_word 250000
      ∧ wr_freq_unpack (wr_freq_pack (wr_freq_set_ppb_word 250000)) = -2146246697419
      ∧ cm_read_dpll_wr_freq_s42
          (do_wr_freq_set_ppb ⟨fun _ => 0, fun _ => 0, fun _ => 0⟩ 2 250000).2 2
        = .ok (-2146246697419) := by
  have hw : wr_freq_set_ppb_word 250000 = 2251799813685 := by
    have e : (53 : Int).toNat = 53 := rfl
    unfold wr_freq_set_ppb_word llround CM_WR_FREQ_FRAC_BITS
    rw [e, Nat.one_shiftLeft]
    norm_num
  refine ⟨wr_freq_word_range, hw, ?_, ?_, ?_⟩
  · rw [hw]; norm_num
  · rw [hw]; rfl
  · unfold do_wr_freq_set_ppb
    rw [hw]; rfl

/-- Claim C17: `do_s2_slew` writes one word to the configured channels in list order.  When
the writes to the channels `pre` before the channel `c` succeed, leaving the bus `b1`, and
the write to `c` fails with the code `rc`, then `do_s2_slew` returns `rc` with the bus
`b1`: every channel of `pre` is valid and reads back the new word (no rollback), every
byte outside the registers of `pre` is as before the call (the channels after `c` are
not written), and the new integral is stored all the same. -/
theorem do_s2_slew_partial_write (bus : cm_bus_t) (cfg : discipline_cfg_t) (I e dt : ℚ)
    (pre post : List Nat) (c : Nat) (b1 : cm_bus_t) (rc : Int)
    (hl : cfg.wr_dplls = pre ++ c :: post)
    (hpre : do_s2_slew_loop cfg (do_s2_slew bus cfg I e dt).word bus pre = (0, b1))
    (hc : (write_dpll_wr_freq_s42 b1 c (do_s2_slew bus cfg I e dt).word (want_print cfg)
      cfg.dry_run).1 = rc)
    (hrc : rc ≠ 0) :
    (do_s2_slew bus cfg I e dt).rc = rc
      ∧ (do_s2_slew bus cfg I e dt).bus = b1
      ∧ (∀ d ∈ pre, d < 8
          ∧ (b1.read_rc (cm_DPLL_Freq_Write_bases.getD d 0) = 0 →
              cm_read_dpll_wr_freq_s42 b1 d = .ok (do_s2_slew bus cfg I e dt).word))
      ∧ (∀ a, (∀ d ∈ pre, a < cm_DPLL_Freq_Write_bases.getD d 0
            ∨ cm_DPLL_Freq_Write_bases.getD d 0 + 6 ≤ a) → b1.mem a = bus.mem a)
      ∧ (do_s2_slew bus cfg I e dt).integ = I + e * dt := by
  have hdry : cfg.dry_run = false :=
    (write_dpll_wr_freq_s42_fail b1 c _ _ _ (by rw [hc]; exact hrc)).2
  have hloop := do_s2_slew_loop_append_fail cfg (do_s2_slew bus cfg I e dt).word c post rc hrc
    pre bus b1 hpre hc
  rw [← hl] at hloop
  have hword : (do_s2_slew bus cfg I e dt).word
      = wr_freq_word ((do_s2_slew bus cfg I e dt).cmd_ppb / 10 ^ 9) := by
    show _ = wr_freq_word (_ * 10 ^ 9 / 10 ^ 9)
    rw [mul_div_assoc, div_self (by norm_num), mul_one]
    rfl
  have hrange := wr_freq_word_range ((do_s2_slew bus cfg I e dt).cmd_ppb / 10 ^ 9)
  rw [← hword] at hrange
  obtain ⟨hin, hout, hrr, _⟩ := do_s2_slew_loop_success cfg _ hdry pre bus b1 hpre
  have hres : do_s2_slew_loop cfg (do_s2_slew bus cfg I e dt).word bus cfg.wr_dplls
      = ((do_s2_slew bus cfg I e dt).rc, (do_s2_slew bus cfg I e dt).bus) := rfl
  rw [hloop] at hres
  refine ⟨(congrArg Prod.fst hres).symm, (congrArg Prod.snd hres).symm, ?_, hout, rfl⟩
  intro d hd
  refine ⟨(hin d hd).1, fun hr => ?_⟩
  exact cm_read_dpll_wr_freq_s42_of_bytes b1 d _ (hin d hd).1 hrange.1 hrange.2 (hin d hd).2 hr

/-- Witness for claim C17: channels 2, 5, 6 on a register file where a write starting at the
register of channel 5 (address `0xC860`) returns -1: channel 2 is written, `do_s2_slew`
returns -1, and channel 2 reads back the word. -/
theorem do_s2_slew_partial_write_witness :
    (do_s2_slew ⟨fun _ => 0x55, fun _ => 0, fun a => if a = 0xC860 then -1 else 0⟩
        { main_default_cfg with wr_dplls := [2, 5, 6] } 0 0 1).rc = -1
      ∧ cm_read_dpll_wr_freq_s42
          (do_s2_slew ⟨fun _ => 0x55, fun _ => 0, fun a => if a = 0xC860 then -1 else 0⟩
            { main_default_cfg with wr_dplls := [2, 5, 6] } 0 0 1).bus 2
        = .ok (do_s2_slew ⟨fun _ => 0x55, fun _ => 0, fun a => if a = 0xC860 then -1 else 0⟩
            { main_default_cfg with wr_dplls := [2, 5, 6] } 0 0 1).word
      ∧ (do_s2_slew ⟨fun _ => 0x55, fun _ => 0, fun a => if a = 0xC860 then -1 else 0⟩
            { main_default_cfg with wr_dplls := [2, 5, 6] } 0 0 1).bus.mem 0xC868 = 0x55 :=
  have h := do_s2_slew_partial_write
    ⟨fun _ => 0x55, fun _ => 0, fun a => if a = 0xC860 then -1 else 0⟩
    { main_default_cfg with wr_dplls := [2, 5, 6] } 0 0 1 [2] [6] 5
    (write_dpll_wr_freq_s42 ⟨fun _ => 0x55, fun _ => 0, fun a => if a = 0xC860 then -1 else 0⟩
      2 (do_s2_slew ⟨fun _ => 0x55, fun _ => 0, fun a => if a = 0xC860 then -1 else 0⟩
        { main_default_cfg with wr_dplls := [2, 5, 6] } 0 0 1).word true false).2
    (-1) rfl rfl rfl (by decide)
  ⟨h.1, by rw [h.2.1]; exact (h.2.2.1 2 (List.mem_singleton.mpr rfl)).2 rfl,
   by rw [h.2.1]; rfl⟩

/-- Counterexample to claim C18: a register read inside the servo that fails without ending
the run.  With the default configuration (`print_each` set, so the writers trace) in
Slew, on a register file where only the read of `DPLL_WR_FREQ` of channel 2 fails, the
write of the word succeeds, the read-back that follows it fails with code `-1`, and the
iteration still ends normally: `discipline_run` goes on to the next iteration. -/
theorem readback_failure_not_fatal :
    (∀ word : Int, write_dpll_wr_freq_s42_readback bus_readback_fails 2 word
        (want_print main_default_cfg) main_default_cfg.dry_run = some (.error (-1)))
      ∧ ∃ (w1 : world_t) (v1 : discipline_vars_t),
          discipline_run_iter device_idle main_default_cfg 0 ⟨bus_readback_fails, 0, 0⟩
              { discipline_run_init with st := .ST_S2_SLEW } = some (.ok (w1, v1))
            ∧ v1.st = .ST_S2_SLEW
            ∧ discipline_run_loop device_idle main_default_cfg 0 1 ⟨bus_readback_fails, 0, 0⟩
                { discipline_run_init with st := .ST_S2_SLEW } = .running w1 v1 := by
  have hread : read_phase_sec bus_readback_fails main_default_cfg = .ok (0, 0) :=
    read_phase_sec_of_s36 bus_readback_fails main_default_cfg 0 0 rfl rfl
      (by norm_num [phase_s36_to_seconds]) (by norm_num) (by norm_num)
  have hgate := read_phase_sec_gate_default _ _ 0 0 hread rfl
  have hloop : ∀ word : Int, (do_s2_slew_loop main_default_cfg word bus_readback_fails
      main_default_cfg.wr_dplls).1 = 0 := fun _ => rfl
  have hrc : (do_s2_slew bus_readback_fails main_default_cfg 0 0
      main_default_cfg.interval_sec).rc = 0 :=
    hloop (do_s2_slew bus_readback_fails main_default_cfg 0 0
      main_default_cfg.interval_sec).word
  have hfb : ¬ |(0 : ℚ)| > main_default_cfg.s2_fallback_abs_sec := by
    rw [abs_zero]
    show ¬ (0 : ℚ) > 25 / 100
    norm_num
  have hslew : ∃ (w1 : world_t) (v1 : discipline_vars_t),
      discipline_run_slew device_idle main_default_cfg ⟨bus_readback_fails, 0, 0⟩
        { discipline_run_init with st := .ST_S2_SLEW } 0 = .ok (w1, v1)
      ∧ v1.st = .ST_S2_SLEW := by
    unfold discipline_run_slew
    rw [if_neg hfb]
    simp only []
    rw [if_neg (fun hne => hne hrc)]
    exact ⟨_, _, rfl, rfl⟩
  obtain ⟨w1, v1, hs, hst1⟩ := hslew
  have hiter : discipline_run_iter device_idle main_default_cfg 0 ⟨bus_readback_fails, 0, 0⟩
      { discipline_run_init with st := .ST_S2_SLEW } = some (.ok (w1, v1)) := by
    rw [discipline_run_iter_slew device_idle main_default_cfg 0 ⟨bus_readback_fails, 0, 0⟩ _
      0 0 rfl hread hgate, hs]
  refine ⟨fun _ => rfl, w1, v1, hiter, hst1, ?_⟩
  rw [discipline_run_loop_succ, hiter]
  exact discipline_run_loop_zero _ _ _ _ _

/-- Claim C18 (amended): every failed access whose code the servo checks is fatal and not
retried.  Whatever `discipline_run` returns is non-zero, and `main` turns it into exit
status 1.  The run returns in the iteration of the failure, with the code of the failing
call: a phase read at the top of an iteration, at any pass of the measurement window, at
any pass of the verification loop, and before and after the sleep of the polarity check;
the coarse step and the final step; the frequency writes of the hand-off, of the flip
and of Slew.  Inside the actuators the first failing pass ends the loop: `do_s1_step`
returns the code of a failed FOD read or of a failed write, and `-1` for a failed divider
or phase-adjust read; the frequency-write loop returns the code of the failed write.
(The read-back that the write helpers make for the trace is not checked.) -/
theorem discipline_run_failure_fatal (hw : device_t) (cfg : discipline_cfg_t) (fuel n : Nat)
    (w : world_t) (rc : Int) (hret : discipline_run hw cfg fuel n w = .returned rc) :
    rc ≠ 0 ∧ main_exit_status rc = 1
      -- a phase read at the top of an iteration
      ∧ (∀ (w1 : world_t) (v : discipline_vars_t) (rc1 : Int) (k : Nat),
          v.st ≠ .ST_S0_MEASURE → read_phase_sec w1.bus cfg = .error rc1 →
          discipline_run_loop hw cfg fuel (k + 1) w1 v = .returned rc1)
      -- a phase read at pass `j` of the measurement window
      ∧ (∀ (w1 : world_t) (v : discipline_vars_t) (rc1 : Int) (k j f : Nat),
          v.st = .ST_S0_MEASURE →
          (∀ i ≤ j, now_monotonic_sec (sleep_iter hw cfg i w1) - now_monotonic_sec w1
            < cfg.s0_window_sec) →
          (∀ i < j, ∃ pr p, read_phase_sec (sleep_iter hw cfg i w1).bus cfg = .ok (pr, p)) →
          read_phase_sec (sleep_iter hw cfg j w1).bus cfg = .error rc1 →
          discipline_run_loop hw cfg (j + 1 + f) (k + 1) w1 v = .returned rc1)
      -- the coarse step
      ∧ (∀ (w1 : world_t) (v : discipline_vars_t) (pr p : ℚ) (k : Nat),
          v.st = .ST_S1_STEP → read_phase_sec w1.bus cfg = .ok (pr, p) →
          ¬(cfg.max_abs_phase_sec > 0 ∧ |p| > cfg.max_abs_phase_sec) →
          (do_s1_step w1.bus cfg p).1 ≠ 0 →
          discipline_run_loop hw cfg fuel (k + 1) w1 v = .returned (do_s1_step w1.bus cfg p).1)
      -- a phase read at pass `j` of the verification loop
      ∧ (∀ (w1 : world_t) (v : discipline_vars_t) (pr p : ℚ) (k : Nat) (w2 : world_t)
          (j : Nat) (rc1 : Int),
          v.st = .ST_S1_STEP → read_phase_sec w1.bus cfg = .ok (pr, p) →
          ¬(cfg.max_abs_phase_sec > 0 ∧ |p| > cfg.max_abs_phase_sec) →
          do_s1_step_sleep hw cfg w1 p = (0, w2) →
          j < cfg.s1_verify_samples →
          (∀ i < j, ∃ pr1 pw, read_phase_sec (sleep_iter hw cfg i w2).bus cfg = .ok (pr1, pw)) →
          read_phase_sec (sleep_iter hw cfg j w2).bus cfg = .error rc1 →
          discipline_run_loop hw cfg fuel (k + 1) w1 v = .returned rc1)
      -- the final step of the hand-off
      ∧ (∀ (w1 : world_t) (v : discipline_vars_t) (pr p : ℚ) (k : Nat) (w2 w3 : world_t)
          (acc : s1_verify_t),
          v.st = .ST_S1_STEP → read_phase_sec w1.bus cfg = .ok (pr, p) →
          ¬(cfg.max_abs_phase_sec > 0 ∧ |p| > cfg.max_abs_phase_sec) →
          do_s1_step_sleep hw cfg w1 p = (0, w2) →
          s1_verify_loop hw cfg cfg.s1_verify_samples w2 s1_verify_init = .ok (acc, w3) →
          |acc.p_ver| ≤ cfg.s1_exit_abs_sec →
          (do_s1_step w3.bus cfg acc.p_ver).1 ≠ 0 →
          discipline_run_loop hw cfg fuel (k + 1) w1 v
            = .returned (do_s1_step w3.bus cfg acc.p_ver).1)
      -- the frequency writes of the hand-off
      ∧ (∀ (w1 : world_t) (v : discipline_vars_t) (pr p : ℚ) (k : Nat) (w2 w3 w4 : world_t)
          (acc : s1_verify_t),
          v.st = .ST_S1_STEP → read_phase_sec w1.bus cfg = .ok (pr, p) →
          ¬(cfg.max_abs_phase_sec > 0 ∧ |p| > cfg.max_abs_phase_sec) →
          do_s1_step_sleep hw cfg w1 p = (0, w2) →
          s1_verify_loop hw cfg cfg.s1_verify_samples w2 s1_verify_init = .ok (acc, w3) →
          |acc.p_ver| ≤ cfg.s1_exit_abs_sec →
          do_s1_step_sleep hw cfg w3 acc.p_ver = (0, w4) →
          (do_s2_slew_loop cfg
            (wr_freq_word (s1_init_cmd_ppb cfg (s1_avg_drift_ppb acc) * (1 / 10 ^ 9)))
            w4.bus cfg.wr_dplls).1 ≠ 0 →
          discipline_run_loop hw cfg fuel (k + 1) w1 v
            = .returned (do_s2_slew_loop cfg
                (wr_freq_word (s1_init_cmd_ppb cfg (s1_avg_drift_ppb acc) * (1 / 10 ^ 9)))
                w4.bus cfg.wr_dplls).1)
      -- the accesses of the polarity check: first read, second read, flip writes
      ∧ (∀ (w1 : world_t) (v : discipline_vars_t) (pr p : ℚ) (k : Nat) (w2 w3 w4 : world_t)
          (acc : s1_verify_t) (b5 : cm_bus_t),
          v.st = .ST_S1_STEP → read_phase_sec w1.bus cfg = .ok (pr, p) →
          ¬(cfg.max_abs_phase_sec > 0 ∧ |p| > cfg.max_abs_phase_sec) →
          do_s1_step_sleep hw cfg w1 p = (0, w2) →
          s1_verify_loop hw cfg cfg.s1_verify_samples w2 s1_verify_init = .ok (acc, w3) →
          |acc.p_ver| ≤ cfg.s1_exit_abs_sec →
          do_s1_step_sleep hw cfg w3 acc.p_ver = (0, w4) →
          do_s2_slew_loop cfg
            (wr_freq_word (s1_init_cmd_ppb cfg (s1_avg_drift_ppb acc) * (1 / 10 ^ 9)))
            w4.bus cfg.wr_dplls = (0, b5) →
          (cfg.dry_run = false ∧ cfg.debug = true ∧ cfg.interval_sec > 0 ∧ acc.drift_n ≥ 2) →
          (∀ rc1 : Int, read_phase_sec b5 cfg = .error rc1 →
            discipline_run_loop hw cfg fuel (k + 1) w1 v = .returned rc1)
          ∧ (∀ (pr0 p0 : ℚ) (rc1 : Int), read_phase_sec b5 cfg = .ok (pr0, p0) →
              read_phase_sec (sleep_sec hw { w4 with bus := b5 } cfg.interval_sec).bus cfg
                = .error rc1 →
              discipline_run_loop hw cfg fuel (k + 1) w1 v = .returned rc1)
          ∧ (∀ (pr0 p0 pr1 p1 : ℚ), read_phase_sec b5 cfg = .ok (pr0, p0) →
              read_phase_sec (sleep_sec hw { w4 with bus := b5 } cfg.interval_sec).bus cfg
                = .ok (pr1, p1) →
              |wrap_phase_sec (p1 - p0) / cfg.interval_sec * 10 ^ 9|
                > |s1_avg_drift_ppb acc| * (120 / 100) →
              (do_s2_slew_loop cfg
                (wr_freq_word (-s1_init_cmd_ppb cfg (s1_avg_drift_ppb acc) * (1 / 10 ^ 9)))
                (sleep_sec hw { w4 with bus := b5 } cfg.interval_sec).bus cfg.wr_dplls).1 ≠ 0 →
              discipline_run_loop hw cfg fuel (k + 1) w1 v
                = .returned (do_s2_slew_loop cfg
                    (wr_freq_word (-s1_init_cmd_ppb cfg (s1_avg_drift_ppb acc) * (1 / 10 ^ 9)))
                    (sleep_sec hw { w4 with bus := b5 } cfg.interval_sec).bus
                    cfg.wr_dplls).1))
      -- the frequency writes of Slew
      ∧ (∀ (w1 : world_t) (v : discipline_vars_t) (pr p : ℚ) (k : Nat),
          v.st = .ST_S2_SLEW → read_phase_sec w1.bus cfg = .ok (pr, p) →
          ¬(cfg.max_abs_phase_sec > 0 ∧ |p| > cfg.max_abs_phase_sec) →
          ¬ |p| > cfg.s2_fallback_abs_sec →
          (do_s2_slew_loop cfg (do_s2_slew w1.bus cfg v.integ p cfg.interval_sec).word w1.bus
            cfg.wr_dplls).1 ≠ 0 →
          discipline_run_loop hw cfg fuel (k + 1) w1 v
            = .returned (do_s2_slew_loop cfg
                (do_s2_slew w1.bus cfg v.integ p cfg.interval_sec).word w1.bus cfg.wr_dplls).1)
      -- inside `do_s1_step`: the first pass that fails ends the loop
      ∧ (∀ (bus : cm_bus_t) (p : ℚ) (pre post : List Nat) (c : Nat) (b1 : cm_bus_t),
          cfg.step_outs = pre ++ c :: post →
          do_s1_step_loop cfg (s1_step_sec cfg p) bus pre = (0, b1) →
          (do_s1_step_output b1 cfg (s1_step_sec cfg p) c).1 ≠ 0 →
          do_s1_step bus cfg p = do_s1_step_output b1 cfg (s1_step_sec cfg p) c)
      -- the accesses of one pass of `do_s1_step`
      ∧ (∀ (bus : cm_bus_t) (s : ℚ) (o : Nat),
          (∀ rc1 : Int,
            cm_string_read_bytes bus "DPLL_Ctrl" (fod_dpll_for_output o) "FOD_FREQ_M_7_0" 6
              = .error rc1 →
            do_s1_step_output bus cfg s o = (rc1, bus) ∧ rc1 ≠ 0)
          ∧ (∀ (bufM : List Nat) (rc1 : Int),
              cm_string_read_bytes bus "DPLL_Ctrl" (fod_dpll_for_output o) "FOD_FREQ_M_7_0" 6
                = .ok bufM →
              cm_string_read_bytes bus "DPLL_Ctrl" (fod_dpll_for_output o) "FOD_FREQ_N_7_0" 2
                = .error rc1 →
              do_s1_step_output bus cfg s o = (rc1, bus) ∧ rc1 ≠ 0)
          ∧ (∀ (F : ℚ) (M N : Nat) (rc1 : Int),
              read_dpll_fod_freq_hz bus (fod_dpll_for_output o) = .ok (F, M, N) → 0 < F →
              read_output_div_u32 bus o = .error rc1 →
              do_s1_step_output bus cfg s o = (-1, bus))
          ∧ (∀ (F : ℚ) (M N : Nat) (rc1 : Int),
              read_dpll_fod_freq_hz bus (fod_dpll_for_output o) = .ok (F, M, N) → 0 < F →
              read_output_phase_adj_s32 bus o = .error rc1 →
              do_s1_step_output bus cfg s o = (-1, bus))
          ∧ (∀ (F : ℚ) (M N dv : Nat) (a : Int),
              read_dpll_fod_freq_hz bus (fod_dpll_for_output o) = .ok (F, M, N) → 0 < F →
              read_output_div_u32 bus o = .ok dv →
              read_output_phase_adj_s32 bus o = .ok a →
              do_s1_step_output bus cfg s o
                = write_output_phase_adj_s32 bus o (s1_new_adj a (s1_step_cycles s F))
                    (want_print cfg) cfg.dry_run))
      -- inside the frequency-write loops: the first write that fails ends the loop
      ∧ (∀ (word : Int) (bus : cm_bus_t) (pre post : List Nat) (c : Nat) (b1 : cm_bus_t)
          (rc1 : Int),
          cfg.wr_dplls = pre ++ c :: post →
          do_s2_slew_loop cfg word bus pre = (0, b1) →
          (write_dpll_wr_freq_s42 b1 c word (want_print cfg) cfg.dry_run).1 = rc1 →
          rc1 ≠ 0 →
          do_s2_slew_loop cfg word bus cfg.wr_dplls = (rc1, b1))
      -- the register read behind a phase read
      ∧ (∀ (bus : cm_bus_t) (rc1 : Int),
          cm_string_read_bytes bus "Status" 0 (phase_status_reg_name cfg.meas_dpll) 5
            = .error rc1 →
          read_phase_sec bus cfg = .error rc1 ∧ rc1 ≠ 0) := by
  have hne : rc ≠ 0 := discipline_run_loop_returned_ne hw cfg fuel n w discipline_run_init rc hret
  refine ⟨hne, ?_, ?_, ?_, ?_, ?_, ?_, ?_, ?_, ?_, ?_, ?_, ?_, ?_⟩
  · unfold main_exit_status
    rw [if_neg hne]
  · intro w1 v rc1 k hst hread
    exact discipline_run_loop_iter_error hw cfg fuel k w1 v rc1
      (discipline_run_iter_read_error hw cfg fuel w1 v rc1 hst hread)
  · intro w1 v rc1 k j f hst hopen hok hread
    exact discipline_run_loop_iter_error hw cfg _ k w1 v rc1
      (discipline_run_iter_measure_error hw cfg _ w1 v rc1 hst
        (do_s0_measure_read_error_at hw cfg rc1 j f w1 hopen hok hread))
  · intro w1 v pr p k hst hread hgate hrc
    exact discipline_run_loop_step_error hw cfg fuel k w1 v pr p _ hst hread hgate
      (discipline_run_step_error hw cfg w1 v p hrc)
  · intro w1 v pr p k w2 j rc1 hst hread hgate h1 hj hok herr
    exact discipline_run_loop_step_error hw cfg fuel k w1 v pr p _ hst hread hgate
      (discipline_run_step_verify_error hw cfg w1 v p w2 rc1 h1
        (s1_verify_loop_read_error hw cfg rc1 j _ w2 _ hj hok herr))
  · intro w1 v pr p k w2 w3 acc hst hread hgate h1 h2 hex hrc
    exact discipline_run_loop_step_error hw cfg fuel k w1 v pr p _ hst hread hgate
      (discipline_run_step_handoff_error hw cfg w1 v p w2 w3 acc _ h1 h2 hex
        (s1_handoff_step_error hw cfg w3 _ _ _ hrc))
  · intro w1 v pr p k w2 w3 w4 acc hst hread hgate h1 h2 hex h4 hrc
    exact discipline_run_loop_step_error hw cfg fuel k w1 v pr p _ hst hread hgate
      (discipline_run_step_handoff_error hw cfg w1 v p w2 w3 acc _ h1 h2 hex
        (s1_handoff_write_error hw cfg w3 _ _ _ w4 h4 hrc))
  · intro w1 v pr p k w2 w3 w4 acc b5 hst hread hgate h1 h2 hex h4 h5 hc
    have hup : ∀ rc1 : Int,
        s1_polarity_check hw cfg { w4 with bus := b5 } (s1_avg_drift_ppb acc)
          (s1_init_cmd_ppb cfg (s1_avg_drift_ppb acc)) acc.drift_n = .error rc1 →
        discipline_run_loop hw cfg fuel (k + 1) w1 v = .returned rc1 := fun rc1 h =>
      discipline_run_loop_step_error hw cfg fuel k w1 v pr p _ hst hread hgate
        (discipline_run_step_handoff_error hw cfg w1 v p w2 w3 acc _ h1 h2 hex
          (s1_handoff_check_error hw cfg w3 _ _ _ w4 b5 rc1 h4 h5 h))
    refine ⟨?_, ?_, ?_⟩
    · intro rc1 hr
      exact hup rc1 (s1_polarity_check_p0_error hw cfg _ _ _ _ rc1 hc hr)
    · intro pr0 p0 rc1 hr0 hr1
      exact hup rc1 (s1_polarity_check_p1_error hw cfg _ _ _ _ pr0 p0 rc1 hc hr0 hr1)
    · intro pr0 p0 pr1 p1 hr0 hr1 hflip hrc
      exact hup _ (s1_polarity_check_flip_error hw cfg _ _ _ _ pr0 p0 pr1 p1 hc hr0 hr1 hflip
        hrc)
  · intro w1 v pr p k hst hread hgate hfb hrc
    have hs := discipline_run_slew_error hw cfg w1 v p hfb hrc
    exact discipline_run_loop_iter_error hw cfg fuel k w1 v _
      (by rw [discipline_run_iter_slew hw cfg fuel w1 v pr p hst hread hgate, hs]; rfl)
  · intro bus p pre post c b1 hL hpre hc
    exact do_s1_step_append_fail bus cfg p pre post c b1 hL hpre hc
  · intro bus s o
    refine ⟨?_, ?_, ?_, ?_, ?_⟩
    · intro rc1 h
      have hF := read_dpll_fod_freq_hz_m_error bus _ rc1 h
      exact ⟨do_s1_step_output_fod_error bus cfg s o rc1 hF,
        read_dpll_fod_freq_hz_error_ne _ _ _ hF⟩
    · intro bufM rc1 hM h
      have hF := read_dpll_fod_freq_hz_n_error bus _ bufM rc1 hM h
      exact ⟨do_s1_step_output_fod_error bus cfg s o rc1 hF,
        read_dpll_fod_freq_hz_error_ne _ _ _ hF⟩
    · intro F M N rc1 hF hpos hd
      exact do_s1_step_output_div_error bus cfg s o F M N rc1 hF hpos hd
    · intro F M N rc1 hF hpos ha
      exact do_s1_step_output_adj_error bus cfg s o F M N rc1 hF hpos ha
    · intro F M N dv a hF hpos hd ha
      exact do_s1_step_output_eq bus cfg s o a F M N dv hF hpos hd ha
  · intro word bus pre post c b1 rc1 hL hpre hc hrc
    exact do_s2_slew_loop_fail cfg word bus pre post c b1 rc1 hL hpre hc hrc
  · intro bus rc1 h
    have hr := read_phase_sec_bytes_error bus cfg rc1 h
    exact ⟨hr, read_phase_sec_error_ne bus cfg rc1 hr⟩

/-- Witness for claim C18 (amended): on a register file whose reads all fail with `-5` the
default configuration returns `-5` from its first iteration. -/
theorem discipline_run_failure_fatal_witness :
    discipline_run device_idle main_default_cfg 1 1 ⟨bus_read_fails, 0, 0⟩ = .returned (-5)
      ∧ main_exit_status (-5) = 1 := by
  have hret : discipline_run device_idle main_default_cfg 1 1 ⟨bus_read_fails, 0, 0⟩
      = .returned (-5) := by
    unfold discipline_run
    rw [discipline_run_loop_succ, discipline_run_iter_measure_error device_idle
      main_default_cfg 1 ⟨bus_read_fails, 0, 0⟩ discipline_run_init (-5) rfl
      (do_s0_measure_read_error device_idle main_default_cfg 0 ⟨bus_read_fails, 0, 0⟩ (-5)
        (by norm_num [main_default_cfg]) rfl)]
  exact ⟨hret, (discipline_run_failure_fatal device_idle main_default_cfg 1 1
    ⟨bus_read_fails, 0, 0⟩ (-5) hret).2.1⟩

/-- Claim C19: with `dry_run` set the phase-adjust and frequency-word writers return 0 and
leave the bus as it was, so `do_s1_step` and `do_s2_slew` leave every register unchanged
(and `do_s2_slew` returns 0), while the step request, the value handed to the
phase-adjust writer for an output (from the same reads), the new integral, the command
in ppb and the word are the same as with `dry_run` clear. -/
theorem dry_run_no_write (bus : cm_bus_t) (cfg : discipline_cfg_t) (p I e dt : ℚ)
    (hdry : cfg.dry_run = true) :
    (∀ o adj trace, write_output_phase_adj_s32 bus o adj trace true = (0, bus)
        ∧ cm_write_output_phase_adj_s32 bus o adj trace true = (0, bus))
      ∧ (∀ d word trace, write_dpll_wr_freq_s42 bus d word trace true = (0, bus)
        ∧ cm_write_dpll_wr_freq_s42 bus d word trace true = (0, bus))
      ∧ (do_s1_step bus cfg p).2 = bus
      ∧ (do_s2_slew bus cfg I e dt).bus = bus
      ∧ (do_s2_slew bus cfg I e dt).rc = 0
      ∧ s1_step_sec { cfg with dry_run := false } p = s1_step_sec cfg p
      ∧ (do_s2_slew bus { cfg with dry_run := false } I e dt).integ
          = (do_s2_slew bus cfg I e dt).integ
      ∧ (do_s2_slew bus { cfg with dry_run := false } I e dt).cmd_ppb
          = (do_s2_slew bus cfg I e dt).cmd_ppb
      ∧ (do_s2_slew bus { cfg with dry_run := false } I e dt).word
          = (do_s2_slew bus cfg I e dt).word
      ∧ (∀ (s : ℚ) (o : Nat) (a : Int) (F : ℚ) (M N dv : Nat),
          read_dpll_fod_freq_hz bus (fod_dpll_for_output o) = .ok (F, M, N) → 0 < F →
          read_output_div_u32 bus o = .ok dv → read_output_phase_adj_s32 bus o = .ok a →
          do_s1_step_output bus cfg s o
              = write_output_phase_adj_s32 bus o (s1_new_adj a (s1_step_cycles s F))
                  (want_print cfg) true
            ∧ do_s1_step_output bus { cfg with dry_run := false } s o
              = write_output_phase_adj_s32 bus o (s1_new_adj a (s1_step_cycles s F))
                  (want_print cfg) false) := by
  refine ⟨fun o adj trace => ⟨rfl, rfl⟩, fun d word trace => ⟨rfl, rfl⟩, ?_, ?_, ?_, rfl, rfl,
    rfl, rfl, ?_⟩
  · exact do_s1_step_loop_dry cfg _ hdry _ bus
  · show (do_s2_slew_loop cfg _ bus cfg.wr_dplls).2 = bus
    rw [do_s2_slew_loop_dry cfg _ hdry]
  · show (do_s2_slew_loop cfg _ bus cfg.wr_dplls).1 = 0
    rw [do_s2_slew_loop_dry cfg _ hdry]
  · intro s o a F M N dv hF hpos hdiv ha
    constructor
    · rw [do_s1_step_output_eq bus cfg s o a F M N dv hF hpos hdiv ha, hdry]
    · exact do_s1_step_output_eq bus { cfg with dry_run := false } s o a F M N dv hF hpos
        hdiv ha

/-- Witness for claim C19: the default configuration with `dry_run` set, on a register file
of zeros. -/
theorem dry_run_no_write_witness :
    (do_s1_step ⟨fun _ => 0, fun _ => 0, fun _ => 0⟩
        { main_default_cfg with dry_run := true } (1 / 10)).2.mem
        = (fun _ => 0)
      ∧ (do_s2_slew ⟨fun _ => 0, fun _ => 0, fun _ => 0⟩
          { main_default_cfg with dry_run := true } 0 (1 / 10) 1).rc = 0 :=
  have h := dry_run_no_write ⟨fun _ => 0, fun _ => 0, fun _ => 0⟩
    { main_default_cfg with dry_run := true } (1 / 10) 0 (1 / 10) 1 rfl
  ⟨by rw [h.2.2.1], h.2.2.2.2.1⟩

/-- Claim C20: for the numerator `M` (48 bits) and the raw denominator `N` (16 bits) that
`read_dpll_fod_freq_hz` reads from the FOD frequency registers, the decoded frequency is
`M / N'` with `N' = 1` when `N = 0` and `N' = N` otherwise; `N'` is never 0, and
`dpll_input_freq_from_ratio M N` gives the same value. -/
theorem read_dpll_fod_freq_hz_decode (bus : cm_bus_t) (d : Nat) (bufM bufN : List Nat)
    (hM : cm_string_read_bytes bus "DPLL_Ctrl" d "FOD_FREQ_M_7_0" 6 = .ok bufM)
    (hN : cm_string_read_bytes bus "DPLL_Ctrl" d "FOD_FREQ_N_7_0" 2 = .ok bufN) :
    let M := le_value bufM 6
    let N := le_value bufN 2
    let N1 := if N = 0 then 1 else N
    M < 2 ^ 48 ∧ N < 2 ^ 16
      ∧ read_dpll_fod_freq_hz bus d = .ok ((M : ℚ) / (N1 : ℚ), M, N1)
      ∧ N1 ≠ 0
      ∧ dpll_input_freq_from_ratio M N = (M : ℚ) / (N1 : ℚ)
      ∧ (N = 0 → dpll_input_freq_from_ratio M N = (M : ℚ)) := by
  intro M N N1
  have hN1 : N1 ≠ 0 := by
    show (if N = 0 then 1 else N) ≠ 0
    split_ifs with h
    · norm_num
    · exact h
  have hdec : dpll_input_freq_from_ratio M N = (M : ℚ) / (N1 : ℚ) := by
    unfold dpll_input_freq_from_ratio
    simp only []
    rw [if_neg hN1]
  refine ⟨le_value_lt bufM 6, le_value_lt bufN 2,
    read_dpll_fod_freq_hz_of_bytes bus d bufM bufN hM hN, hN1, hdec, ?_⟩
  intro h0
  rw [hdec]
  show (M : ℚ) / (((if N = 0 then 1 else N : Nat)) : ℚ) = (M : ℚ)
  rw [if_pos h0]
  simp

/-- Witness for claim C20: DPLL5 on a register file holding `M = 100` and a raw
denominator of 0. -/
theorem read_dpll_fod_freq_hz_decode_witness :
    read_dpll_fod_freq_hz ⟨fun a => if a = 0xC758 then 100 else 0, fun _ => 0, fun _ => 0⟩ 5
        = .ok (((le_value [100, 0, 0, 0, 0, 0] 6 : Nat) : ℚ)
                / (((if le_value [0, 0] 2 = 0 then 1 else le_value [0, 0] 2 : Nat)) : ℚ),
               le_value [100, 0, 0, 0, 0, 0] 6,
               if le_value [0, 0] 2 = 0 then 1 else le_value [0, 0] 2)
      ∧ dpll_input_freq_from_ratio (le_value [100, 0, 0, 0, 0, 0] 6) (le_value [0, 0] 2)
        = ((le_value [100, 0, 0, 0, 0, 0] 6 : Nat) : ℚ) :=
  have h := read_dpll_fod_freq_hz_decode
    ⟨fun a => if a = 0xC758 then 100 else 0, fun _ => 0, fun _ => 0⟩ 5
    [100, 0, 0, 0, 0, 0] [0, 0] rfl rfl
  ⟨h.2.2.1, h.2.2.2.2.2 rfl⟩

/-- Claim C21, evaluated on the code: `cm_read_dpll_fod_freq_hz` asks the table for
`DPLL_FOD_FREQ_M_0_7`, a name no register of `DPLL_Ctrl` has (nor does a
`DPLL_FOD_FREQ_N_0_7` exist), so on every bus it returns `-2` for an index below 8 and
`-3` above, never 0; the servo's own `read_dpll_fod_freq_hz`, which asks for
`FOD_FREQ_M_7_0` and `FOD_FREQ_N_7_0`, returns `M / N = 100 / 1` for DPLL5 on the same
register file. -/
theorem cm_read_dpll_fod_freq_hz_not_found :
    (∀ (bus : cm_bus_t) (d : Nat),
        cm_read_dpll_fod_freq_hz bus d = .error (if d < 8 then -2 else -3))
      ∧ (cm_find_reg cm_DPLL_Ctrl_module "DPLL_FOD_FREQ_M_0_7" = .error (-2))
      ∧ (cm_find_reg cm_DPLL_Ctrl_module "DPLL_FOD_FREQ_N_0_7" = .error (-2))
      ∧ cm_read_dpll_fod_freq_hz bus_fod_100 5 = .error (-2)
      ∧ read_dpll_fod_freq_hz bus_fod_100 5
          = .ok (((100 : Nat) : ℚ) / ((1 : Nat) : ℚ), 100, 1) := by
  refine ⟨?_, rfl, rfl, rfl, rfl⟩
  intro bus d
  unfold cm_read_dpll_fod_freq_hz
  by_cases hd : d < 8
  · rw [cm_string_read_bytes_err _ _ _ _ _ _ (by norm_num) (resolve_dpll_fod_m_0_7 d hd),
      if_pos hd]
  · rw [cm_string_read_bytes_err _ _ _ _ _ _ (by norm_num)
      (resolve_dpll_ctrl_bad d (by omega) _), if_neg hd]

/-- Claim C22, evaluated on the code: no function of the servo reads `s1_max_iters`, so a
run is the same whatever its value.  With `--s1-max-iters 1` on a register file whose
phase sample stays at 0.3 s (FOD ratio 100/1, idle device), the servo is still in
`ST_S1_STEP` after any number `k` of iterations, having counted `k` step iterations
(`k = 2, 3, ...` included), and has not entered Slew. -/
theorem s1_max_iters_not_enforced :
    (∀ (hw : device_t) (cfg : discipline_cfg_t) (n fuel k : Nat) (w : world_t)
        (v : discipline_vars_t),
        discipline_run_loop hw { cfg with s1_max_iters := n } fuel k w v
          = discipline_run_loop hw cfg fuel k w v)
      ∧ (∀ k : Nat, ∃ (wk : world_t) (vk : discipline_vars_t),
          discipline_run_loop device_idle { main_default_cfg with s1_max_iters := 1 } 0 k
              ⟨bus_phase_03_fod_100, 0, 0⟩ { discipline_run_init with st := .ST_S1_STEP }
            = .running wk vk
          ∧ vk.st = .ST_S1_STEP ∧ vk.s1_iter = k % 2 ^ 32) := by
  refine ⟨fun hw cfg n fuel k w v => discipline_run_loop_max_iters hw cfg n fuel k w v, ?_⟩
  intro k
  have hv : cfg_valid { main_default_cfg with s1_max_iters := 1 } :=
    ⟨by decide, by decide, by decide⟩
  obtain ⟨wk, vk, h1, h2, h3⟩ := discipline_run_loop_idle_stays_step
    { main_default_cfg with s1_max_iters := 1 } hv rfl
    (by show (2 / 1000 : ℚ) < 3 / 10; norm_num) (by decide) 0 k
    ⟨bus_phase_03_fod_100, 0, 0⟩ { discipline_run_init with st := .ST_S1_STEP } rfl
    (by show 0 < 2 ^ 32; norm_num)
    (bus_ready_phase_03_fod_100 _ hv.2.2)
    (read_phase_sec_phase_03_fod_100 _ rfl rfl)
  refine ⟨wk, vk, h1, h2, ?_⟩
  rw [h3]
  show (0 + k) % 2 ^ 32 = k % 2 ^ 32
  rw [zero_add]

/-- Claim C23, evaluated on the code: when the read of the register succeeds, the trigger
writes back to the same address the byte read, so every byte of the register file keeps
its value.  When the read fails the code goes on all the same: on a register file that
holds `0x5A` in `DPLL_Config[0].DPLL_MODE` (address `0xC3E7`) and whose reads fail, the
trigger writes 0 to that register and returns 0; `cm_field_write8` on the same bus
returns the code of the read and writes nothing. -/
theorem cm_string_trigger_rw_read_failure :
    (∀ (bus : cm_bus_t) (m : String) (i : Nat) (r : String) (a : Nat),
        cm_resolve_reg_addr m i r = .ok a → bus.read_rc a = 0 →
        cm_string_trigger_rw bus m i r = (0, (bus.write a [bus.mem a % 256]).2)
          ∧ ∀ x, (cm_string_trigger_rw bus m i r).2.mem x % 256 = bus.mem x % 256)
      ∧ cm_resolve_reg_addr "DPLL_Config" 0 "DPLL_MODE" = .ok 0xC3E7
      ∧ cm_read8 bus_5a_read_fails 0xC3E7 = .error (-1)
      ∧ (cm_string_trigger_rw bus_5a_read_fails "DPLL_Config" 0 "DPLL_MODE").1 = 0
      ∧ (cm_string_trigger_rw bus_5a_read_fails "DPLL_Config" 0 "DPLL_MODE").2.mem 0xC3E7 = 0
      ∧ bus_5a_read_fails.mem 0xC3E7 = 0x5A
      ∧ cm_field_write8 bus_5a_read_fails 0xC3E7 0 3 0 = (-1, bus_5a_read_fails) := by
  refine ⟨?_, rfl, rfl, rfl, rfl, rfl, rfl⟩
  intro bus m i r a hres hr
  have h := cm_string_trigger_rw_of_read bus m i r a hres hr
  refine ⟨h, fun x => ?_⟩
  rw [h]
  exact write_same_byte bus a x

/-- Claim C24: whenever `dpll_compute_input_ratio freq_hz` returns 0, the `M` it stores is
below `2^48` and the `N_reg` it stores encodes a denominator `N` with `1 <= N <= 65535`
(`N_reg = 0` exactly when `N = 1`, else `N_reg = N`), with `actual_hz = M / N` and
`error_hz = actual_hz - freq_hz`; `dpll_input_freq_from_ratio M N_reg` is `actual_hz`. -/
theorem dpll_compute_input_ratio_spec (freq_hz : ℚ) (M N_reg : Nat) (actual_hz error_hz : ℚ)
    (h : dpll_compute_input_ratio freq_hz = .ok (M, N_reg, actual_hz, error_hz)) :
    0 < freq_hz ∧ M < 2 ^ 48 ∧ N_reg < 2 ^ 16
      ∧ ∃ N : Nat, 1 ≤ N ∧ N ≤ 65535
          ∧ (N_reg = 0 ↔ N = 1) ∧ (N ≠ 1 → N_reg = N)
          ∧ actual_hz = (M : ℚ) / (N : ℚ)
          ∧ error_hz = actual_hz - freq_hz
          ∧ dpll_input_freq_from_ratio M N_reg = actual_hz := by
  unfold dpll_compute_input_ratio at h
  split at h
  · cases h
  · rename_i hf
    have hf0 : 0 < freq_hz := not_not.mp hf
    simp only [] at h
    split at h
    · cases h
    · have hinv := dpll_compute_input_ratio_loop_inv freq_hz hf0 DPLL_MAX_N 1
        { best_err := DBL_MAX, best_M := 0, best_N := 1 } (le_refl 1) (by decide)
        ⟨by norm_num, le_refl 1, by norm_num⟩
      generalize dpll_compute_input_ratio_loop freq_hz DPLL_MAX_N 1
        { best_err := DBL_MAX, best_M := 0, best_N := 1 } = b at h hinv
      simp only [Except.ok.injEq, Prod.mk.injEq] at h
      obtain ⟨hM, hN, ha, he⟩ := h
      obtain ⟨h1, h2, h3⟩ := hinv
      have hNreg : N_reg = if b.best_N = 1 then 0 else b.best_N := by
        rw [← hN]
        split_ifs
        · rfl
        · exact Nat.mod_eq_of_lt (by omega)
      refine ⟨hf0, by rw [← hM]; exact h1, ?_, b.best_N, h2, h3, ?_, ?_, ?_, ?_, ?_⟩
      · rw [hNreg]; split_ifs <;> omega
      · rw [hNreg]; split_ifs with hb <;> omega
      · intro hb; rw [hNreg, if_neg hb]
      · rw [← ha, ← hM]
      · rw [← he, ← ha]
      · unfold dpll_input_freq_from_ratio
        simp only []
        rw [hNreg, ← ha, ← hM]
        by_cases hb : b.best_N = 1
        · simp [hb]
        · have hb0 : b.best_N ≠ 0 := by omega
          simp [hb, hb0]

/-- Witness for claim C24: 10 MHz is found at `N = 1`, stored as `M = 10000000`,
`N_reg = 0`. -/
theorem dpll_compute_input_ratio_spec_witness :
    dpll_compute_input_ratio ((10000000 : Nat) : ℚ)
        = .ok (10000000, 0, ((10000000 : Nat) : ℚ) / ((1 : Nat) : ℚ),
            ((10000000 : Nat) : ℚ) / ((1 : Nat) : ℚ) - ((10000000 : Nat) : ℚ))
      ∧ dpll_input_freq_from_ratio 10000000 0 = ((10000000 : Nat) : ℚ) / ((1 : Nat) : ℚ) :=
  have h := dpll_compute_input_ratio_exact 10000000 (by norm_num) (by norm_num)
  ⟨h, by
    obtain ⟨_, _, _, N, _, _, _, _, _, _, hd⟩ := dpll_compute_input_ratio_spec _ _ _ _ _ h
    exact hd⟩

/-- Claim C25: for every `x`, `wrap_phase_sec x - x` is an integer and `wrap_phase_sec x` lies
in `[-0.5, 0.5)`; `wrap_phase_sec x = x` when `-0.5 <= x < 0.5`; any `y` of `[-0.5, 0.5)`
that differs from `x` by an integer is `wrap_phase_sec x`; and wrapping twice is
wrapping once. -/
theorem wrap_phase_sec_representative (x : ℚ) :
    (∃ k : ℤ, wrap_phase_sec x - x = k)
      ∧ (-(1 / 2) ≤ wrap_phase_sec x ∧ wrap_phase_sec x < 1 / 2)
      ∧ (-(1 / 2) ≤ x → x < 1 / 2 → wrap_phase_sec x = x)
      ∧ (∀ (y : ℚ) (j : ℤ), -(1 / 2) ≤ y → y < 1 / 2 → y - x = j → y = wrap_phase_sec x)
      ∧ wrap_phase_sec (wrap_phase_sec x) = wrap_phase_sec x := by
  have hr : -(1 / 2) ≤ wrap_phase_sec x ∧ wrap_phase_sec x < 1 / 2 :=
    ⟨wrap_phase_sec_up_ge _, wrap_phase_sec_up_lt _ (wrap_phase_sec_down_lt x)⟩
  refine ⟨wrap_phase_sec_int x, hr, wrap_phase_sec_of_mem x, ?_,
    wrap_phase_sec_of_mem _ hr.1 hr.2⟩
  intro y j hylo hyhi hj
  obtain ⟨k, hk⟩ := wrap_phase_sec_int x
  have hd : y - wrap_phase_sec x = ((j - k : ℤ) : ℚ) := by
    push_cast
    linarith
  have h1 : ((j - k : ℤ) : ℚ) < 1 := by rw [← hd]; linarith [hr.1]
  have h2 : (-1 : ℚ) < ((j - k : ℤ) : ℚ) := by rw [← hd]; linarith [hr.2]
  have h3 : j - k < 1 := by exact_mod_cast h1
  have h4 : -1 < j - k := by exact_mod_cast h2
  have h5 : j - k = 0 := by omega
  rw [h5] at hd
  simp at hd
  linarith

/-- Claim C26: when `Ki > 0` does not hold, a hand-off seeds the integral with 0 whatever
initial command it wrote, so the first Slew call is the call with integral 0.  With
`Kp = 0` and `Ki = 0` every call of `do_s2_slew` computes the command 0 and runs its
write loop on the word 0, whatever the integral, the phase error and the interval; with
dry-run off and code 0 every configured channel then holds six zero bytes. -/
theorem slew_command_without_gain (hw : device_t) (cfg : discipline_cfg_t)
    (hki : ¬ cfg.ki > 0) :
    (∀ (w : world_t) (p_ver d0 : ℚ) (n : Nat) (r : s1_handoff_t),
        s1_handoff hw cfg w p_ver d0 n = .ok r →
        r.integ = 0
          ∧ ∀ (bus : cm_bus_t) (e dt : ℚ),
              do_s2_slew bus cfg r.integ e dt = do_s2_slew bus cfg 0 e dt)
      ∧ (cfg.kp = 0 → cfg.ki = 0 → ∀ (bus : cm_bus_t) (I e dt : ℚ),
          (do_s2_slew bus cfg I e dt).cmd_ppb = 0
            ∧ (do_s2_slew bus cfg I e dt).word = 0
            ∧ ((do_s2_slew bus cfg I e dt).rc, (do_s2_slew bus cfg I e dt).bus)
                = do_s2_slew_loop cfg 0 bus cfg.wr_dplls
            ∧ (cfg.dry_run = false → (do_s2_slew bus cfg I e dt).rc = 0 →
                ∀ d ∈ cfg.wr_dplls, d < 8 ∧ ∀ i < 6,
                  (do_s2_slew bus cfg I e dt).bus.mem (cm_DPLL_Freq_Write_bases.getD d 0 + i)
                    = 0)) := by
  constructor
  · intro w p_ver d0 n r hr
    obtain ⟨_, _, _, _, _, _, _, hinteg⟩ := s1_handoff_ok hw cfg w p_ver d0 n r hr
    rw [if_neg hki] at hinteg
    refine ⟨hinteg, fun bus e dt => by rw [hinteg]⟩
  · intro hkp hk0 bus I e dt
    obtain ⟨h1, h2, h3⟩ := do_s2_slew_zero_gains bus cfg I e dt hkp hk0
    refine ⟨h1, h2, h3, ?_⟩
    intro hdry hrc d hd
    have hloop : do_s2_slew_loop cfg 0 bus cfg.wr_dplls
        = (0, (do_s2_slew bus cfg I e dt).bus) := by
      rw [← h3, hrc]
    obtain ⟨hin, _⟩ := do_s2_slew_loop_success cfg 0 hdry cfg.wr_dplls bus _ hloop
    refine ⟨(hin d hd).1, fun i hi => ?_⟩
    rw [(hin d hd).2 i hi]
    interval_cases i <;> rfl

/-- Witness for claim C26: the default configuration (`Kp = Ki = 0`) with integral 7 and
phase error 0.3 s. -/
theorem slew_command_without_gain_witness :
    (do_s2_slew bus_fod_100 main_default_cfg 7 (3 / 10) 1).cmd_ppb = 0
      ∧ (do_s2_slew bus_fod_100 main_default_cfg 7 (3 / 10) 1).word = 0 :=
  have h := (slew_command_without_gain device_idle main_default_cfg
    (by show ¬ (0 : ℚ) > 0; norm_num)).2 rfl rfl bus_fod_100 7 (3 / 10) 1
  ⟨h.1, h.2.1⟩

/-- Claim C27: with `0 < max_abs_phase_sec <= s2_fallback_abs_sec` every sample that passes
the outlier gate has `|p| <= s2_fallback_abs_sec`, so the fallback test never fires: an
iteration that starts in `ST_S2_SLEW` and does not return ends in `ST_S2_SLEW`, and a
run of any number of iterations from `ST_S2_SLEW` either has returned a non-zero code or
is still in `ST_S2_SLEW`. -/
theorem slew_never_falls_back (hw : device_t) (cfg : discipline_cfg_t)
    (h1 : 0 < cfg.max_abs_phase_sec) (h2 : cfg.max_abs_phase_sec ≤ cfg.s2_fallback_abs_sec) :
    (∀ p : ℚ, ¬(cfg.max_abs_phase_sec > 0 ∧ |p| > cfg.max_abs_phase_sec) →
        |p| ≤ cfg.max_abs_phase_sec ∧ ¬ |p| > cfg.s2_fallback_abs_sec)
      ∧ (∀ (fuel : Nat) (w : world_t) (v : discipline_vars_t) (w1 : world_t)
          (v1 : discipline_vars_t), v.st = .ST_S2_SLEW →
          discipline_run_iter hw cfg fuel w v = some (.ok (w1, v1)) → v1.st = .ST_S2_SLEW)
      ∧ (∀ (fuel n : Nat) (w : world_t) (v : discipline_vars_t), v.st = .ST_S2_SLEW →
          (∃ rc, discipline_run_loop hw cfg fuel n w v = .returned rc ∧ rc ≠ 0)
            ∨ ∃ w1 v1, discipline_run_loop hw cfg fuel n w v = .running w1 v1
                ∧ v1.st = .ST_S2_SLEW) := by
  refine ⟨?_, discipline_run_iter_slew_stays hw cfg h1 h2, ?_⟩
  · intro p hg
    have hle : |p| ≤ cfg.max_abs_phase_sec := by
      by_contra hne
      exact hg ⟨h1, not_le.mp hne⟩
    exact ⟨hle, not_lt.mpr (le_trans hle h2)⟩
  · intro fuel n
    induction n with
    | zero =>
      intro w v hst
      exact Or.inr ⟨w, v, discipline_run_loop_zero hw cfg fuel w v, hst⟩
    | succ n ih =>
      intro w v hst
      rw [discipline_run_loop_succ]
      cases hit : discipline_run_iter hw cfg fuel w v with
      | none =>
        exfalso
        unfold discipline_run_iter at hit
        rw [if_neg (by rw [hst]; decide)] at hit
        split at hit
        · cases hit
        · split at hit
          · cases hit
          · split at hit <;> cases hit
      | some x =>
        cases x with
        | error rc =>
          exact Or.inl ⟨rc, rfl, discipline_run_iter_error_ne hw cfg fuel w v rc hit⟩
        | ok y =>
          obtain ⟨w1, v1⟩ := y
          exact ih w1 v1 (discipline_run_iter_slew_stays hw cfg h1 h2 fuel w v w1 v1 hst hit)

/-- Witness for claim C27: outlier cap 0.2 s, fallback threshold 0.25 s, in Slew with the
sample 0.3 s: the sample is dropped and the state stays `ST_S2_SLEW`. -/
theorem slew_never_falls_back_witness :
    discipline_run_iter device_idle { main_default_cfg with max_abs_phase_sec := 2 / 10 } 0
        ⟨bus_phase_03, 0, 0⟩
        { st := .ST_S2_SLEW, integ := 7, phase_prev := 0, have_prev := true, s1_iter := 4 }
      = some (.ok (sleep_sec device_idle ⟨bus_phase_03, 0, 0⟩ 1,
          { st := .ST_S2_SLEW, integ := 7, phase_prev := 0, have_prev := true,
            s1_iter := 4 }))
      ∧ ¬ |(1 / 10 : ℚ)| > 25 / 100 := by
  have hc1 : (0 : ℚ) < ({ main_default_cfg with max_abs_phase_sec := 2 / 10 }
      : discipline_cfg_t).max_abs_phase_sec := by
    show (0 : ℚ) < 2 / 10
    norm_num
  have hc2 : ({ main_default_cfg with max_abs_phase_sec := 2 / 10 }
      : discipline_cfg_t).max_abs_phase_sec
      ≤ ({ main_default_cfg with max_abs_phase_sec := 2 / 10 }
      : discipline_cfg_t).s2_fallback_abs_sec := by
    show (2 / 10 : ℚ) ≤ 25 / 100
    norm_num
  have h := slew_never_falls_back device_idle
    { main_default_cfg with max_abs_phase_sec := 2 / 10 } hc1 hc2
  refine ⟨?_, (h.1 (1 / 10) (by
    show ¬ ((2 / 10 : ℚ) > 0 ∧ |(1 / 10 : ℚ)| > 2 / 10)
    rw [abs_of_pos (by norm_num)]
    norm_num)).2⟩
  exact discipline_run_iter_drop device_idle _ 0 ⟨bus_phase_03, 0, 0⟩ _ (3 / 10) (3 / 10)
    (by decide)
    (read_phase_sec_phase_03 { main_default_cfg with max_abs_phase_sec := 2 / 10 } rfl rfl)
    (by
      show (2 / 10 : ℚ) > 0 ∧ |(3 / 10 : ℚ)| > 2 / 10
      rw [abs_of_pos (by norm_num)]
      norm_num)

/-- Claim C28: when every sample read while the Measure window is open is dropped by the
outlier gate (none at all when the window is not positive), `do_s0_measure` stores the
average 0 and returns 0, given enough passes, and for an enter threshold `>= 0` the
iteration of `discipline_run` in `ST_S0_MEASURE` ends in `ST_S2_SLEW` with the integral
0 and `have_prev` cleared, never in `ST_S1_STEP`. -/
theorem do_s0_measure_all_dropped (hw : device_t) (cfg : discipline_cfg_t) (w : world_t)
    (v : discipline_vars_t)
    (hterm : 0 < cfg.interval_sec ∨ cfg.s0_window_sec ≤ 0)
    (hall : ∀ k, now_monotonic_sec (sleep_iter hw cfg k w) - now_monotonic_sec w
          < cfg.s0_window_sec →
        ∃ pr p, read_phase_sec (sleep_iter hw cfg k w).bus cfg = .ok (pr, p)
          ∧ outlier_drop cfg p)
    (henter : 0 ≤ cfg.s1_enter_abs_sec) (hst : v.st = .ST_S0_MEASURE) :
    ∃ N : Nat, ∀ fuel, N ≤ fuel → ∃ k, k ≤ fuel
      ∧ do_s0_measure hw cfg fuel w = some (.ok (0, sleep_iter hw cfg k w))
      ∧ discipline_run_iter hw cfg fuel w v
          = some (.ok (sleep_iter hw cfg k w,
              { v with st := .ST_S2_SLEW, integ := 0, have_prev := false })) := by
  have hloop : ∃ N : Nat, ∀ fuel, N ≤ fuel → ∃ k, k ≤ fuel
      ∧ do_s0_measure_loop hw cfg (now_monotonic_sec w) fuel w 0 0
        = some (.ok (0, 0, sleep_iter hw cfg k w)) := by
    rcases hterm with hint | hwin
    · refine ⟨⌈cfg.s0_window_sec / cfg.interval_sec⌉₊, fun fuel hfuel => ?_⟩
      refine do_s0_measure_loop_all_dropped hw cfg _ hint fuel w 0 0 hall ?_
      rw [sub_self, sub_zero]
      have h1 : cfg.s0_window_sec / cfg.interval_sec ≤ (fuel : ℚ) :=
        le_trans (Nat.le_ceil _) (by exact_mod_cast hfuel)
      exact (div_le_iff₀ hint).mp h1
    · refine ⟨0, fun fuel _ => ⟨0, Nat.zero_le _, ?_⟩⟩
      have hclosed : ¬ now_monotonic_sec w - now_monotonic_sec w < cfg.s0_window_sec := by
        rw [sub_self]
        exact not_lt.mpr hwin
      cases fuel with
      | zero =>
        rw [do_s0_measure_loop, if_neg hclosed]
        rfl
      | succ f =>
        rw [do_s0_measure_loop, if_neg hclosed]
        rfl
  obtain ⟨N, hN⟩ := hloop
  refine ⟨N, fun fuel hfuel => ?_⟩
  obtain ⟨k, hk, hres⟩ := hN fuel hfuel
  have hm : do_s0_measure hw cfg fuel w = some (.ok (0, sleep_iter hw cfg k w)) := by
    unfold do_s0_measure
    rw [hres]
    simp
  refine ⟨k, hk, hm, ?_⟩
  rw [discipline_run_iter_measure_ok hw cfg fuel w v 0 _ hst hm]
  unfold discipline_run_measure
  rw [if_neg (by simp), if_neg (by rw [abs_zero]; exact not_lt.mpr henter)]

/-- Witness for claim C28: outlier cap 0.1 s, the default window of 5 s and interval of 1 s,
on a register file whose phase sample is 0.3 s with a device that leaves the registers
alone: every sample of the window is dropped. -/
theorem do_s0_measure_all_dropped_witness :
    ∃ N : Nat, ∀ fuel, N ≤ fuel → ∃ k, k ≤ fuel
      ∧ do_s0_measure device_idle { main_default_cfg with max_abs_phase_sec := 1 / 10 } fuel
          ⟨bus_phase_03, 0, 0⟩
        = some (.ok (0, sleep_iter device_idle
            { main_default_cfg with max_abs_phase_sec := 1 / 10 } k ⟨bus_phase_03, 0, 0⟩))
      ∧ discipline_run_iter device_idle { main_default_cfg with max_abs_phase_sec := 1 / 10 }
          fuel ⟨bus_phase_03, 0, 0⟩ discipline_run_init
        = some (.ok (sleep_iter device_idle
            { main_default_cfg with max_abs_phase_sec := 1 / 10 } k ⟨bus_phase_03, 0, 0⟩,
            { discipline_run_init with st := .ST_S2_SLEW, integ := 0, have_prev := false })) :=
  do_s0_measure_all_dropped device_idle { main_default_cfg with max_abs_phase_sec := 1 / 10 }
    ⟨bus_phase_03, 0, 0⟩ discipline_run_init
    (Or.inl (by show (0 : ℚ) < 1; norm_num))
    (fun k _ => ⟨3 / 10, 3 / 10, by
      rw [sleep_iter_idle_bus]
      exact read_phase_sec_phase_03 _ rfl rfl, by
      show (1 / 10 : ℚ) > 0 ∧ |(3 / 10 : ℚ)| > 1 / 10
      rw [abs_of_pos (by norm_num)]
      norm_num⟩)
    (by show (0 : ℚ) ≤ 5 / 100; norm_num) rfl

/-- Claim C29: with `s1_verify_samples = 0` and `s1_exit_abs_sec >= 0`, a Step iteration
whose sample passes the outlier gate and whose accesses succeed ends in `ST_S2_SLEW`:
after the coarse step the verification loop reads nothing and sleeps not at all, the
exit test is made on `p_ver = 0`, the final correction is `do_s1_step` for phase 0 (step
request 0, 0 cycles for every FOD frequency, each register rewritten with the value it
holds), the average drift and the initial command are 0, the word 0 is written to the
frequency-write channels, the polarity check is skipped and the integral is 0. -/
theorem discipline_run_step_no_verify (hw : device_t) (cfg : discipline_cfg_t) (fuel : Nat)
    (w : world_t) (v : discipline_vars_t) (pr p : ℚ) (w3 : world_t) (v3 : discipline_vars_t)
    (hn : cfg.s1_verify_samples = 0) (hexit : 0 ≤ cfg.s1_exit_abs_sec)
    (hst : v.st = .ST_S1_STEP)
    (hread : read_phase_sec w.bus cfg = .ok (pr, p))
    (hgate : ¬(cfg.max_abs_phase_sec > 0 ∧ |p| > cfg.max_abs_phase_sec))
    (hiter : discipline_run_iter hw cfg fuel w v = some (.ok (w3, v3))) :
    v3.st = .ST_S2_SLEW ∧ v3.integ = 0
      ∧ (∃ (w1 w4 : world_t) (b5 : cm_bus_t),
          do_s1_step_sleep hw cfg w p = (0, w1)
            ∧ s1_verify_loop hw cfg cfg.s1_verify_samples w1 s1_verify_init
                = .ok (s1_verify_init, w1)
            ∧ s1_verify_init.p_ver = 0
            ∧ do_s1_step_sleep hw cfg w1 0 = (0, w4)
            ∧ do_s2_slew_loop cfg 0 w4.bus cfg.wr_dplls = (0, b5)
            ∧ w3 = { w4 with bus := b5 })
      ∧ s1_step_sec cfg 0 = 0
      ∧ (∀ F : ℚ, s1_step_cycles 0 F = 0)
      ∧ (∀ a : Int, INT32_MIN ≤ a → a ≤ INT32_MAX → s1_new_adj a 0 = a)
      ∧ s1_avg_drift_ppb s1_verify_init = 0
      ∧ s1_init_cmd_ppb cfg 0 = 0
      ∧ wr_freq_word (s1_init_cmd_ppb cfg 0 * (1 / 10 ^ 9)) = 0 := by
  rw [discipline_run_iter_step hw cfg fuel w v pr p hst hread hgate] at hiter
  have hstep : discipline_run_step hw cfg w v p = .ok (w3, v3) := Option.some.inj hiter
  obtain ⟨w1, acc, w2, h1, h2, hex, _⟩ := discipline_run_step_ok hw cfg w v p w3 v3 hstep
  have hloop : s1_verify_loop hw cfg cfg.s1_verify_samples w1 s1_verify_init
      = .ok (s1_verify_init, w1) := by
    rw [hn]
    exact s1_verify_loop_zero hw cfg w1 s1_verify_init
  rw [hloop] at h2
  simp only [Except.ok.injEq, Prod.mk.injEq] at h2
  obtain ⟨hacc, hw2⟩ := h2
  subst hacc
  subst hw2
  have hd0 : s1_avg_drift_ppb s1_verify_init = 0 := rfl
  have hword : wr_freq_word (s1_init_cmd_ppb cfg 0 * (1 / 10 ^ 9)) = 0 := by
    rw [s1_init_cmd_ppb_zero, zero_mul, wr_freq_word_zero]
  obtain ⟨r, hr, hw3, hv3⟩ := hex (by
    show |(0 : ℚ)| ≤ cfg.s1_exit_abs_sec
    rw [abs_zero]
    exact hexit)
  obtain ⟨w4, b5, h4, h5, hp, hf, _, hinteg⟩ := s1_handoff_ok hw cfg w1 _ _ _ r hr
  have hp0 : s1_verify_init.p_ver = 0 := rfl
  rw [hp0] at h4
  rw [hd0, hword] at h5
  rw [hd0, s1_polarity_check_skip hw cfg _ 0 _ s1_verify_init.drift_n (by
    intro hc
    have : s1_verify_init.drift_n ≥ 2 := hc.2.2.2
    exact absurd this (by decide))] at hp
  simp only [Except.ok.injEq, Prod.mk.injEq] at hp
  have hcmd : r.cmd_ppb0 = 0 := by rw [← hp.2, s1_init_cmd_ppb_zero]
  have hi0 : r.integ = 0 := by
    rw [hinteg, hf, hcmd]
    split_ifs <;> simp
  refine ⟨by rw [hv3], by rw [hv3]; exact hi0,
    ⟨w1, w4, b5, h1, hloop, rfl, h4, h5, by rw [hw3, ← hp.1]⟩,
    s1_step_sec_zero cfg, s1_step_cycles_zero, s1_new_adj_zero, hd0,
    s1_init_cmd_ppb_zero cfg, hword⟩

/-- Witness for claim C29: the default configuration with `s1_verify_samples = 0`, on a
register file with FOD ratio 100/1 whose phase sample is 0.3 s, with a device that leaves
the registers alone: the iteration ends in Slew although the phase is still 0.3 s. -/
theorem discipline_run_step_no_verify_witness :
    ∃ (w3 : world_t) (v3 : discipline_vars_t),
      discipline_run_iter device_idle { main_default_cfg with s1_verify_samples := 0 } 0
          ⟨bus_phase_03_fod_100, 0, 0⟩ { discipline_run_init with st := .ST_S1_STEP }
        = some (.ok (w3, v3))
      ∧ v3.st = .ST_S2_SLEW ∧ v3.integ = 0 := by
  have hv : cfg_valid { main_default_cfg with s1_verify_samples := 0 } :=
    ⟨by decide, by decide, by decide⟩
  have hread := read_phase_sec_phase_03_fod_100
    { main_default_cfg with s1_verify_samples := 0 } rfl rfl
  obtain ⟨w3, v3, hiter, _⟩ := discipline_run_iter_ready device_idle
    { main_default_cfg with s1_verify_samples := 0 } 0 ⟨bus_phase_03_fod_100, 0, 0⟩
    { discipline_run_init with st := .ST_S1_STEP } (by decide) hv
    (device_idle_keeps_ready _) (bus_ready_phase_03_fod_100 _ hv.2.2)
  have h := discipline_run_step_no_verify device_idle
    { main_default_cfg with s1_verify_samples := 0 } 0 ⟨bus_phase_03_fod_100, 0, 0⟩
    { discipline_run_init with st := .ST_S1_STEP } (3 / 10) (3 / 10) w3 v3 rfl
    (by show (0 : ℚ) ≤ 2 / 1000; norm_num) rfl hread
    (read_phase_sec_gate_default _ _ _ _ hread rfl) hiter
  exact ⟨w3, v3, hiter, h.1, h.2.1⟩

/-- Claim C30: every register the servo helpers access as a burst resolves, for every valid
instance of its module, to a start address `a` with `a % 128 + length <= 128`:
`DPLLn_PHASE_STATUS` (5 bytes, `n < 8`, the one instance of `Status`), `FOD_FREQ_M_7_0`
(6) and `FOD_FREQ_N_7_0` (2) of the 8 instances of `DPLL_Ctrl`, `OUT_DIV` (4) and
`OUT_PHASE_ADJ_7_0` (4) of the 12 instances of `Output`, `DPLL_WR_FREQ_7_0` (6) of the 8
instances of `DPLL_Freq_Write`.  Every byte of such a burst has the page bytes that
`dpll_compute_page_from_addr` gives for the start address. -/
theorem burst_registers_in_one_page :
    (cm_Status_module.count = 1 ∧ cm_DPLL_Ctrl_module.count = 8
        ∧ cm_Output_module.count = 12 ∧ cm_DPLL_Freq_Write_module.count = 8)
      ∧ (∀ n < 8, burst_in_one_page "Status" 0 (phase_status_reg_name n) 5)
      ∧ (∀ d < 8, burst_in_one_page "DPLL_Ctrl" d "FOD_FREQ_M_7_0" 6)
      ∧ (∀ d < 8, burst_in_one_page "DPLL_Ctrl" d "FOD_FREQ_N_7_0" 2)
      ∧ (∀ o < 12, burst_in_one_page "Output" o "OUT_DIV" 4)
      ∧ (∀ o < 12, burst_in_one_page "Output" o "OUT_PHASE_ADJ_7_0" 4)
      ∧ (∀ d < 8, burst_in_one_page "DPLL_Freq_Write" d "DPLL_WR_FREQ_7_0" 6) := by
  refine ⟨⟨rfl, rfl, rfl, rfl⟩, ?_, ?_, ?_, ?_, ?_, ?_⟩
  all_goals
    intro d hd
    interval_cases d <;>
      exact ⟨_, rfl, by decide, fun k hk => burst_in_page _ _ k (by decide) hk⟩

end Switchberry
